import Mathlib

/-!
# NucAmino: codon-aware alignment kernel (`alignment/alignment.go`)

A shallow embedding of the alignment package: the flat score matrix and its
index functions, the three recurrence procedures `calcExtInsScore`,
`calcDelScore`, `calcScore`, the sweep `calcScoreMain`, and the traceback of
`GetReport`.

Conventions of the embedding.

* Go `int` is modelled by `Int`; the additions the kernel performs on scores
  are the 64-bit two's complement additions `iadd` (the result is reduced by
  `wrap`).  Index arithmetic is exact: the buffer was allocated, so its length
  and every index below it fit an `int`.
* A Go slice is a `List`; an index expression `xs[k]` is `List.getD` and an
  assignment `xs[k] = v` is `List.set`.  Go panics on an index outside the
  slice; the theorems on `getMatrixIndex` show that the sweep stays inside.
* A Go loop `for i := 0; i <= n; i++` is a left fold over `List.range (n+1)`.
-/

namespace NucAmino

/-! ## Machine integers -/

/-- Reduction of an integer to the 64-bit two's complement range. -/
def wrap (x : Int) : Int :=
  (x + 9223372036854775808) % 18446744073709551616 - 9223372036854775808

/-- Go `a + b` on `int`. -/
def iadd (a b : Int) : Int := wrap (a + b)

/-- `const negInf = -int((^uint(0))>>1) - 1`. -/
def negInf : Int := -(9223372036854775807 : Int) - 1

/-! ## Consumed types -/

/-- Modelled from the spec: the nucleotide alphabet of package `types/nucleic`
(IUPAC ambiguity codes with the distinguished wildcard `N`). -/
inductive NucleicAcid where
  | A | C | G | T | W | S | M | K | R | Y | B | D | H | V | N
  deriving DecidableEq, Repr, Inhabited

/-- Modelled from the spec: the amino-acid alphabet of package `types/amino`
(twenty letters, the stop symbol and the ambiguity code `X`). -/
inductive AminoAcid where
  | A | C | D | E | F | G | H | I | K | L | M | N | P | Q | R | S | T | V | W | Y
  | Stop | X
  deriving DecidableEq, Repr, Inhabited

/-- The interface `scorehandler.ScoreHandler` as the kernel consumes it. -/
structure ScoreHandler where
  GetGapOpeningScore : Int
  GetGapExtensionScore : Int
  GetConstantIndelCodonScore : Int × Int
  IsPositionalIndelScoreSupported : Bool
  GetPositionalIndelCodonScore : Int → Bool → Int × Int
  GetSubstitutionScore :
    Int → NucleicAcid → NucleicAcid → NucleicAcid → AminoAcid → Int

/-- `type tScoreType int`. -/
abbrev tScoreType := Int

/-- Plane of the main recurrence. -/
def GENERAL : tScoreType := 0
/-- Plane of insertions. -/
def INS : tScoreType := 1
/-- Plane of deletions. -/
def DEL : tScoreType := 2

/-- `const scoreTypeCount = 3`. -/
def scoreTypeCount : Int := 3

/-- `type Alignment struct`. -/
structure Alignment where
  nSeq : List NucleicAcid
  aSeq : List AminoAcid
  nSeqLen : Int
  aSeqLen : Int
  maxScorePosN : Int
  maxScorePosA : Int
  maxScore : Int
  scoreHandler : ScoreHandler
  scoreMatrix : List Int
  q : Int
  r : Int
  supportPositionalIndel : Bool
  constIndelCodonOpeningScore : Int
  constIndelCodonExtensionScore : Int

/-! ## Matrix store -/

/-- `func (self *Alignment) getMatrixIndex`. -/
def getMatrixIndex (self : Alignment) (scoreType : tScoreType) (posN posA : Int) : Int :=
  2 * ((self.aSeqLen + 1) * (posN + scoreType * (self.nSeqLen + 1)) + posA)

/-- `func (self *Alignment) getTypedPos`; Go division and remainder truncate. -/
def getTypedPos (self : Alignment) (matrixIndex : Int) : tScoreType × Int × Int :=
  let matrixIndex := matrixIndex.tdiv 2
  let posA := matrixIndex.tmod (self.aSeqLen + 1)
  let nTotal := matrixIndex.tdiv (self.aSeqLen + 1)
  let posN := nTotal.tmod (self.nSeqLen + 1)
  let scoreType := nTotal.tdiv (self.nSeqLen + 1)
  (scoreType, posN, posA)

/-- Read `m[k]`. -/
def matGet (m : List Int) (k : Int) : Int := m.getD k.toNat 0

/-- Assignment `m[k] = v`. -/
def matSet (m : List Int) (k : Int) (v : Int) : List Int :=
  if 0 ≤ k then m.set k.toNat v else m

/-- `func (self *Alignment) setCachedScore`. -/
def setCachedScore (self : Alignment) (scoreType : tScoreType) (posN posA : Int)
    (score prevMatrixIdx : Int) : Alignment :=
  let mtIdx := getMatrixIndex self scoreType posN posA
  { self with
    scoreMatrix := matSet (matSet self.scoreMatrix mtIdx score) (mtIdx + 1) prevMatrixIdx }

/-- `func (self *Alignment) getNA`: `self.nSeq[nPos-1]`. -/
def getNA (self : Alignment) (nPos : Int) : NucleicAcid :=
  self.nSeq.getD (nPos - 1).toNat NucleicAcid.N

/-- `func (self *Alignment) getAA`: `self.aSeq[aPos-1]`. -/
def getAA (self : Alignment) (aPos : Int) : AminoAcid :=
  self.aSeq.getD (aPos - 1).toNat AminoAcid.X

/-! ## Recurrence kernel -/

/-- The statement `if cand > score { score, prevMatrixIdx = cand, idx }` on the
pair `(score, prevMatrixIdx)`. -/
def takeIfGreater (s : Int × Int) (cand idx : Int) : Int × Int :=
  if cand > s.1 then (cand, idx) else s

/-- The statement `if cand >= score { score, prevMatrixIdx = cand, idx }`. -/
def takeIfGreaterEq (s : Int × Int) (cand idx : Int) : Int × Int :=
  if cand ≥ s.1 then (cand, idx) else s

/-- The codon indel scores read by `calcExtInsScore` and `calcDelScore`. -/
def indelCodonScore (self : Alignment) (posA : Int) (isInsertion : Bool) : Int × Int :=
  if self.supportPositionalIndel then
    self.scoreHandler.GetPositionalIndelCodonScore posA isInsertion
  else
    (self.constIndelCodonOpeningScore, self.constIndelCodonExtensionScore)

/-- `func (self *Alignment) calcExtInsScore`; the result is
`(score, prevMatrixIdx)`. -/
def calcExtInsScore (self : Alignment) (posN posA : Int)
    (gScore30 iScore30 gScore20 gScore10 : Int) : Int × Int :=
  let q := self.q
  let r := self.r
  if posN = 0 ∧ posA > 0 then
    (q, getMatrixIndex self GENERAL 0 0)
  else
    let insOpeningScore := (indelCodonScore self posA true).1
    let insExtensionScore := (indelCodonScore self posA true).2
    let s : Int × Int := (negInf, 0)
    let s :=
      if posN > 3 then
        let s := takeIfGreater s
          (iadd (iadd (iadd (iadd iScore30 r) r) r) insExtensionScore)
          (getMatrixIndex self INS (posN - 3) posA)
        takeIfGreater s
          (iadd (iadd (iadd (iadd (iadd (iadd gScore30 q) r) r) r) insOpeningScore)
            insExtensionScore)
          (getMatrixIndex self GENERAL (posN - 3) posA)
      else s
    let s :=
      if posN > 2 then
        takeIfGreater s (iadd (iadd (iadd gScore20 q) r) r)
          (getMatrixIndex self GENERAL (posN - 2) posA)
      else s
    takeIfGreater s (iadd (iadd gScore10 q) r)
      (getMatrixIndex self GENERAL (posN - 1) posA)

/-- `func (self *Alignment) calcDelScore`. -/
def calcDelScore (self : Alignment) (posN posA : Int)
    (gScore01 gScore11 gScore21 dScore01 dScore11 : Int) : Int × Int :=
  let sh := self.scoreHandler
  if posN > 0 ∧ posA = 0 then
    (self.q, getMatrixIndex self GENERAL 0 0)
  else if posN > 0 then
    let curNA := getNA self posN
    let curAA := getAA self posA
    let q := self.q
    let r := self.r
    let mutScoreN0N := sh.GetSubstitutionScore posA NucleicAcid.N curNA NucleicAcid.N curAA
    let delOpeningScore := (indelCodonScore self posA false).1
    let delExtensionScore := (indelCodonScore self posA false).2
    let s : Int × Int := (negInf, 0)
    let s := takeIfGreaterEq s
      (iadd (iadd (iadd (iadd dScore01 r) r) r) delExtensionScore)
      (getMatrixIndex self DEL posN (posA - 1))
    let s := takeIfGreater s
      (iadd (iadd (iadd (iadd (iadd (iadd gScore01 q) r) r) r) delOpeningScore)
        delExtensionScore)
      (getMatrixIndex self GENERAL posN (posA - 1))
    let s := takeIfGreater s
      (iadd (iadd (iadd (iadd gScore11
        (sh.GetSubstitutionScore posA curNA NucleicAcid.N NucleicAcid.N curAA)) q) r) r)
      (getMatrixIndex self GENERAL (posN - 1) (posA - 1))
    let s := takeIfGreater s
      (iadd (iadd (iadd (iadd (iadd gScore11 mutScoreN0N) q) r) q) r)
      (getMatrixIndex self GENERAL (posN - 1) (posA - 1))
    if posN > 1 then
      let prevNA := getNA self (posN - 1)
      let s := takeIfGreaterEq s
        (iadd (iadd (iadd (iadd dScore11 mutScoreN0N) q) r) r)
        (getMatrixIndex self DEL (posN - 1) (posA - 1))
      takeIfGreaterEq s
        (iadd (iadd (iadd gScore21
          (sh.GetSubstitutionScore posA prevNA curNA NucleicAcid.N curAA)) q) r)
        (getMatrixIndex self GENERAL (posN - 2) (posA - 1))
    else s
  else
    (negInf, 0)

/-- `func (self *Alignment) calcScore`. -/
def calcScore (self : Alignment) (posN posA : Int)
    (gScore11 gScore21 gScore31 iScore00 dScore00 dScore11 dScore21 : Int) : Int × Int :=
  if posN = 0 ∨ posA = 0 then
    (0, getMatrixIndex self GENERAL posN posA)
  else
    let sh := self.scoreHandler
    let q := self.q
    let r := self.r
    let curNA := getNA self posN
    let curAA := getAA self posA
    let mutScoreNN0 := sh.GetSubstitutionScore posA NucleicAcid.N NucleicAcid.N curNA curAA
    let prevNA := getNA self (posN - 1)
    let mutScoreN10 := sh.GetSubstitutionScore posA NucleicAcid.N prevNA curNA curAA
    let s : Int × Int := (negInf, 0)
    let s := takeIfGreater s (iadd (iadd (iadd (iadd gScore11 mutScoreNN0) q) r) r)
      (getMatrixIndex self GENERAL (posN - 1) (posA - 1))
    let s :=
      if posN > 1 then
        let s := takeIfGreater s
          (iadd (iadd (iadd gScore21
            (sh.GetSubstitutionScore posA prevNA NucleicAcid.N curNA curAA)) q) r)
          (getMatrixIndex self GENERAL (posN - 2) (posA - 1))
        let s := takeIfGreater s (iadd (iadd (iadd gScore21 mutScoreN10) q) r)
          (getMatrixIndex self GENERAL (posN - 2) (posA - 1))
        takeIfGreaterEq s (iadd (iadd (iadd dScore11 mutScoreNN0) r) r)
          (getMatrixIndex self DEL (posN - 1) (posA - 1))
      else s
    let s :=
      if posN > 2 then
        let prevNA2 := getNA self (posN - 2)
        let s := takeIfGreater s
          (iadd gScore31 (sh.GetSubstitutionScore posA prevNA2 prevNA curNA curAA))
          (getMatrixIndex self GENERAL (posN - 3) (posA - 1))
        takeIfGreaterEq s (iadd (iadd dScore21 mutScoreN10) r)
          (getMatrixIndex self DEL (posN - 2) (posA - 1))
      else s
    let s := takeIfGreaterEq s iScore00 (getMatrixIndex self INS posN posA)
    takeIfGreaterEq s dScore00 (getMatrixIndex self DEL posN posA)

/-! ## Main sweep -/

/-- The variables of `calcScoreMain` that live across loop iterations: the
alignment whose matrix is being written, the running maximum, the four rolling
column arrays and the rolling scalars.  The remaining locals (`gScore00`,
`gScore01`, `gScore11`, ...) are assigned in every iteration before they are
read. -/
structure SweepState where
  self : Alignment
  maxScore : Int
  maxScorePosN : Int
  maxScorePosA : Int
  gScores : List Int
  dScores : List Int
  gScoresCur : List Int
  dScoresCur : List Int
  gScore30 : Int
  gScore20 : Int
  gScore10 : Int
  iScore30 : Int
  iScore20 : Int
  iScore10 : Int

/-- Body of the inner loop of `calcScoreMain` at column `j`, row `i`. -/
def sweepCell (j : Nat) (st : SweepState) (i : Nat) : SweepState :=
  let gScore01 := st.gScores.getD i 0
  let dScore01 := st.dScores.getD i 0
  let gScore11 := if i > 0 then st.gScores.getD (i - 1) 0 else negInf
  let dScore11 := if i > 0 then st.dScores.getD (i - 1) 0 else negInf
  let gScore21 := if i > 1 then st.gScores.getD (i - 2) 0 else negInf
  let dScore21 := if i > 1 then st.dScores.getD (i - 2) 0 else negInf
  let gScore31 := if i > 2 then st.gScores.getD (i - 3) 0 else negInf
  let ins := calcExtInsScore st.self i j st.gScore30 st.iScore30 st.gScore20 st.gScore10
  let iScore00 := ins.1
  let self1 := setCachedScore st.self INS i j iScore00 ins.2
  let del := calcDelScore self1 i j gScore01 gScore11 gScore21 dScore01 dScore11
  let dScore00 := del.1
  let dScoresCur := st.dScoresCur.set i dScore00
  let self2 := setCachedScore self1 DEL i j dScore00 del.2
  let gen := calcScore self2 i j gScore11 gScore21 gScore31 iScore00 dScore00 dScore11 dScore21
  let gScore00 := gen.1
  let gScoresCur := st.gScoresCur.set i gScore00
  let self3 := setCachedScore self2 GENERAL i j gScore00 gen.2
  let newMax := decide (gScore00 ≥ st.maxScore)
  { self := self3
    maxScore := if newMax then gScore00 else st.maxScore
    maxScorePosN := if newMax then (i : Int) else st.maxScorePosN
    maxScorePosA := if newMax then (j : Int) else st.maxScorePosA
    gScores := st.gScores
    dScores := st.dScores
    gScoresCur := gScoresCur
    dScoresCur := dScoresCur
    gScore30 := st.gScore20
    gScore20 := st.gScore10
    gScore10 := gScore00
    iScore30 := st.iScore20
    iScore20 := st.iScore10
    iScore10 := iScore00 }

/-- Reset of the rolling scalars at the head of the outer loop body. -/
def sweepReset (st : SweepState) : SweepState :=
  { st with
    gScore30 := negInf, iScore30 := negInf
    gScore20 := negInf, iScore20 := negInf
    gScore10 := negInf, iScore10 := negInf }

/-- The two swaps at the foot of the outer loop body. -/
def sweepSwap (st : SweepState) : SweepState :=
  { st with
    gScores := st.gScoresCur, gScoresCur := st.gScores
    dScores := st.dScoresCur, dScoresCur := st.dScores }

/-- Body of the outer loop of `calcScoreMain` at column `j`. -/
def sweepColumn (st : SweepState) (j : Nat) : SweepState :=
  sweepSwap ((List.range (st.self.nSeqLen.toNat + 1)).foldl (sweepCell j) (sweepReset st))

/-- State of `calcScoreMain` on entry to the outer loop. -/
def sweepInit (self : Alignment) : SweepState :=
  { self := self
    maxScore := negInf
    maxScorePosN := 0
    maxScorePosA := 0
    gScores := List.replicate (self.nSeqLen + 1).toNat 0
    dScores := List.replicate (self.nSeqLen + 1).toNat 0
    gScoresCur := List.replicate (self.nSeqLen + 1).toNat 0
    dScoresCur := List.replicate (self.nSeqLen + 1).toNat 0
    gScore30 := 0, gScore20 := 0, gScore10 := 0
    iScore30 := 0, iScore20 := 0, iScore10 := 0 }

/-- The outer loop of `calcScoreMain`. -/
def sweep (self : Alignment) : SweepState :=
  (List.range (self.aSeqLen.toNat + 1)).foldl sweepColumn (sweepInit self)

/-- `func (self *Alignment) calcScoreMain`. -/
def calcScoreMain (self : Alignment) : Alignment :=
  let st := sweep self
  { st.self with
    maxScorePosN := st.maxScorePosN
    maxScorePosA := st.maxScorePosA
    maxScore := st.maxScore }

/-- `func NewAlignment`. -/
def NewAlignment (nSeq : List NucleicAcid) (aSeq : List AminoAcid)
    (scoreHandler : ScoreHandler) : Alignment :=
  let nSeqLen : Int := nSeq.length
  let aSeqLen : Int := aSeq.length
  let typedPosLen := scoreTypeCount * (nSeqLen + 1) * (aSeqLen + 1) * 2
  let scoreMatrix := List.replicate typedPosLen.toNat (0 : Int)
  calcScoreMain
    { q := scoreHandler.GetGapOpeningScore
      r := scoreHandler.GetGapExtensionScore
      nSeq := nSeq
      aSeq := aSeq
      nSeqLen := nSeqLen
      aSeqLen := aSeqLen
      maxScorePosN := 0
      maxScorePosA := 0
      maxScore := 0
      scoreHandler := scoreHandler
      scoreMatrix := scoreMatrix
      supportPositionalIndel := scoreHandler.IsPositionalIndelScoreSupported
      constIndelCodonOpeningScore := scoreHandler.GetConstantIndelCodonScore.1
      constIndelCodonExtensionScore := scoreHandler.GetConstantIndelCodonScore.2 }

/-- Stored score of cell `(scoreType, posN, posA)`. -/
def cellScore (self : Alignment) (scoreType : tScoreType) (posN posA : Int) : Int :=
  matGet self.scoreMatrix (getMatrixIndex self scoreType posN posA)

/-- Stored predecessor index of cell `(scoreType, posN, posA)`. -/
def cellPrev (self : Alignment) (scoreType : tScoreType) (posN posA : Int) : Int :=
  matGet self.scoreMatrix (getMatrixIndex self scoreType posN posA + 1)

/-! ## Scenario handler -/

/-- Modelled from the spec: a genetic code restricted to the codons the
scenarios of the spec use (`ATG`, `GAA`, `CGT`, `AAA`, `TAA`, `TTT`); every
other codon reads as `X`.  The codon table is not part of the sources. -/
def translate : NucleicAcid → NucleicAcid → NucleicAcid → AminoAcid
  | .A, .T, .G => .M
  | .G, .A, .A => .E
  | .C, .G, .T => .R
  | .A, .A, .A => .K
  | .T, .T, .T => .F
  | .T, .A, .A => .Stop
  | _, _, _ => .X

/-- Modelled from the spec: the score handler of the concrete scenarios
(`q = -10`, `r = -2`, codon indel opening `-6` and extension `-4`, codon match
`10`, mismatch `-4`, a codon with a wildcard `0`) over a codon table `tr`. -/
def scenarioHandler (tr : NucleicAcid → NucleicAcid → NucleicAcid → AminoAcid) :
    ScoreHandler :=
  { GetGapOpeningScore := -10
    GetGapExtensionScore := -2
    GetConstantIndelCodonScore := (-6, -4)
    IsPositionalIndelScoreSupported := false
    GetPositionalIndelCodonScore := fun _ _ => (-6, -4)
    GetSubstitutionScore := fun _ n2 n1 n0 a =>
      if n2 = NucleicAcid.N ∨ n1 = NucleicAcid.N ∨ n0 = NucleicAcid.N then 0
      else if tr n2 n1 n0 = a then 10 else -4 }

/-! ## Traceback and report -/

/-- Modelled from the spec: a value of package `types/mutation` as `GetReport`
reads it (`GetControl`, `IsDeletion`, `IsInsertion`, the text of `GetCodon`,
the texts of `GetInsertedCodons`), with the reference position it was made
for. -/
structure Mutation where
  position : Int
  control : String
  isDeletion : Bool
  isInsertion : Bool
  codon : String
  insertedCodons : List String
  deriving DecidableEq, Repr

/-- Modelled from the spec: a value of package `types/frameshift` as
`GetReport` reads it (`IsInsertion`, the text of `GetNucleicAcids`,
`GetGapLength`), with the reference position it was made for. -/
structure FrameShift where
  position : Int
  isInsertion : Bool
  nucleicAcids : String
  gapLength : Int
  deriving DecidableEq, Repr

/-- The functions of the packages `types/mutation`, `types/frameshift`,
`types/nucleic` and `types/amino` that `GetReport` calls; `none` is Go's
`nil`. -/
structure ReportHelpers where
  MakeMutation : Int → List NucleicAcid → AminoAcid → Option Mutation
  MakeFrameShift : Int → List NucleicAcid → Option FrameShift
  writeNucleicAcids : List NucleicAcid → String
  writeAminoAcids : List AminoAcid → String

/-- `type AlignmentReport struct`. -/
structure AlignmentReport where
  FirstAA : Int
  FirstNA : Int
  LastAA : Int
  LastNA : Int
  Mutations : List Mutation
  FrameShifts : List FrameShift
  AminoAcidsLine : String
  ControlLine : String
  NucleicAcidsLine : String
  deriving DecidableEq, Repr

/-- `count` copies of `s` in a row. -/
def repeatString (s : String) : Nat → String
  | 0 => ""
  | k + 1 => s ++ repeatString s k

/-- `strings.Repeat(s, count)`. -/
def stringsRepeat (s : String) (count : Int) : String := repeatString s count.toNat

/-- `func padRightSpace`. -/
def padRightSpace (str : String) (length : Int) : String :=
  str ++ stringsRepeat " " (length - (str.length : Int))

/-- The slice expression `xs[lo:hi]`. -/
def sliceOf {α : Type} (xs : List α) (lo hi : Int) : List α :=
  (xs.drop lo.toNat).take (hi - lo).toNat

/-- The variables of the first loop of `GetReport`. -/
structure TrimState where
  prevMtIdx : Int
  curMtIdx : Int
  prevScore : Int
  startMtIdx : Int
  deriving DecidableEq, Repr

/-- Body of the first loop of `GetReport`. -/
def trimStep (self : Alignment) (t : TrimState) : TrimState :=
  let score := matGet self.scoreMatrix t.curMtIdx
  let low := decide (score ≤ t.prevScore)
  { prevScore := if low then score else t.prevScore
    startMtIdx := if low then t.curMtIdx else t.startMtIdx
    prevMtIdx := t.curMtIdx
    curMtIdx := matGet self.scoreMatrix (t.curMtIdx + 1) }

/-- The first loop of `GetReport`, `for curMtIdx >= 0 && curMtIdx != prevMtIdx`,
run for at most `fuel` tests of its condition; `none` when the fuel runs out. -/
def trimLoop (self : Alignment) : Nat → TrimState → Option TrimState
  | 0, _ => none
  | fuel + 1, t =>
    if t.curMtIdx ≥ 0 ∧ t.curMtIdx ≠ t.prevMtIdx then trimLoop self fuel (trimStep self t)
    else some t

/-- The variables of `GetReport` on entry to its first loop. -/
def trimInit (self : Alignment) : TrimState :=
  let endMtIdx := getMatrixIndex self GENERAL self.maxScorePosN self.maxScorePosA
  { prevMtIdx := -1, curMtIdx := endMtIdx, prevScore := endMtIdx, startMtIdx := 0 }

/-- The variables of the second loop of `GetReport`. -/
structure ReportState where
  nLine : String
  aLine : String
  cLine : String
  firstAA : Int
  lastAA : Int
  firstNA : Int
  lastNA : Int
  mutList : List Mutation
  fsList : List FrameShift
  LastPosN : Int
  LastPosA : Int
  lastScoreType : tScoreType
  hasUnprocessedNAs : Bool
  endMtIdx : Int
  deriving DecidableEq, Repr

/-- The three partial lines `GetReport` builds for one step: nucleotides,
amino acids, control. -/
def partialLines (self : Alignment) (hp : ReportHelpers) (posN posA LastPosN LastPosA : Int)
    (mutation : Option Mutation) (frameshift : Option FrameShift) :
    String × String × String :=
  let aText := padRightSpace (hp.writeAminoAcids (sliceOf self.aSeq posA LastPosA)) 3
  let p : String × String × String :=
    if LastPosA > posA ∧ LastPosN - posN > 2 ∧ mutation = none then
      ("" ++ hp.writeNucleicAcids (sliceOf self.nSeq posN (posN + 3)), "" ++ aText, "" ++ ":::")
    else
      match mutation with
      | none => ("", "", "")
      | some m =>
        if m.isDeletion then
          ("" ++ "   ", "" ++ aText, "" ++ m.control)
        else if m.isInsertion then
          (m.insertedCodons.foldl (fun acc c => acc ++ c) ("" ++ m.codon),
            m.insertedCodons.foldl (fun acc _ => acc ++ "   ") ("" ++ aText),
            "" ++ m.control)
        else
          ("" ++ m.codon, "" ++ aText, "" ++ m.control)
  match frameshift with
  | none => p
  | some f =>
    if f.isInsertion then
      (p.1 ++ f.nucleicAcids, p.2.1 ++ stringsRepeat " " f.gapLength,
        p.2.2 ++ stringsRepeat "+" f.gapLength)
    else p

/-- Body of the second loop of `GetReport`; the flag tells whether the body
ended in `break`. -/
def reportStep (self : Alignment) (hp : ReportHelpers) (st : ReportState) :
    ReportState × Bool :=
  let tp := getTypedPos self st.endMtIdx
  let scoreType := tp.1
  let posN := tp.2.1
  let posA := tp.2.2
  let fresh := decide (st.lastAA = 0 ∧ st.lastNA = 0)
  let lastAA := if fresh then posA else st.lastAA
  let lastNA := if fresh then posN else st.lastNA
  let emit := decide (st.lastScoreType ≠ INS ∧ st.LastPosN > -1 ∧ st.LastPosA > -1)
  let consumed := decide (st.LastPosA > posA)
  let window := sliceOf self.nSeq posN st.LastPosN
  let mutation :=
    if emit ∧ consumed then hp.MakeMutation (posA + 1) window (self.aSeq.getD posA.toNat AminoAcid.X)
    else none
  let frameshift := if emit ∧ consumed then hp.MakeFrameShift (posA + 1) window else none
  let hasUnprocessedNAs1 := if emit ∧ consumed then false else st.hasUnprocessedNAs
  let mutList := match mutation with
    | some m => st.mutList ++ [m]
    | none => st.mutList
  let fsList := match frameshift with
    | some f => st.fsList ++ [f]
    | none => st.fsList
  let p := partialLines self hp posN posA st.LastPosN st.LastPosA mutation frameshift
  let keep := decide (st.lastScoreType ≠ INS ∧ ¬ hasUnprocessedNAs1 = true)
  ({ nLine := if emit then p.1 ++ st.nLine else st.nLine
     aLine := if emit then p.2.1 ++ st.aLine else st.aLine
     cLine := if emit then p.2.2 ++ st.cLine else st.cLine
     firstAA := posA + 1
     lastAA := lastAA
     firstNA := posN + 1
     lastNA := lastNA
     mutList := mutList
     fsList := fsList
     LastPosN := if keep then posN else st.LastPosN
     LastPosA := if keep then posA else st.LastPosA
     lastScoreType := scoreType
     hasUnprocessedNAs := if st.lastScoreType = INS then true else hasUnprocessedNAs1
     endMtIdx := matGet self.scoreMatrix (st.endMtIdx + 1) },
   decide (posN = 0 ∨ posA = 0))

/-- The second loop of `GetReport`,
`for endMtIdx%singleMtLen >= startMtIdx%singleMtLen`, run for at most `fuel`
tests of its condition; `none` when the fuel runs out. -/
def reportLoop (self : Alignment) (hp : ReportHelpers) (startMtIdx : Int) :
    Nat → ReportState → Option ReportState
  | 0, _ => none
  | fuel + 1, st =>
    let singleMtLen := (self.nSeqLen + 1) * (self.aSeqLen + 1) * 2
    if st.endMtIdx.tmod singleMtLen ≥ startMtIdx.tmod singleMtLen then
      let r := reportStep self hp st
      if r.2 then some r.1 else reportLoop self hp startMtIdx fuel r.1
    else some st

/-- The variables of `GetReport` on entry to its second loop. -/
def reportInit (self : Alignment) : ReportState :=
  { nLine := "", aLine := "", cLine := ""
    firstAA := 0, lastAA := 0, firstNA := 0, lastNA := 0
    mutList := [], fsList := []
    LastPosN := -1, LastPosA := -1
    lastScoreType := GENERAL
    hasUnprocessedNAs := false
    endMtIdx := getMatrixIndex self GENERAL self.maxScorePosN self.maxScorePosA }

/-- `func (self *Alignment) GetReport`, each of its two loops run for at most
`fuel` tests of its condition (`none` when a loop needs more); the diagnostic
`print` calls are left out. -/
def GetReport (self : Alignment) (hp : ReportHelpers) (fuel : Nat) : Option AlignmentReport :=
  match trimLoop self fuel (trimInit self) with
  | none => none
  | some t =>
    match reportLoop self hp t.startMtIdx fuel (reportInit self) with
    | none => none
    | some st =>
      some
        { FirstAA := st.firstAA
          FirstNA := st.firstNA
          LastAA := st.lastAA
          LastNA := st.lastNA
          Mutations := st.mutList
          FrameShifts := st.fsList
          AminoAcidsLine := st.aLine
          ControlLine := st.cLine
          NucleicAcidsLine := st.nLine }

/-- Modelled from the spec: printed letter of a nucleotide. -/
def NucleicAcid.toChar : NucleicAcid → Char
  | .A => 'A' | .C => 'C' | .G => 'G' | .T => 'T' | .W => 'W' | .S => 'S' | .M => 'M'
  | .K => 'K' | .R => 'R' | .Y => 'Y' | .B => 'B' | .D => 'D' | .H => 'H' | .V => 'V'
  | .N => 'N'

/-- Modelled from the spec: printed letter of an amino acid. -/
def AminoAcid.toChar : AminoAcid → Char
  | .A => 'A' | .C => 'C' | .D => 'D' | .E => 'E' | .F => 'F' | .G => 'G' | .H => 'H'
  | .I => 'I' | .K => 'K' | .L => 'L' | .M => 'M' | .N => 'N' | .P => 'P' | .Q => 'Q'
  | .R => 'R' | .S => 'S' | .T => 'T' | .V => 'V' | .W => 'W' | .Y => 'Y'
  | .Stop => '*' | .X => 'X'

/-- Modelled from the spec: helpers for the concrete scenarios over a codon
table `tr`.  `MakeMutation` is `nil` exactly for a window of one codon that
translates to the reference amino acid; an empty window is a deletion, a
longer window an insertion of the codons after the first.  `MakeFrameShift`
is `nil` exactly when the window length is a multiple of three. -/
def scenarioHelpers (tr : NucleicAcid → NucleicAcid → NucleicAcid → AminoAcid) :
    ReportHelpers :=
  let text := fun (nas : List NucleicAcid) => String.mk (nas.map NucleicAcid.toChar)
  { writeNucleicAcids := text
    writeAminoAcids := fun aas => String.mk (aas.map AminoAcid.toChar)
    MakeMutation := fun pos nas aa =>
      match nas with
      | [n2, n1, n0] =>
        if tr n2 n1 n0 = aa then none
        else some { position := pos, control := "...", isDeletion := false,
                    isInsertion := false, codon := text nas, insertedCodons := [] }
      | [] => some { position := pos, control := "---", isDeletion := true,
                     isInsertion := false, codon := "", insertedCodons := [] }
      | _ =>
        let extra := (nas.drop 3).length / 3
        some { position := pos, control := "..." ++ repeatString "+++" extra,
               isDeletion := false, isInsertion := decide (0 < extra),
               codon := text (nas.take 3),
               insertedCodons :=
                 (List.range extra).map (fun k => text ((nas.drop (3 + 3 * k)).take 3)) }
    MakeFrameShift := fun pos nas =>
      if nas.length % 3 = 0 then none
      else some { position := pos, isInsertion := true,
                  nucleicAcids := text (nas.drop (nas.length - nas.length % 3)),
                  gapLength := (nas.length % 3 : Nat) } }

/-! ## Specification vocabulary -/

/-- The alignment `self` with another matrix. -/
def withMatrix (self : Alignment) (m : List Int) : Alignment :=
  { self with scoreMatrix := m }

/-- Length of the buffer `NewAlignment` allocates (`typedPosLen`). -/
def typedPosLen (self : Alignment) : Int :=
  scoreTypeCount * (self.nSeqLen + 1) * (self.aSeqLen + 1) * 2

/-- The triple `(p, i, j)` names a cell of the matrix. -/
def ValidCell (self : Alignment) (p : tScoreType) (i j : Int) : Prop :=
  (p = GENERAL ∨ p = INS ∨ p = DEL) ∧ (0 ≤ i ∧ i ≤ self.nSeqLen) ∧ (0 ≤ j ∧ j ≤ self.aSeqLen)

/-- Score the sweep reads for row `k` of the previous column while it fills
column `j`: the stored score of `(p, k, j-1)`, and the zero of the fresh
column array while `j = 0`. -/
def prevColumn (self : Alignment) (p : tScoreType) (k j : Nat) : Int :=
  if j = 0 then 0 else cellScore self p k ((j : Int) - 1)

/-- Score the sweep passes for the cell `d` rows above in the previous column
(`negInf` when there is no such row). -/
def prevColumnAt (self : Alignment) (p : tScoreType) (i d j : Nat) : Int :=
  if d ≤ i then prevColumn self p (i - d) j else negInf

/-- Score the sweep passes for the cell `d` rows above in the current column
(`negInf` when there is no such row). -/
def sameColumn (self : Alignment) (p : tScoreType) (i d j : Nat) : Int :=
  if d ≤ i then cellScore self p ((i : Int) - d) j else negInf

/-- The three cells at `(i, j)` hold what the kernel computes from the stored
scores of their neighbours. -/
def CellOK (self : Alignment) (i j : Nat) : Prop :=
  (cellScore self INS i j, cellPrev self INS i j)
      = calcExtInsScore self i j (sameColumn self GENERAL i 3 j) (sameColumn self INS i 3 j)
          (sameColumn self GENERAL i 2 j) (sameColumn self GENERAL i 1 j)
  ∧ (cellScore self DEL i j, cellPrev self DEL i j)
      = calcDelScore self i j (prevColumn self GENERAL i j) (prevColumnAt self GENERAL i 1 j)
          (prevColumnAt self GENERAL i 2 j) (prevColumn self DEL i j)
          (prevColumnAt self DEL i 1 j)
  ∧ (cellScore self GENERAL i j, cellPrev self GENERAL i j)
      = calcScore self i j (prevColumnAt self GENERAL i 1 j) (prevColumnAt self GENERAL i 2 j)
          (prevColumnAt self GENERAL i 3 j) (cellScore self INS i j) (cellScore self DEL i j)
          (prevColumnAt self DEL i 1 j) (prevColumnAt self DEL i 2 j)

/-- Cell `(i2, j2)` is visited by the sweep before cell `(i, j)`. -/
def Before (j i j2 i2 : Nat) : Prop := j2 < j ∨ (j2 = j ∧ i2 < i)

/-- Invariant of `calcScoreMain` on entry to the inner loop body at column `j`,
row `i`, for an alignment `A` with `n` nucleotides and `a` amino acids. -/
structure SweepInv (A : Alignment) (n a j i : Nat) (st : SweepState) : Prop where
  self_eq : ∃ m, st.self = withMatrix A m
  len : (st.self.scoreMatrix.length : Int) = typedPosLen A
  lenGC : st.gScoresCur.length = n + 1
  lenDC : st.dScoresCur.length = n + 1
  lenG : st.gScores.length = n + 1
  lenD : st.dScores.length = n + 1
  prevG : ∀ k, k ≤ n → st.gScores.getD k 0 = prevColumn st.self GENERAL k j
  prevD : ∀ k, k ≤ n → st.dScores.getD k 0 = prevColumn st.self DEL k j
  curG : ∀ k, k < i → st.gScoresCur.getD k 0 = cellScore st.self GENERAL k j
  curD : ∀ k, k < i → st.dScoresCur.getD k 0 = cellScore st.self DEL k j
  g10 : st.gScore10 = sameColumn st.self GENERAL i 1 j
  g20 : st.gScore20 = sameColumn st.self GENERAL i 2 j
  g30 : st.gScore30 = sameColumn st.self GENERAL i 3 j
  i10 : st.iScore10 = sameColumn st.self INS i 1 j
  i20 : st.iScore20 = sameColumn st.self INS i 2 j
  i30 : st.iScore30 = sameColumn st.self INS i 3 j
  cells : ∀ i2 j2, i2 ≤ n → Before j i j2 i2 → CellOK st.self i2 j2
  maxInit : j = 0 → i = 0 → st.maxScore = negInf
  maxLe : ∀ i2 j2, i2 ≤ n → Before j i j2 i2 →
    cellScore st.self GENERAL i2 j2 ≤ st.maxScore
  maxLast : ∀ i2 j2, i2 ≤ n → Before j i j2 i2 →
    cellScore st.self GENERAL i2 j2 = st.maxScore →
    (j2 : Int) < st.maxScorePosA ∨ ((j2 : Int) = st.maxScorePosA ∧ (i2 : Int) ≤ st.maxScorePosN)
  maxAt : 0 < j ∨ 0 < i → ∃ i2 j2, i2 ≤ n ∧ Before j i j2 i2 ∧
    st.maxScorePosN = i2 ∧ st.maxScorePosA = j2 ∧
    cellScore st.self GENERAL i2 j2 = st.maxScore

/-- The matrices of `B` and `B2` hold the same pair in every cell the sweep
visits before `(i, j)`. -/
def AgreeBefore (B B2 : Alignment) (n j i : Nat) : Prop :=
  ∀ p i2 j2 : Int, (p = GENERAL ∨ p = INS ∨ p = DEL) → 0 ≤ i2 → i2 ≤ n → 0 ≤ j2 →
    (j2 < j ∨ (j2 = j ∧ i2 < i)) →
    cellScore B2 p i2 j2 = cellScore B p i2 j2 ∧ cellPrev B2 p i2 j2 = cellPrev B p i2 j2

/-- The alignment `NewAlignment` builds before it calls `calcScoreMain`. -/
def allocAlignment (nSeq : List NucleicAcid) (aSeq : List AminoAcid)
    (scoreHandler : ScoreHandler) : Alignment :=
  { q := scoreHandler.GetGapOpeningScore
    r := scoreHandler.GetGapExtensionScore
    nSeq := nSeq
    aSeq := aSeq
    nSeqLen := (nSeq.length : Int)
    aSeqLen := (aSeq.length : Int)
    maxScorePosN := 0
    maxScorePosA := 0
    maxScore := 0
    scoreHandler := scoreHandler
    scoreMatrix :=
      List.replicate (scoreTypeCount * ((nSeq.length : Int) + 1) * ((aSeq.length : Int) + 1) * 2).toNat
        (0 : Int)
    supportPositionalIndel := scoreHandler.IsPositionalIndelScoreSupported
    constIndelCodonOpeningScore := scoreHandler.GetConstantIndelCodonScore.1
    constIndelCodonExtensionScore := scoreHandler.GetConstantIndelCodonScore.2 }

/-- The alignment `self` with the three result fields `calcScoreMain` assigns. -/
def withMax (self : Alignment) (n a s : Int) : Alignment :=
  { self with maxScorePosN := n, maxScorePosA := a, maxScore := s }

/-- The number `s` is the maximum of the list `l`. -/
def IsMaxOf (s : Int) (l : List Int) : Prop := s ∈ l ∧ ∀ c ∈ l, c ≤ s

instance (s : Int) (l : List Int) : Decidable (IsMaxOf s l) := by
  unfold IsMaxOf; infer_instance

/-- State of a run of compare-and-replace statements over the candidates `l`
that started from `(negInf, 0)`. -/
def ScanState (s : Int × Int) (l : List Int) : Prop :=
  (∀ c ∈ l, c ≤ s.1) ∧ (s.1 ∈ l ∨ (s.1 = negInf ∧ l = []))

/-- The eight candidates of the GENERAL cell `(i, j)`, in the order of the
spec, on the stored scores; each sum is an `int` sum. -/
def generalCandidates (self : Alignment) (i j : Nat) : List Int :=
  let q := self.q
  let r := self.r
  let sub := self.scoreHandler.GetSubstitutionScore j
  let curNA := getNA self i
  let prevNA := getNA self ((i : Int) - 1)
  let prevNA2 := getNA self ((i : Int) - 2)
  let curAA := getAA self j
  let g := fun d : Int => cellScore self GENERAL ((i : Int) - d) ((j : Int) - 1)
  let dl := fun d : Int => cellScore self DEL ((i : Int) - d) ((j : Int) - 1)
  [wrap (g 1 + sub NucleicAcid.N NucleicAcid.N curNA curAA + q + 2 * r)]
    ++ (if i > 1 then [wrap (g 2 + sub prevNA NucleicAcid.N curNA curAA + q + r)] else [])
    ++ (if i > 1 then [wrap (g 2 + sub NucleicAcid.N prevNA curNA curAA + q + r)] else [])
    ++ (if i > 2 then [wrap (g 3 + sub prevNA2 prevNA curNA curAA)] else [])
    ++ (if i > 1 then [wrap (dl 1 + sub NucleicAcid.N NucleicAcid.N curNA curAA + 2 * r)]
        else [])
    ++ (if i > 2 then [wrap (dl 2 + sub NucleicAcid.N prevNA curNA curAA + r)] else [])
    ++ [cellScore self INS i j, cellScore self DEL i j]

/-- The six candidates of the DEL cell `(i, j)`, in the order of the spec, on
the stored scores; `mid` is the substitution score the split deletion and the
candidate from `DEL(i-1, j-1)` use. -/
def delCandidatesWith (self : Alignment) (i j : Nat) (mid : Int) : List Int :=
  let q := self.q
  let r := self.r
  let o := (indelCodonScore self j false).1
  let e := (indelCodonScore self j false).2
  let sub := self.scoreHandler.GetSubstitutionScore j
  let curNA := getNA self i
  let prevNA := getNA self ((i : Int) - 1)
  let curAA := getAA self j
  [wrap (cellScore self DEL i ((j : Int) - 1) + 3 * r + e),
   wrap (cellScore self GENERAL i ((j : Int) - 1) + q + 3 * r + o + e),
   wrap (cellScore self GENERAL ((i : Int) - 1) ((j : Int) - 1)
     + sub curNA NucleicAcid.N NucleicAcid.N curAA + q + 2 * r),
   wrap (cellScore self GENERAL ((i : Int) - 1) ((j : Int) - 1) + mid + 2 * (q + r))]
    ++ (if i > 1 then
        [wrap (cellScore self DEL ((i : Int) - 1) ((j : Int) - 1) + mid + q + 2 * r),
         wrap (cellScore self GENERAL ((i : Int) - 2) ((j : Int) - 1)
           + sub prevNA curNA NucleicAcid.N curAA + q + r)]
      else [])

/-- The DEL candidates as the spec words them: the split deletion and the
candidate from `DEL(i-1, j-1)` score the all-wildcard codon `(N, N, N)`. -/
def delCandidatesSpec (self : Alignment) (i j : Nat) : List Int :=
  delCandidatesWith self i j
    (self.scoreHandler.GetSubstitutionScore j NucleicAcid.N NucleicAcid.N NucleicAcid.N
      (getAA self j))

/-- The DEL candidates as `calcDelScore` forms them: the split deletion and the
candidate from `DEL(i-1, j-1)` score the codon `(N, curNA, N)`
(`mutScoreN0N`). -/
def delCandidates (self : Alignment) (i j : Nat) : List Int :=
  delCandidatesWith self i j
    (self.scoreHandler.GetSubstitutionScore j NucleicAcid.N (getNA self i) NucleicAcid.N
      (getAA self j))

/-- The candidates of the INS cell `(i, j)`, in the order of the spec, each
with the flat index of its predecessor cell. -/
def insCandidates (self : Alignment) (i j : Nat) : List (Int × Int) :=
  let q := self.q
  let r := self.r
  let o := (indelCodonScore self j true).1
  let e := (indelCodonScore self j true).2
  (if i > 3 then
      [(wrap (cellScore self INS ((i : Int) - 3) j + 3 * r + e),
          getMatrixIndex self INS ((i : Int) - 3) j),
       (wrap (cellScore self GENERAL ((i : Int) - 3) j + q + 3 * r + o + e),
          getMatrixIndex self GENERAL ((i : Int) - 3) j)]
    else [])
    ++ (if i > 2 then
        [(wrap (cellScore self GENERAL ((i : Int) - 2) j + q + 2 * r),
            getMatrixIndex self GENERAL ((i : Int) - 2) j)]
      else [])
    ++ [(wrap (cellScore self GENERAL ((i : Int) - 1) j + q + r),
          getMatrixIndex self GENERAL ((i : Int) - 1) j)]

/-- State of a run of strict compare-and-replace statements over the
candidates `l` (in program order) that started from `(negInf, 0)`: the pair
held is the first candidate of maximal score, unless no candidate exceeded
`negInf`. -/
def FirstMax (s : Int × Int) (l : List (Int × Int)) : Prop :=
  (∀ c ∈ l, c.1 ≤ s.1 ∧ negInf ≤ c.1) ∧ negInf ≤ s.1
    ∧ (s = (negInf, 0) ∨ (negInf < s.1 ∧ l.find? (fun c => decide (c.1 = s.1)) = some s))

/-- The pair held by a run of compare-and-replace statements is the initial
`(negInf, 0)` or holds one of the predecessor indices `L`. -/
def PrevState (s : Int × Int) (L : List Int) : Prop :=
  negInf ≤ s.1 ∧ (s = (negInf, 0) ∨ s.2 ∈ L)

/-- The pair held by a run of compare-and-replace statements holds one of the
predecessor indices `L`. -/
def Picked (s : Int × Int) (L : List Int) : Prop :=
  negInf ≤ s.1 ∧ s.2 ∈ L

/-- The spec's GENERAL recurrence: `calcScore` with the candidates evaluated in
the order the spec lists them (the full-codon candidate before the candidate
from `DEL(i-1, j-1)`). -/
def calcScoreSpecOrder (self : Alignment) (posN posA : Int)
    (gScore11 gScore21 gScore31 iScore00 dScore00 dScore11 dScore21 : Int) : Int × Int :=
  if posN = 0 ∨ posA = 0 then
    (0, getMatrixIndex self GENERAL posN posA)
  else
    let sh := self.scoreHandler
    let q := self.q
    let r := self.r
    let curNA := getNA self posN
    let curAA := getAA self posA
    let prevNA := getNA self (posN - 1)
    let prevNA2 := getNA self (posN - 2)
    let mutScoreNN0 := sh.GetSubstitutionScore posA NucleicAcid.N NucleicAcid.N curNA curAA
    let mutScoreN10 := sh.GetSubstitutionScore posA NucleicAcid.N prevNA curNA curAA
    let s : Int × Int := (negInf, 0)
    let s := takeIfGreater s (iadd (iadd (iadd (iadd gScore11 mutScoreNN0) q) r) r)
      (getMatrixIndex self GENERAL (posN - 1) (posA - 1))
    let s :=
      if posN > 1 then
        takeIfGreater s
          (iadd (iadd (iadd gScore21
            (sh.GetSubstitutionScore posA prevNA NucleicAcid.N curNA curAA)) q) r)
          (getMatrixIndex self GENERAL (posN - 2) (posA - 1))
      else s
    let s :=
      if posN > 1 then
        takeIfGreater s (iadd (iadd (iadd gScore21 mutScoreN10) q) r)
          (getMatrixIndex self GENERAL (posN - 2) (posA - 1))
      else s
    let s :=
      if posN > 2 then
        takeIfGreater s
          (iadd gScore31 (sh.GetSubstitutionScore posA prevNA2 prevNA curNA curAA))
          (getMatrixIndex self GENERAL (posN - 3) (posA - 1))
      else s
    let s :=
      if posN > 1 then
        takeIfGreaterEq s (iadd (iadd (iadd dScore11 mutScoreNN0) r) r)
          (getMatrixIndex self DEL (posN - 1) (posA - 1))
      else s
    let s :=
      if posN > 2 then
        takeIfGreaterEq s (iadd (iadd dScore21 mutScoreN10) r)
          (getMatrixIndex self DEL (posN - 2) (posA - 1))
      else s
    let s := takeIfGreaterEq s iScore00 (getMatrixIndex self INS posN posA)
    takeIfGreaterEq s dScore00 (getMatrixIndex self DEL posN posA)

/-- A score handler that gives the codon `(N, x, N)` with `x` not the wildcard
the score 100 and every other codon the score 0 (penalties of the scenarios). -/
def middleHandler : ScoreHandler :=
  { GetGapOpeningScore := -10
    GetGapExtensionScore := -2
    GetConstantIndelCodonScore := (-6, -4)
    IsPositionalIndelScoreSupported := false
    GetPositionalIndelCodonScore := fun _ _ => (-6, -4)
    GetSubstitutionScore := fun _ n2 n1 n0 _ =>
      if n2 = NucleicAcid.N ∧ n1 ≠ NucleicAcid.N ∧ n0 = NucleicAcid.N then 100 else 0 }

/-- A score handler whose two gap penalties are negative `int` values that add
up to the sentinel `negInf`. -/
def sentinelHandler : ScoreHandler :=
  { GetGapOpeningScore := -9223372036854775807
    GetGapExtensionScore := -1
    GetConstantIndelCodonScore := (-6, -4)
    IsPositionalIndelScoreSupported := false
    GetPositionalIndelCodonScore := fun _ _ => (-6, -4)
    GetSubstitutionScore := fun _ _ _ _ _ => 0 }

/-- The cells the recurrence of the spec lists as candidate predecessors of the
cell `(p, i, j)`: the single cell of a boundary rule, and otherwise the cell of
every candidate whose guard holds (a GENERAL boundary cell lists itself). -/
def predCells (p : tScoreType) (i j : Nat) : List (tScoreType × Int × Int) :=
  if p = INS then
    if i = 0 ∧ j > 0 then [(GENERAL, 0, 0)]
    else
      (if i > 3 then [(INS, (i : Int) - 3, (j : Int)), (GENERAL, (i : Int) - 3, (j : Int))]
        else [])
      ++ (if i > 2 then [(GENERAL, (i : Int) - 2, (j : Int))] else [])
      ++ [(GENERAL, (i : Int) - 1, (j : Int))]
  else if p = DEL then
    if i > 0 ∧ j = 0 then [(GENERAL, 0, 0)]
    else if i = 0 ∧ j = 0 then []
    else
      [(DEL, (i : Int), (j : Int) - 1), (GENERAL, (i : Int), (j : Int) - 1),
        (GENERAL, (i : Int) - 1, (j : Int) - 1), (GENERAL, (i : Int) - 1, (j : Int) - 1)]
      ++ (if i > 1 then
          [(DEL, (i : Int) - 1, (j : Int) - 1), (GENERAL, (i : Int) - 2, (j : Int) - 1)]
        else [])
  else
    if i = 0 ∨ j = 0 then [(GENERAL, (i : Int), (j : Int))]
    else
      [(GENERAL, (i : Int) - 1, (j : Int) - 1)]
      ++ (if i > 1 then
          [(GENERAL, (i : Int) - 2, (j : Int) - 1), (GENERAL, (i : Int) - 2, (j : Int) - 1)]
        else [])
      ++ (if i > 2 then [(GENERAL, (i : Int) - 3, (j : Int) - 1)] else [])
      ++ (if i > 1 then [(DEL, (i : Int) - 1, (j : Int) - 1)] else [])
      ++ (if i > 2 then [(DEL, (i : Int) - 2, (j : Int) - 1)] else [])
      ++ [(INS, (i : Int), (j : Int)), (DEL, (i : Int), (j : Int))]

/-- Flat index of a cell given as a triple. -/
def cellIndex (self : Alignment) (c : tScoreType × Int × Int) : Int :=
  getMatrixIndex self c.1 c.2.1 c.2.2

/-- Flat indices of the candidate predecessors of `(p, i, j)`. -/
def specPredecessors (self : Alignment) (p : tScoreType) (i j : Nat) : List Int :=
  (predCells p i j).map (cellIndex self)

/-- The index `k` names a cell inside the buffer: `k` and `k + 1` are positions
of the score matrix. -/
def InBuffer (self : Alignment) (k : Int) : Prop :=
  0 ≤ k ∧ k + 1 < (self.scoreMatrix.length : Int)

instance (self : Alignment) (k : Int) : Decidable (InBuffer self k) := by
  unfold InBuffer; infer_instance

/-- The invariant of the spec on the stored predecessor of `(p, i, j)`: it is
`-1`, or the flat index of a cell inside the buffer that is a candidate
predecessor of `(p, i, j)`. -/
def LegalPrev (self : Alignment) (p : tScoreType) (i j : Nat) : Prop :=
  cellPrev self p i j = -1
    ∨ (InBuffer self (cellPrev self p i j) ∧ cellPrev self p i j ∈ specPredecessors self p i j)

instance (self : Alignment) (p : tScoreType) (i j : Nat) : Decidable (LegalPrev self p i j) := by
  unfold LegalPrev; infer_instance

/-- The lookup `self.scoreMatrix[idx+1]` of the predecessor of the cell at
flat index `idx`. -/
def prevIndex (self : Alignment) (idx : Int) : Int := matGet self.scoreMatrix (idx + 1)

/-- Potential of a cell along the predecessor chain. -/
def potential (c : tScoreType × Int × Int) : Int :=
  2 * (c.2.1 + c.2.2) - (if c.1 = GENERAL then 0 else 1)

/-- Cells a predecessor chain that starts in the GENERAL plane can visit: any
GENERAL cell, and the INS and DEL cells from row 1 on. -/
def ChainCell (self : Alignment) (c : tScoreType × Int × Int) : Prop :=
  ValidCell self c.1 c.2.1 c.2.2 ∧ (c.1 = GENERAL ∨ 1 ≤ c.2.1)

/-- The index reached from `start` after `k` lookups of the stored predecessor. -/
def chainAt (self : Alignment) (start : Int) : Nat → Int
  | 0 => start
  | k + 1 => prevIndex self (chainAt self start k)

/-- `Descends self idx k`: following the stored predecessors from the cell at
flat index `idx` visits valid cells whose positions never increase and, after
exactly `k` steps, stands on a GENERAL cell of row 0 or column 0 that points to
itself. -/
inductive Descends (self : Alignment) : Int → Nat → Prop where
  | stop (d : tScoreType × Int × Int) (hv : ValidCell self d.1 d.2.1 d.2.2)
      (hg : d.1 = GENERAL) (hb : d.2.1 = 0 ∨ d.2.2 = 0)
      (hself : prevIndex self (cellIndex self d) = cellIndex self d) :
      Descends self (cellIndex self d) 0
  | step (d d2 : tScoreType × Int × Int) (k : Nat) (hv : ValidCell self d.1 d.2.1 d.2.2)
      (hv2 : ValidCell self d2.1 d2.2.1 d2.2.2)
      (hprev : prevIndex self (cellIndex self d) = cellIndex self d2)
      (hN : d2.2.1 ≤ d.2.1) (hA : d2.2.2 ≤ d.2.2)
      (hrest : Descends self (cellIndex self d2) k) :
      Descends self (cellIndex self d) (k + 1)

/-- The alignment `B` is a fill of `nSeq` against `aSeq` under the scenario
handler over `tr`: its static fields, the kernel equations of its cells and the
facts on the running maximum. -/
structure ScenarioFill (tr : NucleicAcid → NucleicAcid → NucleicAcid → AminoAcid)
    (nSeq : List NucleicAcid) (aSeq : List AminoAcid) (B : Alignment) : Prop where
  nSeq_eq : B.nSeq = nSeq
  aSeq_eq : B.aSeq = aSeq
  nLen : B.nSeqLen = (nSeq.length : Int)
  aLen : B.aSeqLen = (aSeq.length : Int)
  q_eq : B.q = -10
  r_eq : B.r = -2
  pos_eq : B.supportPositionalIndel = false
  open_eq : B.constIndelCodonOpeningScore = -6
  ext_eq : B.constIndelCodonExtensionScore = -4
  handler_eq : B.scoreHandler = scenarioHandler tr
  len : (B.scoreMatrix.length : Int) = typedPosLen B
  cells : ∀ i j : Nat, i ≤ nSeq.length → j ≤ aSeq.length → CellOK B i j
  maxAt : ∃ i j : Nat, i ≤ nSeq.length ∧ j ≤ aSeq.length ∧ B.maxScorePosN = i
    ∧ B.maxScorePosA = j ∧ cellScore B GENERAL i j = B.maxScore
  maxLe : ∀ i j : Nat, i ≤ nSeq.length → j ≤ aSeq.length →
    cellScore B GENERAL i j ≤ B.maxScore
  maxLast : ∀ i j : Nat, i ≤ nSeq.length → j ≤ aSeq.length →
    cellScore B GENERAL i j = B.maxScore →
    (j : Int) < B.maxScorePosA ∨ ((j : Int) = B.maxScorePosA ∧ (i : Int) ≤ B.maxScorePosN)

/-- Bounds on the three scores stored at `(i, j)` in a scenario fill (the cells
`INS(0, 0)` and `DEL(0, j)` are outside the recurrence). -/
def CellBounds (B : Alignment) (i j : Int) : Prop :=
  (-30 * (i + j + 1) ≤ cellScore B GENERAL i j ∧ cellScore B GENERAL i j ≤ 10 * j)
  ∧ ((i ≠ 0 ∨ j ≠ 0) →
      -30 * (i + j + 1) ≤ cellScore B INS i j ∧ cellScore B INS i j ≤ 10 * j - 10)
  ∧ (i ≠ 0 → -30 * (i + j + 1) ≤ cellScore B DEL i j ∧ cellScore B DEL i j ≤ 10 * j - 10)

/-- The sequence `nSeq` is the exact in-frame coding sequence of `aSeq` under the
codon table `tr`: three nucleotides, none of them the wildcard `N`, for each
amino acid, and they translate to it. -/
def CodesInFrame (tr : NucleicAcid → NucleicAcid → NucleicAcid → AminoAcid)
    (nSeq : List NucleicAcid) (aSeq : List AminoAcid) : Prop :=
  nSeq.length = 3 * aSeq.length
  ∧ ∀ k, k < aSeq.length →
      nSeq.getD (3 * k) NucleicAcid.N ≠ NucleicAcid.N
      ∧ nSeq.getD (3 * k + 1) NucleicAcid.N ≠ NucleicAcid.N
      ∧ nSeq.getD (3 * k + 2) NucleicAcid.N ≠ NucleicAcid.N
      ∧ tr (nSeq.getD (3 * k) NucleicAcid.N) (nSeq.getD (3 * k + 1) NucleicAcid.N)
          (nSeq.getD (3 * k + 2) NucleicAcid.N) = aSeq.getD k AminoAcid.X

instance (tr : NucleicAcid → NucleicAcid → NucleicAcid → AminoAcid)
    (nSeq : List NucleicAcid) (aSeq : List AminoAcid) :
    Decidable (CodesInFrame tr nSeq aSeq) := by
  unfold CodesInFrame; infer_instance

/-- Flat index of the GENERAL cell `(3k, k)`. -/
def diagIndex (self : Alignment) (k : Nat) : Int :=
  getMatrixIndex self GENERAL ((3 * k : Nat) : Int) (k : Int)

/-- Helpers that stay silent on a codon that codes the reference amino acid. -/
def SilentOnMatch (tr : NucleicAcid → NucleicAcid → NucleicAcid → AminoAcid)
    (hp : ReportHelpers) : Prop :=
  ∀ (pos : Int) (n2 n1 n0 : NucleicAcid), n2 ≠ NucleicAcid.N → n1 ≠ NucleicAcid.N →
    n0 ≠ NucleicAcid.N →
    hp.MakeMutation pos [n2, n1, n0] (tr n2 n1 n0) = none
      ∧ hp.MakeFrameShift pos [n2, n1, n0] = none

/-- State of the second loop of `GetReport` after it has passed the GENERAL
cells `(3a, a)`, ..., `(3k, k)` of the diagonal. -/
structure DiagState (B : Alignment) (a k : Nat) (st : ReportState) : Prop where
  endIdx : st.endMtIdx = diagIndex B (k - 1)
  posN : st.LastPosN = ((3 * k : Nat) : Int)
  posA : st.LastPosA = (k : Int)
  plane : st.lastScoreType = GENERAL
  clean : st.hasUnprocessedNAs = false
  lastAA : st.lastAA = (a : Int)
  lastNA : st.lastNA = ((3 * a : Nat) : Int)
  muts : st.mutList = []
  fss : st.fsList = []
  control : st.cLine = repeatString ":::" (a - k)

/-- The loop of `GetCalcInfo` over the rest of the matrix from index `idx` on,
with the counter so far. -/
def calcInfoLoop : Nat → List Int → Int → Int
  | _, [], counter => counter
  | idx, mtIdx :: rest, counter =>
    calcInfoLoop (idx + 1) rest
      (if idx % 2 = 0 then counter else if mtIdx ≠ -1 then counter + 1 else counter)

/-- `func (self *Alignment) GetCalcInfo`. -/
def GetCalcInfo (self : Alignment) : Int × Int :=
  (calcInfoLoop 0 self.scoreMatrix 0, ((self.scoreMatrix.length : Int)).tdiv 2)

/-- The pair `(score, prevMatrixIdx)` holds an even predecessor index. -/
def EvenPrev (s : Int × Int) : Prop := s.2 % 2 = 0

/-- Errors of the constructor as the spec lists them. -/
inductive ConstructionError where
  | InvalidInput
  deriving DecidableEq, Repr

/-- The constructor as the spec words it, for comparison with `NewAlignment`:
empty sequences are rejected at construction with `InvalidInput` (the
alphabets are types here, so no symbol lies outside them).  The source has no
such check. -/
def NewAlignmentSpec (nSeq : List NucleicAcid) (aSeq : List AminoAcid)
    (scoreHandler : ScoreHandler) : Except ConstructionError Alignment :=
  if nSeq.isEmpty ∨ aSeq.isEmpty then Except.error ConstructionError.InvalidInput
  else Except.ok (NewAlignment nSeq aSeq scoreHandler)

/-- The largest `int`. -/
def maxInt : Int := 9223372036854775807

/-- Starting from `v`, the additions of the terms of the list, one after the
other, all stay within the range of `int`. -/
def SumsFit (v : Int) : List Int → Prop
  | [] => True
  | x :: xs => (negInf ≤ v + x ∧ v + x ≤ maxInt) ∧ SumsFit (v + x) xs

/-- A call of the fill to the score handler: `GetSubstitutionScore(aPos, ...)`
or `GetPositionalIndelCodonScore(aPos, isInsertion)`. -/
inductive Query where
  | sub (aPos : Int)
  | indel (aPos : Int) (isInsertion : Bool)
  deriving DecidableEq, Repr

/-- Reference position of a call. -/
def Query.aPos : Query → Int
  | Query.sub p => p
  | Query.indel p _ => p

/-- The calls `calcExtInsScore` makes to the score handler, in program order. -/
def calcExtInsScoreCalls (self : Alignment) (posN posA : Int) : List Query :=
  if posN = 0 ∧ posA > 0 then []
  else if self.supportPositionalIndel then [Query.indel posA true] else []

/-- The calls `calcDelScore` makes to the score handler, in program order. -/
def calcDelScoreCalls (self : Alignment) (posN posA : Int) : List Query :=
  if posN > 0 ∧ posA = 0 then []
  else if posN > 0 then
    [Query.sub posA]
      ++ (if self.supportPositionalIndel then [Query.indel posA false] else [])
      ++ [Query.sub posA]
      ++ (if posN > 1 then [Query.sub posA] else [])
  else []

/-- The calls `calcScore` makes to the score handler, in program order. -/
def calcScoreCalls (posN posA : Int) : List Query :=
  if posN = 0 ∨ posA = 0 then []
  else
    [Query.sub posA]
      ++ (if posN > 1 then [Query.sub posA, Query.sub posA] else [])
      ++ (if posN > 2 then [Query.sub posA] else [])

/-- The calls of one pass of the inner loop body of `calcScoreMain`. -/
def sweepCellCalls (self : Alignment) (i j : Nat) : List Query :=
  calcExtInsScoreCalls self i j ++ calcDelScoreCalls self i j ++ calcScoreCalls i j

/-- Two handlers give the same penalties and the same answers at every
reference position `1..aLen`. -/
structure SameOnDomain (sh sh2 : ScoreHandler) (aLen : Nat) : Prop where
  q_eq : sh.GetGapOpeningScore = sh2.GetGapOpeningScore
  r_eq : sh.GetGapExtensionScore = sh2.GetGapExtensionScore
  const_eq : sh.GetConstantIndelCodonScore = sh2.GetConstantIndelCodonScore
  pos_eq : sh.IsPositionalIndelScoreSupported = sh2.IsPositionalIndelScoreSupported
  sub_eq : ∀ p : Int, 1 ≤ p → p ≤ aLen →
    sh.GetSubstitutionScore p = sh2.GetSubstitutionScore p
  indel_eq : ∀ p : Int, 1 ≤ p → p ≤ aLen →
    sh.GetPositionalIndelCodonScore p = sh2.GetPositionalIndelCodonScore p

/-- Two alignments run the kernel on the same data, with handlers that agree on
`1..aLen`. -/
structure SameKernel (A A2 : Alignment) (aLen : Nat) : Prop where
  nSeq_eq : A.nSeq = A2.nSeq
  aSeq_eq : A.aSeq = A2.aSeq
  nLen_eq : A.nSeqLen = A2.nSeqLen
  aLen_eq : A.aSeqLen = A2.aSeqLen
  q_eq : A.q = A2.q
  r_eq : A.r = A2.r
  pos_eq : A.supportPositionalIndel = A2.supportPositionalIndel
  open_eq : A.constIndelCodonOpeningScore = A2.constIndelCodonOpeningScore
  ext_eq : A.constIndelCodonExtensionScore = A2.constIndelCodonExtensionScore
  sub_eq : ∀ p : Int, 1 ≤ p → p ≤ aLen →
    A.scoreHandler.GetSubstitutionScore p = A2.scoreHandler.GetSubstitutionScore p
  indel_eq : ∀ p : Int, 1 ≤ p → p ≤ aLen →
    A.scoreHandler.GetPositionalIndelCodonScore p
      = A2.scoreHandler.GetPositionalIndelCodonScore p

/-- The two alignments hold the same pair in cell `(p, i, j)`. -/
def SameCell (A A2 : Alignment) (p : tScoreType) (i j : Int) : Prop :=
  (cellScore A p i j, cellPrev A p i j) = (cellScore A2 p i j, cellPrev A2 p i j)

/-- A handler with positional indel scoring whose insertion extension score at
the reference position 0 is `e0` (penalties of the scenarios everywhere else,
every substitution score 0). -/
def positionalHandler (e0 : Int) : ScoreHandler :=
  { GetGapOpeningScore := -10
    GetGapExtensionScore := -2
    GetConstantIndelCodonScore := (-6, -4)
    IsPositionalIndelScoreSupported := true
    GetPositionalIndelCodonScore := fun aPos _ => if aPos = 0 then (-6, e0) else (-6, -4)
    GetSubstitutionScore := fun _ _ _ _ _ => 0 }

/-- Cells the traceback of `GetReport` can stand on: the GENERAL cells, the DEL
cells from row 1 on, the INS cells from row 1 and column 1 on. -/
def TraceCell (self : Alignment) (d : tScoreType × Int × Int) : Prop :=
  ValidCell self d.1 d.2.1 d.2.2 ∧ (d.1 = GENERAL ∨ 1 ≤ d.2.1) ∧ (d.1 = INS → 1 ≤ d.2.2)

/-- The cell is a GENERAL cell of row 0 or column 0. -/
def IsBoundary (d : tScoreType × Int × Int) : Prop :=
  d.1 = GENERAL ∧ (d.2.1 = 0 ∨ d.2.2 = 0)

/-- One step of the traceback, from the cell `d` to the cell `d2` whose index
`d` stores. -/
structure TraceStep (B : Alignment) (d d2 : tScoreType × Int × Int) : Prop where
  link : prevIndex B (cellIndex B d) = cellIndex B d2
  ne : cellIndex B d2 ≠ cellIndex B d
  leN : d2.2.1 ≤ d.2.1
  leA : d2.2.2 ≤ d.2.2
  drop : d.1 ≠ INS → d.2.2 ≤ d2.2.2 + 1
  ins : d.1 = INS → d2.2.2 = d.2.2
    ∨ (d2 = (GENERAL, 0, 0) ∧ matGet B.scoreMatrix (cellIndex B d) = negInf)
  same : d2.2.1 = d.2.1 → d2.2.2 = d.2.2 →
    matGet B.scoreMatrix (cellIndex B d2) = matGet B.scoreMatrix (cellIndex B d)

/-- `Trace self d k`: the traceback from the cell `d` takes `k` steps through
cells that are not GENERAL boundary cells and then stands on a GENERAL boundary
cell, which holds the score 0 and points to itself. -/
inductive Trace (self : Alignment) : tScoreType × Int × Int → Nat → Prop where
  | stop (d : tScoreType × Int × Int) (hc : TraceCell self d) (hb : IsBoundary d)
      (hself : prevIndex self (cellIndex self d) = cellIndex self d)
      (hzero : matGet self.scoreMatrix (cellIndex self d) = 0) : Trace self d 0
  | step (d d2 : tScoreType × Int × Int) (k : Nat) (hc : TraceCell self d)
      (hnb : ¬ IsBoundary d) (hs : TraceStep self d d2) (hrest : Trace self d2 k) :
      Trace self d (k + 1)

/-- The cell at step `t` of the predecessor chain from the flat index `start`. -/
def cellAt (self : Alignment) (start : Int) (t : Nat) : tScoreType × Int × Int :=
  getTypedPos self (chainAt self start t)

/-- The chain from `start` is a traceback of `k` steps: its cells up to step
`k`, the steps between them, and the GENERAL boundary cell it ends on. -/
structure TraceTo (B : Alignment) (start : Int) (k : Nat) : Prop where
  cell : ∀ t, t ≤ k → TraceCell B (cellAt B start t)
    ∧ chainAt B start t = cellIndex B (cellAt B start t)
  step : ∀ t, t < k → ¬ IsBoundary (cellAt B start t)
    ∧ TraceStep B (cellAt B start t) (cellAt B start (t + 1))
  last : IsBoundary (cellAt B start k)
  fix : prevIndex B (chainAt B start k) = chainAt B start k
  zero : matGet B.scoreMatrix (chainAt B start k) = 0

/-- The variables of the first loop of `GetReport` after `t` passes. -/
def trimRun (self : Alignment) : Nat → TrimState
  | 0 => trimInit self
  | t + 1 => trimStep self (trimRun self t)

/-- The variables of the second loop of `GetReport` after `t` passes. -/
def reportRun (self : Alignment) (hp : ReportHelpers) : Nat → ReportState
  | 0 => reportInit self
  | t + 1 => (reportStep self hp (reportRun self hp t)).1

/-- Flat index of the end cell `GENERAL(maxScorePosN, maxScorePosA)`. -/
def endIndex (self : Alignment) : Int :=
  getMatrixIndex self GENERAL self.maxScorePosN self.maxScorePosA

/-- The test `lastScoreType != INS && LastPosN > -1 && LastPosA > -1` together
with `LastPosA > posA`, at the cell the state stands on: the pass makes a
mutation and a frame shift. -/
def Consumes (self : Alignment) (st : ReportState) : Prop :=
  (st.lastScoreType ≠ INS ∧ st.LastPosN > -1 ∧ st.LastPosA > -1)
    ∧ st.LastPosA > (getTypedPos self st.endMtIdx).2.2

/-- The mutation the pass at `st` makes. -/
def stepMutation (self : Alignment) (hp : ReportHelpers) (st : ReportState) : Option Mutation :=
  hp.MakeMutation ((getTypedPos self st.endMtIdx).2.2 + 1)
    (sliceOf self.nSeq (getTypedPos self st.endMtIdx).2.1 st.LastPosN)
    (self.aSeq.getD (getTypedPos self st.endMtIdx).2.2.toNat AminoAcid.X)

/-- The frame shift the pass at `st` makes. -/
def stepFrameShift (self : Alignment) (hp : ReportHelpers) (st : ReportState) :
    Option FrameShift :=
  hp.MakeFrameShift ((getTypedPos self st.endMtIdx).2.2 + 1)
    (sliceOf self.nSeq (getTypedPos self st.endMtIdx).2.1 st.LastPosN)

/-- The partial lines of the pass at `st` when it makes a mutation and a frame
shift. -/
def stepLines (self : Alignment) (hp : ReportHelpers) (st : ReportState) :
    String × String × String :=
  partialLines self hp (getTypedPos self st.endMtIdx).2.1 (getTypedPos self st.endMtIdx).2.2
    st.LastPosN st.LastPosA (stepMutation self hp st) (stepFrameShift self hp st)

/-- The state of the second loop right after the pass over the cell `d`. -/
structure Behind (B : Alignment) (st : ReportState) (d : tScoreType × Int × Int) :
    Prop where
  type : st.lastScoreType = d.1
  posA : st.LastPosA = d.2.2
  geN : d.2.1 ≤ st.LastPosN
  leN : st.LastPosN ≤ B.nSeqLen

/-- None of the first `t` passes of the second loop ended in `break`. -/
def NoBreak (self : Alignment) (t : Nat) : Prop :=
  ∀ u, u < t →
    ¬ ((cellAt self (endIndex self) u).2.1 = 0 ∨ (cellAt self (endIndex self) u).2.2 = 0)

/-- The condition `endMtIdx%singleMtLen >= startMtIdx%singleMtLen` of the
second loop of `GetReport`. -/
def LoopTest (self : Alignment) (startMtIdx endMtIdx : Int) : Prop :=
  endMtIdx.tmod ((self.nSeqLen + 1) * (self.aSeqLen + 1) * 2)
    ≥ startMtIdx.tmod ((self.nSeqLen + 1) * (self.aSeqLen + 1) * 2)

/-- The states in which the second loop of `GetReport` tests its condition:
the initial one, and the one after each pass that ran and did not end in
`break`. -/
inductive Reached (self : Alignment) (hp : ReportHelpers) (startMtIdx : Int) :
    ReportState → Prop where
  | init : Reached self hp startMtIdx (reportInit self)
  | next (st : ReportState) (h : Reached self hp startMtIdx st)
      (htest : LoopTest self startMtIdx st.endMtIdx)
      (hgo : (reportStep self hp st).2 = false) :
      Reached self hp startMtIdx (reportStep self hp st).1

/-- A score handler all of whose scores are 0. -/
def zeroHandler : ScoreHandler :=
  { GetGapOpeningScore := 0
    GetGapExtensionScore := 0
    GetConstantIndelCodonScore := (0, 0)
    IsPositionalIndelScoreSupported := false
    GetPositionalIndelCodonScore := fun _ _ => (0, 0)
    GetSubstitutionScore := fun _ _ _ _ _ => 0 }

/-- The positions on the two lists of the second loop fall strictly, and all
lie above `LastPosA`. -/
def ListsFall (st : ReportState) : Prop :=
  List.Pairwise (fun x y => x > y) (st.mutList.map Mutation.position)
  ∧ (∀ m ∈ st.mutList, st.LastPosA < m.position)
  ∧ List.Pairwise (fun x y => x > y) (st.fsList.map FrameShift.position)
  ∧ (∀ f ∈ st.fsList, st.LastPosA < f.position)

/-- The assumptions of the equal-width claim on the helpers: each nucleotide and
each amino acid prints as one character, a codon as three, the control text of
a mutation has three characters per printed codon, and the nucleotide text of
an inserting frame shift has `GetGapLength` characters. -/
structure PrintsInColumns (hp : ReportHelpers) : Prop where
  nucleic : ∀ l : List NucleicAcid, (hp.writeNucleicAcids l).length = l.length
  amino : ∀ l : List AminoAcid, (hp.writeAminoAcids l).length = l.length
  codon : ∀ pos w a m, hp.MakeMutation pos w a = some m → m.isDeletion = false →
    m.codon.length = 3
  inserted : ∀ pos w a m, hp.MakeMutation pos w a = some m → m.isDeletion = false →
    m.isInsertion = true → ∀ c ∈ m.insertedCodons, c.length = 3
  control : ∀ pos w a m, hp.MakeMutation pos w a = some m →
    m.control.length
      = (if m.isDeletion then 3
          else if m.isInsertion then 3 + 3 * m.insertedCodons.length else 3)
  gap : ∀ pos w f, hp.MakeFrameShift pos w = some f → f.isInsertion = true →
    (f.nucleicAcids.length : Int) = f.gapLength

/-- The three lines of the second loop have the same length. -/
def SameWidth (st : ReportState) : Prop :=
  st.nLine.length = st.aLine.length ∧ st.aLine.length = st.cLine.length

/-- Helpers that print in columns: those of the scenarios, except that a window
shorter than a codon is reported as a deletion. -/
def columnHelpers (tr : NucleicAcid → NucleicAcid → NucleicAcid → AminoAcid) :
    ReportHelpers :=
  let text := fun (nas : List NucleicAcid) => String.mk (nas.map NucleicAcid.toChar)
  { writeNucleicAcids := text
    writeAminoAcids := fun aas => String.mk (aas.map AminoAcid.toChar)
    MakeMutation := fun pos nas aa =>
      match nas with
      | [n2, n1, n0] =>
        if tr n2 n1 n0 = aa then none
        else some { position := pos, control := "...", isDeletion := false,
                    isInsertion := false, codon := text nas, insertedCodons := [] }
      | n2 :: n1 :: n0 :: rest =>
        some { position := pos, control := "..." ++ repeatString "+++" (rest.length / 3),
               isDeletion := false, isInsertion := decide (0 < rest.length / 3),
               codon := text [n2, n1, n0],
               insertedCodons :=
                 (List.range (rest.length / 3)).map (fun k => text ((rest.drop (3 * k)).take 3)) }
      | _ => some { position := pos, control := "---", isDeletion := true,
                    isInsertion := false, codon := "", insertedCodons := [] }
    MakeFrameShift := fun pos nas =>
      if nas.length % 3 = 0 then none
      else some { position := pos, isInsertion := true,
                  nucleicAcids := text (nas.drop (nas.length - nas.length % 3)),
                  gapLength := (nas.length % 3 : Nat) } }

/-- One `int` addition that reports overflow: `none` when the sum is outside
the range of `int`. -/
def addChecked (a b : Int) : Option Int :=
  if negInf ≤ a + b ∧ a + b ≤ maxInt then some (a + b) else none

/-- The sum `v + x1 + ... + xn` formed from left to right, as Go evaluates it,
with additions that report overflow. -/
def sumChecked (v : Int) : List Int → Option Int
  | [] => some v
  | x :: xs => (addChecked v x).bind (fun w => sumChecked w xs)

/-- `func (self *Alignment) calcExtInsScore` with every candidate sum formed by
additions that report overflow: `none` as soon as one addition leaves the range
of `int`. -/
def calcExtInsScoreChecked (self : Alignment) (posN posA : Int)
    (gScore30 iScore30 gScore20 gScore10 : Int) : Option (Int × Int) :=
  let q := self.q
  let r := self.r
  if posN = 0 ∧ posA > 0 then
    some (q, getMatrixIndex self GENERAL 0 0)
  else
    let insOpeningScore := (indelCodonScore self posA true).1
    let insExtensionScore := (indelCodonScore self posA true).2
    let s : Int × Int := (negInf, 0)
    (if posN > 3 then
      (sumChecked iScore30 [r, r, r, insExtensionScore]).bind fun c1 =>
      let s := takeIfGreater s c1 (getMatrixIndex self INS (posN - 3) posA)
      (sumChecked gScore30 [q, r, r, r, insOpeningScore, insExtensionScore]).bind fun c2 =>
      some (takeIfGreater s c2 (getMatrixIndex self GENERAL (posN - 3) posA))
    else some s).bind fun s =>
    (if posN > 2 then
      (sumChecked gScore20 [q, r, r]).bind fun c =>
      some (takeIfGreater s c (getMatrixIndex self GENERAL (posN - 2) posA))
    else some s).bind fun s =>
    (sumChecked gScore10 [q, r]).bind fun c =>
    some (takeIfGreater s c (getMatrixIndex self GENERAL (posN - 1) posA))

/-- `func (self *Alignment) calcDelScore` with every candidate sum formed by
additions that report overflow. -/
def calcDelScoreChecked (self : Alignment) (posN posA : Int)
    (gScore01 gScore11 gScore21 dScore01 dScore11 : Int) : Option (Int × Int) :=
  let sh := self.scoreHandler
  if posN > 0 ∧ posA = 0 then
    some (self.q, getMatrixIndex self GENERAL 0 0)
  else if posN > 0 then
    let curNA := getNA self posN
    let curAA := getAA self posA
    let q := self.q
    let r := self.r
    let mutScoreN0N := sh.GetSubstitutionScore posA NucleicAcid.N curNA NucleicAcid.N curAA
    let delOpeningScore := (indelCodonScore self posA false).1
    let delExtensionScore := (indelCodonScore self posA false).2
    let s : Int × Int := (negInf, 0)
    (sumChecked dScore01 [r, r, r, delExtensionScore]).bind fun c1 =>
    let s := takeIfGreaterEq s c1 (getMatrixIndex self DEL posN (posA - 1))
    (sumChecked gScore01 [q, r, r, r, delOpeningScore, delExtensionScore]).bind fun c2 =>
    let s := takeIfGreater s c2 (getMatrixIndex self GENERAL posN (posA - 1))
    (sumChecked gScore11
      [sh.GetSubstitutionScore posA curNA NucleicAcid.N NucleicAcid.N curAA, q, r, r]).bind
      fun c3 =>
    let s := takeIfGreater s c3 (getMatrixIndex self GENERAL (posN - 1) (posA - 1))
    (sumChecked gScore11 [mutScoreN0N, q, r, q, r]).bind fun c4 =>
    let s := takeIfGreater s c4 (getMatrixIndex self GENERAL (posN - 1) (posA - 1))
    if posN > 1 then
      let prevNA := getNA self (posN - 1)
      (sumChecked dScore11 [mutScoreN0N, q, r, r]).bind fun c5 =>
      let s := takeIfGreaterEq s c5 (getMatrixIndex self DEL (posN - 1) (posA - 1))
      (sumChecked gScore21
        [sh.GetSubstitutionScore posA prevNA curNA NucleicAcid.N curAA, q, r]).bind fun c6 =>
      some (takeIfGreaterEq s c6 (getMatrixIndex self GENERAL (posN - 2) (posA - 1)))
    else some s
  else
    some (negInf, 0)

/-- `func (self *Alignment) calcScore` with every candidate sum formed by
additions that report overflow. -/
def calcScoreChecked (self : Alignment) (posN posA : Int)
    (gScore11 gScore21 gScore31 iScore00 dScore00 dScore11 dScore21 : Int) :
    Option (Int × Int) :=
  if posN = 0 ∨ posA = 0 then
    some (0, getMatrixIndex self GENERAL posN posA)
  else
    let sh := self.scoreHandler
    let q := self.q
    let r := self.r
    let curNA := getNA self posN
    let curAA := getAA self posA
    let mutScoreNN0 := sh.GetSubstitutionScore posA NucleicAcid.N NucleicAcid.N curNA curAA
    let prevNA := getNA self (posN - 1)
    let mutScoreN10 := sh.GetSubstitutionScore posA NucleicAcid.N prevNA curNA curAA
    let s : Int × Int := (negInf, 0)
    (sumChecked gScore11 [mutScoreNN0, q, r, r]).bind fun c1 =>
    let s := takeIfGreater s c1 (getMatrixIndex self GENERAL (posN - 1) (posA - 1))
    (if posN > 1 then
      (sumChecked gScore21
        [sh.GetSubstitutionScore posA prevNA NucleicAcid.N curNA curAA, q, r]).bind fun c2 =>
      let s := takeIfGreater s c2 (getMatrixIndex self GENERAL (posN - 2) (posA - 1))
      (sumChecked gScore21 [mutScoreN10, q, r]).bind fun c3 =>
      let s := takeIfGreater s c3 (getMatrixIndex self GENERAL (posN - 2) (posA - 1))
      (sumChecked dScore11 [mutScoreNN0, r, r]).bind fun c4 =>
      some (takeIfGreaterEq s c4 (getMatrixIndex self DEL (posN - 1) (posA - 1)))
    else some s).bind fun s =>
    (if posN > 2 then
      let prevNA2 := getNA self (posN - 2)
      (sumChecked gScore31
        [sh.GetSubstitutionScore posA prevNA2 prevNA curNA curAA]).bind fun c5 =>
      let s := takeIfGreater s c5 (getMatrixIndex self GENERAL (posN - 3) (posA - 1))
      (sumChecked dScore21 [mutScoreN10, r]).bind fun c6 =>
      some (takeIfGreaterEq s c6 (getMatrixIndex self DEL (posN - 2) (posA - 1)))
    else some s).bind fun s =>
    let s := takeIfGreaterEq s iScore00 (getMatrixIndex self INS posN posA)
    some (takeIfGreaterEq s dScore00 (getMatrixIndex self DEL posN posA))

/-- A score the kernel adds penalties to lies at least `6 * 2^20` inside the
range of `int`. -/
def InWindow (v : Int) : Prop :=
  negInf + 6 * 1048576 ≤ v ∧ v ≤ maxInt - 6 * 1048576

/-- A penalty or substitution score of magnitude at most `2^20`. -/
def Small (x : Int) : Prop := -1048576 ≤ x ∧ x ≤ 1048576

/-- The penalties `q`, `r`, the codon indel scores `O`, `E` and the
substitution scores the kernel reads at the reference position `posA` all have
magnitude at most `2^20`. -/
structure SmallPenalties (B : Alignment) (posA : Int) : Prop where
  q : Small B.q
  r : Small B.r
  opening : ∀ b, Small (indelCodonScore B posA b).1
  extension : ∀ b, Small (indelCodonScore B posA b).2
  sub : ∀ n2 n1 n0 a, Small (B.scoreHandler.GetSubstitutionScore posA n2 n1 n0 a)

/-! ## Index arithmetic -/

theorem getMatrixIndex_eq (self : Alignment) (p i j : Int) :
    getMatrixIndex self p i j
      = 2 * (j + (self.aSeqLen + 1) * (i + (self.nSeqLen + 1) * p)) := by
  unfold getMatrixIndex; ring

theorem decode_aux (a n p i j : Int) (ha : 0 ≤ a) (hn : 0 ≤ n) (hp : 0 ≤ p)
    (hi0 : 0 ≤ i) (hi : i ≤ n) (hj0 : 0 ≤ j) (hj : j ≤ a) :
    let x := j + (a + 1) * (i + (n + 1) * p)
    (2 * x).tdiv 2 = x ∧ x.tmod (a + 1) = j ∧ x.tdiv (a + 1) = i + (n + 1) * p
      ∧ (i + (n + 1) * p).tmod (n + 1) = i ∧ (i + (n + 1) * p).tdiv (n + 1) = p := by
  intro x
  have hy : 0 ≤ i + (n + 1) * p := by positivity
  have hx : 0 ≤ x := by positivity
  refine ⟨?_, ?_, ?_, ?_, ?_⟩
  · rw [Int.tdiv_eq_ediv (by omega) (by omega)]; omega
  · rw [Int.tmod_eq_emod hx (by omega), Int.add_mul_emod_self_left]
    exact Int.emod_eq_of_lt hj0 (by omega)
  · rw [Int.tdiv_eq_ediv hx (by omega), Int.add_mul_ediv_left _ _ (by omega),
      Int.ediv_eq_zero_of_lt hj0 (by omega)]; simp
  · rw [Int.tmod_eq_emod hy (by omega), Int.add_mul_emod_self_left]
    exact Int.emod_eq_of_lt hi0 (by omega)
  · rw [Int.tdiv_eq_ediv hy (by omega), Int.add_mul_ediv_left _ _ (by omega),
      Int.ediv_eq_zero_of_lt hi0 (by omega)]; simp

theorem getTypedPos_getMatrixIndex_of_nonneg (self : Alignment) (p i j : Int)
    (hn : 0 ≤ self.nSeqLen) (ha : 0 ≤ self.aSeqLen) (hp : 0 ≤ p)
    (hi0 : 0 ≤ i) (hi : i ≤ self.nSeqLen) (hj0 : 0 ≤ j) (hj : j ≤ self.aSeqLen) :
    getTypedPos self (getMatrixIndex self p i j) = (p, i, j) := by
  obtain ⟨h1, h2, h3, h4, h5⟩ :=
    decode_aux self.aSeqLen self.nSeqLen p i j ha hn hp hi0 hi hj0 hj
  rw [getMatrixIndex_eq]
  simp only [getTypedPos]
  rw [h1, h2, h3, h4, h5]

/-- C6 (plane parity): for every `nLen >= 0`, `aLen >= 0`, plane `p` among
GENERAL, INS, DEL and every `0 <= i <= nLen`, `0 <= j <= aLen`, decoding the flat
index of `(p, i, j)` with `getTypedPos` gives back `(p, i, j)`. -/
theorem getTypedPos_getMatrixIndex (self : Alignment) (p : tScoreType) (i j : Int)
    (hn : 0 ≤ self.nSeqLen) (ha : 0 ≤ self.aSeqLen)
    (hp : p = GENERAL ∨ p = INS ∨ p = DEL)
    (hi : 0 ≤ i ∧ i ≤ self.nSeqLen) (hj : 0 ≤ j ∧ j ≤ self.aSeqLen) :
    getTypedPos self (getMatrixIndex self p i j) = (p, i, j) := by
  have hp0 : 0 ≤ p := by
    rcases hp with h | h | h <;> simp [h, GENERAL, INS, DEL]
  exact getTypedPos_getMatrixIndex_of_nonneg self p i j hn ha hp0 hi.1 hi.2 hj.1 hj.2

/-! ## Reads and writes of the matrix -/

theorem length_matSet (m : List Int) (k v : Int) : (matSet m k v).length = m.length := by
  unfold matSet; split <;> simp

theorem matGet_matSet_same (m : List Int) (k v : Int) (h0 : 0 ≤ k)
    (hk : k.toNat < m.length) : matGet (matSet m k v) k = v := by
  simp [matGet, matSet, h0, List.getElem?_set, hk]

theorem matGet_matSet_other (m : List Int) (k k2 v : Int) (h0 : 0 ≤ k2) (hne : k ≠ k2) :
    matGet (matSet m k v) k2 = matGet m k2 := by
  unfold matGet matSet
  split
  · have : k.toNat ≠ k2.toNat := by omega
    simp [List.getElem?_set, this]
  · rfl

theorem getMatrixIndex_bounds (self : Alignment) (p i j : Int) (h : ValidCell self p i j) :
    0 ≤ getMatrixIndex self p i j ∧ getMatrixIndex self p i j + 1 < typedPosLen self := by
  obtain ⟨hp, ⟨hi0, hi⟩, hj0, hj⟩ := h
  have hp2 : 0 ≤ p ∧ p ≤ 2 := by
    rcases hp with h | h | h <;> simp [h, GENERAL, INS, DEL]
  have hn : 0 ≤ self.nSeqLen := by omega
  have ha : 0 ≤ self.aSeqLen := by omega
  rw [getMatrixIndex_eq]
  unfold typedPosLen scoreTypeCount
  constructor
  · have h0 : 0 ≤ (self.nSeqLen + 1) * p := Int.mul_nonneg (by omega) hp2.1
    have h1 : 0 ≤ (self.aSeqLen + 1) * (i + (self.nSeqLen + 1) * p) :=
      Int.mul_nonneg (by omega) (by omega)
    omega
  · have h1 : i + (self.nSeqLen + 1) * p ≤ self.nSeqLen + (self.nSeqLen + 1) * 2 := by
      nlinarith
    have h2 : (self.aSeqLen + 1) * (i + (self.nSeqLen + 1) * p)
        ≤ (self.aSeqLen + 1) * (self.nSeqLen + (self.nSeqLen + 1) * 2) :=
      Int.mul_le_mul_of_nonneg_left h1 (by omega)
    nlinarith

theorem getMatrixIndex_even (self : Alignment) (p i j : Int) :
    getMatrixIndex self p i j % 2 = 0 := by
  unfold getMatrixIndex; omega

theorem getMatrixIndex_inj (self : Alignment) (p i j p2 i2 j2 : Int)
    (h : ValidCell self p i j) (h2 : ValidCell self p2 i2 j2)
    (he : getMatrixIndex self p i j = getMatrixIndex self p2 i2 j2) :
    p = p2 ∧ i = i2 ∧ j = j2 := by
  have hn : 0 ≤ self.nSeqLen := by have := h.2.1; omega
  have ha : 0 ≤ self.aSeqLen := by have := h.2.2; omega
  have hp0 : ∀ x : tScoreType, (x = GENERAL ∨ x = INS ∨ x = DEL) → 0 ≤ x := by
    intro x hx
    rcases hx with h | h | h <;> simp [h, GENERAL, INS, DEL]
  have e1 := getTypedPos_getMatrixIndex_of_nonneg self p i j hn ha (hp0 p h.1)
    h.2.1.1 h.2.1.2 h.2.2.1 h.2.2.2
  have e2 := getTypedPos_getMatrixIndex_of_nonneg self p2 i2 j2 hn ha (hp0 p2 h2.1)
    h2.2.1.1 h2.2.1.2 h2.2.2.1 h2.2.2.2
  rw [he, e2] at e1
  simp only [Prod.mk.injEq] at e1
  exact ⟨e1.1.symm, e1.2.1.symm, e1.2.2.symm⟩

theorem setCachedScore_withMatrix (A : Alignment) (m : List Int) (p i j s v : Int) :
    setCachedScore (withMatrix A m) p i j s v
      = withMatrix A (matSet (matSet m (getMatrixIndex A p i j) s)
          (getMatrixIndex A p i j + 1) v) := rfl

theorem length_setCachedScore (B : Alignment) (p i j s v : Int) :
    (setCachedScore B p i j s v).scoreMatrix.length = B.scoreMatrix.length := by
  simp [setCachedScore, length_matSet]

theorem cellScore_setCachedScore (B : Alignment) (p i j s v p2 i2 j2 : Int)
    (hlen : (B.scoreMatrix.length : Int) = typedPosLen B)
    (h : ValidCell B p i j) (h2 : ValidCell B p2 i2 j2) :
    cellScore (setCachedScore B p i j s v) p2 i2 j2
      = if p2 = p ∧ i2 = i ∧ j2 = j then s else cellScore B p2 i2 j2 := by
  have hb := getMatrixIndex_bounds B p i j h
  have hb2 := getMatrixIndex_bounds B p2 i2 j2 h2
  have hev := getMatrixIndex_even B p i j
  have hev2 := getMatrixIndex_even B p2 i2 j2
  show matGet (matSet (matSet B.scoreMatrix (getMatrixIndex B p i j) s)
      (getMatrixIndex B p i j + 1) v) (getMatrixIndex B p2 i2 j2) = _
  rw [matGet_matSet_other _ _ _ _ hb2.1 (by omega)]
  split
  · next hc =>
    obtain ⟨rfl, rfl, rfl⟩ := hc
    exact matGet_matSet_same _ _ _ hb.1 (by omega)
  · next hc =>
    have hne : getMatrixIndex B p i j ≠ getMatrixIndex B p2 i2 j2 := by
      intro he
      obtain ⟨e1, e2, e3⟩ := getMatrixIndex_inj B p i j p2 i2 j2 h h2 he
      exact hc ⟨e1.symm, e2.symm, e3.symm⟩
    rw [matGet_matSet_other _ _ _ _ hb2.1 hne]
    rfl

theorem cellPrev_setCachedScore (B : Alignment) (p i j s v p2 i2 j2 : Int)
    (hlen : (B.scoreMatrix.length : Int) = typedPosLen B)
    (h : ValidCell B p i j) (h2 : ValidCell B p2 i2 j2) :
    cellPrev (setCachedScore B p i j s v) p2 i2 j2
      = if p2 = p ∧ i2 = i ∧ j2 = j then v else cellPrev B p2 i2 j2 := by
  have hb := getMatrixIndex_bounds B p i j h
  have hb2 := getMatrixIndex_bounds B p2 i2 j2 h2
  have hev := getMatrixIndex_even B p i j
  have hev2 := getMatrixIndex_even B p2 i2 j2
  show matGet (matSet (matSet B.scoreMatrix (getMatrixIndex B p i j) s)
      (getMatrixIndex B p i j + 1) v) (getMatrixIndex B p2 i2 j2 + 1) = _
  split
  · next hc =>
    obtain ⟨rfl, rfl, rfl⟩ := hc
    exact matGet_matSet_same _ _ _ (by omega) (by rw [length_matSet]; omega)
  · next hc =>
    have hne : getMatrixIndex B p i j ≠ getMatrixIndex B p2 i2 j2 := by
      intro he
      obtain ⟨e1, e2, e3⟩ := getMatrixIndex_inj B p i j p2 i2 j2 h h2 he
      exact hc ⟨e1.symm, e2.symm, e3.symm⟩
    rw [matGet_matSet_other _ _ _ _ (by omega) (by omega),
      matGet_matSet_other _ _ _ _ (by omega) (by omega)]
    rfl

theorem typedPosLen_withMatrix (A : Alignment) (m : List Int) :
    typedPosLen (withMatrix A m) = typedPosLen A := rfl

theorem validCell_withMatrix (A : Alignment) (m : List Int) (p i j : Int) :
    ValidCell (withMatrix A m) p i j ↔ ValidCell A p i j := Iff.rfl

/-- The three writes of one inner loop iteration. -/
theorem three_writes (A : Alignment) (m : List Int) (n a i j : Nat)
    (hn : A.nSeqLen = n) (ha : A.aSeqLen = a) (hi : i ≤ n) (hj : j ≤ a)
    (hlen : (m.length : Int) = typedPosLen A) (x y z : Int × Int) :
    ∃ m3, setCachedScore (setCachedScore (setCachedScore (withMatrix A m) INS i j x.1 x.2)
        DEL i j y.1 y.2) GENERAL i j z.1 z.2 = withMatrix A m3
      ∧ (m3.length : Int) = typedPosLen A
      ∧ (cellScore (withMatrix A m3) INS i j, cellPrev (withMatrix A m3) INS i j) = x
      ∧ (cellScore (withMatrix A m3) DEL i j, cellPrev (withMatrix A m3) DEL i j) = y
      ∧ (cellScore (withMatrix A m3) GENERAL i j, cellPrev (withMatrix A m3) GENERAL i j) = z
      ∧ (∀ p i2 j2 : Int, ValidCell A p i2 j2 → (i2 ≠ i ∨ j2 ≠ j) →
          cellScore (withMatrix A m3) p i2 j2 = cellScore (withMatrix A m) p i2 j2
          ∧ cellPrev (withMatrix A m3) p i2 j2 = cellPrev (withMatrix A m) p i2 j2) := by
  have vI : ValidCell A INS i j := ⟨Or.inr (Or.inl rfl), by omega, by omega⟩
  have vD : ValidCell A DEL i j := ⟨Or.inr (Or.inr rfl), by omega, by omega⟩
  have vG : ValidCell A GENERAL i j := ⟨Or.inl rfl, by omega, by omega⟩
  have e1 := setCachedScore_withMatrix A m INS i j x.1 x.2
  generalize hm1 : matSet (matSet m (getMatrixIndex A INS i j) x.1)
      (getMatrixIndex A INS i j + 1) x.2 = m1 at e1
  have l1 : (m1.length : Int) = typedPosLen A := by
    rw [← hm1, length_matSet, length_matSet]; exact hlen
  have e2 := setCachedScore_withMatrix A m1 DEL i j y.1 y.2
  generalize hm2 : matSet (matSet m1 (getMatrixIndex A DEL i j) y.1)
      (getMatrixIndex A DEL i j + 1) y.2 = m2 at e2
  have l2 : (m2.length : Int) = typedPosLen A := by
    rw [← hm2, length_matSet, length_matSet]; exact l1
  have e3 := setCachedScore_withMatrix A m2 GENERAL i j z.1 z.2
  generalize hm3 : matSet (matSet m2 (getMatrixIndex A GENERAL i j) z.1)
      (getMatrixIndex A GENERAL i j + 1) z.2 = m3 at e3
  have l3 : (m3.length : Int) = typedPosLen A := by
    rw [← hm3, length_matSet, length_matSet]; exact l2
  have rs : ∀ p i2 j2 : Int, ValidCell A p i2 j2 →
      cellScore (withMatrix A m3) p i2 j2
        = (if p = GENERAL ∧ i2 = i ∧ j2 = j then z.1 else
            if p = DEL ∧ i2 = i ∧ j2 = j then y.1 else
              if p = INS ∧ i2 = i ∧ j2 = j then x.1 else cellScore (withMatrix A m) p i2 j2) := by
    intro p i2 j2 hv
    rw [← e3, cellScore_setCachedScore (withMatrix A m2) _ _ _ _ _ _ _ _ l2 vG hv,
      ← e2, cellScore_setCachedScore (withMatrix A m1) _ _ _ _ _ _ _ _ l1 vD hv,
      ← e1, cellScore_setCachedScore (withMatrix A m) _ _ _ _ _ _ _ _ hlen vI hv]
  have rp : ∀ p i2 j2 : Int, ValidCell A p i2 j2 →
      cellPrev (withMatrix A m3) p i2 j2
        = (if p = GENERAL ∧ i2 = i ∧ j2 = j then z.2 else
            if p = DEL ∧ i2 = i ∧ j2 = j then y.2 else
              if p = INS ∧ i2 = i ∧ j2 = j then x.2 else cellPrev (withMatrix A m) p i2 j2) := by
    intro p i2 j2 hv
    rw [← e3, cellPrev_setCachedScore (withMatrix A m2) _ _ _ _ _ _ _ _ l2 vG hv,
      ← e2, cellPrev_setCachedScore (withMatrix A m1) _ _ _ _ _ _ _ _ l1 vD hv,
      ← e1, cellPrev_setCachedScore (withMatrix A m) _ _ _ _ _ _ _ _ hlen vI hv]
  refine ⟨m3, ?_, l3, ?_, ?_, ?_, ?_⟩
  · rw [e1, e2, e3]
  · rw [rs _ _ _ vI, rp _ _ _ vI]; simp [GENERAL, INS, DEL]
  · rw [rs _ _ _ vD, rp _ _ _ vD]; simp [GENERAL, INS, DEL]
  · rw [rs _ _ _ vG, rp _ _ _ vG]; simp
  · intro p i2 j2 hv hne
    rw [rs _ _ _ hv, rp _ _ _ hv]
    have h1 : ¬ (i2 = (i : Int) ∧ j2 = (j : Int)) := by omega
    simp [h1]

/-! ## Frame lemmas -/

theorem prevColumn_agree {B B2 : Alignment} {n j i : Nat} (hag : AgreeBefore B B2 n j i)
    (p : tScoreType) (hp : p = GENERAL ∨ p = INS ∨ p = DEL) (k j2 : Nat)
    (hk : k ≤ n) (hj2 : j2 ≤ j) : prevColumn B2 p k j2 = prevColumn B p k j2 := by
  unfold prevColumn
  split
  · rfl
  · exact (hag p k ((j2 : Int) - 1) hp (by omega) (by omega) (by omega) (by omega)).1

theorem prevColumnAt_agree {B B2 : Alignment} {n j i : Nat} (hag : AgreeBefore B B2 n j i)
    (p : tScoreType) (hp : p = GENERAL ∨ p = INS ∨ p = DEL) (i2 d j2 : Nat)
    (hk : i2 ≤ n) (hj2 : j2 ≤ j) : prevColumnAt B2 p i2 d j2 = prevColumnAt B p i2 d j2 := by
  unfold prevColumnAt
  split
  · exact prevColumn_agree hag p hp _ _ (by omega) hj2
  · rfl

theorem sameColumn_agree {B B2 : Alignment} {n j i : Nat} (hag : AgreeBefore B B2 n j i)
    (p : tScoreType) (hp : p = GENERAL ∨ p = INS ∨ p = DEL) (i2 d j2 : Nat)
    (hk : i2 ≤ n) (hd : 1 ≤ d) (hb : j2 < j ∨ (j2 = j ∧ i2 ≤ i)) :
    sameColumn B2 p i2 d j2 = sameColumn B p i2 d j2 := by
  unfold sameColumn
  split
  · exact (hag p ((i2 : Int) - d) j2 hp (by omega) (by omega) (by omega) (by omega)).1
  · rfl

theorem cellOK_agree (A : Alignment) (m m3 : List Int) {n j i : Nat}
    (hag : AgreeBefore (withMatrix A m) (withMatrix A m3) n j i)
    (i2 j2 : Nat) (hk : i2 ≤ n) (hb : Before j i j2 i2) :
    CellOK (withMatrix A m3) i2 j2 ↔ CellOK (withMatrix A m) i2 j2 := by
  have hG : GENERAL = GENERAL ∨ GENERAL = INS ∨ GENERAL = DEL := Or.inl rfl
  have hI : INS = GENERAL ∨ INS = INS ∨ INS = DEL := Or.inr (Or.inl rfl)
  have hD : DEL = GENERAL ∨ DEL = INS ∨ DEL = DEL := Or.inr (Or.inr rfl)
  have hb2 : j2 < j ∨ (j2 = j ∧ i2 < i) := hb
  have hle : j2 ≤ j := by omega
  have hs : j2 < j ∨ (j2 = j ∧ i2 ≤ i) := by omega
  have c : ∀ p, (p = GENERAL ∨ p = INS ∨ p = DEL) →
      cellScore (withMatrix A m3) p i2 j2 = cellScore (withMatrix A m) p i2 j2
      ∧ cellPrev (withMatrix A m3) p i2 j2 = cellPrev (withMatrix A m) p i2 j2 :=
    fun p hp => hag p i2 j2 hp (by omega) (by omega) (by omega) (by omega)
  unfold CellOK
  rw [(c _ hG).1, (c _ hG).2, (c _ hI).1, (c _ hI).2, (c _ hD).1, (c _ hD).2,
    sameColumn_agree hag _ hG i2 3 j2 hk (by omega) hs,
    sameColumn_agree hag _ hG i2 2 j2 hk (by omega) hs,
    sameColumn_agree hag _ hG i2 1 j2 hk (by omega) hs,
    sameColumn_agree hag _ hI i2 3 j2 hk (by omega) hs,
    prevColumn_agree hag _ hG i2 j2 hk hle, prevColumn_agree hag _ hD i2 j2 hk hle,
    prevColumnAt_agree hag _ hG i2 1 j2 hk hle, prevColumnAt_agree hag _ hG i2 2 j2 hk hle,
    prevColumnAt_agree hag _ hG i2 3 j2 hk hle, prevColumnAt_agree hag _ hD i2 1 j2 hk hle,
    prevColumnAt_agree hag _ hD i2 2 j2 hk hle]
  exact Iff.rfl

/-! ## The sweep invariant -/

theorem getD_set_same (l : List Int) (k : Nat) (v : Int) (h : k < l.length) :
    (l.set k v).getD k 0 = v := by
  simp [List.getElem?_set, h]

theorem getD_set_other (l : List Int) (k k2 : Nat) (v : Int) (h : k ≠ k2) :
    (l.set k v).getD k2 0 = l.getD k2 0 := by
  simp [List.getElem?_set, h]

theorem sameColumn_succ_one (B : Alignment) (p : tScoreType) (i j : Nat) :
    sameColumn B p (i + 1) 1 j = cellScore B p i j := by
  unfold sameColumn
  rw [if_pos (by omega)]
  have e : (((i + 1 : Nat) : Int) - ((1 : Nat) : Int)) = (i : Int) := by omega
  rw [e]

theorem sameColumn_succ (B : Alignment) (p : tScoreType) (i d j : Nat) :
    sameColumn B p (i + 1) (d + 1) j = sameColumn B p i d j := by
  unfold sameColumn
  have e : (((i + 1 : Nat) : Int) - ((d + 1 : Nat) : Int)) = (i : Int) - (d : Int) := by omega
  rw [e]
  by_cases h : d ≤ i
  · rw [if_pos (by omega), if_pos h]
  · rw [if_neg (by omega), if_neg h]

theorem calcScore_boundary (A : Alignment) (i j : Int) (h : i = 0 ∨ j = 0)
    (g11 g21 g31 i00 d00 d11 d21 : Int) :
    calcScore A i j g11 g21 g31 i00 d00 d11 d21 = (0, getMatrixIndex A GENERAL i j) := by
  unfold calcScore
  rw [if_pos h]

theorem negInf_le_zero : negInf ≤ 0 := by unfold negInf; omega


theorem calcExtInsScore_withMatrix (A : Alignment) (m : List Int)
    (i j g30 i30 g20 g10 : Int) :
    calcExtInsScore (withMatrix A m) i j g30 i30 g20 g10
      = calcExtInsScore A i j g30 i30 g20 g10 := rfl

theorem calcDelScore_withMatrix (A : Alignment) (m : List Int)
    (i j g01 g11 g21 d01 d11 : Int) :
    calcDelScore (withMatrix A m) i j g01 g11 g21 d01 d11
      = calcDelScore A i j g01 g11 g21 d01 d11 := rfl

theorem calcScore_withMatrix (A : Alignment) (m : List Int)
    (i j g11 g21 g31 i00 d00 d11 d21 : Int) :
    calcScore (withMatrix A m) i j g11 g21 g31 i00 d00 d11 d21
      = calcScore A i j g11 g21 g31 i00 d00 d11 d21 := rfl

/-- The state after one iteration, in terms of the three computed pairs. -/
theorem sweepCell_eq (j : Nat) (st : SweepState) (i : Nat) (x y z : Int × Int)
    (B1 B2 B3 : Alignment)
    (hx : calcExtInsScore st.self i j st.gScore30 st.iScore30 st.gScore20 st.gScore10 = x)
    (h1 : setCachedScore st.self INS i j x.1 x.2 = B1)
    (hy : calcDelScore B1 i j (st.gScores.getD i 0)
      (if i > 0 then st.gScores.getD (i - 1) 0 else negInf)
      (if i > 1 then st.gScores.getD (i - 2) 0 else negInf) (st.dScores.getD i 0)
      (if i > 0 then st.dScores.getD (i - 1) 0 else negInf) = y)
    (h2 : setCachedScore B1 DEL i j y.1 y.2 = B2)
    (hz : calcScore B2 i j (if i > 0 then st.gScores.getD (i - 1) 0 else negInf)
      (if i > 1 then st.gScores.getD (i - 2) 0 else negInf)
      (if i > 2 then st.gScores.getD (i - 3) 0 else negInf) x.1 y.1
      (if i > 0 then st.dScores.getD (i - 1) 0 else negInf)
      (if i > 1 then st.dScores.getD (i - 2) 0 else negInf) = z)
    (h3 : setCachedScore B2 GENERAL i j z.1 z.2 = B3) :
    sweepCell j st i =
      { self := B3
        maxScore := if z.1 ≥ st.maxScore then z.1 else st.maxScore
        maxScorePosN := if z.1 ≥ st.maxScore then (i : Int) else st.maxScorePosN
        maxScorePosA := if z.1 ≥ st.maxScore then (j : Int) else st.maxScorePosA
        gScores := st.gScores
        dScores := st.dScores
        gScoresCur := st.gScoresCur.set i z.1
        dScoresCur := st.dScoresCur.set i y.1
        gScore30 := st.gScore20
        gScore20 := st.gScore10
        gScore10 := z.1
        iScore30 := st.iScore20
        iScore20 := st.iScore10
        iScore10 := x.1 } := by
  subst hx h1 hy h2 hz h3
  simp only [sweepCell, decide_eq_true_eq]

/-- One iteration of the inner loop keeps the invariant. -/
theorem sweepCell_inv (A : Alignment) (n a j i : Nat) (st : SweepState)
    (hn : A.nSeqLen = n) (ha : A.aSeqLen = a) (hi : i ≤ n) (hj : j ≤ a)
    (inv : SweepInv A n a j i st) : SweepInv A n a j (i + 1) (sweepCell j st i) := by
  have hG : GENERAL = GENERAL ∨ GENERAL = INS ∨ GENERAL = DEL := Or.inl rfl
  have hI : INS = GENERAL ∨ INS = INS ∨ INS = DEL := Or.inr (Or.inl rfl)
  have hD : DEL = GENERAL ∨ DEL = INS ∨ DEL = DEL := Or.inr (Or.inr rfl)
  obtain ⟨self, mx, mxN, mxA, gS, dS, gC, dC, g3, g2, g1, i3, i2, i1⟩ := st
  obtain ⟨m, hm⟩ := inv.self_eq
  simp only at hm
  subst hm
  have hlen : (m.length : Int) = typedPosLen A := inv.len
  generalize hx : calcExtInsScore A i j g3 i3 g2 g1 = x
  generalize hy : calcDelScore A i j (gS.getD i 0) (if i > 0 then gS.getD (i - 1) 0 else negInf)
      (if i > 1 then gS.getD (i - 2) 0 else negInf) (dS.getD i 0)
      (if i > 0 then dS.getD (i - 1) 0 else negInf) = y
  generalize hz : calcScore A i j (if i > 0 then gS.getD (i - 1) 0 else negInf)
      (if i > 1 then gS.getD (i - 2) 0 else negInf)
      (if i > 2 then gS.getD (i - 3) 0 else negInf) x.1 y.1
      (if i > 0 then dS.getD (i - 1) 0 else negInf)
      (if i > 1 then dS.getD (i - 2) 0 else negInf) = z
  obtain ⟨m3, e3, l3, cI, cD, cG, fr⟩ := three_writes A m n a i j hn ha hi hj hlen x y z
  have hst := sweepCell_eq j ⟨withMatrix A m, mx, mxN, mxA, gS, dS, gC, dC, g3, g2, g1, i3, i2, i1⟩
    i x y z _ _ _ hx rfl hy rfl hz rfl
  rw [e3] at hst
  rw [hst]
  clear hst e3
  -- the rolling values are the stored neighbours
  have pG := inv.prevG
  have pD := inv.prevD
  simp only at pG pD
  have g11 : (if i > 0 then gS.getD (i - 1) 0 else negInf)
      = prevColumnAt (withMatrix A m) GENERAL i 1 j := by
    unfold prevColumnAt
    by_cases h : 1 ≤ i
    · rw [if_pos (by omega), if_pos h]; exact pG _ (by omega)
    · rw [if_neg (by omega), if_neg h]
  have g21 : (if i > 1 then gS.getD (i - 2) 0 else negInf)
      = prevColumnAt (withMatrix A m) GENERAL i 2 j := by
    unfold prevColumnAt
    by_cases h : 2 ≤ i
    · rw [if_pos (by omega), if_pos h]; exact pG _ (by omega)
    · rw [if_neg (by omega), if_neg h]
  have g31 : (if i > 2 then gS.getD (i - 3) 0 else negInf)
      = prevColumnAt (withMatrix A m) GENERAL i 3 j := by
    unfold prevColumnAt
    by_cases h : 3 ≤ i
    · rw [if_pos (by omega), if_pos h]; exact pG _ (by omega)
    · rw [if_neg (by omega), if_neg h]
  have d11 : (if i > 0 then dS.getD (i - 1) 0 else negInf)
      = prevColumnAt (withMatrix A m) DEL i 1 j := by
    unfold prevColumnAt
    by_cases h : 1 ≤ i
    · rw [if_pos (by omega), if_pos h]; exact pD _ (by omega)
    · rw [if_neg (by omega), if_neg h]
  have d21 : (if i > 1 then dS.getD (i - 2) 0 else negInf)
      = prevColumnAt (withMatrix A m) DEL i 2 j := by
    unfold prevColumnAt
    by_cases h : 2 ≤ i
    · rw [if_pos (by omega), if_pos h]; exact pD _ (by omega)
    · rw [if_neg (by omega), if_neg h]
  rw [g11, g21, g31, d11, d21] at hz
  rw [g11, g21, d11, pG i hi, pD i hi] at hy
  have h10 := inv.g10
  have h20 := inv.g20
  have h30 := inv.g30
  have k10 := inv.i10
  have k20 := inv.i20
  have k30 := inv.i30
  simp only at h10 h20 h30 k10 k20 k30
  rw [h10, h20, h30, k30] at hx
  -- agreement on the cells already visited
  have hag : AgreeBefore (withMatrix A m) (withMatrix A m3) n j i := by
    intro p i2 j2 hp h0 h1 h2 hb
    exact fr p i2 j2 ⟨hp, by omega, by omega⟩ (by omega)
  have sI : cellScore (withMatrix A m3) INS i j = x.1 := congrArg Prod.fst cI
  have sD : cellScore (withMatrix A m3) DEL i j = y.1 := congrArg Prod.fst cD
  have sG : cellScore (withMatrix A m3) GENERAL i j = z.1 := congrArg Prod.fst cG
  have qI : cellPrev (withMatrix A m3) INS i j = x.2 := congrArg Prod.snd cI
  have qD : cellPrev (withMatrix A m3) DEL i j = y.2 := congrArg Prod.snd cD
  have hcell : CellOK (withMatrix A m3) i j := by
    unfold CellOK
    rw [sameColumn_agree hag _ hG i 3 j hi (by omega) (by omega),
      sameColumn_agree hag _ hG i 2 j hi (by omega) (by omega),
      sameColumn_agree hag _ hG i 1 j hi (by omega) (by omega),
      sameColumn_agree hag _ hI i 3 j hi (by omega) (by omega),
      prevColumn_agree hag _ hG i j hi (le_refl _), prevColumn_agree hag _ hD i j hi (le_refl _),
      prevColumnAt_agree hag _ hG i 1 j hi (le_refl _),
      prevColumnAt_agree hag _ hG i 2 j hi (le_refl _),
      prevColumnAt_agree hag _ hG i 3 j hi (le_refl _),
      prevColumnAt_agree hag _ hD i 1 j hi (le_refl _),
      prevColumnAt_agree hag _ hD i 2 j hi (le_refl _),
      calcExtInsScore_withMatrix, calcDelScore_withMatrix, calcScore_withMatrix,
      sI, sD, hx, hy, hz]
    exact ⟨Prod.ext rfl qI, Prod.ext rfl qD, cG⟩
  have hbef : ∀ i2 j2 : Nat, Before j (i + 1) j2 i2 → Before j i j2 i2 ∨ (i2 = i ∧ j2 = j) := by
    intro i2 j2 hb
    have hb2 : j2 < j ∨ (j2 = j ∧ i2 < i + 1) := hb
    by_cases h : i2 = i ∧ j2 = j
    · exact Or.inr h
    · left
      show j2 < j ∨ (j2 = j ∧ i2 < i)
      omega
  have frG : ∀ i2 j2 : Nat, i2 ≤ n → Before j i j2 i2 →
      cellScore (withMatrix A m3) GENERAL i2 j2 = cellScore (withMatrix A m) GENERAL i2 j2 := by
    intro i2 j2 h1 hb
    have hb2 : j2 < j ∨ (j2 = j ∧ i2 < i) := hb
    exact (hag GENERAL i2 j2 hG (by omega) (by omega) (by omega) (by omega)).1
  refine
    { self_eq := ⟨m3, rfl⟩
      len := l3
      lenGC := by simp only [List.length_set]; exact inv.lenGC
      lenDC := by simp only [List.length_set]; exact inv.lenDC
      lenG := inv.lenG
      lenD := inv.lenD
      prevG := ?_, prevD := ?_, curG := ?_, curD := ?_
      g10 := ?_, g20 := ?_, g30 := ?_, i10 := ?_, i20 := ?_, i30 := ?_
      cells := ?_, maxInit := ?_, maxLe := ?_, maxLast := ?_, maxAt := ?_ }
  · intro k hk
    show gS.getD k 0 = _
    rw [pG k hk, prevColumn_agree hag _ hG k j hk (le_refl _)]
  · intro k hk
    show dS.getD k 0 = _
    rw [pD k hk, prevColumn_agree hag _ hD k j hk (le_refl _)]
  · intro k hk
    show (gC.set i z.1).getD k 0 = cellScore (withMatrix A m3) GENERAL k j
    by_cases h : k = i
    · subst h
      rw [getD_set_same _ _ _ (by have := inv.lenGC; simp only at this; omega), sG]
    · rw [getD_set_other _ _ _ _ (by omega)]
      have := inv.curG k (by omega)
      simp only at this
      rw [this]
      exact (hag GENERAL k j hG (by omega) (by omega) (by omega) (by omega)).1.symm
  · intro k hk
    show (dC.set i y.1).getD k 0 = cellScore (withMatrix A m3) DEL k j
    by_cases h : k = i
    · subst h
      rw [getD_set_same _ _ _ (by have := inv.lenDC; simp only at this; omega), sD]
    · rw [getD_set_other _ _ _ _ (by omega)]
      have := inv.curD k (by omega)
      simp only at this
      rw [this]
      exact (hag DEL k j hD (by omega) (by omega) (by omega) (by omega)).1.symm
  · show z.1 = _
    rw [sameColumn_succ_one, sG]
  · show g1 = _
    rw [sameColumn_succ, sameColumn_agree hag _ hG i 1 j hi (by omega) (by omega), h10]
  · show g2 = _
    rw [sameColumn_succ, sameColumn_agree hag _ hG i 2 j hi (by omega) (by omega), h20]
  · show x.1 = _
    rw [sameColumn_succ_one, sI]
  · show i1 = _
    rw [sameColumn_succ, sameColumn_agree hag _ hI i 1 j hi (by omega) (by omega), k10]
  · show i2 = _
    rw [sameColumn_succ, sameColumn_agree hag _ hI i 2 j hi (by omega) (by omega), k20]
  · intro i2 j2 h1 hb
    show CellOK (withMatrix A m3) i2 j2
    rcases hbef i2 j2 hb with h | ⟨rfl, rfl⟩
    · exact (cellOK_agree A m m3 hag i2 j2 h1 h).2 (inv.cells i2 j2 h1 h)
    · exact hcell
  · intro h0 h1
    omega
  · intro i2 j2 h1 hb
    show cellScore (withMatrix A m3) GENERAL i2 j2 ≤ (if z.1 ≥ mx then z.1 else mx)
    rcases hbef i2 j2 hb with h | ⟨rfl, rfl⟩
    · rw [frG i2 j2 h1 h]
      have := inv.maxLe i2 j2 h1 h
      simp only at this
      split <;> omega
    · rw [sG]
      split <;> omega
  · intro i2 j2 h1 hb
    show cellScore (withMatrix A m3) GENERAL i2 j2 = (if z.1 ≥ mx then z.1 else mx) →
      (j2 : Int) < (if z.1 ≥ mx then (j : Int) else mxA)
        ∨ ((j2 : Int) = (if z.1 ≥ mx then (j : Int) else mxA)
          ∧ (i2 : Int) ≤ (if z.1 ≥ mx then (i : Int) else mxN))
    have hb2 : j2 < j ∨ (j2 = j ∧ i2 < i + 1) := hb
    by_cases hc : z.1 ≥ mx
    · simp only [if_pos hc]
      intro _
      omega
    · simp only [if_neg hc]
      intro he
      rcases hbef i2 j2 hb with h | ⟨rfl, rfl⟩
      · rw [frG i2 j2 h1 h] at he
        exact inv.maxLast i2 j2 h1 h he
      · rw [sG] at he
        omega
  · intro _
    show ∃ i2 j2, i2 ≤ n ∧ Before j (i + 1) j2 i2 ∧
      (if z.1 ≥ mx then (i : Int) else mxN) = i2 ∧ (if z.1 ≥ mx then (j : Int) else mxA) = j2 ∧
      cellScore (withMatrix A m3) GENERAL i2 j2 = (if z.1 ≥ mx then z.1 else mx)
    by_cases hc : z.1 ≥ mx
    · simp only [if_pos hc]
      exact ⟨i, j, hi, Or.inr ⟨rfl, by omega⟩, rfl, rfl, sG⟩
    · simp only [if_neg hc]
      have hpos : 0 < j ∨ 0 < i := by
        by_contra hcon
        have hj0 : j = 0 := by omega
        have hi0 : i = 0 := by omega
        have hmx := inv.maxInit hj0 hi0
        simp only at hmx
        subst hi0
        rw [← hz, calcScore_boundary A _ _ (Or.inl (by simp))] at hc
        have := negInf_le_zero
        simp only at hc
        omega
      obtain ⟨i2, j2, h1, hb, e1, e2, e3⟩ := inv.maxAt hpos
      refine ⟨i2, j2, h1, ?_, e1, e2, ?_⟩
      · have hb2 : j2 < j ∨ (j2 = j ∧ i2 < i) := hb
        show j2 < j ∨ (j2 = j ∧ i2 < i + 1)
        omega
      · rw [frG i2 j2 h1 hb]
        exact e3

theorem sameColumn_zero (B : Alignment) (p : tScoreType) (d j : Nat) (hd : 1 ≤ d) :
    sameColumn B p 0 d j = negInf := by
  unfold sameColumn
  rw [if_neg (by omega)]

/-- The inner loop keeps the invariant. -/
theorem sweepRows_inv (A : Alignment) (n a j : Nat) (st : SweepState)
    (hn : A.nSeqLen = n) (ha : A.aSeqLen = a) (hj : j ≤ a)
    (inv : SweepInv A n a j 0 st) (i : Nat) (hi : i ≤ n + 1) :
    SweepInv A n a j i ((List.range i).foldl (sweepCell j) st) := by
  induction i with
  | zero => exact inv
  | succ k ih =>
    rw [List.range_succ, List.foldl_append]
    exact sweepCell_inv A n a j k _ hn ha (by omega) hj (ih (by omega))

/-- From the end of column `j` to the head of column `j + 1`. -/
theorem sweepSwap_inv (A : Alignment) (n a j : Nat) (st : SweepState)
    (inv : SweepInv A n a j (n + 1) st) :
    SweepInv A n a (j + 1) 0 (sweepReset (sweepSwap st)) := by
  have hbef : ∀ i2 j2 : Nat, i2 ≤ n → Before (j + 1) 0 j2 i2 → Before j (n + 1) j2 i2 := by
    intro i2 j2 h1 hb
    have hb2 : j2 < j + 1 ∨ (j2 = j + 1 ∧ i2 < 0) := hb
    show j2 < j ∨ (j2 = j ∧ i2 < n + 1)
    omega
  have hprev : ∀ (p : tScoreType) (k : Nat),
      prevColumn st.self p k (j + 1) = cellScore st.self p k j := by
    intro p k
    unfold prevColumn
    rw [if_neg (by omega)]
    have e : (((j + 1 : Nat) : Int) - 1) = (j : Int) := by omega
    rw [e]
  refine
    { self_eq := inv.self_eq
      len := inv.len
      lenGC := inv.lenG
      lenDC := inv.lenD
      lenG := inv.lenGC
      lenD := inv.lenDC
      prevG := ?_, prevD := ?_, curG := ?_, curD := ?_
      g10 := (sameColumn_zero _ _ _ _ (by omega)).symm
      g20 := (sameColumn_zero _ _ _ _ (by omega)).symm
      g30 := (sameColumn_zero _ _ _ _ (by omega)).symm
      i10 := (sameColumn_zero _ _ _ _ (by omega)).symm
      i20 := (sameColumn_zero _ _ _ _ (by omega)).symm
      i30 := (sameColumn_zero _ _ _ _ (by omega)).symm
      cells := fun i2 j2 h1 hb => inv.cells i2 j2 h1 (hbef i2 j2 h1 hb)
      maxInit := fun h => by omega
      maxLe := fun i2 j2 h1 hb => inv.maxLe i2 j2 h1 (hbef i2 j2 h1 hb)
      maxLast := fun i2 j2 h1 hb => inv.maxLast i2 j2 h1 (hbef i2 j2 h1 hb)
      maxAt := ?_ }
  · intro k hk
    show st.gScoresCur.getD k 0 = prevColumn st.self GENERAL k (j + 1)
    rw [hprev]
    exact inv.curG k (by omega)
  · intro k hk
    show st.dScoresCur.getD k 0 = prevColumn st.self DEL k (j + 1)
    rw [hprev]
    exact inv.curD k (by omega)
  · intro k hk
    omega
  · intro k hk
    omega
  · intro _
    obtain ⟨i2, j2, h1, hb, e⟩ := inv.maxAt (Or.inr (by omega))
    refine ⟨i2, j2, h1, ?_, e⟩
    have hb2 : j2 < j ∨ (j2 = j ∧ i2 < n + 1) := hb
    show j2 < j + 1 ∨ (j2 = j + 1 ∧ i2 < 0)
    omega

/-- The outer loop body keeps the invariant. -/
theorem sweepColumn_inv (A : Alignment) (n a j : Nat) (st : SweepState)
    (hn : A.nSeqLen = n) (ha : A.aSeqLen = a) (hj : j ≤ a)
    (inv : SweepInv A n a j 0 (sweepReset st)) :
    SweepInv A n a (j + 1) 0 (sweepReset (sweepColumn st j)) := by
  have hlen : st.self.nSeqLen.toNat = n := by
    obtain ⟨m, hm⟩ := inv.self_eq
    have : st.self = withMatrix A m := hm
    rw [this]
    show A.nSeqLen.toNat = n
    omega
  unfold sweepColumn
  rw [hlen]
  exact sweepSwap_inv A n a j _ (sweepRows_inv A n a j _ hn ha hj inv (n + 1) (le_refl _))

/-- The invariant holds on entry to the outer loop. -/
theorem sweepInit_inv (A : Alignment) (n a : Nat)
    (hn : A.nSeqLen = n)
    (hlen : (A.scoreMatrix.length : Int) = typedPosLen A) :
    SweepInv A n a 0 0 (sweepReset (sweepInit A)) := by
  have hrep : (List.replicate (A.nSeqLen + 1).toNat (0 : Int)).length = n + 1 := by
    rw [List.length_replicate]; omega
  have hget : ∀ k, (List.replicate (A.nSeqLen + 1).toNat (0 : Int)).getD k 0 = 0 := by
    intro k
    rw [List.getD_eq_getElem?_getD, List.getElem?_replicate]
    split <;> rfl
  have hb : ∀ i2 j2 : Nat, ¬ Before 0 0 j2 i2 := by
    intro i2 j2 h
    have : j2 < 0 ∨ (j2 = 0 ∧ i2 < 0) := h
    omega
  refine
    { self_eq := ⟨A.scoreMatrix, rfl⟩
      len := hlen
      lenGC := hrep, lenDC := hrep, lenG := hrep, lenD := hrep
      prevG := fun k _ => hget k
      prevD := fun k _ => hget k
      curG := fun k hk => by omega
      curD := fun k hk => by omega
      g10 := (sameColumn_zero _ _ _ _ (by omega)).symm
      g20 := (sameColumn_zero _ _ _ _ (by omega)).symm
      g30 := (sameColumn_zero _ _ _ _ (by omega)).symm
      i10 := (sameColumn_zero _ _ _ _ (by omega)).symm
      i20 := (sameColumn_zero _ _ _ _ (by omega)).symm
      i30 := (sameColumn_zero _ _ _ _ (by omega)).symm
      cells := fun i2 j2 _ h => absurd h (hb i2 j2)
      maxInit := fun _ _ => rfl
      maxLe := fun i2 j2 _ h => absurd h (hb i2 j2)
      maxLast := fun i2 j2 _ h => absurd h (hb i2 j2)
      maxAt := fun h => by omega }

/-- The invariant after the columns `0 .. j-1`. -/
theorem sweepColumns_inv (A : Alignment) (n a : Nat)
    (hn : A.nSeqLen = n) (ha : A.aSeqLen = a)
    (hlen : (A.scoreMatrix.length : Int) = typedPosLen A) (j : Nat) (hj : j ≤ a + 1) :
    SweepInv A n a j 0 (sweepReset ((List.range j).foldl sweepColumn (sweepInit A))) := by
  induction j with
  | zero => exact sweepInit_inv A n a hn hlen
  | succ k ih =>
    rw [List.range_succ, List.foldl_append]
    exact sweepColumn_inv A n a k _ hn ha (by omega) (ih (by omega))

/-- The invariant at the end of `calcScoreMain`. -/
theorem sweep_inv (A : Alignment) (n a : Nat)
    (hn : A.nSeqLen = n) (ha : A.aSeqLen = a)
    (hlen : (A.scoreMatrix.length : Int) = typedPosLen A) :
    SweepInv A n a (a + 1) 0 (sweepReset (sweep A)) := by
  have h := sweepColumns_inv A n a hn ha hlen (a + 1) (le_refl _)
  have e : A.aSeqLen.toNat = a := by omega
  unfold sweep
  rw [e]
  exact h

/-! ## Machine additions -/

theorem wrap_wrap_add (x y : Int) : wrap (wrap x + y) = wrap (x + y) := by
  unfold wrap; omega

theorem negInf_le_wrap (x : Int) : negInf ≤ wrap x := by
  unfold wrap negInf; omega

theorem wrap_lt (x : Int) : wrap x < 9223372036854775808 := by
  unfold wrap; omega

/-- Inside the range of `int` the reduction is the identity: without overflow
the machine sum is the integer sum. -/
theorem wrap_of_inRange (x : Int) (h0 : negInf ≤ x) (h1 : x < 9223372036854775808) :
    wrap x = x := by
  unfold wrap; unfold negInf at h0; omega

theorem iadd_wrap (x y : Int) : iadd (wrap x) y = wrap (x + y) := by
  unfold iadd; rw [wrap_wrap_add]

theorem iadd2 (a b c : Int) : iadd (iadd a b) c = wrap (a + b + c) := by
  rw [show iadd a b = wrap (a + b) from rfl, iadd_wrap]

theorem iadd3 (a b c d : Int) : iadd (iadd (iadd a b) c) d = wrap (a + b + c + d) := by
  unfold iadd wrap; omega

theorem iadd4 (a b c d e : Int) :
    iadd (iadd (iadd (iadd a b) c) d) e = wrap (a + b + c + d + e) := by
  unfold iadd wrap; omega

theorem iadd5 (a b c d e f : Int) :
    iadd (iadd (iadd (iadd (iadd a b) c) d) e) f = wrap (a + b + c + d + e + f) := by
  unfold iadd wrap; omega

theorem iadd6 (a b c d e f g : Int) :
    iadd (iadd (iadd (iadd (iadd (iadd a b) c) d) e) f) g
      = wrap (a + b + c + d + e + f + g) := by
  unfold iadd wrap; omega

/-! ## Compare-and-replace runs -/

theorem scanState_init : ScanState (negInf, 0) [] :=
  ⟨fun _ h => absurd h (List.not_mem_nil _), Or.inr ⟨rfl, rfl⟩⟩

theorem scanState_takeIfGreater (s : Int × Int) (l : List Int) (c idx : Int)
    (h : ScanState s l) (hc : l = [] → negInf ≤ c) :
    ScanState (takeIfGreater s c idx) (c :: l) := by
  obtain ⟨h1, h2⟩ := h
  unfold takeIfGreater
  split
  · next hgt =>
    refine ⟨?_, Or.inl (List.mem_cons_self _ _)⟩
    intro d hd
    rcases List.mem_cons.1 hd with rfl | hd
    · exact le_refl _
    · have := h1 d hd
      show d ≤ c
      omega
  · next hgt =>
    constructor
    · intro d hd
      rcases List.mem_cons.1 hd with rfl | hd
      · omega
      · exact h1 d hd
    · rcases h2 with h2 | h2
      · exact Or.inl (List.mem_cons_of_mem _ h2)
      · left
        have := hc h2.2
        have : c = s.1 := by omega
        rw [← this]
        exact List.mem_cons_self _ _

theorem scanState_takeIfGreaterEq (s : Int × Int) (l : List Int) (c idx : Int)
    (h : ScanState s l) (hc : l = [] → negInf ≤ c) :
    ScanState (takeIfGreaterEq s c idx) (c :: l) := by
  obtain ⟨h1, h2⟩ := h
  unfold takeIfGreaterEq
  split
  · next hgt =>
    refine ⟨?_, Or.inl (List.mem_cons_self _ _)⟩
    intro d hd
    rcases List.mem_cons.1 hd with rfl | hd
    · exact le_refl _
    · have := h1 d hd
      show d ≤ c
      omega
  · next hgt =>
    constructor
    · intro d hd
      rcases List.mem_cons.1 hd with rfl | hd
      · omega
      · exact h1 d hd
    · rcases h2 with h2 | h2
      · exact Or.inl (List.mem_cons_of_mem _ h2)
      · have := hc h2.2
        omega

theorem isMaxOf_of_scanState (s : Int × Int) (l l2 : List Int) (h : ScanState s l)
    (hne : l ≠ []) (hmem : ∀ c, c ∈ l2 ↔ c ∈ l) : IsMaxOf s.1 l2 := by
  obtain ⟨h1, h2⟩ := h
  constructor
  · rcases h2 with h2 | h2
    · exact (hmem _).2 h2
    · exact absurd h2.2 hne
  · intro c hc
    exact h1 c ((hmem c).1 hc)

/-- The score `calcScore` returns away from the boundary is the maximum of its
eight candidates (each under its guard). -/
theorem calcScore_isMax (self : Alignment) (posN posA : Int) (hN : 1 ≤ posN) (hA : 1 ≤ posA)
    (g11 g21 g31 i00 d00 d11 d21 : Int) :
    IsMaxOf (calcScore self posN posA g11 g21 g31 i00 d00 d11 d21).1
      ([wrap (g11 + self.scoreHandler.GetSubstitutionScore posA NucleicAcid.N NucleicAcid.N
            (getNA self posN) (getAA self posA) + self.q + 2 * self.r)]
        ++ (if posN > 1 then [wrap (g21 + self.scoreHandler.GetSubstitutionScore posA
            (getNA self (posN - 1)) NucleicAcid.N (getNA self posN) (getAA self posA)
            + self.q + self.r)] else [])
        ++ (if posN > 1 then [wrap (g21 + self.scoreHandler.GetSubstitutionScore posA
            NucleicAcid.N (getNA self (posN - 1)) (getNA self posN) (getAA self posA)
            + self.q + self.r)] else [])
        ++ (if posN > 2 then [wrap (g31 + self.scoreHandler.GetSubstitutionScore posA
            (getNA self (posN - 2)) (getNA self (posN - 1)) (getNA self posN)
            (getAA self posA))] else [])
        ++ (if posN > 1 then [wrap (d11 + self.scoreHandler.GetSubstitutionScore posA
            NucleicAcid.N NucleicAcid.N (getNA self posN) (getAA self posA) + 2 * self.r)]
            else [])
        ++ (if posN > 2 then [wrap (d21 + self.scoreHandler.GetSubstitutionScore posA
            NucleicAcid.N (getNA self (posN - 1)) (getNA self posN) (getAA self posA)
            + self.r)] else [])
        ++ [i00, d00]) := by
  unfold calcScore
  rw [if_neg (by omega)]
  dsimp only
  generalize self.scoreHandler.GetSubstitutionScore posA NucleicAcid.N NucleicAcid.N
    (getNA self posN) (getAA self posA) = mNN0
  generalize self.scoreHandler.GetSubstitutionScore posA (getNA self (posN - 1)) NucleicAcid.N
    (getNA self posN) (getAA self posA) = m1N0
  generalize self.scoreHandler.GetSubstitutionScore posA NucleicAcid.N (getNA self (posN - 1))
    (getNA self posN) (getAA self posA) = mN10
  generalize self.scoreHandler.GetSubstitutionScore posA (getNA self (posN - 2))
    (getNA self (posN - 1)) (getNA self posN) (getAA self posA) = m210
  generalize self.q = q
  generalize self.r = r
  have E1 : iadd (iadd (iadd (iadd g11 mNN0) q) r) r = wrap (g11 + mNN0 + q + 2 * r) := by
    rw [iadd4]; congr 1; ring
  have E2 : iadd (iadd (iadd g21 m1N0) q) r = wrap (g21 + m1N0 + q + r) := iadd3 _ _ _ _
  have E3 : iadd (iadd (iadd g21 mN10) q) r = wrap (g21 + mN10 + q + r) := iadd3 _ _ _ _
  have E4 : iadd g31 m210 = wrap (g31 + m210) := rfl
  have E5 : iadd (iadd (iadd d11 mNN0) r) r = wrap (d11 + mNN0 + 2 * r) := by
    rw [iadd3]; congr 1; ring
  have E6 : iadd (iadd d21 mN10) r = wrap (d21 + mN10 + r) := iadd2 _ _ _
  rw [E1, E2, E3, E4, E5, E6]
  have cn : ∀ {c : Int} {l : List Int} {x : Int}, c :: l = [] → negInf ≤ x :=
    fun h => absurd h (List.cons_ne_nil _ _)
  by_cases h1 : posN > 1
  · by_cases h2 : posN > 2
    · simp only [if_pos h1, if_pos h2]
      refine isMaxOf_of_scanState _ _ _
        (scanState_takeIfGreaterEq _ _ _ _ (scanState_takeIfGreaterEq _ _ _ _
          (scanState_takeIfGreaterEq _ _ _ _ (scanState_takeIfGreater _ _ _ _
            (scanState_takeIfGreaterEq _ _ _ _ (scanState_takeIfGreater _ _ _ _
              (scanState_takeIfGreater _ _ _ _ (scanState_takeIfGreater _ _ _ _
                scanState_init (fun _ => negInf_le_wrap _)) cn) cn) cn) cn) cn) cn) cn)
        (List.cons_ne_nil _ _) ?_
      intro c
      simp only [List.mem_append, List.mem_cons, List.mem_singleton, List.not_mem_nil, or_false]
      tauto
    · simp only [if_pos h1, if_neg h2]
      refine isMaxOf_of_scanState _ _ _
        (scanState_takeIfGreaterEq _ _ _ _ (scanState_takeIfGreaterEq _ _ _ _
          (scanState_takeIfGreaterEq _ _ _ _ (scanState_takeIfGreater _ _ _ _
            (scanState_takeIfGreater _ _ _ _ (scanState_takeIfGreater _ _ _ _
              scanState_init (fun _ => negInf_le_wrap _)) cn) cn) cn) cn) cn)
        (List.cons_ne_nil _ _) ?_
      intro c
      simp only [List.mem_append, List.mem_cons, List.mem_singleton, List.not_mem_nil, or_false]
      tauto
  · have h2 : ¬ posN > 2 := by omega
    simp only [if_neg h1, if_neg h2]
    refine isMaxOf_of_scanState _ _ _
      (scanState_takeIfGreaterEq _ _ _ _ (scanState_takeIfGreaterEq _ _ _ _
        (scanState_takeIfGreater _ _ _ _
          scanState_init (fun _ => negInf_le_wrap _)) cn) cn)
      (List.cons_ne_nil _ _) ?_
    intro c
    simp only [List.mem_append, List.mem_cons, List.mem_singleton, List.not_mem_nil, or_false]
    tauto

/-! ## Which candidate a run of compare-and-replace statements keeps -/

theorem firstMax_init : FirstMax (negInf, 0) [] :=
  ⟨fun _ h => absurd h (List.not_mem_nil _), le_refl _, Or.inl rfl⟩

theorem firstMax_step (s : Int × Int) (l : List (Int × Int)) (c k : Int)
    (h : FirstMax s l) (hc : negInf ≤ c) :
    FirstMax (takeIfGreater s c k) (l ++ [(c, k)]) := by
  obtain ⟨h1, h2, h3⟩ := h
  unfold takeIfGreater
  split
  · next hgt =>
    refine ⟨?_, by show negInf ≤ c; exact hc, Or.inr ⟨by show negInf < c; omega, ?_⟩⟩
    · intro d hd
      rcases List.mem_append.1 hd with hd | hd
      · have := h1 d hd
        exact ⟨by show d.1 ≤ c; omega, this.2⟩
      · rw [List.mem_singleton] at hd
        subst hd
        exact ⟨le_refl _, hc⟩
    · rw [List.find?_append]
      have hnone : l.find? (fun d => decide (d.1 = c)) = none := by
        rw [List.find?_eq_none]
        intro d hd
        have := h1 d hd
        simp only [decide_eq_true_eq]
        omega
      show ((l.find? (fun d => decide (d.1 = c))).or _) = _
      rw [hnone]
      simp
  · next hgt =>
    refine ⟨?_, h2, ?_⟩
    · intro d hd
      rcases List.mem_append.1 hd with hd | hd
      · exact h1 d hd
      · rw [List.mem_singleton] at hd
        subst hd
        exact ⟨by show c ≤ s.1; omega, hc⟩
    · rcases h3 with h3 | ⟨h3, h4⟩
      · exact Or.inl h3
      · right
        refine ⟨h3, ?_⟩
        rw [List.find?_append, h4]
        rfl

theorem firstMax_isMax (s : Int × Int) (l : List (Int × Int)) (h : FirstMax s l)
    (hne : l ≠ []) : IsMaxOf s.1 (l.map Prod.fst) := by
  obtain ⟨h1, h2, h3⟩ := h
  constructor
  · rcases h3 with h3 | ⟨_, h4⟩
    · obtain ⟨c, hc⟩ := List.exists_mem_of_ne_nil l hne
      have := h1 c hc
      have e : c.1 = s.1 := by rw [h3] at this ⊢; simp only at this ⊢; omega
      rw [← e]
      exact List.mem_map_of_mem _ hc
    · exact List.mem_map_of_mem _ (List.mem_of_find?_eq_some h4)
  · intro c hc
    obtain ⟨d, hd, rfl⟩ := List.mem_map.1 hc
    exact (h1 d hd).1

theorem prevState_init (L : List Int) : PrevState (negInf, 0) L :=
  ⟨le_refl _, Or.inl rfl⟩

theorem prevState_gt (s : Int × Int) (L : List Int) (c k : Int) (h : PrevState s L) :
    PrevState (takeIfGreater s c k) (k :: L) := by
  obtain ⟨h1, h2⟩ := h
  unfold takeIfGreater
  split
  · next hgt => exact ⟨by show negInf ≤ c; omega, Or.inr (List.mem_cons_self _ _)⟩
  · exact ⟨h1, h2.imp id (List.mem_cons_of_mem _)⟩

theorem prevState_ge (s : Int × Int) (L : List Int) (c k : Int) (h : PrevState s L) :
    PrevState (takeIfGreaterEq s c k) (k :: L) := by
  obtain ⟨h1, h2⟩ := h
  unfold takeIfGreaterEq
  split
  · next hgt => exact ⟨by show negInf ≤ c; omega, Or.inr (List.mem_cons_self _ _)⟩
  · exact ⟨h1, h2.imp id (List.mem_cons_of_mem _)⟩

theorem picked_of_ge (s : Int × Int) (L : List Int) (c k : Int) (h : PrevState s L)
    (hc : negInf ≤ c) : Picked (takeIfGreaterEq s c k) (k :: L) := by
  obtain ⟨h1, h2⟩ := h
  unfold takeIfGreaterEq
  split
  · next hgt => exact ⟨hc, List.mem_cons_self _ _⟩
  · next hgt =>
    rcases h2 with h2 | h2
    · rw [h2] at hgt
      simp only at hgt
      omega
    · exact ⟨h1, List.mem_cons_of_mem _ h2⟩

theorem picked_gt (s : Int × Int) (L : List Int) (c k : Int) (h : Picked s L) :
    Picked (takeIfGreater s c k) (k :: L) := by
  obtain ⟨h1, h2⟩ := h
  unfold takeIfGreater
  split
  · next hgt => exact ⟨by show negInf ≤ c; omega, List.mem_cons_self _ _⟩
  · exact ⟨h1, List.mem_cons_of_mem _ h2⟩

theorem picked_ge (s : Int × Int) (L : List Int) (c k : Int) (h : Picked s L) :
    Picked (takeIfGreaterEq s c k) (k :: L) := by
  obtain ⟨h1, h2⟩ := h
  unfold takeIfGreaterEq
  split
  · next hgt => exact ⟨by show negInf ≤ c; omega, List.mem_cons_self _ _⟩
  · exact ⟨h1, List.mem_cons_of_mem _ h2⟩

/-! ## The kernel procedures as runs of compare-and-replace statements -/

/-- Away from the boundary `calcScore` keeps the index of one of its candidate
predecessors, provided the INS score it is handed is an `int`. -/
theorem calcScore_picked (self : Alignment) (posN posA : Int) (hN : 1 ≤ posN) (hA : 1 ≤ posA)
    (g11 g21 g31 i00 d00 d11 d21 : Int) (hi : negInf ≤ i00) :
    Picked (calcScore self posN posA g11 g21 g31 i00 d00 d11 d21)
      ([getMatrixIndex self DEL posN posA, getMatrixIndex self INS posN posA,
        getMatrixIndex self GENERAL (posN - 1) (posA - 1)]
        ++ (if posN > 1 then [getMatrixIndex self GENERAL (posN - 2) (posA - 1),
              getMatrixIndex self DEL (posN - 1) (posA - 1)] else [])
        ++ (if posN > 2 then [getMatrixIndex self GENERAL (posN - 3) (posA - 1),
              getMatrixIndex self DEL (posN - 2) (posA - 1)] else [])) := by
  unfold calcScore
  rw [if_neg (by omega)]
  dsimp only
  have mono : ∀ (s : Int × Int) (L L2 : List Int), Picked s L → (∀ k ∈ L, k ∈ L2) →
      Picked s L2 := fun s L L2 h hm => ⟨h.1, hm _ h.2⟩
  by_cases h1 : posN > 1
  · by_cases h2 : posN > 2
    · simp only [if_pos h1, if_pos h2]
      refine mono _ _ _
        (picked_ge _ _ _ _ (picked_ge _ _ _ _ (picked_ge _ _ _ _ (picked_gt _ _ _ _
          (picked_of_ge _ _ _ _ (prevState_gt _ _ _ _ (prevState_gt _ _ _ _
            (prevState_gt _ _ _ _ (prevState_init [])))) (negInf_le_wrap _)))))) ?_
      intro k hk
      simp only [List.mem_append, List.mem_cons, List.mem_singleton, List.not_mem_nil,
        or_false] at hk ⊢
      tauto
    · simp only [if_pos h1, if_neg h2]
      refine mono _ _ _
        (picked_ge _ _ _ _ (picked_ge _ _ _ _
          (picked_of_ge _ _ _ _ (prevState_gt _ _ _ _ (prevState_gt _ _ _ _
            (prevState_gt _ _ _ _ (prevState_init [])))) (negInf_le_wrap _)))) ?_
      intro k hk
      simp only [List.mem_append, List.mem_cons, List.mem_singleton, List.not_mem_nil,
        or_false] at hk ⊢
      tauto
  · have h2 : ¬ posN > 2 := by omega
    simp only [if_neg h1, if_neg h2]
    refine mono _ _ _
      (picked_ge _ _ _ _ (picked_of_ge _ _ _ _
        (prevState_gt _ _ _ _ (prevState_init [])) hi)) ?_
    intro k hk
    simp only [List.mem_append, List.mem_cons, List.mem_singleton, List.not_mem_nil,
      or_false] at hk ⊢
    tauto

theorem calcDelScore_boundary (self : Alignment) (posN posA : Int) (hN : 0 < posN)
    (hA : posA = 0) (g01 g11 g21 d01 d11 : Int) :
    calcDelScore self posN posA g01 g11 g21 d01 d11
      = (self.q, getMatrixIndex self GENERAL 0 0) := by
  unfold calcDelScore
  rw [if_pos ⟨hN, hA⟩]

theorem calcDelScore_row_zero (self : Alignment) (posA : Int) (g01 g11 g21 d01 d11 : Int) :
    calcDelScore self 0 posA g01 g11 g21 d01 d11 = (negInf, 0) := by
  unfold calcDelScore
  rw [if_neg (by omega), if_neg (by omega)]

/-- The score `calcDelScore` returns away from the boundary is the maximum of
its six candidates (the last two under the guard `posN > 1`); the split
deletion and the candidate from `DEL(i-1, j-1)` use `mutScoreN0N`, the score of
the codon `(N, curNA, N)`. -/
theorem calcDelScore_isMax (self : Alignment) (posN posA : Int) (hN : 1 ≤ posN)
    (hA : 1 ≤ posA) (g01 g11 g21 d01 d11 : Int) :
    IsMaxOf (calcDelScore self posN posA g01 g11 g21 d01 d11).1
      ([wrap (d01 + 3 * self.r + (indelCodonScore self posA false).2),
        wrap (g01 + self.q + 3 * self.r + (indelCodonScore self posA false).1
          + (indelCodonScore self posA false).2),
        wrap (g11 + self.scoreHandler.GetSubstitutionScore posA (getNA self posN)
          NucleicAcid.N NucleicAcid.N (getAA self posA) + self.q + 2 * self.r),
        wrap (g11 + self.scoreHandler.GetSubstitutionScore posA NucleicAcid.N
          (getNA self posN) NucleicAcid.N (getAA self posA) + 2 * (self.q + self.r))]
        ++ (if posN > 1 then
            [wrap (d11 + self.scoreHandler.GetSubstitutionScore posA NucleicAcid.N
              (getNA self posN) NucleicAcid.N (getAA self posA) + self.q + 2 * self.r),
             wrap (g21 + self.scoreHandler.GetSubstitutionScore posA (getNA self (posN - 1))
              (getNA self posN) NucleicAcid.N (getAA self posA) + self.q + self.r)]
          else [])) := by
  unfold calcDelScore
  rw [if_neg (by omega), if_pos (by omega)]
  dsimp only
  generalize self.scoreHandler.GetSubstitutionScore posA NucleicAcid.N (getNA self posN)
    NucleicAcid.N (getAA self posA) = mN0N
  generalize self.scoreHandler.GetSubstitutionScore posA (getNA self posN) NucleicAcid.N
    NucleicAcid.N (getAA self posA) = m0NN
  generalize self.scoreHandler.GetSubstitutionScore posA (getNA self (posN - 1))
    (getNA self posN) NucleicAcid.N (getAA self posA) = m10N
  generalize (indelCodonScore self posA false).1 = o
  generalize (indelCodonScore self posA false).2 = e
  generalize self.q = q
  generalize self.r = r
  have E1 : iadd (iadd (iadd (iadd d01 r) r) r) e = wrap (d01 + 3 * r + e) := by
    rw [iadd4]; congr 1; ring
  have E2 : iadd (iadd (iadd (iadd (iadd (iadd g01 q) r) r) r) o) e
      = wrap (g01 + q + 3 * r + o + e) := by
    rw [iadd6]; congr 1; ring
  have E3 : iadd (iadd (iadd (iadd g11 m0NN) q) r) r = wrap (g11 + m0NN + q + 2 * r) := by
    rw [iadd4]; congr 1; ring
  have E4 : iadd (iadd (iadd (iadd (iadd g11 mN0N) q) r) q) r
      = wrap (g11 + mN0N + 2 * (q + r)) := by
    rw [iadd5]; congr 1; ring
  have E5 : iadd (iadd (iadd (iadd d11 mN0N) q) r) r = wrap (d11 + mN0N + q + 2 * r) := by
    rw [iadd4]; congr 1; ring
  have E6 : iadd (iadd (iadd g21 m10N) q) r = wrap (g21 + m10N + q + r) := iadd3 _ _ _ _
  rw [E1, E2, E3, E4, E5, E6]
  have cn : ∀ {c : Int} {l : List Int} {x : Int}, c :: l = [] → negInf ≤ x :=
    fun h => absurd h (List.cons_ne_nil _ _)
  by_cases h1 : posN > 1
  · simp only [if_pos h1]
    refine isMaxOf_of_scanState _ _ _
      (scanState_takeIfGreaterEq _ _ _ _ (scanState_takeIfGreaterEq _ _ _ _
        (scanState_takeIfGreater _ _ _ _ (scanState_takeIfGreater _ _ _ _
          (scanState_takeIfGreater _ _ _ _ (scanState_takeIfGreaterEq _ _ _ _
            scanState_init (fun _ => negInf_le_wrap _)) cn) cn) cn) cn) cn)
      (List.cons_ne_nil _ _) ?_
    intro c
    simp only [List.mem_append, List.mem_cons, List.mem_singleton, List.not_mem_nil, or_false]
    tauto
  · simp only [if_neg h1]
    refine isMaxOf_of_scanState _ _ _
      (scanState_takeIfGreater _ _ _ _ (scanState_takeIfGreater _ _ _ _
          (scanState_takeIfGreater _ _ _ _ (scanState_takeIfGreaterEq _ _ _ _
            scanState_init (fun _ => negInf_le_wrap _)) cn) cn) cn)
      (List.cons_ne_nil _ _) ?_
    intro c
    simp only [List.mem_append, List.mem_cons, List.mem_singleton, List.not_mem_nil, or_false]
    tauto

/-- Away from the boundary `calcDelScore` keeps the index of one of its
candidate predecessors. -/
theorem calcDelScore_picked (self : Alignment) (posN posA : Int) (hN : 1 ≤ posN)
    (hA : 1 ≤ posA) (g01 g11 g21 d01 d11 : Int) :
    Picked (calcDelScore self posN posA g01 g11 g21 d01 d11)
      ([getMatrixIndex self GENERAL (posN - 1) (posA - 1),
        getMatrixIndex self GENERAL posN (posA - 1), getMatrixIndex self DEL posN (posA - 1)]
        ++ (if posN > 1 then [getMatrixIndex self GENERAL (posN - 2) (posA - 1),
              getMatrixIndex self DEL (posN - 1) (posA - 1)] else [])) := by
  unfold calcDelScore
  rw [if_neg (by omega), if_pos (by omega)]
  dsimp only
  have mono : ∀ (s : Int × Int) (L L2 : List Int), Picked s L → (∀ k ∈ L, k ∈ L2) →
      Picked s L2 := fun s L L2 h hm => ⟨h.1, hm _ h.2⟩
  by_cases h1 : posN > 1
  · simp only [if_pos h1]
    refine mono _ _ _
      (picked_ge _ _ _ _ (picked_ge _ _ _ _ (picked_gt _ _ _ _ (picked_gt _ _ _ _
        (picked_gt _ _ _ _ (picked_of_ge _ _ _ _ (prevState_init [])
          (negInf_le_wrap _))))))) ?_
    intro k hk
    simp only [List.mem_append, List.mem_cons, List.mem_singleton, List.not_mem_nil,
      or_false] at hk ⊢
    tauto
  · simp only [if_neg h1]
    refine mono _ _ _
      (picked_gt _ _ _ _ (picked_gt _ _ _ _
        (picked_gt _ _ _ _ (picked_of_ge _ _ _ _ (prevState_init [])
          (negInf_le_wrap _))))) ?_
    intro k hk
    simp only [List.mem_append, List.mem_cons, List.mem_singleton, List.not_mem_nil,
      or_false] at hk ⊢
    tauto

theorem calcExtInsScore_boundary (self : Alignment) (posN posA : Int) (hN : posN = 0)
    (hA : 0 < posA) (g30 i30 g20 g10 : Int) :
    calcExtInsScore self posN posA g30 i30 g20 g10
      = (self.q, getMatrixIndex self GENERAL 0 0) := by
  unfold calcExtInsScore
  rw [if_pos ⟨hN, hA⟩]

/-- From row 1 on `calcExtInsScore` keeps the first of its candidates (in the
order of the spec) that attains their maximum. -/
theorem calcExtInsScore_firstMax (self : Alignment) (posN posA : Int) (hN : 1 ≤ posN)
    (g30 i30 g20 g10 : Int) :
    FirstMax (calcExtInsScore self posN posA g30 i30 g20 g10)
      ((if posN > 3 then
          [(wrap (i30 + 3 * self.r + (indelCodonScore self posA true).2),
              getMatrixIndex self INS (posN - 3) posA),
           (wrap (g30 + self.q + 3 * self.r + (indelCodonScore self posA true).1
              + (indelCodonScore self posA true).2),
              getMatrixIndex self GENERAL (posN - 3) posA)]
        else [])
        ++ (if posN > 2 then
            [(wrap (g20 + self.q + 2 * self.r), getMatrixIndex self GENERAL (posN - 2) posA)]
          else [])
        ++ [(wrap (g10 + self.q + self.r), getMatrixIndex self GENERAL (posN - 1) posA)]) := by
  unfold calcExtInsScore
  rw [if_neg (by omega)]
  dsimp only
  generalize (indelCodonScore self posA true).1 = o
  generalize (indelCodonScore self posA true).2 = e
  generalize self.q = q
  generalize self.r = r
  have E1 : iadd (iadd (iadd (iadd i30 r) r) r) e = wrap (i30 + 3 * r + e) := by
    rw [iadd4]; congr 1; ring
  have E2 : iadd (iadd (iadd (iadd (iadd (iadd g30 q) r) r) r) o) e
      = wrap (g30 + q + 3 * r + o + e) := by
    rw [iadd6]; congr 1; ring
  have E3 : iadd (iadd (iadd g20 q) r) r = wrap (g20 + q + 2 * r) := by
    rw [iadd3]; congr 1; ring
  have E4 : iadd (iadd g10 q) r = wrap (g10 + q + r) := iadd2 _ _ _
  rw [E1, E2, E3, E4]
  by_cases h1 : posN > 2
  · by_cases h2 : posN > 3
    · simp only [if_pos h1, if_pos h2]
      exact firstMax_step _ _ _ _ (firstMax_step _ _ _ _ (firstMax_step _ _ _ _
        (firstMax_step _ _ _ _ firstMax_init (negInf_le_wrap _)) (negInf_le_wrap _))
        (negInf_le_wrap _)) (negInf_le_wrap _)
    · simp only [if_pos h1, if_neg h2]
      exact firstMax_step _ _ _ _ (firstMax_step _ _ _ _ firstMax_init (negInf_le_wrap _))
        (negInf_le_wrap _)
  · have h2 : ¬ posN > 3 := by omega
    simp only [if_neg h1, if_neg h2]
    exact firstMax_step _ _ _ _ firstMax_init (negInf_le_wrap _)

/-! ## C5: order of the GENERAL candidates -/

theorem takeIf_swap (s : Int × Int) (c4 k4 c5 k5 : Int) :
    takeIfGreater (takeIfGreaterEq s c5 k5) c4 k4
      = takeIfGreaterEq (takeIfGreater s c4 k4) c5 k5 := by
  unfold takeIfGreater takeIfGreaterEq
  by_cases h1 : c5 ≥ s.1 <;> by_cases h2 : c4 > s.1 <;> by_cases h3 : c4 > c5
    <;> by_cases h4 : c5 ≥ c4 <;> simp [h1, h2, h3, h4] <;> omega

/-- C5 (candidate order): for every position and all input scores, the pair
`(score, prevIndex)` that `calcScore` returns (it evaluates the `DEL(i-1, j-1)`
candidate before the full-codon candidate) equals the pair obtained by
evaluating the eight candidates in the order the spec lists them, candidates
1-4 replacing the incumbent only when strictly greater and candidates 5-8 when
greater or equal. -/
theorem calcScore_eq_specOrder (self : Alignment) (posN posA : Int)
    (gScore11 gScore21 gScore31 iScore00 dScore00 dScore11 dScore21 : Int) :
    calcScore self posN posA gScore11 gScore21 gScore31 iScore00 dScore00 dScore11 dScore21
      = calcScoreSpecOrder self posN posA gScore11 gScore21 gScore31 iScore00 dScore00
          dScore11 dScore21 := by
  unfold calcScore calcScoreSpecOrder
  by_cases h0 : posN = 0 ∨ posA = 0
  · rw [if_pos h0, if_pos h0]
  · rw [if_neg h0, if_neg h0]
    dsimp only
    by_cases h1 : posN > 1
    · by_cases h2 : posN > 2
      · simp only [if_pos h1, if_pos h2, takeIf_swap]
      · simp only [if_pos h1, if_neg h2]
    · have h2 : ¬ posN > 2 := by omega
      simp only [if_neg h1, if_neg h2]

/-! ## The filled matrix -/

theorem NewAlignment_eq (nSeq : List NucleicAcid) (aSeq : List AminoAcid) (sh : ScoreHandler) :
    NewAlignment nSeq aSeq sh
      = withMax (sweep (allocAlignment nSeq aSeq sh)).self
          (sweep (allocAlignment nSeq aSeq sh)).maxScorePosN
          (sweep (allocAlignment nSeq aSeq sh)).maxScorePosA
          (sweep (allocAlignment nSeq aSeq sh)).maxScore := rfl

theorem cellScore_withMax (B : Alignment) (x y z p i j : Int) :
    cellScore (withMax B x y z) p i j = cellScore B p i j := rfl

theorem cellPrev_withMax (B : Alignment) (x y z p i j : Int) :
    cellPrev (withMax B x y z) p i j = cellPrev B p i j := rfl

theorem cellOK_withMax (B : Alignment) (x y z : Int) (i j : Nat) :
    CellOK (withMax B x y z) i j ↔ CellOK B i j := Iff.rfl

theorem allocAlignment_len (nSeq : List NucleicAcid) (aSeq : List AminoAcid)
    (sh : ScoreHandler) :
    ((allocAlignment nSeq aSeq sh).scoreMatrix.length : Int)
      = typedPosLen (allocAlignment nSeq aSeq sh) := by
  show ((List.replicate _ (0 : Int)).length : Int) = _
  rw [List.length_replicate]
  unfold typedPosLen scoreTypeCount
  show ((3 * ((nSeq.length : Int) + 1) * ((aSeq.length : Int) + 1) * 2).toNat : Int)
    = 3 * ((nSeq.length : Int) + 1) * ((aSeq.length : Int) + 1) * 2
  have : 0 ≤ 3 * ((nSeq.length : Int) + 1) * ((aSeq.length : Int) + 1) * 2 := by positivity
  omega

/-- The invariant at the end of the sweep `NewAlignment` runs. -/
theorem fill_inv (nSeq : List NucleicAcid) (aSeq : List AminoAcid) (sh : ScoreHandler) :
    SweepInv (allocAlignment nSeq aSeq sh) nSeq.length aSeq.length (aSeq.length + 1) 0
      (sweepReset (sweep (allocAlignment nSeq aSeq sh))) :=
  sweep_inv _ _ _ rfl rfl (allocAlignment_len nSeq aSeq sh)

theorem before_last (a i j : Nat) (hj : j ≤ a) : Before (a + 1) 0 j i := by
  show j < a + 1 ∨ (j = a + 1 ∧ i < 0)
  omega

/-- Every cell of the matrix `NewAlignment` returns holds what the kernel
computes from its stored neighbours. -/
theorem NewAlignment_cellOK (nSeq : List NucleicAcid) (aSeq : List AminoAcid)
    (sh : ScoreHandler) (i j : Nat) (hi : i ≤ nSeq.length) (hj : j ≤ aSeq.length) :
    CellOK (NewAlignment nSeq aSeq sh) i j := by
  rw [NewAlignment_eq, cellOK_withMax]
  exact (fill_inv nSeq aSeq sh).cells i j hi (before_last _ _ _ hj)

theorem NewAlignment_static (nSeq : List NucleicAcid) (aSeq : List AminoAcid)
    (sh : ScoreHandler) :
    ∃ m, NewAlignment nSeq aSeq sh
      = withMax (withMatrix (allocAlignment nSeq aSeq sh) m)
          (NewAlignment nSeq aSeq sh).maxScorePosN (NewAlignment nSeq aSeq sh).maxScorePosA
          (NewAlignment nSeq aSeq sh).maxScore := by
  obtain ⟨m, hm⟩ := (fill_inv nSeq aSeq sh).self_eq
  refine ⟨m, ?_⟩
  have hm2 : (sweep (allocAlignment nSeq aSeq sh)).self
      = withMatrix (allocAlignment nSeq aSeq sh) m := hm
  rw [NewAlignment_eq, hm2]
  rfl

theorem NewAlignment_nSeqLen (nSeq : List NucleicAcid) (aSeq : List AminoAcid)
    (sh : ScoreHandler) : (NewAlignment nSeq aSeq sh).nSeqLen = nSeq.length := by
  obtain ⟨m, hm⟩ := NewAlignment_static nSeq aSeq sh
  rw [hm]; rfl

theorem NewAlignment_aSeqLen (nSeq : List NucleicAcid) (aSeq : List AminoAcid)
    (sh : ScoreHandler) : (NewAlignment nSeq aSeq sh).aSeqLen = aSeq.length := by
  obtain ⟨m, hm⟩ := NewAlignment_static nSeq aSeq sh
  rw [hm]; rfl

theorem NewAlignment_len (nSeq : List NucleicAcid) (aSeq : List AminoAcid)
    (sh : ScoreHandler) :
    ((NewAlignment nSeq aSeq sh).scoreMatrix.length : Int)
      = typedPosLen (NewAlignment nSeq aSeq sh) := by
  have h := (fill_inv nSeq aSeq sh).len
  obtain ⟨m, hm⟩ := (fill_inv nSeq aSeq sh).self_eq
  have hm2 : (sweep (allocAlignment nSeq aSeq sh)).self
      = withMatrix (allocAlignment nSeq aSeq sh) m := hm
  rw [NewAlignment_eq]
  show (((sweep (allocAlignment nSeq aSeq sh)).self.scoreMatrix.length : Int))
    = typedPosLen (sweep (allocAlignment nSeq aSeq sh)).self
  rw [hm2]
  have h2 : ((sweep (allocAlignment nSeq aSeq sh)).self.scoreMatrix.length : Int)
    = typedPosLen (allocAlignment nSeq aSeq sh) := h
  rw [hm2] at h2
  exact h2

/-! ## C1: the recorded maximum -/

/-- C1 (argmax correctness): after `NewAlignment` has run `calcScoreMain` on any
`nSeq`, `aSeq` and score handler, `maxScore` is the stored GENERAL score of the
cell `(maxScorePosN, maxScorePosA)`, which lies in the matrix; no stored GENERAL
score of a cell `0 <= i <= nLen`, `0 <= j <= aLen` exceeds it; and every cell
whose stored GENERAL score equals it is visited by the sweep no later than
`(maxScorePosN, maxScorePosA)` (smaller `j`, or the same `j` and `i` not larger). -/
theorem calcScoreMain_argmax (nSeq : List NucleicAcid) (aSeq : List AminoAcid)
    (sh : ScoreHandler) :
    (∃ i j : Nat, i ≤ nSeq.length ∧ j ≤ aSeq.length
        ∧ (NewAlignment nSeq aSeq sh).maxScorePosN = i
        ∧ (NewAlignment nSeq aSeq sh).maxScorePosA = j
        ∧ cellScore (NewAlignment nSeq aSeq sh) GENERAL i j
            = (NewAlignment nSeq aSeq sh).maxScore)
    ∧ (∀ i j : Nat, i ≤ nSeq.length → j ≤ aSeq.length →
        cellScore (NewAlignment nSeq aSeq sh) GENERAL i j
          ≤ (NewAlignment nSeq aSeq sh).maxScore)
    ∧ (∀ i j : Nat, i ≤ nSeq.length → j ≤ aSeq.length →
        cellScore (NewAlignment nSeq aSeq sh) GENERAL i j
          = (NewAlignment nSeq aSeq sh).maxScore →
        (j : Int) < (NewAlignment nSeq aSeq sh).maxScorePosA
          ∨ ((j : Int) = (NewAlignment nSeq aSeq sh).maxScorePosA
              ∧ (i : Int) ≤ (NewAlignment nSeq aSeq sh).maxScorePosN)) := by
  have inv := fill_inv nSeq aSeq sh
  rw [NewAlignment_eq]
  refine ⟨?_, ?_, ?_⟩
  · obtain ⟨i, j, hi, hb, e1, e2, e3⟩ := inv.maxAt (Or.inl (by omega))
    have hb2 : j < aSeq.length + 1 ∨ (j = aSeq.length + 1 ∧ i < 0) := hb
    exact ⟨i, j, hi, by omega, e1, e2, e3⟩
  · intro i j hi hj
    exact inv.maxLe i j hi (before_last _ _ _ hj)
  · intro i j hi hj he
    exact inv.maxLast i j hi (before_last _ _ _ hj) he

/-! ## C2: the GENERAL cells -/

theorem prevColumn_eq (B : Alignment) (p : tScoreType) (k j : Nat) (hj : 1 ≤ j) :
    prevColumn B p k j = cellScore B p k ((j : Int) - 1) := by
  unfold prevColumn
  rw [if_neg (by omega)]

theorem prevColumnAt_eq (B : Alignment) (p : tScoreType) (i d j : Nat) (dI : Int)
    (hdI : dI = d) (hd : d ≤ i) (hj : 1 ≤ j) :
    prevColumnAt B p i d j = cellScore B p ((i : Int) - dI) ((j : Int) - 1) := by
  unfold prevColumnAt
  rw [if_pos hd, prevColumn_eq B p _ j hj]
  have e : ((i - d : Nat) : Int) = (i : Int) - dI := by omega
  rw [e]

theorem sameColumn_eq (B : Alignment) (p : tScoreType) (i d j : Nat) (dI : Int)
    (hdI : dI = d) (hd : d ≤ i) :
    sameColumn B p i d j = cellScore B p ((i : Int) - dI) j := by
  unfold sameColumn
  rw [if_pos hd, hdI]

theorem cellOK_general_isMax (B : Alignment) (i j : Nat) (hc : CellOK B i j)
    (h1 : 1 ≤ i) (h2 : 1 ≤ j) :
    IsMaxOf (cellScore B GENERAL i j) (generalCandidates B i j) := by
  have hs := congrArg Prod.fst hc.2.2
  simp only at hs
  rw [hs]
  have hm := calcScore_isMax B i j (by omega) (by omega)
    (prevColumnAt B GENERAL i 1 j) (prevColumnAt B GENERAL i 2 j)
    (prevColumnAt B GENERAL i 3 j) (cellScore B INS i j) (cellScore B DEL i j)
    (prevColumnAt B DEL i 1 j) (prevColumnAt B DEL i 2 j)
  unfold generalCandidates
  dsimp only
  by_cases g1 : i > 1
  · have g1I : (i : Int) > 1 := by omega
    by_cases g2 : i > 2
    · have g2I : (i : Int) > 2 := by omega
      simp only [if_pos g1, if_pos g2, if_pos g1I, if_pos g2I,
        prevColumnAt_eq B _ i 1 j 1 rfl h1 h2, prevColumnAt_eq B _ i 2 j 2 rfl g1 h2,
        prevColumnAt_eq B _ i 3 j 3 rfl g2 h2] at hm ⊢
      exact hm
    · have g2I : ¬ (i : Int) > 2 := by omega
      simp only [if_pos g1, if_neg g2, if_pos g1I, if_neg g2I,
        prevColumnAt_eq B _ i 1 j 1 rfl h1 h2, prevColumnAt_eq B _ i 2 j 2 rfl g1 h2] at hm ⊢
      exact hm
  · have g1I : ¬ (i : Int) > 1 := by omega
    have g2 : ¬ i > 2 := by omega
    have g2I : ¬ (i : Int) > 2 := by omega
    simp only [if_neg g1, if_neg g2, if_neg g1I, if_neg g2I,
      prevColumnAt_eq B _ i 1 j 1 rfl h1 h2] at hm ⊢
    exact hm

/-- C2 (GENERAL recurrence on the stored matrix): after the fill, for every
`0 <= i <= nLen` and `0 <= j <= aLen` the cell `GENERAL(i, j)` holds score 0 and
its own flat index when `i = 0` or `j = 0`, and otherwise its score is the
maximum of the eight GENERAL candidates of the spec (each under its guard)
evaluated on the scores stored at `GENERAL(i-1,j-1)`, `GENERAL(i-2,j-1)`,
`GENERAL(i-3,j-1)`, `DEL(i-1,j-1)`, `DEL(i-2,j-1)`, `INS(i,j)` and `DEL(i,j)`:
the rolling arrays and scalars of `calcScoreMain` hand `calcScore` exactly
those stored values.  The sums are `int` sums (`wrap`), equal to the integer
sums when nothing overflows (`wrap_of_inRange`). -/
theorem general_cell_is_max (nSeq : List NucleicAcid) (aSeq : List AminoAcid)
    (sh : ScoreHandler) (i j : Nat) (hi : i ≤ nSeq.length) (hj : j ≤ aSeq.length) :
    ((i = 0 ∨ j = 0) →
        cellScore (NewAlignment nSeq aSeq sh) GENERAL i j = 0
        ∧ cellPrev (NewAlignment nSeq aSeq sh) GENERAL i j
            = getMatrixIndex (NewAlignment nSeq aSeq sh) GENERAL i j)
    ∧ (1 ≤ i → 1 ≤ j →
        IsMaxOf (cellScore (NewAlignment nSeq aSeq sh) GENERAL i j)
          (generalCandidates (NewAlignment nSeq aSeq sh) i j)) := by
  have hc := NewAlignment_cellOK nSeq aSeq sh i j hi hj
  generalize NewAlignment nSeq aSeq sh = B at hc ⊢
  constructor
  · intro h0
    have hg := hc.2.2
    rw [calcScore_boundary _ _ _ (by omega)] at hg
    exact ⟨congrArg Prod.fst hg, congrArg Prod.snd hg⟩
  · intro h1 h2
    exact cellOK_general_isMax B i j hc h1 h2

/-- Witness of C2 at `nSeq = ATG`, `aSeq = M`, cell `(3, 1)`. -/
theorem general_cell_is_max_witness :
    (3 ≤ [NucleicAcid.A, NucleicAcid.T, NucleicAcid.G].length ∧ 1 ≤ [AminoAcid.M].length)
    ∧ (((3 = 0 ∨ 1 = 0) →
        cellScore (NewAlignment [NucleicAcid.A, NucleicAcid.T, NucleicAcid.G] [AminoAcid.M]
          (scenarioHandler translate)) GENERAL (3 : Nat) (1 : Nat) = 0
        ∧ cellPrev (NewAlignment [NucleicAcid.A, NucleicAcid.T, NucleicAcid.G] [AminoAcid.M]
            (scenarioHandler translate)) GENERAL (3 : Nat) (1 : Nat)
            = getMatrixIndex (NewAlignment [NucleicAcid.A, NucleicAcid.T, NucleicAcid.G]
                [AminoAcid.M] (scenarioHandler translate)) GENERAL (3 : Nat) (1 : Nat))
      ∧ (1 ≤ 3 → 1 ≤ 1 →
        IsMaxOf (cellScore (NewAlignment [NucleicAcid.A, NucleicAcid.T, NucleicAcid.G]
            [AminoAcid.M] (scenarioHandler translate)) GENERAL (3 : Nat) (1 : Nat))
          (generalCandidates (NewAlignment [NucleicAcid.A, NucleicAcid.T, NucleicAcid.G]
            [AminoAcid.M] (scenarioHandler translate)) 3 1))) :=
  ⟨by decide, general_cell_is_max [NucleicAcid.A, NucleicAcid.T, NucleicAcid.G] [AminoAcid.M]
    (scenarioHandler translate) 3 1 (by decide) (by decide)⟩

/-! ## C3: the DEL cells -/

theorem cellOK_del_isMax (B : Alignment) (i j : Nat) (hc : CellOK B i j)
    (h1 : 1 ≤ i) (h2 : 1 ≤ j) :
    IsMaxOf (cellScore B DEL i j) (delCandidates B i j) := by
  have hs := congrArg Prod.fst hc.2.1
  simp only at hs
  rw [hs]
  have hm := calcDelScore_isMax B i j (by omega) (by omega)
    (prevColumn B GENERAL i j) (prevColumnAt B GENERAL i 1 j)
    (prevColumnAt B GENERAL i 2 j) (prevColumn B DEL i j) (prevColumnAt B DEL i 1 j)
  unfold delCandidates delCandidatesWith
  dsimp only
  by_cases g1 : i > 1
  · have g1I : (i : Int) > 1 := by omega
    simp only [if_pos g1, if_pos g1I, prevColumn_eq B _ i j h2,
      prevColumnAt_eq B _ i 1 j 1 rfl h1 h2, prevColumnAt_eq B _ i 2 j 2 rfl g1 h2] at hm ⊢
    exact hm
  · have g1I : ¬ (i : Int) > 1 := by omega
    simp only [if_neg g1, if_neg g1I, prevColumn_eq B _ i j h2,
      prevColumnAt_eq B _ i 1 j 1 rfl h1 h2] at hm ⊢
    exact hm

/-- C3, as amended: for every `i >= 1`, `j >= 1` and every score handler the
score stored at `DEL(i, j)` is the maximum of the six DEL candidates on the
stored scores, where the split-deletion candidate is
`GENERAL(i-1, j-1) + sub(j, N, curNA, N, curAA) + 2(q + r)` and the fifth
candidate (only if `i > 1`) is
`DEL(i-1, j-1) + sub(j, N, curNA, N, curAA) + q + 2r`: both use the
substitution score of the codon `(N, curNA, N)`; and for `i > 0`, `j = 0` the
stored DEL score is `q` with predecessor `GENERAL(0, 0)`.  The sums are `int`
sums. -/
theorem del_cell_is_max (nSeq : List NucleicAcid) (aSeq : List AminoAcid)
    (sh : ScoreHandler) (i j : Nat) (hi : i ≤ nSeq.length) (hj : j ≤ aSeq.length) :
    (1 ≤ i → j = 0 →
        cellScore (NewAlignment nSeq aSeq sh) DEL i j = (NewAlignment nSeq aSeq sh).q
        ∧ cellPrev (NewAlignment nSeq aSeq sh) DEL i j
            = getMatrixIndex (NewAlignment nSeq aSeq sh) GENERAL 0 0)
    ∧ (1 ≤ i → 1 ≤ j →
        IsMaxOf (cellScore (NewAlignment nSeq aSeq sh) DEL i j)
          (delCandidates (NewAlignment nSeq aSeq sh) i j)) := by
  have hc := NewAlignment_cellOK nSeq aSeq sh i j hi hj
  generalize NewAlignment nSeq aSeq sh = B at hc ⊢
  constructor
  · intro h1 h0
    have hd := hc.2.1
    rw [calcDelScore_boundary _ _ _ (by omega) (by omega)] at hd
    exact ⟨congrArg Prod.fst hd, congrArg Prod.snd hd⟩
  · intro h1 h2
    exact cellOK_del_isMax B i j hc h1 h2

/-- Witness of C3 (amended) at `nSeq = A`, `aSeq = M`, cell `(1, 1)`. -/
theorem del_cell_is_max_witness :
    (1 ≤ [NucleicAcid.A].length ∧ 1 ≤ [AminoAcid.M].length)
    ∧ ((1 ≤ 1 → 1 = 0 →
        cellScore (NewAlignment [NucleicAcid.A] [AminoAcid.M] middleHandler) DEL (1 : Nat)
            (1 : Nat) = (NewAlignment [NucleicAcid.A] [AminoAcid.M] middleHandler).q
        ∧ cellPrev (NewAlignment [NucleicAcid.A] [AminoAcid.M] middleHandler) DEL (1 : Nat)
            (1 : Nat)
            = getMatrixIndex (NewAlignment [NucleicAcid.A] [AminoAcid.M] middleHandler)
                GENERAL 0 0)
      ∧ (1 ≤ 1 → 1 ≤ 1 →
        IsMaxOf (cellScore (NewAlignment [NucleicAcid.A] [AminoAcid.M] middleHandler) DEL
            (1 : Nat) (1 : Nat))
          (delCandidates (NewAlignment [NucleicAcid.A] [AminoAcid.M] middleHandler) 1 1))) :=
  ⟨by decide, del_cell_is_max [NucleicAcid.A] [AminoAcid.M] middleHandler 1 1
    (by decide) (by decide)⟩

/-- C3 as stated fails: with `nSeq = A`, `aSeq = M` and a handler that scores
the codon `(N, A, N)` 100 and `(N, N, N)` 0, the score stored at `DEL(1, 1)` is
76 (the split deletion, `0 + 100 + 2(-10 - 2)`), while the candidates as the
spec words them are `-20, -26, -14, -24`, of which 76 is not the maximum. -/
theorem del_cell_spec_counterexample :
    cellScore (NewAlignment [NucleicAcid.A] [AminoAcid.M] middleHandler) DEL 1 1 = 76
    ∧ delCandidatesSpec (NewAlignment [NucleicAcid.A] [AminoAcid.M] middleHandler) 1 1
        = [-20, -26, -14, -24]
    ∧ ¬ IsMaxOf (cellScore (NewAlignment [NucleicAcid.A] [AminoAcid.M] middleHandler) DEL 1 1)
        (delCandidatesSpec (NewAlignment [NucleicAcid.A] [AminoAcid.M] middleHandler) 1 1) := by
  decide

/-! ## C4: the INS cells -/

theorem cellOK_ins_firstMax (B : Alignment) (i j : Nat) (hc : CellOK B i j) (h1 : 1 ≤ i) :
    FirstMax (cellScore B INS i j, cellPrev B INS i j) (insCandidates B i j) := by
  rw [hc.1]
  have hm := calcExtInsScore_firstMax B i j (by omega)
    (sameColumn B GENERAL i 3 j) (sameColumn B INS i 3 j)
    (sameColumn B GENERAL i 2 j) (sameColumn B GENERAL i 1 j)
  unfold insCandidates
  dsimp only
  by_cases g1 : i > 2
  · have g1I : (i : Int) > 2 := by omega
    by_cases g2 : i > 3
    · have g2I : (i : Int) > 3 := by omega
      simp only [if_pos g1, if_pos g2, if_pos g1I, if_pos g2I,
        sameColumn_eq B _ i 1 j 1 rfl h1, sameColumn_eq B _ i 2 j 2 rfl (by omega),
        sameColumn_eq B _ i 3 j 3 rfl (by omega)] at hm ⊢
      exact hm
    · have g2I : ¬ (i : Int) > 3 := by omega
      simp only [if_pos g1, if_neg g2, if_pos g1I, if_neg g2I,
        sameColumn_eq B _ i 1 j 1 rfl h1, sameColumn_eq B _ i 2 j 2 rfl (by omega)] at hm ⊢
      exact hm
  · have g1I : ¬ (i : Int) > 2 := by omega
    have g2 : ¬ i > 3 := by omega
    have g2I : ¬ (i : Int) > 3 := by omega
    simp only [if_neg g1, if_neg g2, if_neg g1I, if_neg g2I,
      sameColumn_eq B _ i 1 j 1 rfl h1] at hm ⊢
    exact hm

theorem insCandidates_ne_nil (B : Alignment) (i j : Nat) : insCandidates B i j ≠ [] := by
  unfold insCandidates
  simp

/-- C4, as amended: for `i = 0` and `j > 0` the stored `INS(0, j)` cell has
score `q` and predecessor `GENERAL(0, 0)`; for every `i >= 1` and every `j` the
score stored at `INS(i, j)` is the maximum of the applicable candidates
`INS(i-3,j) + 3r + E` (`i > 3`), `GENERAL(i-3,j) + q + 3r + O + E` (`i > 3`),
`GENERAL(i-2,j) + q + 2r` (`i > 2`) and `GENERAL(i-1,j) + q + r` on the stored
scores, and, provided that maximum is greater than `negInf`, the stored
prevIndex is the flat index of the first candidate in that order that attains
it.  The sums are `int` sums. -/
theorem ins_cell_first_max (nSeq : List NucleicAcid) (aSeq : List AminoAcid)
    (sh : ScoreHandler) (i j : Nat) (hi : i ≤ nSeq.length) (hj : j ≤ aSeq.length) :
    (i = 0 → 1 ≤ j →
        cellScore (NewAlignment nSeq aSeq sh) INS i j = (NewAlignment nSeq aSeq sh).q
        ∧ cellPrev (NewAlignment nSeq aSeq sh) INS i j
            = getMatrixIndex (NewAlignment nSeq aSeq sh) GENERAL 0 0)
    ∧ (1 ≤ i →
        IsMaxOf (cellScore (NewAlignment nSeq aSeq sh) INS i j)
          ((insCandidates (NewAlignment nSeq aSeq sh) i j).map Prod.fst)
        ∧ (negInf < cellScore (NewAlignment nSeq aSeq sh) INS i j →
            (insCandidates (NewAlignment nSeq aSeq sh) i j).find?
                (fun c => decide (c.1 = cellScore (NewAlignment nSeq aSeq sh) INS i j))
              = some (cellScore (NewAlignment nSeq aSeq sh) INS i j,
                  cellPrev (NewAlignment nSeq aSeq sh) INS i j))) := by
  have hc := NewAlignment_cellOK nSeq aSeq sh i j hi hj
  generalize NewAlignment nSeq aSeq sh = B at hc ⊢
  constructor
  · intro h0 h1
    have hd := hc.1
    rw [calcExtInsScore_boundary _ _ _ (by omega) (by omega)] at hd
    exact ⟨congrArg Prod.fst hd, congrArg Prod.snd hd⟩
  · intro h1
    have hf := cellOK_ins_firstMax B i j hc h1
    refine ⟨firstMax_isMax _ _ hf (insCandidates_ne_nil B i j), ?_⟩
    intro hgt
    rcases hf.2.2 with h | ⟨_, h⟩
    · have := congrArg Prod.fst h
      simp only at this
      omega
    · exact h

/-- Witness of C4 (amended) at `nSeq = ATG`, `aSeq = M`, cell `(2, 1)`. -/
theorem ins_cell_first_max_witness :
    (2 ≤ [NucleicAcid.A, NucleicAcid.T, NucleicAcid.G].length ∧ 1 ≤ [AminoAcid.M].length)
    ∧ (((2 : Nat) = 0 → 1 ≤ 1 →
        cellScore (NewAlignment [NucleicAcid.A, NucleicAcid.T, NucleicAcid.G] [AminoAcid.M]
          (scenarioHandler translate)) INS (2 : Nat) (1 : Nat)
          = (NewAlignment [NucleicAcid.A, NucleicAcid.T, NucleicAcid.G] [AminoAcid.M]
              (scenarioHandler translate)).q
        ∧ cellPrev (NewAlignment [NucleicAcid.A, NucleicAcid.T, NucleicAcid.G] [AminoAcid.M]
            (scenarioHandler translate)) INS (2 : Nat) (1 : Nat)
            = getMatrixIndex (NewAlignment [NucleicAcid.A, NucleicAcid.T, NucleicAcid.G]
                [AminoAcid.M] (scenarioHandler translate)) GENERAL 0 0)
      ∧ (1 ≤ 2 →
        IsMaxOf (cellScore (NewAlignment [NucleicAcid.A, NucleicAcid.T, NucleicAcid.G]
            [AminoAcid.M] (scenarioHandler translate)) INS (2 : Nat) (1 : Nat))
          ((insCandidates (NewAlignment [NucleicAcid.A, NucleicAcid.T, NucleicAcid.G]
            [AminoAcid.M] (scenarioHandler translate)) 2 1).map Prod.fst)
        ∧ (negInf < cellScore (NewAlignment [NucleicAcid.A, NucleicAcid.T, NucleicAcid.G]
              [AminoAcid.M] (scenarioHandler translate)) INS (2 : Nat) (1 : Nat) →
            (insCandidates (NewAlignment [NucleicAcid.A, NucleicAcid.T, NucleicAcid.G]
              [AminoAcid.M] (scenarioHandler translate)) 2 1).find?
                (fun c => decide (c.1 = cellScore (NewAlignment
                  [NucleicAcid.A, NucleicAcid.T, NucleicAcid.G] [AminoAcid.M]
                  (scenarioHandler translate)) INS (2 : Nat) (1 : Nat)))
              = some (cellScore (NewAlignment [NucleicAcid.A, NucleicAcid.T, NucleicAcid.G]
                    [AminoAcid.M] (scenarioHandler translate)) INS (2 : Nat) (1 : Nat),
                  cellPrev (NewAlignment [NucleicAcid.A, NucleicAcid.T, NucleicAcid.G]
                    [AminoAcid.M] (scenarioHandler translate)) INS (2 : Nat) (1 : Nat))))) :=
  ⟨by decide, ins_cell_first_max [NucleicAcid.A, NucleicAcid.T, NucleicAcid.G] [AminoAcid.M]
    (scenarioHandler translate) 2 1 (by decide) (by decide)⟩

/-- C4 as stated fails: with `nSeq = A`, `aSeq = M` and the negative penalties
`q = -(2^63 - 1)`, `r = -1`, the only candidate of `INS(1, 1)` is
`GENERAL(0, 1) + q + r = negInf`, which attains the maximum and whose cell has
flat index 2, yet the stored prevIndex is 0: a candidate equal to the sentinel
never replaces the initial pair. -/
theorem ins_cell_prev_counterexample :
    insCandidates (NewAlignment [NucleicAcid.A] [AminoAcid.M] sentinelHandler) 1 1
        = [(negInf, 2)]
    ∧ cellScore (NewAlignment [NucleicAcid.A] [AminoAcid.M] sentinelHandler) INS 1 1 = negInf
    ∧ cellPrev (NewAlignment [NucleicAcid.A] [AminoAcid.M] sentinelHandler) INS 1 1 = 0
    ∧ (insCandidates (NewAlignment [NucleicAcid.A] [AminoAcid.M] sentinelHandler) 1 1).find?
          (fun c => decide (c.1
            = cellScore (NewAlignment [NucleicAcid.A] [AminoAcid.M] sentinelHandler) INS 1 1))
        ≠ some (cellScore (NewAlignment [NucleicAcid.A] [AminoAcid.M] sentinelHandler) INS 1 1,
            cellPrev (NewAlignment [NucleicAcid.A] [AminoAcid.M] sentinelHandler) INS 1 1) := by
  decide

/-! ## C6 and C7: the index function -/

/-- Witness of C6 at `nLen = 3`, `aLen = 1`, cell `(INS, 2, 1)`. -/
theorem getTypedPos_getMatrixIndex_witness :
    (0 ≤ (allocAlignment [NucleicAcid.A, NucleicAcid.T, NucleicAcid.G] [AminoAcid.M]
          (scenarioHandler translate)).nSeqLen
      ∧ 0 ≤ (allocAlignment [NucleicAcid.A, NucleicAcid.T, NucleicAcid.G] [AminoAcid.M]
          (scenarioHandler translate)).aSeqLen
      ∧ (INS = GENERAL ∨ INS = INS ∨ INS = DEL)
      ∧ ((0 : Int) ≤ 2 ∧ 2 ≤ (allocAlignment [NucleicAcid.A, NucleicAcid.T, NucleicAcid.G]
          [AminoAcid.M] (scenarioHandler translate)).nSeqLen)
      ∧ ((0 : Int) ≤ 1 ∧ 1 ≤ (allocAlignment [NucleicAcid.A, NucleicAcid.T, NucleicAcid.G]
          [AminoAcid.M] (scenarioHandler translate)).aSeqLen))
    ∧ getTypedPos (allocAlignment [NucleicAcid.A, NucleicAcid.T, NucleicAcid.G] [AminoAcid.M]
          (scenarioHandler translate))
        (getMatrixIndex (allocAlignment [NucleicAcid.A, NucleicAcid.T, NucleicAcid.G]
          [AminoAcid.M] (scenarioHandler translate)) INS 2 1) = (INS, 2, 1) :=
  ⟨by decide,
    getTypedPos_getMatrixIndex (allocAlignment [NucleicAcid.A, NucleicAcid.T, NucleicAcid.G]
      [AminoAcid.M] (scenarioHandler translate)) INS 2 1 (by decide) (by decide)
      (by decide) (by decide) (by decide)⟩

theorem NewAlignment_validCell (nSeq : List NucleicAcid) (aSeq : List AminoAcid)
    (sh : ScoreHandler) (p : tScoreType) (i j : Int)
    (hp : p = GENERAL ∨ p = INS ∨ p = DEL)
    (hi : 0 ≤ i ∧ i ≤ nSeq.length) (hj : 0 ≤ j ∧ j ≤ aSeq.length) :
    ValidCell (NewAlignment nSeq aSeq sh) p i j := by
  refine ⟨hp, ?_, ?_⟩
  · rw [NewAlignment_nSeqLen]; exact hi
  · rw [NewAlignment_aSeqLen]; exact hj

/-- C7 (writes stay inside the buffer): for every plane `p` among GENERAL, INS,
DEL and every `0 <= i <= nLen`, `0 <= j <= aLen`, the flat index
`idx = getMatrixIndex(p, i, j)` is even and satisfies `0 <= idx` and
`idx + 1 < 3*(nLen+1)*(aLen+1)*2`, which is the length of the buffer
`NewAlignment` allocates and `calcScoreMain` keeps; and a valid triple with the
same index is the same triple. -/
theorem getMatrixIndex_in_buffer (nSeq : List NucleicAcid) (aSeq : List AminoAcid)
    (sh : ScoreHandler) (p : tScoreType) (i j : Int)
    (hp : p = GENERAL ∨ p = INS ∨ p = DEL)
    (hi : 0 ≤ i ∧ i ≤ nSeq.length) (hj : 0 ≤ j ∧ j ≤ aSeq.length) :
    getMatrixIndex (NewAlignment nSeq aSeq sh) p i j % 2 = 0
    ∧ 0 ≤ getMatrixIndex (NewAlignment nSeq aSeq sh) p i j
    ∧ getMatrixIndex (NewAlignment nSeq aSeq sh) p i j + 1
        < 3 * ((nSeq.length : Int) + 1) * ((aSeq.length : Int) + 1) * 2
    ∧ ((NewAlignment nSeq aSeq sh).scoreMatrix.length : Int)
        = 3 * ((nSeq.length : Int) + 1) * ((aSeq.length : Int) + 1) * 2
    ∧ ∀ (p2 : tScoreType) (i2 j2 : Int), (p2 = GENERAL ∨ p2 = INS ∨ p2 = DEL) →
        (0 ≤ i2 ∧ i2 ≤ nSeq.length) → (0 ≤ j2 ∧ j2 ≤ aSeq.length) →
        getMatrixIndex (NewAlignment nSeq aSeq sh) p2 i2 j2
          = getMatrixIndex (NewAlignment nSeq aSeq sh) p i j →
        p2 = p ∧ i2 = i ∧ j2 = j := by
  have hv := NewAlignment_validCell nSeq aSeq sh p i j hp hi hj
  have hb := getMatrixIndex_bounds _ _ _ _ hv
  have hl := NewAlignment_len nSeq aSeq sh
  have ht : typedPosLen (NewAlignment nSeq aSeq sh)
      = 3 * ((nSeq.length : Int) + 1) * ((aSeq.length : Int) + 1) * 2 := by
    unfold typedPosLen scoreTypeCount
    rw [NewAlignment_nSeqLen, NewAlignment_aSeqLen]
  rw [ht] at hb hl
  refine ⟨getMatrixIndex_even _ _ _ _, hb.1, hb.2, hl, ?_⟩
  intro p2 i2 j2 hp2 hi2 hj2 he
  exact getMatrixIndex_inj _ _ _ _ _ _ _ (NewAlignment_validCell nSeq aSeq sh p2 i2 j2 hp2 hi2 hj2)
    hv he

/-- Witness of C7 at `nSeq = ATG`, `aSeq = M`, cell `(DEL, 3, 1)`. -/
theorem getMatrixIndex_in_buffer_witness :
    ((DEL = GENERAL ∨ DEL = INS ∨ DEL = DEL)
      ∧ ((0 : Int) ≤ 3 ∧ (3 : Int) ≤ [NucleicAcid.A, NucleicAcid.T, NucleicAcid.G].length)
      ∧ ((0 : Int) ≤ 1 ∧ (1 : Int) ≤ [AminoAcid.M].length))
    ∧ (getMatrixIndex (NewAlignment [NucleicAcid.A, NucleicAcid.T, NucleicAcid.G] [AminoAcid.M]
          (scenarioHandler translate)) DEL 3 1 % 2 = 0
      ∧ 0 ≤ getMatrixIndex (NewAlignment [NucleicAcid.A, NucleicAcid.T, NucleicAcid.G]
          [AminoAcid.M] (scenarioHandler translate)) DEL 3 1
      ∧ getMatrixIndex (NewAlignment [NucleicAcid.A, NucleicAcid.T, NucleicAcid.G]
          [AminoAcid.M] (scenarioHandler translate)) DEL 3 1 + 1
          < 3 * (([NucleicAcid.A, NucleicAcid.T, NucleicAcid.G].length : Int) + 1)
              * (([AminoAcid.M].length : Int) + 1) * 2
      ∧ ((NewAlignment [NucleicAcid.A, NucleicAcid.T, NucleicAcid.G] [AminoAcid.M]
          (scenarioHandler translate)).scoreMatrix.length : Int)
          = 3 * (([NucleicAcid.A, NucleicAcid.T, NucleicAcid.G].length : Int) + 1)
              * (([AminoAcid.M].length : Int) + 1) * 2
      ∧ ∀ (p2 : tScoreType) (i2 j2 : Int), (p2 = GENERAL ∨ p2 = INS ∨ p2 = DEL) →
          (0 ≤ i2 ∧ i2 ≤ [NucleicAcid.A, NucleicAcid.T, NucleicAcid.G].length) →
          (0 ≤ j2 ∧ j2 ≤ [AminoAcid.M].length) →
          getMatrixIndex (NewAlignment [NucleicAcid.A, NucleicAcid.T, NucleicAcid.G]
              [AminoAcid.M] (scenarioHandler translate)) p2 i2 j2
            = getMatrixIndex (NewAlignment [NucleicAcid.A, NucleicAcid.T, NucleicAcid.G]
              [AminoAcid.M] (scenarioHandler translate)) DEL 3 1 →
          p2 = DEL ∧ i2 = 3 ∧ j2 = 1) :=
  ⟨by decide, getMatrixIndex_in_buffer [NucleicAcid.A, NucleicAcid.T, NucleicAcid.G]
    [AminoAcid.M] (scenarioHandler translate) DEL 3 1 (by decide) (by decide) (by decide)⟩

/-! ## C8: the stored predecessors -/

theorem getMatrixIndex_origin (B : Alignment) : getMatrixIndex B GENERAL 0 0 = 0 := by
  unfold getMatrixIndex GENERAL
  simp

theorem GENERAL_ne_INS : GENERAL ≠ INS := by decide
theorem GENERAL_ne_DEL : GENERAL ≠ DEL := by decide
theorem DEL_ne_INS : DEL ≠ INS := by decide

theorem specPredecessors_general (B : Alignment) (i j : Nat) (h1 : 1 ≤ i) (h2 : 1 ≤ j) :
    ∀ k ∈ ([getMatrixIndex B DEL i j, getMatrixIndex B INS i j,
        getMatrixIndex B GENERAL ((i : Int) - 1) ((j : Int) - 1)]
        ++ (if (i : Int) > 1 then [getMatrixIndex B GENERAL ((i : Int) - 2) ((j : Int) - 1),
              getMatrixIndex B DEL ((i : Int) - 1) ((j : Int) - 1)] else [])
        ++ (if (i : Int) > 2 then [getMatrixIndex B GENERAL ((i : Int) - 3) ((j : Int) - 1),
              getMatrixIndex B DEL ((i : Int) - 2) ((j : Int) - 1)] else [])),
      k ∈ specPredecessors B GENERAL i j := by
  intro k hk
  unfold specPredecessors predCells cellIndex
  rw [if_neg GENERAL_ne_INS, if_neg GENERAL_ne_DEL, if_neg (by omega)]
  by_cases g1 : i > 1
  · have g1I : (i : Int) > 1 := by omega
    by_cases g2 : i > 2
    · have g2I : (i : Int) > 2 := by omega
      simp only [if_pos g1, if_pos g2, if_pos g1I, if_pos g2I, List.mem_append, List.mem_cons,
        List.mem_singleton, List.not_mem_nil, or_false, List.map_append, List.map_cons,
        List.map_nil] at hk ⊢
      tauto
    · have g2I : ¬ (i : Int) > 2 := by omega
      simp only [if_pos g1, if_neg g2, if_pos g1I, if_neg g2I, List.mem_append, List.mem_cons,
        List.mem_singleton, List.not_mem_nil, or_false, List.map_append, List.map_cons,
        List.map_nil] at hk ⊢
      tauto
  · have g1I : ¬ (i : Int) > 1 := by omega
    have g2 : ¬ i > 2 := by omega
    have g2I : ¬ (i : Int) > 2 := by omega
    simp only [if_neg g1, if_neg g2, if_neg g1I, if_neg g2I, List.mem_append, List.mem_cons,
      List.mem_singleton, List.not_mem_nil, or_false, List.map_append, List.map_cons,
      List.map_nil] at hk ⊢
    tauto

theorem specPredecessors_del (B : Alignment) (i j : Nat) (h1 : 1 ≤ i) (h2 : 1 ≤ j) :
    ∀ k ∈ ([getMatrixIndex B GENERAL ((i : Int) - 1) ((j : Int) - 1),
        getMatrixIndex B GENERAL i ((j : Int) - 1), getMatrixIndex B DEL i ((j : Int) - 1)]
        ++ (if (i : Int) > 1 then [getMatrixIndex B GENERAL ((i : Int) - 2) ((j : Int) - 1),
              getMatrixIndex B DEL ((i : Int) - 1) ((j : Int) - 1)] else [])),
      k ∈ specPredecessors B DEL i j := by
  intro k hk
  unfold specPredecessors predCells cellIndex
  rw [if_neg DEL_ne_INS, if_pos rfl, if_neg (by omega), if_neg (by omega)]
  by_cases g1 : i > 1
  · have g1I : (i : Int) > 1 := by omega
    simp only [if_pos g1, if_pos g1I, List.mem_append, List.mem_cons,
      List.mem_singleton, List.not_mem_nil, or_false, List.map_append, List.map_cons,
      List.map_nil] at hk ⊢
    tauto
  · have g1I : ¬ (i : Int) > 1 := by omega
    simp only [if_neg g1, if_neg g1I, List.mem_append, List.mem_cons,
      List.mem_singleton, List.not_mem_nil, or_false, List.map_append, List.map_cons,
      List.map_nil] at hk ⊢
    tauto

theorem specPredecessors_ins (B : Alignment) (i j : Nat) (h1 : 1 ≤ i) :
    specPredecessors B INS i j = (insCandidates B i j).map Prod.snd := by
  unfold specPredecessors predCells cellIndex insCandidates
  rw [if_pos rfl, if_neg (by omega)]
  by_cases g1 : i > 2
  · by_cases g2 : i > 3
    · simp only [if_pos g1, if_pos g2, List.map_append, List.map_cons, List.map_nil]
    · simp only [if_pos g1, if_neg g2, List.map_append, List.map_cons, List.map_nil]
  · have g2 : ¬ i > 3 := by omega
    simp only [if_neg g1, if_neg g2, List.map_append, List.map_cons, List.map_nil]

/-- The predecessor stored in a filled cell other than `INS(0, 0)`: a candidate
predecessor of the recurrence, or the zero value of `prevMatrixIdx`. -/
theorem cellOK_prev (B : Alignment) (i j : Nat) (hc : CellOK B i j) (p : tScoreType)
    (hp : p = GENERAL ∨ p = INS ∨ p = DEL) (hne : ¬ (p = INS ∧ i = 0 ∧ j = 0)) :
    cellPrev B p i j ∈ specPredecessors B p i j
      ∨ (cellPrev B p i j = getMatrixIndex B GENERAL 0 0
          ∧ ((p = DEL ∧ i = 0) ∨ (p = INS ∧ 1 ≤ i ∧ cellScore B INS i j = negInf))) := by
  rcases hp with rfl | rfl | rfl
  · -- GENERAL
    left
    have hg := hc.2.2
    by_cases hb : i = 0 ∨ j = 0
    · rw [calcScore_boundary _ _ _ (by omega)] at hg
      have := congrArg Prod.snd hg
      simp only at this
      rw [this]
      unfold specPredecessors predCells cellIndex
      rw [if_neg GENERAL_ne_INS, if_neg GENERAL_ne_DEL, if_pos hb]
      simp
    · have h1 : 1 ≤ i := by omega
      have h2 : 1 ≤ j := by omega
      have hi := (cellOK_ins_firstMax B i j hc h1).2.1
      simp only at hi
      have hpk := calcScore_picked B i j (by omega) (by omega)
        (prevColumnAt B GENERAL i 1 j) (prevColumnAt B GENERAL i 2 j)
        (prevColumnAt B GENERAL i 3 j) (cellScore B INS i j) (cellScore B DEL i j)
        (prevColumnAt B DEL i 1 j) (prevColumnAt B DEL i 2 j) hi
      rw [← hg] at hpk
      exact specPredecessors_general B i j h1 h2 _ hpk.2
  · -- INS
    have hg := hc.1
    by_cases hb : i = 0
    · left
      have hj0 : 0 < j := by
        by_contra h
        exact hne ⟨rfl, hb, by omega⟩
      rw [calcExtInsScore_boundary _ _ _ (by omega) (by omega)] at hg
      have := congrArg Prod.snd hg
      simp only at this
      rw [this]
      unfold specPredecessors predCells cellIndex
      rw [if_pos rfl, if_pos ⟨hb, by omega⟩]
      simp
    · have h1 : 1 ≤ i := by omega
      have hf := cellOK_ins_firstMax B i j hc h1
      rcases hf.2.2 with h | ⟨_, h⟩
      · right
        have e1 := congrArg Prod.fst h
        have e2 := congrArg Prod.snd h
        simp only at e1 e2
        exact ⟨by rw [e2, getMatrixIndex_origin], Or.inr ⟨rfl, h1, e1⟩⟩
      · left
        rw [specPredecessors_ins B i j h1]
        exact List.mem_map.2 ⟨_, List.mem_of_find?_eq_some h, rfl⟩
  · -- DEL
    have hg := hc.2.1
    by_cases hb : i = 0
    · right
      subst hb
      rw [show ((0 : Nat) : Int) = 0 from rfl, calcDelScore_row_zero] at hg
      have := congrArg Prod.snd hg
      simp only at this
      exact ⟨by rw [getMatrixIndex_origin]; exact this, Or.inl ⟨rfl, rfl⟩⟩
    · left
      have h1 : 1 ≤ i := by omega
      by_cases hj : j = 0
      · rw [calcDelScore_boundary _ _ _ (by omega) (by omega)] at hg
        have := congrArg Prod.snd hg
        simp only at this
        rw [this]
        unfold specPredecessors predCells cellIndex
        rw [if_neg DEL_ne_INS, if_pos rfl, if_pos ⟨by omega, hj⟩]
        simp
      · have h2 : 1 ≤ j := by omega
        have hpk := calcDelScore_picked B i j (by omega) (by omega)
          (prevColumn B GENERAL i j) (prevColumnAt B GENERAL i 1 j)
          (prevColumnAt B GENERAL i 2 j) (prevColumn B DEL i j) (prevColumnAt B DEL i 1 j)
        rw [← hg] at hpk
        exact specPredecessors_del B i j h1 h2 _ hpk.2

theorem predCells_chain (B : Alignment) (n a : Nat) (hn : B.nSeqLen = n) (ha : B.aSeqLen = a)
    (p : tScoreType) (i j : Nat) (hp : p = GENERAL ∨ p = INS ∨ p = DEL)
    (hi : i ≤ n) (hj : j ≤ a) (hgood : p = GENERAL ∨ 1 ≤ i)
    (c : tScoreType × Int × Int) (hc : c ∈ predCells p i j ∨ c = (GENERAL, 0, 0)) :
    ChainCell B c ∧ c.2.1 ≤ i ∧ c.2.2 ≤ j
      ∧ ((p = GENERAL ∧ (i = 0 ∨ j = 0)) ∨ potential c < potential (p, (i : Int), (j : Int))) := by
  obtain ⟨cp, ci, cj⟩ := c
  unfold ChainCell ValidCell potential
  simp only
  rw [hn, ha]
  unfold tScoreType at *
  rcases hc with hc | hc
  · unfold predCells at hc
    simp only [GENERAL, INS, DEL] at hc hp hgood ⊢
    unfold tScoreType at *
    split_ifs at hc <;>
      simp only [List.mem_append, List.mem_cons, List.mem_singleton, List.not_mem_nil,
        or_false, false_or, Prod.mk.injEq] at hc <;> omega
  · simp only [Prod.mk.injEq, GENERAL, INS, DEL] at hc hp hgood ⊢
    unfold tScoreType at *
    omega

theorem validCell_origin (B : Alignment) (n a : Nat) (hn : B.nSeqLen = n) (ha : B.aSeqLen = a) :
    ValidCell B GENERAL 0 0 := by
  refine ⟨Or.inl rfl, ?_, ?_⟩
  · rw [hn]; omega
  · rw [ha]; omega

theorem cellIndex_origin (B : Alignment) : cellIndex B (GENERAL, 0, 0) = 0 :=
  getMatrixIndex_origin B

/-- The predecessor stored in a filled cell other than `INS(0, 0)` is the flat
index of a valid cell, no further from the origin than the cell itself. -/
theorem cellOK_prev_cell (B : Alignment) (n a : Nat) (hn : B.nSeqLen = n)
    (ha : B.aSeqLen = a) (i j : Nat) (hi : i ≤ n) (hj : j ≤ a) (hc : CellOK B i j)
    (p : tScoreType) (hp : p = GENERAL ∨ p = INS ∨ p = DEL)
    (hne : ¬ (p = INS ∧ i = 0 ∧ j = 0)) :
    ∃ c : tScoreType × Int × Int, cellPrev B p i j = cellIndex B c
      ∧ ValidCell B c.1 c.2.1 c.2.2 ∧ c.2.1 ≤ i ∧ c.2.2 ≤ j
      ∧ (c ∈ predCells p i j
          ∨ (c = (GENERAL, 0, 0)
              ∧ ((p = DEL ∧ i = 0) ∨ (p = INS ∧ 1 ≤ i ∧ cellScore B INS i j = negInf))))
      ∧ ((p = GENERAL ∨ 1 ≤ i) →
          ChainCell B c
          ∧ ((p = GENERAL ∧ (i = 0 ∨ j = 0))
              ∨ potential c < potential (p, (i : Int), (j : Int)))) := by
  have origin : ValidCell B (GENERAL, (0 : Int), (0 : Int)).1 (GENERAL, (0 : Int), (0 : Int)).2.1
      (GENERAL, (0 : Int), (0 : Int)).2.2 := validCell_origin B n a hn ha
  rcases cellOK_prev B i j hc p hp hne with h | ⟨h, hwhy⟩
  · obtain ⟨c, hcm, hce⟩ := List.mem_map.1 h
    by_cases hgood : p = GENERAL ∨ 1 ≤ i
    · have hch := predCells_chain B n a hn ha p i j hp hi hj hgood c (Or.inl hcm)
      exact ⟨c, hce.symm, hch.1.1, hch.2.1, hch.2.2.1, Or.inl hcm, fun _ => ⟨hch.1, hch.2.2.2⟩⟩
    · have hi0 : i = 0 := by omega
      have hpG : p ≠ GENERAL := fun h => hgood (Or.inl h)
      rcases hp with rfl | rfl | rfl
      · exact absurd rfl hpG
      · have hj0 : 0 < j := by
          by_contra hcon
          exact hne ⟨rfl, hi0, by omega⟩
        have hc0 : c = (GENERAL, 0, 0) := by
          unfold predCells at hcm
          rw [if_pos rfl, if_pos ⟨hi0, hj0⟩] at hcm
          exact List.mem_singleton.1 hcm
        subst hc0
        exact ⟨_, hce.symm, origin, by simp, by simp, Or.inl hcm, fun h => absurd h hgood⟩
      · subst hi0
        have hg := hc.2.1
        rw [show ((0 : Nat) : Int) = 0 from rfl, calcDelScore_row_zero] at hg
        have h0 := congrArg Prod.snd hg
        simp only at h0
        refine ⟨(GENERAL, 0, 0), ?_, origin, by simp, by simp,
          Or.inr ⟨rfl, Or.inl ⟨rfl, rfl⟩⟩, fun h => absurd h hgood⟩
        rw [cellIndex_origin]
        exact h0
  · have hch : (p = GENERAL ∨ 1 ≤ i) →
        ChainCell B (GENERAL, 0, 0)
        ∧ ((p = GENERAL ∧ (i = 0 ∨ j = 0))
            ∨ potential (GENERAL, 0, 0) < potential (p, (i : Int), (j : Int))) := by
      intro hgood
      have := predCells_chain B n a hn ha p i j hp hi hj hgood (GENERAL, 0, 0) (Or.inr rfl)
      exact ⟨this.1, this.2.2.2⟩
    exact ⟨(GENERAL, 0, 0), h, origin, by simp, by simp, Or.inr ⟨rfl, hwhy⟩, hch⟩

theorem inBuffer_of_validCell (B : Alignment)
    (hlen : (B.scoreMatrix.length : Int) = typedPosLen B) (c : tScoreType × Int × Int)
    (hv : ValidCell B c.1 c.2.1 c.2.2) : InBuffer B (cellIndex B c) := by
  have hb := getMatrixIndex_bounds B c.1 c.2.1 c.2.2 hv
  unfold InBuffer cellIndex
  rw [hlen]
  exact hb

/-- C8, as amended: after the fill, for every plane `p` and every
`0 <= i <= nLen`, `0 <= j <= aLen` other than the cell `INS(0, 0)`, the
prevIndex stored in cell `(p, i, j)` is never `-1`; it is the flat index of a
cell inside the buffer, which is one of the candidate predecessors the
recurrence lists for `(p, i, j)` (for a GENERAL boundary cell, the cell
itself), or else is `GENERAL(0, 0)`, index 0, the zero value `prevMatrixIdx`
keeps when no candidate is stored: in every `DEL(0, j)`, and in an INS cell
whose score is the sentinel `negInf`. -/
theorem stored_prev_legal (nSeq : List NucleicAcid) (aSeq : List AminoAcid)
    (sh : ScoreHandler) (p : tScoreType) (i j : Nat)
    (hp : p = GENERAL ∨ p = INS ∨ p = DEL) (hi : i ≤ nSeq.length) (hj : j ≤ aSeq.length)
    (hne : ¬ (p = INS ∧ i = 0 ∧ j = 0)) :
    cellPrev (NewAlignment nSeq aSeq sh) p i j ≠ -1
    ∧ InBuffer (NewAlignment nSeq aSeq sh) (cellPrev (NewAlignment nSeq aSeq sh) p i j)
    ∧ (cellPrev (NewAlignment nSeq aSeq sh) p i j
          ∈ specPredecessors (NewAlignment nSeq aSeq sh) p i j
        ∨ (cellPrev (NewAlignment nSeq aSeq sh) p i j
              = getMatrixIndex (NewAlignment nSeq aSeq sh) GENERAL 0 0
            ∧ ((p = DEL ∧ i = 0)
                ∨ (p = INS ∧ 1 ≤ i
                    ∧ cellScore (NewAlignment nSeq aSeq sh) INS i j = negInf)))) := by
  have hc := NewAlignment_cellOK nSeq aSeq sh i j hi hj
  have hn := NewAlignment_nSeqLen nSeq aSeq sh
  have ha := NewAlignment_aSeqLen nSeq aSeq sh
  have hlen := NewAlignment_len nSeq aSeq sh
  generalize NewAlignment nSeq aSeq sh = B at hc hn ha hlen ⊢
  obtain ⟨c, he, hv, _, _, hmem, _⟩ :=
    cellOK_prev_cell B nSeq.length aSeq.length hn ha i j hi hj hc p hp hne
  have hb := inBuffer_of_validCell B hlen c hv
  rw [← he] at hb
  refine ⟨?_, hb, ?_⟩
  · intro h
    have := hb.1
    omega
  · rcases hmem with h | ⟨h, hwhy⟩
    · left
      rw [he]
      exact List.mem_map_of_mem _ h
    · right
      rw [he, h]
      exact ⟨rfl, hwhy⟩

/-- Witness of C8 (amended) at `nSeq = A`, `aSeq = ME`, cell `DEL(0, 2)`. -/
theorem stored_prev_legal_witness :
    ((DEL = GENERAL ∨ DEL = INS ∨ DEL = DEL) ∧ 0 ≤ [NucleicAcid.A].length
      ∧ 2 ≤ [AminoAcid.M, AminoAcid.E].length ∧ ¬ (DEL = INS ∧ 0 = 0 ∧ 2 = 0))
    ∧ (cellPrev (NewAlignment [NucleicAcid.A] [AminoAcid.M, AminoAcid.E]
          (scenarioHandler translate)) DEL (0 : Nat) (2 : Nat) ≠ -1
      ∧ InBuffer (NewAlignment [NucleicAcid.A] [AminoAcid.M, AminoAcid.E]
          (scenarioHandler translate))
          (cellPrev (NewAlignment [NucleicAcid.A] [AminoAcid.M, AminoAcid.E]
            (scenarioHandler translate)) DEL (0 : Nat) (2 : Nat))
      ∧ (cellPrev (NewAlignment [NucleicAcid.A] [AminoAcid.M, AminoAcid.E]
            (scenarioHandler translate)) DEL (0 : Nat) (2 : Nat)
            ∈ specPredecessors (NewAlignment [NucleicAcid.A] [AminoAcid.M, AminoAcid.E]
                (scenarioHandler translate)) DEL 0 2
          ∨ (cellPrev (NewAlignment [NucleicAcid.A] [AminoAcid.M, AminoAcid.E]
                (scenarioHandler translate)) DEL (0 : Nat) (2 : Nat)
                = getMatrixIndex (NewAlignment [NucleicAcid.A] [AminoAcid.M, AminoAcid.E]
                    (scenarioHandler translate)) GENERAL 0 0
              ∧ ((DEL = DEL ∧ 0 = 0)
                  ∨ (DEL = INS ∧ 1 ≤ 0
                      ∧ cellScore (NewAlignment [NucleicAcid.A] [AminoAcid.M, AminoAcid.E]
                          (scenarioHandler translate)) INS (0 : Nat) (2 : Nat) = negInf))))) :=
  ⟨by decide, stored_prev_legal [NucleicAcid.A] [AminoAcid.M, AminoAcid.E]
    (scenarioHandler translate) DEL 0 2 (by decide) (by decide) (by decide) (by decide)⟩

/-- C8 as stated fails at the two cells it singles out: with `nSeq = A`,
`aSeq = ME` and the penalties of the scenarios, `INS(0, 0)` stores the
prevIndex `-6` (the index formula at `GENERAL(-1, 0)`), which is neither `-1`
nor inside the buffer, and `DEL(0, 2)` stores the prevIndex `0`, the index of
`GENERAL(0, 0)`, which is not among the candidate predecessors of `DEL(0, 2)`
(flat indices `26, 2, -4, -4`). -/
theorem stored_prev_counterexample :
    cellPrev (NewAlignment [NucleicAcid.A] [AminoAcid.M, AminoAcid.E]
        (scenarioHandler translate)) INS 0 0 = -6
    ∧ ¬ LegalPrev (NewAlignment [NucleicAcid.A] [AminoAcid.M, AminoAcid.E]
        (scenarioHandler translate)) INS 0 0
    ∧ cellPrev (NewAlignment [NucleicAcid.A] [AminoAcid.M, AminoAcid.E]
        (scenarioHandler translate)) DEL 0 2 = 0
    ∧ specPredecessors (NewAlignment [NucleicAcid.A] [AminoAcid.M, AminoAcid.E]
        (scenarioHandler translate)) DEL 0 2 = [26, 2, -4, -4]
    ∧ ¬ LegalPrev (NewAlignment [NucleicAcid.A] [AminoAcid.M, AminoAcid.E]
        (scenarioHandler translate)) DEL 0 2 := by
  decide

/-! ## C9: the predecessor chain -/

theorem chainAt_succ_left (B : Alignment) (start : Int) (k : Nat) :
    chainAt B start (k + 1) = chainAt B (prevIndex B start) k := by
  induction k with
  | zero => rfl
  | succ k ih =>
    show prevIndex B (chainAt B start (k + 1)) = prevIndex B (chainAt B (prevIndex B start) k)
    rw [ih]

theorem getTypedPos_cellIndex (B : Alignment) (c : tScoreType × Int × Int)
    (hv : ValidCell B c.1 c.2.1 c.2.2) : getTypedPos B (cellIndex B c) = c := by
  obtain ⟨hp, ⟨hi0, hi⟩, hj0, hj⟩ := hv
  have hp0 : 0 ≤ c.1 := by
    rcases hp with h | h | h <;> simp [h, GENERAL, INS, DEL]
  exact getTypedPos_getMatrixIndex_of_nonneg B c.1 c.2.1 c.2.2 (by omega) (by omega) hp0
    hi0 hi hj0 hj

theorem potential_nonneg (B : Alignment) (c : tScoreType × Int × Int) (h : ChainCell B c) :
    0 ≤ potential c := by
  obtain ⟨⟨hp, ⟨hi0, _⟩, hj0, _⟩, hg⟩ := h
  unfold potential
  simp only [GENERAL, INS, DEL] at hp hg ⊢
  unfold tScoreType at *
  omega

/-- From every cell a chain can visit, the stored predecessors lead to a
GENERAL boundary cell within as many steps as the potential of the cell. -/
theorem descends_of_potential (B : Alignment) (n a : Nat) (hn : B.nSeqLen = n)
    (ha : B.aSeqLen = a) (hall : ∀ i j : Nat, i ≤ n → j ≤ a → CellOK B i j) :
    ∀ (m : Nat) (c : tScoreType × Int × Int), ChainCell B c → potential c ≤ m →
      ∃ k, k ≤ m ∧ Descends B (cellIndex B c) k := by
  intro m
  induction m with
  | zero =>
    intro c hch hpot
    obtain ⟨p, ci, cj⟩ := c
    have hv := hch.1
    obtain ⟨hp, ⟨hi0, hi⟩, hj0, hj⟩ := hv
    simp only at hp hi0 hi hj0 hj
    rw [hn] at hi
    rw [ha] at hj
    obtain ⟨i, rfl⟩ := Int.eq_ofNat_of_zero_le hi0
    obtain ⟨j, rfl⟩ := Int.eq_ofNat_of_zero_le hj0
    have hcell := hall i j (by omega) (by omega)
    have hbd : p = GENERAL ∧ (i = 0 ∨ j = 0) := by
      have hg := hch.2
      simp only at hg
      unfold potential at hpot
      simp only [GENERAL, INS, DEL] at hp hg hpot ⊢
      unfold tScoreType at *
      omega
    obtain ⟨rfl, hb⟩ := hbd
    refine ⟨0, le_refl _, Descends.stop (GENERAL, (i : Int), (j : Int)) hch.1 rfl (by
      simp only; omega) ?_⟩
    have hg := hcell.2.2
    rw [calcScore_boundary _ _ _ (by omega)] at hg
    exact congrArg Prod.snd hg
  | succ m ih =>
    intro c hch hpot
    obtain ⟨p, ci, cj⟩ := c
    have hv := hch.1
    obtain ⟨hp, ⟨hi0, hi⟩, hj0, hj⟩ := hv
    simp only at hp hi0 hi hj0 hj
    rw [hn] at hi
    rw [ha] at hj
    obtain ⟨i, rfl⟩ := Int.eq_ofNat_of_zero_le hi0
    obtain ⟨j, rfl⟩ := Int.eq_ofNat_of_zero_le hj0
    have hcell := hall i j (by omega) (by omega)
    by_cases hbd : p = GENERAL ∧ (i = 0 ∨ j = 0)
    · obtain ⟨rfl, hb⟩ := hbd
      refine ⟨0, Nat.zero_le _, Descends.stop (GENERAL, (i : Int), (j : Int)) hch.1 rfl (by
        simp only; omega) ?_⟩
      have hg := hcell.2.2
      rw [calcScore_boundary _ _ _ (by omega)] at hg
      exact congrArg Prod.snd hg
    · have hgood : p = GENERAL ∨ 1 ≤ i := by
        have hg := hch.2
        simp only at hg
        rcases hg with h | h
        · exact Or.inl h
        · exact Or.inr (by omega)
      have hne : ¬ (p = INS ∧ i = 0 ∧ j = 0) := by
        rintro ⟨rfl, h0, _⟩
        rcases hgood with h | h
        · exact GENERAL_ne_INS h.symm
        · omega
      obtain ⟨c2, he, hv2, hN, hA, _, hch2⟩ :=
        cellOK_prev_cell B n a hn ha i j (by omega) (by omega) hcell p hp hne
      obtain ⟨hcc, hlt⟩ := hch2 hgood
      have hlt2 : potential c2 < potential (p, (i : Int), (j : Int)) := by
        rcases hlt with h | h
        · exact absurd h hbd
        · exact h
      obtain ⟨k, hk, hd⟩ := ih c2 hcc (by omega)
      exact ⟨k + 1, by omega,
        Descends.step (p, (i : Int), (j : Int)) c2 k hch.1 hv2 he hN hA hd⟩

/-- What a descent means for the indices along the chain. -/
theorem descends_chain (B : Alignment)
    (hlen : (B.scoreMatrix.length : Int) = typedPosLen B) (idx : Int) (k : Nat)
    (h : Descends B idx k) :
    (∀ t, t ≤ k → InBuffer B (chainAt B idx t))
    ∧ (∀ t, t < k →
        (getTypedPos B (chainAt B idx (t + 1))).2.1 ≤ (getTypedPos B (chainAt B idx t)).2.1
        ∧ (getTypedPos B (chainAt B idx (t + 1))).2.2
            ≤ (getTypedPos B (chainAt B idx t)).2.2)
    ∧ (getTypedPos B (chainAt B idx k)).1 = GENERAL
    ∧ ((getTypedPos B (chainAt B idx k)).2.1 = 0 ∨ (getTypedPos B (chainAt B idx k)).2.2 = 0)
    ∧ prevIndex B (chainAt B idx k) = chainAt B idx k := by
  induction h with
  | stop d hv hg hb hself =>
    refine ⟨?_, ?_, ?_, ?_, hself⟩
    · intro t ht
      have : t = 0 := by omega
      subst this
      exact inBuffer_of_validCell B hlen d hv
    · intro t ht
      omega
    · show (getTypedPos B (cellIndex B d)).1 = GENERAL
      rw [getTypedPos_cellIndex B d hv]
      exact hg
    · show (getTypedPos B (cellIndex B d)).2.1 = 0 ∨ (getTypedPos B (cellIndex B d)).2.2 = 0
      rw [getTypedPos_cellIndex B d hv]
      exact hb
  | step d d2 k hv hv2 hprev hN hA _ ih =>
    obtain ⟨h1, h2, h3, h4, h5⟩ := ih
    have shift : ∀ t, chainAt B (cellIndex B d) (t + 1) = chainAt B (cellIndex B d2) t := by
      intro t
      rw [chainAt_succ_left, hprev]
    refine ⟨?_, ?_, ?_, ?_, ?_⟩
    · intro t ht
      cases t with
      | zero => exact inBuffer_of_validCell B hlen d hv
      | succ t =>
        rw [shift]
        exact h1 t (by omega)
    · intro t ht
      cases t with
      | zero =>
        rw [shift]
        show (getTypedPos B (cellIndex B d2)).2.1 ≤ (getTypedPos B (cellIndex B d)).2.1
          ∧ (getTypedPos B (cellIndex B d2)).2.2 ≤ (getTypedPos B (cellIndex B d)).2.2
        rw [getTypedPos_cellIndex B d hv, getTypedPos_cellIndex B d2 hv2]
        exact ⟨hN, hA⟩
      | succ t =>
        rw [shift, shift]
        exact h2 t (by omega)
    · rw [shift]; exact h3
    · rw [shift]; exact h4
    · rw [shift]; exact h5

theorem trimStep_cur (B : Alignment) (t : TrimState) :
    (trimStep B t).curMtIdx = prevIndex B t.curMtIdx := rfl

/-- The first loop of `GetReport` stops once the chain from its current index
has met a cell that points to itself. -/
theorem trimLoop_of_fixpoint (B : Alignment) :
    ∀ (k : Nat) (t : TrimState),
      chainAt B t.curMtIdx (k + 1) = chainAt B t.curMtIdx k →
      ∀ fuel, k + 2 ≤ fuel → (trimLoop B fuel t).isSome = true := by
  intro k
  induction k with
  | zero =>
    intro t hfix fuel hfuel
    obtain ⟨f, rfl⟩ : ∃ f, fuel = f + 2 := ⟨fuel - 2, by omega⟩
    have hfix2 : prevIndex B t.curMtIdx = t.curMtIdx := hfix
    show (trimLoop B (f + 1 + 1) t).isSome = true
    unfold trimLoop
    split
    · unfold trimLoop
      have h1 : (trimStep B t).curMtIdx = (trimStep B t).prevMtIdx := by
        show prevIndex B t.curMtIdx = t.curMtIdx
        exact hfix2
      rw [if_neg (by intro h; exact h.2 h1)]
      rfl
    · rfl
  | succ k ih =>
    intro t hfix fuel hfuel
    obtain ⟨f, rfl⟩ : ∃ f, fuel = f + 1 := ⟨fuel - 1, by omega⟩
    unfold trimLoop
    split
    · apply ih (trimStep B t) _ f (by omega)
      rw [trimStep_cur, ← chainAt_succ_left, ← chainAt_succ_left]
      exact hfix
    · rfl

theorem NewAlignment_maxPos (nSeq : List NucleicAcid) (aSeq : List AminoAcid)
    (sh : ScoreHandler) :
    ∃ i j : Nat, i ≤ nSeq.length ∧ j ≤ aSeq.length
      ∧ (NewAlignment nSeq aSeq sh).maxScorePosN = i
      ∧ (NewAlignment nSeq aSeq sh).maxScorePosA = j := by
  have inv := fill_inv nSeq aSeq sh
  obtain ⟨i, j, hi, hb, e1, e2, _⟩ := inv.maxAt (Or.inl (by omega))
  have hb2 : j < aSeq.length + 1 ∨ (j = aSeq.length + 1 ∧ i < 0) := hb
  exact ⟨i, j, hi, by omega, e1, e2⟩

theorem chainCell_general (B : Alignment) (n a : Nat) (hn : B.nSeqLen = n)
    (ha : B.aSeqLen = a) (i j : Nat) (hi : i ≤ n) (hj : j ≤ a) :
    ChainCell B (GENERAL, (i : Int), (j : Int)) := by
  refine ⟨⟨Or.inl rfl, ?_, ?_⟩, Or.inl rfl⟩
  · rw [hn]; simp only; omega
  · rw [ha]; simp only; omega

theorem potential_general (i j : Nat) : potential (GENERAL, (i : Int), (j : Int))
    = ((2 * (i + j) : Nat) : Int) := by
  unfold potential
  simp only [if_pos]
  push_cast
  ring

/-- C9 (traceback closure): after the fill, starting from `GENERAL(i, j)` for
any `0 <= i <= nLen`, `0 <= j <= aLen` and repeatedly following the stored
prevIndex, there is a step count `k <= 3*(nLen + aLen)` such that every index
visited up to step `k` is inside the buffer, the decoded positions `(i', j')`
never increase from one step to the next, and the cell reached at step `k` is a
GENERAL cell with `i' = 0` or `j' = 0` that points to itself; hence the first
loop of `GetReport` terminates: with fuel for `3*(nLen + aLen) + 2` tests of
its condition it returns. -/
theorem traceback_closure (nSeq : List NucleicAcid) (aSeq : List AminoAcid)
    (sh : ScoreHandler) (i j : Nat) (hi : i ≤ nSeq.length) (hj : j ≤ aSeq.length) :
    (∃ k, k ≤ 3 * (nSeq.length + aSeq.length)
      ∧ (∀ t, t ≤ k → InBuffer (NewAlignment nSeq aSeq sh)
          (chainAt (NewAlignment nSeq aSeq sh)
            (getMatrixIndex (NewAlignment nSeq aSeq sh) GENERAL i j) t))
      ∧ (∀ t, t < k →
          (getTypedPos (NewAlignment nSeq aSeq sh) (chainAt (NewAlignment nSeq aSeq sh)
              (getMatrixIndex (NewAlignment nSeq aSeq sh) GENERAL i j) (t + 1))).2.1
            ≤ (getTypedPos (NewAlignment nSeq aSeq sh) (chainAt (NewAlignment nSeq aSeq sh)
              (getMatrixIndex (NewAlignment nSeq aSeq sh) GENERAL i j) t)).2.1
          ∧ (getTypedPos (NewAlignment nSeq aSeq sh) (chainAt (NewAlignment nSeq aSeq sh)
              (getMatrixIndex (NewAlignment nSeq aSeq sh) GENERAL i j) (t + 1))).2.2
            ≤ (getTypedPos (NewAlignment nSeq aSeq sh) (chainAt (NewAlignment nSeq aSeq sh)
              (getMatrixIndex (NewAlignment nSeq aSeq sh) GENERAL i j) t)).2.2)
      ∧ (getTypedPos (NewAlignment nSeq aSeq sh) (chainAt (NewAlignment nSeq aSeq sh)
            (getMatrixIndex (NewAlignment nSeq aSeq sh) GENERAL i j) k)).1 = GENERAL
      ∧ ((getTypedPos (NewAlignment nSeq aSeq sh) (chainAt (NewAlignment nSeq aSeq sh)
            (getMatrixIndex (NewAlignment nSeq aSeq sh) GENERAL i j) k)).2.1 = 0
          ∨ (getTypedPos (NewAlignment nSeq aSeq sh) (chainAt (NewAlignment nSeq aSeq sh)
            (getMatrixIndex (NewAlignment nSeq aSeq sh) GENERAL i j) k)).2.2 = 0)
      ∧ prevIndex (NewAlignment nSeq aSeq sh) (chainAt (NewAlignment nSeq aSeq sh)
            (getMatrixIndex (NewAlignment nSeq aSeq sh) GENERAL i j) k)
          = chainAt (NewAlignment nSeq aSeq sh)
            (getMatrixIndex (NewAlignment nSeq aSeq sh) GENERAL i j) k)
    ∧ (∀ fuel, 3 * (nSeq.length + aSeq.length) + 2 ≤ fuel →
        (trimLoop (NewAlignment nSeq aSeq sh) fuel
          (trimInit (NewAlignment nSeq aSeq sh))).isSome = true) := by
  have hall := fun i j hi hj => NewAlignment_cellOK nSeq aSeq sh i j hi hj
  have hn := NewAlignment_nSeqLen nSeq aSeq sh
  have ha := NewAlignment_aSeqLen nSeq aSeq sh
  have hlen := NewAlignment_len nSeq aSeq sh
  obtain ⟨mi, mj, hmi, hmj, emi, emj⟩ := NewAlignment_maxPos nSeq aSeq sh
  generalize NewAlignment nSeq aSeq sh = B at hall hn ha hlen emi emj ⊢
  have reach : ∀ i j : Nat, i ≤ nSeq.length → j ≤ aSeq.length →
      ∃ k, k ≤ 2 * (i + j) ∧ Descends B (getMatrixIndex B GENERAL i j) k := by
    intro i j hi hj
    exact descends_of_potential B _ _ hn ha hall (2 * (i + j)) (GENERAL, (i : Int), (j : Int))
      (chainCell_general B _ _ hn ha i j hi hj) (le_of_eq (potential_general i j))
  constructor
  · obtain ⟨k, hk, hd⟩ := reach i j hi hj
    exact ⟨k, by omega, descends_chain B hlen _ k hd⟩
  · intro fuel hfuel
    obtain ⟨k, hk, hd⟩ := reach mi mj hmi hmj
    have hfix := (descends_chain B hlen _ k hd).2.2.2.2
    apply trimLoop_of_fixpoint B k (trimInit B) _ fuel (by omega)
    show chainAt B (getMatrixIndex B GENERAL B.maxScorePosN B.maxScorePosA) (k + 1)
      = chainAt B (getMatrixIndex B GENERAL B.maxScorePosN B.maxScorePosA) k
    rw [emi, emj]
    exact hfix

/-- Witness of C9 at `nSeq = ATG`, `aSeq = M`, start cell `GENERAL(3, 1)`. -/
theorem traceback_closure_witness :
    (3 ≤ [NucleicAcid.A, NucleicAcid.T, NucleicAcid.G].length ∧ 1 ≤ [AminoAcid.M].length)
    ∧ (∀ fuel, 3 * ([NucleicAcid.A, NucleicAcid.T, NucleicAcid.G].length
          + [AminoAcid.M].length) + 2 ≤ fuel →
        (trimLoop (NewAlignment [NucleicAcid.A, NucleicAcid.T, NucleicAcid.G] [AminoAcid.M]
            (scenarioHandler translate)) fuel
          (trimInit (NewAlignment [NucleicAcid.A, NucleicAcid.T, NucleicAcid.G] [AminoAcid.M]
            (scenarioHandler translate)))).isSome = true) :=
  ⟨⟨by decide, by decide⟩,
    (traceback_closure [NucleicAcid.A, NucleicAcid.T, NucleicAcid.G] [AminoAcid.M]
      (scenarioHandler translate) 3 1 (by decide) (by decide)).2⟩

/-! ## C10: an exact in-frame coding sequence -/

theorem newAlignment_scenarioFill (tr : NucleicAcid → NucleicAcid → NucleicAcid → AminoAcid)
    (nSeq : List NucleicAcid) (aSeq : List AminoAcid) :
    ScenarioFill tr nSeq aSeq (NewAlignment nSeq aSeq (scenarioHandler tr)) := by
  obtain ⟨m, hm⟩ := NewAlignment_static nSeq aSeq (scenarioHandler tr)
  have inv := fill_inv nSeq aSeq (scenarioHandler tr)
  refine ⟨?_, ?_, ?_, ?_, ?_, ?_, ?_, ?_, ?_, ?_, NewAlignment_len _ _ _,
    fun i j hi hj => NewAlignment_cellOK _ _ _ i j hi hj, ?_, ?_, ?_⟩
  · rw [hm]; rfl
  · rw [hm]; rfl
  · rw [hm]; rfl
  · rw [hm]; rfl
  · rw [hm]; rfl
  · rw [hm]; rfl
  · rw [hm]; rfl
  · rw [hm]; rfl
  · rw [hm]; rfl
  · rw [hm]; rfl
  · rw [NewAlignment_eq]
    obtain ⟨i, j, hi, hb, e1, e2, e3⟩ := inv.maxAt (Or.inl (by omega))
    have hb2 : j < aSeq.length + 1 ∨ (j = aSeq.length + 1 ∧ i < 0) := hb
    exact ⟨i, j, hi, by omega, e1, e2, e3⟩
  · rw [NewAlignment_eq]
    intro i j hi hj
    exact inv.maxLe i j hi (before_last _ _ _ hj)
  · rw [NewAlignment_eq]
    intro i j hi hj he
    exact inv.maxLast i j hi (before_last _ _ _ hj) he

theorem sub_wild2 (tr : NucleicAcid → NucleicAcid → NucleicAcid → AminoAcid) (pos : Int)
    (n1 n0 : NucleicAcid) (a : AminoAcid) :
    (scenarioHandler tr).GetSubstitutionScore pos NucleicAcid.N n1 n0 a = 0 := by
  simp [scenarioHandler]

theorem sub_wild1 (tr : NucleicAcid → NucleicAcid → NucleicAcid → AminoAcid) (pos : Int)
    (n2 n0 : NucleicAcid) (a : AminoAcid) :
    (scenarioHandler tr).GetSubstitutionScore pos n2 NucleicAcid.N n0 a = 0 := by
  simp [scenarioHandler]

theorem sub_wild0 (tr : NucleicAcid → NucleicAcid → NucleicAcid → AminoAcid) (pos : Int)
    (n2 n1 : NucleicAcid) (a : AminoAcid) :
    (scenarioHandler tr).GetSubstitutionScore pos n2 n1 NucleicAcid.N a = 0 := by
  simp [scenarioHandler]

theorem sub_le (tr : NucleicAcid → NucleicAcid → NucleicAcid → AminoAcid) (pos : Int)
    (n2 n1 n0 : NucleicAcid) (a : AminoAcid) :
    -4 ≤ (scenarioHandler tr).GetSubstitutionScore pos n2 n1 n0 a
      ∧ (scenarioHandler tr).GetSubstitutionScore pos n2 n1 n0 a ≤ 10 := by
  simp only [scenarioHandler]
  split_ifs <;> omega

theorem sub_match (tr : NucleicAcid → NucleicAcid → NucleicAcid → AminoAcid) (pos : Int)
    (n2 n1 n0 : NucleicAcid) (a : AminoAcid) (h2 : n2 ≠ NucleicAcid.N)
    (h1 : n1 ≠ NucleicAcid.N) (h0 : n0 ≠ NucleicAcid.N) (ht : tr n2 n1 n0 = a) :
    (scenarioHandler tr).GetSubstitutionScore pos n2 n1 n0 a = 10 := by
  simp [scenarioHandler, h2, h1, h0, ht]

theorem scenario_indel (tr : NucleicAcid → NucleicAcid → NucleicAcid → AminoAcid)
    (nSeq : List NucleicAcid) (aSeq : List AminoAcid) (B : Alignment)
    (hS : ScenarioFill tr nSeq aSeq B) (posA : Int) (b : Bool) :
    indelCodonScore B posA b = (-6, -4) := by
  unfold indelCodonScore
  rw [hS.pos_eq, hS.open_eq, hS.ext_eq]
  rfl

theorem ins_bounds (tr : NucleicAcid → NucleicAcid → NucleicAcid → AminoAcid)
    (nSeq : List NucleicAcid) (aSeq : List AminoAcid) (B : Alignment)
    (hS : ScenarioFill tr nSeq aSeq B) (i j : Nat) (hi : i ≤ nSeq.length)
    (hj : j ≤ aSeq.length) (hsz : i + j < 1099511627776) (hne : i ≠ 0 ∨ j ≠ 0)
    (ih : ∀ x y : Int, 0 ≤ x → 0 ≤ y → x ≤ i → y ≤ j → (x < i ∨ y < j) → CellBounds B x y) :
    -30 * ((i : Int) + j + 1) ≤ cellScore B INS i j
      ∧ cellScore B INS i j ≤ 10 * (j : Int) - 10 := by
  have hc := hS.cells i j hi hj
  by_cases h0 : i = 0
  · subst h0
    have e := hc.1
    rw [calcExtInsScore_boundary B _ _ (by simp) (by omega)] at e
    have e1 := congrArg Prod.fst e
    simp only at e1
    rw [e1, hS.q_eq]
    constructor <;> omega
  · obtain ⟨hall, _, hfind⟩ := cellOK_ins_firstMax B i j hc (by omega)
    unfold insCandidates at hall hfind
    simp only [scenario_indel tr nSeq aSeq B hS, hS.q_eq, hS.r_eq] at hall hfind
    have b1 := (ih ((i : Int) - 1) j (by omega) (by omega) (by omega) (by omega)
      (by omega)).1
    constructor
    · have h := (hall (wrap (cellScore B GENERAL ((i : Int) - 1) j + -10 + -2),
        getMatrixIndex B GENERAL ((i : Int) - 1) j) (by simp)).1
      simp only at h
      unfold wrap at h
      omega
    · rcases hfind with h | ⟨_, h⟩
      · have h1 := congrArg Prod.fst h
        simp only at h1
        rw [h1]
        unfold negInf
        omega
      · have hmem := List.mem_of_find?_eq_some h
        simp only [List.mem_append, List.mem_ite_nil_right, List.mem_cons, List.mem_singleton,
          List.not_mem_nil, or_false] at hmem
        rcases hmem with (⟨g, h | h⟩ | ⟨g, h⟩) | h
        · have b3 := (ih ((i : Int) - 3) j (by omega) (by omega) (by omega) (by omega)
            (by omega)).2.1 (Or.inl (by omega))
          have h1 := congrArg Prod.fst h
          simp only at h1
          rw [h1]
          unfold wrap
          omega
        · have b3 := (ih ((i : Int) - 3) j (by omega) (by omega) (by omega) (by omega)
            (by omega)).1
          have h1 := congrArg Prod.fst h
          simp only at h1
          rw [h1]
          unfold wrap
          omega
        · have b3 := (ih ((i : Int) - 2) j (by omega) (by omega) (by omega) (by omega)
            (by omega)).1
          have h1 := congrArg Prod.fst h
          simp only at h1
          rw [h1]
          unfold wrap
          omega
        · have h1 := congrArg Prod.fst h
          simp only at h1
          rw [h1]
          unfold wrap
          omega

theorem del_bounds (tr : NucleicAcid → NucleicAcid → NucleicAcid → AminoAcid)
    (nSeq : List NucleicAcid) (aSeq : List AminoAcid) (B : Alignment)
    (hS : ScenarioFill tr nSeq aSeq B) (i j : Nat) (hi : i ≤ nSeq.length)
    (hj : j ≤ aSeq.length) (hsz : i + j < 1099511627776) (hne : i ≠ 0)
    (ih : ∀ x y : Int, 0 ≤ x → 0 ≤ y → x ≤ i → y ≤ j → (x < i ∨ y < j) → CellBounds B x y) :
    -30 * ((i : Int) + j + 1) ≤ cellScore B DEL i j
      ∧ cellScore B DEL i j ≤ 10 * (j : Int) - 10 := by
  have hc := hS.cells i j hi hj
  by_cases h0 : j = 0
  · subst h0
    have e := hc.2.1
    rw [calcDelScore_boundary B _ _ (by omega) (by simp)] at e
    have e1 := congrArg Prod.fst e
    simp only at e1
    rw [e1, hS.q_eq]
    constructor <;> omega
  · obtain ⟨hmem, hall⟩ := cellOK_del_isMax B i j hc (by omega) (by omega)
    unfold delCandidates delCandidatesWith at hmem hall
    simp only [scenario_indel tr nSeq aSeq B hS, hS.q_eq, hS.r_eq, hS.handler_eq,
      sub_wild2, sub_wild1, sub_wild0] at hmem hall
    have b01 := ih (i : Int) ((j : Int) - 1) (by omega) (by omega) (by omega) (by omega)
      (by omega)
    have b11 := ih ((i : Int) - 1) ((j : Int) - 1) (by omega) (by omega) (by omega)
      (by omega) (by omega)
    constructor
    · have h := hall (wrap (cellScore B GENERAL i ((j : Int) - 1) + -10 + 3 * -2 + -6 + -4))
        (by simp)
      have b := b01.1
      unfold wrap at h
      omega
    · simp only [List.mem_append, List.mem_ite_nil_right, List.mem_cons, List.mem_singleton,
        List.not_mem_nil, or_false] at hmem
      rcases hmem with (h | h | h | h) | ⟨g, h | h⟩
      · have b := b01.2.2 (by omega)
        rw [h]; unfold wrap; omega
      · have b := b01.1
        rw [h]; unfold wrap; omega
      · have b := b11.1
        rw [h]; unfold wrap; omega
      · have b := b11.1
        rw [h]; unfold wrap; omega
      · have b := b11.2.2 (by omega)
        rw [h]; unfold wrap; omega
      · have b := (ih ((i : Int) - 2) ((j : Int) - 1) (by omega) (by omega) (by omega)
          (by omega) (by omega)).1
        rw [h]; unfold wrap; omega

theorem general_bounds (tr : NucleicAcid → NucleicAcid → NucleicAcid → AminoAcid)
    (nSeq : List NucleicAcid) (aSeq : List AminoAcid) (B : Alignment)
    (hS : ScenarioFill tr nSeq aSeq B) (i j : Nat) (hi : i ≤ nSeq.length)
    (hj : j ≤ aSeq.length) (hsz : i + j < 1099511627776)
    (hI : (i ≠ 0 ∨ j ≠ 0) → -30 * ((i : Int) + j + 1) ≤ cellScore B INS i j
      ∧ cellScore B INS i j ≤ 10 * (j : Int) - 10)
    (hD : i ≠ 0 → -30 * ((i : Int) + j + 1) ≤ cellScore B DEL i j
      ∧ cellScore B DEL i j ≤ 10 * (j : Int) - 10)
    (ih : ∀ x y : Int, 0 ≤ x → 0 ≤ y → x ≤ i → y ≤ j → (x < i ∨ y < j) → CellBounds B x y) :
    -30 * ((i : Int) + j + 1) ≤ cellScore B GENERAL i j
      ∧ cellScore B GENERAL i j ≤ 10 * (j : Int) := by
  have hc := hS.cells i j hi hj
  by_cases h0 : i = 0 ∨ j = 0
  · have e := hc.2.2
    rw [calcScore_boundary B _ _ (by omega)] at e
    have e1 := congrArg Prod.fst e
    simp only at e1
    rw [e1]
    constructor <;> omega
  · obtain ⟨hmem, hall⟩ := cellOK_general_isMax B i j hc (by omega) (by omega)
    have bI := hI (by omega)
    have bD := hD (by omega)
    constructor
    · have h := hall (cellScore B INS i j) (by simp [generalCandidates])
      omega
    · unfold generalCandidates at hmem
      simp only [hS.q_eq, hS.r_eq, hS.handler_eq, sub_wild2, sub_wild1, sub_wild0] at hmem
      have b11 := ih ((i : Int) - 1) ((j : Int) - 1) (by omega) (by omega) (by omega)
        (by omega) (by omega)
      simp only [List.mem_append, List.mem_ite_nil_right, List.mem_cons, List.mem_singleton,
        List.not_mem_nil, or_false] at hmem
      rcases hmem with (((((h | ⟨g, h⟩) | ⟨g, h⟩) | ⟨g, h⟩) | ⟨g, h⟩) | ⟨g, h⟩) | h | h
      · have b := b11.1
        rw [h]; unfold wrap; omega
      · have b := (ih ((i : Int) - 2) ((j : Int) - 1) (by omega) (by omega) (by omega)
          (by omega) (by omega)).1
        rw [h]; unfold wrap; omega
      · have b := (ih ((i : Int) - 2) ((j : Int) - 1) (by omega) (by omega) (by omega)
          (by omega) (by omega)).1
        rw [h]; unfold wrap; omega
      · have b := (ih ((i : Int) - 3) ((j : Int) - 1) (by omega) (by omega) (by omega)
          (by omega) (by omega)).1
        have s := sub_le tr j (getNA B ((i : Int) - 2)) (getNA B ((i : Int) - 1))
          (getNA B i) (getAA B j)
        rw [h]; unfold wrap; omega
      · have b := b11.2.2 (by omega)
        rw [h]; unfold wrap; omega
      · have b := (ih ((i : Int) - 2) ((j : Int) - 1) (by omega) (by omega) (by omega)
          (by omega) (by omega)).2.2 (by omega)
        rw [h]; unfold wrap; omega
      · rw [h]; omega
      · rw [h]; omega

/-- Every cell of the scenario fill is within the bounds of `CellBounds`. -/
theorem all_bounds (tr : NucleicAcid → NucleicAcid → NucleicAcid → AminoAcid)
    (nSeq : List NucleicAcid) (aSeq : List AminoAcid) (B : Alignment)
    (hS : ScenarioFill tr nSeq aSeq B)
    (hsz : nSeq.length + aSeq.length < 1099511627776) :
    ∀ (m i j : Nat), i + j = m → i ≤ nSeq.length → j ≤ aSeq.length →
      CellBounds B i j := by
  intro m
  induction m using Nat.strong_induction_on with
  | _ m ihm =>
    intro i j hm hi hj
    have ih : ∀ x y : Int, 0 ≤ x → 0 ≤ y → x ≤ i → y ≤ j → (x < i ∨ y < j) →
        CellBounds B x y := by
      intro x y hx hy hxi hyj hlt
      obtain ⟨x2, rfl⟩ := Int.eq_ofNat_of_zero_le hx
      obtain ⟨y2, rfl⟩ := Int.eq_ofNat_of_zero_le hy
      exact ihm (x2 + y2) (by omega) x2 y2 rfl (by omega) (by omega)
    have hI := fun hne => ins_bounds tr nSeq aSeq B hS i j hi hj (by omega) hne ih
    have hD := fun hne => del_bounds tr nSeq aSeq B hS i j hi hj (by omega) hne ih
    have hG := general_bounds tr nSeq aSeq B hS i j hi hj (by omega) hI hD ih
    exact ⟨hG, fun h => hI (by omega), fun h => hD (by omega)⟩

theorem takeIfGreater_lt (s : Int × Int) (c idx F : Int) (hs : s.1 < F) (hc : c < F) :
    (takeIfGreater s c idx).1 < F := by
  unfold takeIfGreater
  split_ifs <;> assumption

theorem takeIfGreaterEq_lt (s : Int × Int) (c idx F : Int) (hs : s.1 < F) (hc : c < F) :
    (takeIfGreaterEq s c idx).1 < F := by
  unfold takeIfGreaterEq
  split_ifs <;> assumption

theorem takeIfGreater_take (s : Int × Int) (F idx : Int) (hs : s.1 < F) :
    takeIfGreater s F idx = (F, idx) := by
  unfold takeIfGreater
  rw [if_pos hs]

theorem takeIfGreaterEq_keep (F idx c idx2 : Int) (hc : c < F) :
    takeIfGreaterEq (F, idx) c idx2 = (F, idx) := by
  unfold takeIfGreaterEq
  rw [if_neg (by simp only; omega)]

/-- When the full-codon candidate is greater than every other candidate,
`calcScore` returns it with the index of `GENERAL(posN-3, posA-1)`. -/
theorem calcScore_full (self : Alignment) (posN posA : Int) (hN : 2 < posN) (hA : posA ≠ 0)
    (g11 g21 g31 i00 d00 d11 d21 F : Int)
    (hF : F = iadd g31 (self.scoreHandler.GetSubstitutionScore posA (getNA self (posN - 2))
      (getNA self (posN - 1)) (getNA self posN) (getAA self posA)))
    (h0 : negInf < F)
    (h1 : iadd (iadd (iadd (iadd g11 (self.scoreHandler.GetSubstitutionScore posA NucleicAcid.N
      NucleicAcid.N (getNA self posN) (getAA self posA))) self.q) self.r) self.r < F)
    (h2 : iadd (iadd (iadd g21 (self.scoreHandler.GetSubstitutionScore posA
      (getNA self (posN - 1)) NucleicAcid.N (getNA self posN) (getAA self posA))) self.q)
      self.r < F)
    (h3 : iadd (iadd (iadd g21 (self.scoreHandler.GetSubstitutionScore posA NucleicAcid.N
      (getNA self (posN - 1)) (getNA self posN) (getAA self posA))) self.q) self.r < F)
    (h4 : iadd (iadd (iadd d11 (self.scoreHandler.GetSubstitutionScore posA NucleicAcid.N
      NucleicAcid.N (getNA self posN) (getAA self posA))) self.r) self.r < F)
    (h5 : iadd (iadd d21 (self.scoreHandler.GetSubstitutionScore posA NucleicAcid.N
      (getNA self (posN - 1)) (getNA self posN) (getAA self posA))) self.r < F)
    (h6 : i00 < F) (h7 : d00 < F) :
    calcScore self posN posA g11 g21 g31 i00 d00 d11 d21
      = (F, getMatrixIndex self GENERAL (posN - 3) (posA - 1)) := by
  unfold calcScore
  rw [if_neg (by omega)]
  simp only [if_pos (show posN > 1 by omega), if_pos (show posN > 2 by omega)]
  rw [← hF]
  have a1 := takeIfGreater_lt (negInf, 0) _ (getMatrixIndex self GENERAL (posN - 1) (posA - 1))
    F h0 h1
  have a2 := takeIfGreater_lt _ _ (getMatrixIndex self GENERAL (posN - 2) (posA - 1)) F a1 h2
  have a3 := takeIfGreater_lt _ _ (getMatrixIndex self GENERAL (posN - 2) (posA - 1)) F a2 h3
  have a4 := takeIfGreaterEq_lt _ _ (getMatrixIndex self DEL (posN - 1) (posA - 1)) F a3 h4
  rw [takeIfGreater_take _ F _ a4, takeIfGreaterEq_keep _ _ _ _ h5,
    takeIfGreaterEq_keep _ _ _ _ h6, takeIfGreaterEq_keep _ _ _ _ h7]

theorem all_bounds_int (tr : NucleicAcid → NucleicAcid → NucleicAcid → AminoAcid)
    (nSeq : List NucleicAcid) (aSeq : List AminoAcid) (B : Alignment)
    (hS : ScenarioFill tr nSeq aSeq B)
    (hsz : nSeq.length + aSeq.length < 1099511627776) (x y : Int)
    (hx0 : 0 ≤ x) (hx : x ≤ nSeq.length) (hy0 : 0 ≤ y) (hy : y ≤ aSeq.length) :
    CellBounds B x y := by
  obtain ⟨x2, rfl⟩ := Int.eq_ofNat_of_zero_le hx0
  obtain ⟨y2, rfl⟩ := Int.eq_ofNat_of_zero_le hy0
  exact all_bounds tr nSeq aSeq B hS hsz (x2 + y2) x2 y2 rfl (by omega) (by omega)

/-- A GENERAL cell three rows and one column after a cell of score `10*(j-1)`,
with the codon between them coding the amino acid `j`, holds `10*j` and points
to that cell. -/
theorem diag_step (tr : NucleicAcid → NucleicAcid → NucleicAcid → AminoAcid)
    (nSeq : List NucleicAcid) (aSeq : List AminoAcid) (B : Alignment)
    (hS : ScenarioFill tr nSeq aSeq B)
    (hsz : nSeq.length + aSeq.length < 1099511627776)
    (i j : Nat) (hi : i ≤ nSeq.length) (hj : j ≤ aSeq.length) (h3 : 3 ≤ i) (h1 : 1 ≤ j)
    (hprev : cellScore B GENERAL ((i : Int) - 3) ((j : Int) - 1) = 10 * ((j : Int) - 1))
    (hn2 : nSeq.getD (i - 3) NucleicAcid.N ≠ NucleicAcid.N)
    (hn1 : nSeq.getD (i - 2) NucleicAcid.N ≠ NucleicAcid.N)
    (hn0 : nSeq.getD (i - 1) NucleicAcid.N ≠ NucleicAcid.N)
    (htr : tr (nSeq.getD (i - 3) NucleicAcid.N) (nSeq.getD (i - 2) NucleicAcid.N)
      (nSeq.getD (i - 1) NucleicAcid.N) = aSeq.getD (j - 1) AminoAcid.X) :
    cellScore B GENERAL i j = 10 * (j : Int)
      ∧ cellPrev B GENERAL i j = getMatrixIndex B GENERAL ((i : Int) - 3) ((j : Int) - 1) := by
  have hc := (hS.cells i j hi hj).2.2
  simp only [prevColumnAt_eq B _ i 1 j 1 rfl (by omega) h1,
    prevColumnAt_eq B _ i 2 j 2 rfl (by omega) h1,
    prevColumnAt_eq B _ i 3 j 3 rfl (by omega) h1] at hc
  have bnd := all_bounds_int tr nSeq aSeq B hS hsz
  have b11 := bnd ((i : Int) - 1) ((j : Int) - 1) (by omega) (by omega) (by omega) (by omega)
  have b21 := bnd ((i : Int) - 2) ((j : Int) - 1) (by omega) (by omega) (by omega) (by omega)
  have b00 := bnd (i : Int) (j : Int) (by omega) (by omega) (by omega) (by omega)
  obtain ⟨bG11, _, bD11⟩ := b11
  obtain ⟨bG21, _, bD21⟩ := b21
  obtain ⟨_, bI00, bD00⟩ := b00
  have bD11 := bD11 (by omega)
  have bD21 := bD21 (by omega)
  have bI00 := bI00 (Or.inl (by omega))
  have bD00 := bD00 (by omega)
  have g2 : getNA B ((i : Int) - 2) = nSeq.getD (i - 3) NucleicAcid.N := by
    unfold getNA
    rw [hS.nSeq_eq, show ((i : Int) - 2 - 1).toNat = i - 3 by omega]
  have g1 : getNA B ((i : Int) - 1) = nSeq.getD (i - 2) NucleicAcid.N := by
    unfold getNA
    rw [hS.nSeq_eq, show ((i : Int) - 1 - 1).toNat = i - 2 by omega]
  have g0 : getNA B (i : Int) = nSeq.getD (i - 1) NucleicAcid.N := by
    unfold getNA
    rw [hS.nSeq_eq, show ((i : Int) - 1).toNat = i - 1 by omega]
  have ga : getAA B (j : Int) = aSeq.getD (j - 1) AminoAcid.X := by
    unfold getAA
    rw [hS.aSeq_eq, show ((j : Int) - 1).toNat = j - 1 by omega]
  have s10 : B.scoreHandler.GetSubstitutionScore j (getNA B ((i : Int) - 2))
      (getNA B ((i : Int) - 1)) (getNA B i) (getAA B j) = 10 := by
    rw [hS.handler_eq, g2, g1, g0, ga]
    exact sub_match tr j _ _ _ _ hn2 hn1 hn0 htr
  have e := calcScore_full B i j (by omega) (by omega)
    (cellScore B GENERAL ((i : Int) - 1) ((j : Int) - 1))
    (cellScore B GENERAL ((i : Int) - 2) ((j : Int) - 1))
    (cellScore B GENERAL ((i : Int) - 3) ((j : Int) - 1))
    (cellScore B INS i j) (cellScore B DEL i j)
    (cellScore B DEL ((i : Int) - 1) ((j : Int) - 1))
    (cellScore B DEL ((i : Int) - 2) ((j : Int) - 1)) (10 * (j : Int))
    (by rw [s10, hprev]; unfold iadd wrap; omega)
    (by unfold negInf; omega)
    (by rw [hS.handler_eq, sub_wild2, hS.q_eq, hS.r_eq, iadd4]; unfold wrap; omega)
    (by rw [hS.handler_eq, sub_wild1, hS.q_eq, hS.r_eq, iadd3]; unfold wrap; omega)
    (by rw [hS.handler_eq, sub_wild2, hS.q_eq, hS.r_eq, iadd3]; unfold wrap; omega)
    (by rw [hS.handler_eq, sub_wild2, hS.r_eq, iadd3]; unfold wrap; omega)
    (by rw [hS.handler_eq, sub_wild2, hS.r_eq, iadd2]; unfold wrap; omega)
    (by omega) (by omega)
  rw [e] at hc
  exact ⟨congrArg Prod.fst hc, congrArg Prod.snd hc⟩

theorem origin_cell (tr : NucleicAcid → NucleicAcid → NucleicAcid → AminoAcid)
    (nSeq : List NucleicAcid) (aSeq : List AminoAcid) (B : Alignment)
    (hS : ScenarioFill tr nSeq aSeq B) :
    cellScore B GENERAL 0 0 = 0 ∧ cellPrev B GENERAL 0 0 = 0 := by
  have hc := (hS.cells 0 0 (Nat.zero_le _) (Nat.zero_le _)).2.2
  rw [calcScore_boundary B _ _ (Or.inl (by simp))] at hc
  have h1 := congrArg Prod.fst hc
  have h2 := congrArg Prod.snd hc
  simp only [Nat.cast_zero] at h1 h2
  rw [getMatrixIndex_origin] at h2
  exact ⟨h1, h2⟩

theorem origin_mat (tr : NucleicAcid → NucleicAcid → NucleicAcid → AminoAcid)
    (nSeq : List NucleicAcid) (aSeq : List AminoAcid) (B : Alignment)
    (hS : ScenarioFill tr nSeq aSeq B) :
    matGet B.scoreMatrix 0 = 0 ∧ matGet B.scoreMatrix (0 + 1) = 0 := by
  have h := origin_cell tr nSeq aSeq B hS
  unfold cellScore cellPrev at h
  rw [getMatrixIndex_origin] at h
  exact h

/-- Along the diagonal of an exact in-frame coding sequence the GENERAL cell
`(3k, k)` holds `10k` and, for `k >= 1`, points to the cell `(3k-3, k-1)`. -/
theorem diagonal (tr : NucleicAcid → NucleicAcid → NucleicAcid → AminoAcid)
    (nSeq : List NucleicAcid) (aSeq : List AminoAcid) (B : Alignment)
    (hS : ScenarioFill tr nSeq aSeq B) (hcod : CodesInFrame tr nSeq aSeq)
    (hsz : aSeq.length < 2147483648) :
    ∀ k : Nat, k ≤ aSeq.length →
      cellScore B GENERAL ((3 * k : Nat) : Int) (k : Int) = 10 * (k : Int)
      ∧ (1 ≤ k → cellPrev B GENERAL ((3 * k : Nat) : Int) (k : Int)
          = getMatrixIndex B GENERAL ((3 * (k - 1) : Nat) : Int) ((k - 1 : Nat) : Int)) := by
  obtain ⟨hlen, hcodon⟩ := hcod
  intro k
  induction k with
  | zero =>
    intro _
    exact ⟨(origin_cell tr nSeq aSeq B hS).1, fun h => absurd h (by omega)⟩
  | succ k ih =>
    intro hk
    obtain ⟨hn2, hn1, hn0, htr⟩ := hcodon k (by omega)
    have hprev := (ih (by omega)).1
    have e1 : ((3 * (k + 1) : Nat) : Int) - 3 = ((3 * k : Nat) : Int) := by omega
    have e2 : ((k + 1 : Nat) : Int) - 1 = (k : Int) := by omega
    have e3 : ((3 * (k + 1 - 1) : Nat) : Int) = ((3 * k : Nat) : Int) := by
      rw [Nat.add_sub_cancel]
    have e4 : ((k + 1 - 1 : Nat) : Int) = (k : Int) := by rw [Nat.add_sub_cancel]
    have h := diag_step tr nSeq aSeq B hS (by omega) (3 * (k + 1)) (k + 1) (by omega) hk
      (by omega) (by omega) (by rw [e1, e2]; exact hprev)
      (by rw [show 3 * (k + 1) - 3 = 3 * k by omega]; exact hn2)
      (by rw [show 3 * (k + 1) - 2 = 3 * k + 1 by omega]; exact hn1)
      (by rw [show 3 * (k + 1) - 1 = 3 * k + 2 by omega]; exact hn0)
      (by
        rw [show 3 * (k + 1) - 3 = 3 * k by omega, show 3 * (k + 1) - 2 = 3 * k + 1 by omega,
          show 3 * (k + 1) - 1 = 3 * k + 2 by omega, Nat.add_sub_cancel]
        exact htr)
    rw [e1, e2] at h
    rw [e3, e4]
    exact ⟨h.1, fun _ => h.2⟩

/-- The running maximum of the scenario fill of an exact in-frame coding
sequence ends on the last cell of the diagonal. -/
theorem scenario_argmax (tr : NucleicAcid → NucleicAcid → NucleicAcid → AminoAcid)
    (nSeq : List NucleicAcid) (aSeq : List AminoAcid) (B : Alignment)
    (hS : ScenarioFill tr nSeq aSeq B) (hcod : CodesInFrame tr nSeq aSeq)
    (hsz : aSeq.length < 2147483648) :
    B.maxScorePosN = ((3 * aSeq.length : Nat) : Int) ∧ B.maxScorePosA = (aSeq.length : Int)
      ∧ B.maxScore = 10 * (aSeq.length : Int) := by
  have hlen := hcod.1
  have hd := (diagonal tr nSeq aSeq B hS hcod hsz aSeq.length (le_refl _)).1
  obtain ⟨i, j, hi, hj, e1, e2, e3⟩ := hS.maxAt
  have hb := (all_bounds tr nSeq aSeq B hS (by omega) (i + j) i j rfl hi hj).1.2
  have hle := hS.maxLe (3 * aSeq.length) aSeq.length (by omega) (le_refl _)
  have hj2 : j = aSeq.length := by omega
  have hmax : B.maxScore = 10 * (aSeq.length : Int) := by omega
  have hl := hS.maxLast (3 * aSeq.length) aSeq.length (by omega) (le_refl _)
    (by rw [hd, hmax])
  rw [e1, e2] at hl ⊢
  refine ⟨?_, ?_, hmax⟩
  · have : i = 3 * aSeq.length := by omega
    rw [this]
  · rw [hj2]

theorem diagIndex_valid (tr : NucleicAcid → NucleicAcid → NucleicAcid → AminoAcid)
    (nSeq : List NucleicAcid) (aSeq : List AminoAcid) (B : Alignment)
    (hS : ScenarioFill tr nSeq aSeq B) (hcod : CodesInFrame tr nSeq aSeq) (k : Nat)
    (hk : k ≤ aSeq.length) : ValidCell B GENERAL ((3 * k : Nat) : Int) (k : Int) := by
  have hlen := hcod.1
  refine ⟨Or.inl rfl, ?_, ?_⟩
  · rw [hS.nLen]; omega
  · rw [hS.aLen]; omega

theorem diagIndex_zero (B : Alignment) : diagIndex B 0 = 0 := by
  unfold diagIndex
  simp only [Nat.mul_zero, Nat.cast_zero]
  exact getMatrixIndex_origin B

theorem diagIndex_nonneg (tr : NucleicAcid → NucleicAcid → NucleicAcid → AminoAcid)
    (nSeq : List NucleicAcid) (aSeq : List AminoAcid) (B : Alignment)
    (hS : ScenarioFill tr nSeq aSeq B) (hcod : CodesInFrame tr nSeq aSeq) (k : Nat)
    (hk : k ≤ aSeq.length) : 0 ≤ diagIndex B k :=
  (getMatrixIndex_bounds B _ _ _ (diagIndex_valid tr nSeq aSeq B hS hcod k hk)).1

theorem diagIndex_succ_ne (tr : NucleicAcid → NucleicAcid → NucleicAcid → AminoAcid)
    (nSeq : List NucleicAcid) (aSeq : List AminoAcid) (B : Alignment)
    (hS : ScenarioFill tr nSeq aSeq B) (hcod : CodesInFrame tr nSeq aSeq) (k : Nat)
    (hk : k + 1 ≤ aSeq.length) : diagIndex B (k + 1) ≠ diagIndex B k := by
  intro h
  have := getMatrixIndex_inj B _ _ _ _ _ _
    (diagIndex_valid tr nSeq aSeq B hS hcod (k + 1) hk)
    (diagIndex_valid tr nSeq aSeq B hS hcod k (by omega)) h
  omega

theorem diagIndex_typedPos (tr : NucleicAcid → NucleicAcid → NucleicAcid → AminoAcid)
    (nSeq : List NucleicAcid) (aSeq : List AminoAcid) (B : Alignment)
    (hS : ScenarioFill tr nSeq aSeq B) (hcod : CodesInFrame tr nSeq aSeq) (k : Nat)
    (hk : k ≤ aSeq.length) :
    getTypedPos B (diagIndex B k) = (GENERAL, ((3 * k : Nat) : Int), (k : Int)) :=
  getTypedPos_cellIndex B (GENERAL, ((3 * k : Nat) : Int), (k : Int))
    (diagIndex_valid tr nSeq aSeq B hS hcod k hk)

theorem diagIndex_score (tr : NucleicAcid → NucleicAcid → NucleicAcid → AminoAcid)
    (nSeq : List NucleicAcid) (aSeq : List AminoAcid) (B : Alignment)
    (hS : ScenarioFill tr nSeq aSeq B) (hcod : CodesInFrame tr nSeq aSeq)
    (hsz : aSeq.length < 2147483648) (k : Nat) (hk : k ≤ aSeq.length) :
    matGet B.scoreMatrix (diagIndex B k) = 10 * (k : Int) :=
  (diagonal tr nSeq aSeq B hS hcod hsz k hk).1

theorem diagIndex_prev (tr : NucleicAcid → NucleicAcid → NucleicAcid → AminoAcid)
    (nSeq : List NucleicAcid) (aSeq : List AminoAcid) (B : Alignment)
    (hS : ScenarioFill tr nSeq aSeq B) (hcod : CodesInFrame tr nSeq aSeq)
    (hsz : aSeq.length < 2147483648) (k : Nat) (hk : k ≤ aSeq.length) :
    matGet B.scoreMatrix (diagIndex B k + 1) = diagIndex B (k - 1) := by
  cases k with
  | zero =>
    rw [diagIndex_zero]
    exact (origin_mat tr nSeq aSeq B hS).2
  | succ k => exact (diagonal tr nSeq aSeq B hS hcod hsz (k + 1) hk).2 (by omega)

/-- From a cell of the diagonal, with a score bound no smaller than the score of
that cell, the first loop of `GetReport` walks down to the origin and leaves
`startMtIdx = 0`. -/
theorem trimLoop_diag (tr : NucleicAcid → NucleicAcid → NucleicAcid → AminoAcid)
    (nSeq : List NucleicAcid) (aSeq : List AminoAcid) (B : Alignment)
    (hS : ScenarioFill tr nSeq aSeq B) (hcod : CodesInFrame tr nSeq aSeq)
    (hsz : aSeq.length < 2147483648) :
    ∀ (k : Nat), k ≤ aSeq.length → ∀ (t : TrimState), t.curMtIdx = diagIndex B k →
      t.prevMtIdx ≠ diagIndex B k → 10 * (k : Int) ≤ t.prevScore →
      ∀ fuel, k + 2 ≤ fuel →
        ∃ t2, trimLoop B fuel t = some t2 ∧ t2.startMtIdx = 0 := by
  intro k
  induction k with
  | zero =>
    intro _ t hcur hprev hscore fuel hfuel
    obtain ⟨f, rfl⟩ : ∃ f, fuel = f + 2 := ⟨fuel - 2, by omega⟩
    rw [diagIndex_zero] at hcur hprev
    have hs0 : matGet B.scoreMatrix t.curMtIdx = 0 := by
      rw [hcur]; exact (origin_mat tr nSeq aSeq B hS).1
    have hp0 : matGet B.scoreMatrix (t.curMtIdx + 1) = 0 := by
      rw [hcur]; exact (origin_mat tr nSeq aSeq B hS).2
    refine ⟨trimStep B t, ?_, ?_⟩
    · show trimLoop B (f + 1 + 1) t = some (trimStep B t)
      unfold trimLoop
      rw [if_pos ⟨by omega, by rw [hcur]; exact fun h => hprev h.symm⟩]
      unfold trimLoop
      rw [if_neg]
      intro h
      apply h.2
      show matGet B.scoreMatrix (t.curMtIdx + 1) = t.curMtIdx
      rw [hp0, hcur]
    · show (if decide (matGet B.scoreMatrix t.curMtIdx ≤ t.prevScore) = true then t.curMtIdx
        else t.startMtIdx) = 0
      rw [hs0, if_pos (by simpa using hscore), hcur]
  | succ k ih =>
    intro hk t hcur hprev hscore fuel hfuel
    obtain ⟨f, rfl⟩ : ∃ f, fuel = f + 1 := ⟨fuel - 1, by omega⟩
    have hnn := diagIndex_nonneg tr nSeq aSeq B hS hcod (k + 1) hk
    have hs := diagIndex_score tr nSeq aSeq B hS hcod hsz (k + 1) hk
    have hp := diagIndex_prev tr nSeq aSeq B hS hcod hsz (k + 1) hk
    rw [Nat.add_sub_cancel] at hp
    unfold trimLoop
    rw [if_pos ⟨by omega, by rw [hcur]; exact fun h => hprev h.symm⟩]
    apply ih (by omega) (trimStep B t) _ _ _ f (by omega)
    · show matGet B.scoreMatrix (t.curMtIdx + 1) = diagIndex B k
      rw [hcur, hp]
    · show t.curMtIdx ≠ diagIndex B k
      rw [hcur]
      exact diagIndex_succ_ne tr nSeq aSeq B hS hcod k hk
    · show 10 * (k : Int) ≤ (if decide (matGet B.scoreMatrix t.curMtIdx ≤ t.prevScore) = true
        then matGet B.scoreMatrix t.curMtIdx else t.prevScore)
      rw [hcur, hs, if_pos (by simpa using hscore)]
      omega

theorem drop_take_three {α : Type} (d : α) :
    ∀ (m : Nat) (xs : List α), m + 3 ≤ xs.length →
      (xs.drop m).take 3 = [xs.getD m d, xs.getD (m + 1) d, xs.getD (m + 2) d] := by
  intro m
  induction m with
  | zero =>
    intro xs h
    match xs, h with
    | a :: b :: c :: rest, _ => rfl
  | succ m ih =>
    intro xs h
    match xs, h with
    | a :: rest, h =>
      have h2 : m + 3 ≤ rest.length := by simpa using h
      have e := ih rest h2
      simp only [List.drop_succ_cons]
      rw [e]
      rfl

theorem sliceOf_three {α : Type} (d : α) (xs : List α) (m : Nat) (h : m + 3 ≤ xs.length) :
    sliceOf xs (m : Int) ((m : Int) + 3)
      = [xs.getD m d, xs.getD (m + 1) d, xs.getD (m + 2) d] := by
  unfold sliceOf
  rw [show ((m : Int)).toNat = m by omega, show ((m : Int) + 3 - m).toNat = 3 by omega]
  exact drop_take_three d m xs h

/-- One pass of the second loop of `GetReport` over a GENERAL cell that lies
one codon and one amino acid before the previous one, when the helpers report
neither a mutation nor a frame shift for the codon. -/
theorem reportStep_silent (B : Alignment) (hp : ReportHelpers) (st : ReportState)
    (posN posA : Int) (htp : getTypedPos B st.endMtIdx = (GENERAL, posN, posA))
    (hT : st.lastScoreType = GENERAL) (hU : st.hasUnprocessedNAs = false)
    (hN : st.LastPosN = posN + 3) (hA : st.LastPosA = posA + 1)
    (hN0 : 0 ≤ posN) (hA0 : 0 ≤ posA) (hfresh : st.lastAA ≠ 0)
    (hmut : hp.MakeMutation (posA + 1) (sliceOf B.nSeq posN (posN + 3))
      (B.aSeq.getD posA.toNat AminoAcid.X) = none)
    (hfs : hp.MakeFrameShift (posA + 1) (sliceOf B.nSeq posN (posN + 3)) = none) :
    (reportStep B hp st).1.cLine = ":::" ++ st.cLine
    ∧ (reportStep B hp st).1.firstAA = posA + 1
    ∧ (reportStep B hp st).1.firstNA = posN + 1
    ∧ (reportStep B hp st).1.lastAA = st.lastAA
    ∧ (reportStep B hp st).1.lastNA = st.lastNA
    ∧ (reportStep B hp st).1.mutList = st.mutList
    ∧ (reportStep B hp st).1.fsList = st.fsList
    ∧ (reportStep B hp st).1.LastPosN = posN
    ∧ (reportStep B hp st).1.LastPosA = posA
    ∧ (reportStep B hp st).1.lastScoreType = GENERAL
    ∧ (reportStep B hp st).1.hasUnprocessedNAs = false
    ∧ (reportStep B hp st).1.endMtIdx = matGet B.scoreMatrix (st.endMtIdx + 1)
    ∧ (reportStep B hp st).2 = decide (posN = 0 ∨ posA = 0) := by
  have hemit : (st.lastScoreType ≠ INS ∧ st.LastPosN > -1 ∧ st.LastPosA > -1) := by
    rw [hT, hN, hA]
    exact ⟨GENERAL_ne_INS, by omega, by omega⟩
  have hcons : st.LastPosA > posA := by omega
  have e0 : ("" : String) ++ ":::" = ":::" := by decide
  simp only [reportStep, htp, hN, hA, hT, hU, hmut, hfs, partialLines]
  simp [GENERAL_ne_INS, hfresh, e0]
  omega

theorem reportStep_first (B : Alignment) (hp : ReportHelpers) (posN posA : Int)
    (htp : getTypedPos B (reportInit B).endMtIdx = (GENERAL, posN, posA)) :
    (reportStep B hp (reportInit B)).1.cLine = ""
    ∧ (reportStep B hp (reportInit B)).1.lastAA = posA
    ∧ (reportStep B hp (reportInit B)).1.lastNA = posN
    ∧ (reportStep B hp (reportInit B)).1.mutList = []
    ∧ (reportStep B hp (reportInit B)).1.fsList = []
    ∧ (reportStep B hp (reportInit B)).1.LastPosN = posN
    ∧ (reportStep B hp (reportInit B)).1.LastPosA = posA
    ∧ (reportStep B hp (reportInit B)).1.lastScoreType = GENERAL
    ∧ (reportStep B hp (reportInit B)).1.hasUnprocessedNAs = false
    ∧ (reportStep B hp (reportInit B)).1.endMtIdx
        = matGet B.scoreMatrix ((reportInit B).endMtIdx + 1)
    ∧ (reportStep B hp (reportInit B)).2 = decide (posN = 0 ∨ posA = 0) := by
  simp only [reportStep, htp]
  simp [reportInit, GENERAL_ne_INS]

theorem reportLoop_diag (tr : NucleicAcid → NucleicAcid → NucleicAcid → AminoAcid)
    (nSeq : List NucleicAcid) (aSeq : List AminoAcid) (B : Alignment)
    (hS : ScenarioFill tr nSeq aSeq B) (hcod : CodesInFrame tr nSeq aSeq)
    (hsz : aSeq.length < 2147483648) (hp : ReportHelpers) (hsil : SilentOnMatch tr hp) :
    ∀ (k : Nat), 1 ≤ k → k ≤ aSeq.length → ∀ (st : ReportState),
      DiagState B aSeq.length k st → ∀ fuel, k ≤ fuel →
        ∃ st2, reportLoop B hp 0 fuel st = some st2
          ∧ st2.firstAA = 1 ∧ st2.firstNA = 1 ∧ st2.lastAA = (aSeq.length : Int)
          ∧ st2.lastNA = ((3 * aSeq.length : Nat) : Int)
          ∧ st2.mutList = [] ∧ st2.fsList = []
          ∧ st2.cLine = repeatString ":::" aSeq.length := by
  intro k
  induction k with
  | zero =>
    intro h
    omega
  | succ k ih =>
    intro _ hk st hst fuel hfuel
    obtain ⟨f, rfl⟩ : ∃ f, fuel = f + 1 := ⟨fuel - 1, by omega⟩
    have hend : st.endMtIdx = diagIndex B k := by
      rw [hst.endIdx, Nat.add_sub_cancel]
    have hnn := diagIndex_nonneg tr nSeq aSeq B hS hcod k (by omega)
    obtain ⟨hn2, hn1, hn0, htr⟩ := hcod.2 k (by omega)
    have hwin : sliceOf B.nSeq ((3 * k : Nat) : Int) (((3 * k : Nat) : Int) + 3)
        = [nSeq.getD (3 * k) NucleicAcid.N, nSeq.getD (3 * k + 1) NucleicAcid.N,
            nSeq.getD (3 * k + 2) NucleicAcid.N] := by
      rw [hS.nSeq_eq]
      exact sliceOf_three NucleicAcid.N nSeq (3 * k) (by have := hcod.1; omega)
    have haa : B.aSeq.getD ((k : Int)).toNat AminoAcid.X = aSeq.getD k AminoAcid.X := by
      rw [hS.aSeq_eq, Int.toNat_ofNat]
    have hq := hsil ((k : Int) + 1) _ _ _ hn2 hn1 hn0
    rw [htr] at hq
    have hstep := reportStep_silent B hp st ((3 * k : Nat) : Int) (k : Int)
      (by rw [hend]; exact diagIndex_typedPos tr nSeq aSeq B hS hcod k (by omega))
      hst.plane hst.clean (by rw [hst.posN]; omega) (by rw [hst.posA]; omega)
      (by omega) (by omega) (by rw [hst.lastAA]; omega)
      (by rw [hwin, haa]; exact hq.1) (by rw [hwin]; exact hq.2)
    obtain ⟨s1, s2, s3, s4, s5, s6, s7, s8, s9, s10, s11, s12, s13⟩ := hstep
    unfold reportLoop
    simp only
    rw [if_pos (by
      rw [Int.zero_tmod]
      exact Int.tmod_nonneg _ (by rw [hend]; exact hnn))]
    by_cases hk0 : k = 0
    · subst hk0
      rw [if_pos (by rw [s13]; simp)]
      refine ⟨_, rfl, ?_, ?_, ?_, ?_, ?_, ?_, ?_⟩
      · rw [s2]; simp
      · rw [s3]; simp
      · rw [s4, hst.lastAA]
      · rw [s5, hst.lastNA]
      · rw [s6, hst.muts]
      · rw [s7, hst.fss]
      · rw [s1, hst.control]
        have : aSeq.length = (aSeq.length - (0 + 1)) + 1 := by omega
        conv => rhs; rw [this]
        rfl
    · rw [if_neg (by rw [s13]; simp; omega)]
      apply ih (by omega) (by omega) _ _ f (by omega)
      refine ⟨?_, ?_, ?_, s10, s11, ?_, ?_, ?_, ?_, ?_⟩
      · rw [s12, hend]
        exact diagIndex_prev tr nSeq aSeq B hS hcod hsz k (by omega)
      · rw [s8]
      · rw [s9]
      · rw [s4, hst.lastAA]
      · rw [s5, hst.lastNA]
      · rw [s6, hst.muts]
      · rw [s7, hst.fss]
      · rw [s1, hst.control]
        have : aSeq.length - k = (aSeq.length - (k + 1)) + 1 := by omega
        rw [this]
        rfl

theorem diagIndex_ge (tr : NucleicAcid → NucleicAcid → NucleicAcid → AminoAcid)
    (nSeq : List NucleicAcid) (aSeq : List AminoAcid) (B : Alignment)
    (hS : ScenarioFill tr nSeq aSeq B) (ha : 1 ≤ aSeq.length) (k : Nat) :
    10 * (k : Int) ≤ diagIndex B k := by
  unfold diagIndex getMatrixIndex GENERAL
  rw [hS.aLen]
  push_cast
  have h1 : (1 : Int) ≤ (aSeq.length : Int) := by omega
  have h2 : (0 : Int) ≤ (k : Int) := Int.ofNat_nonneg _
  have h3 : 1 * (k : Int) ≤ (aSeq.length : Int) * (k : Int) :=
    mul_le_mul_of_nonneg_right h1 h2
  nlinarith

/-- On an exact in-frame coding sequence under the scenario scores, with
helpers that are silent on a matching codon, `GetReport` returns the
alignment of every codon to its amino acid. -/
theorem getReport_diag (tr : NucleicAcid → NucleicAcid → NucleicAcid → AminoAcid)
    (nSeq : List NucleicAcid) (aSeq : List AminoAcid) (B : Alignment)
    (hS : ScenarioFill tr nSeq aSeq B) (hcod : CodesInFrame tr nSeq aSeq)
    (hne : aSeq ≠ []) (hsz : aSeq.length < 2147483648) (hp : ReportHelpers)
    (hsil : SilentOnMatch tr hp) (fuel : Nat) (hfuel : aSeq.length + 2 ≤ fuel) :
    ∃ r, GetReport B hp fuel = some r
      ∧ r.Mutations = [] ∧ r.FrameShifts = []
      ∧ r.FirstAA = 1 ∧ r.LastAA = (aSeq.length : Int)
      ∧ r.FirstNA = 1 ∧ r.LastNA = 3 * (aSeq.length : Int)
      ∧ r.ControlLine = repeatString ":::" aSeq.length := by
  have ha : 1 ≤ aSeq.length := by
    cases aSeq with
    | nil => exact absurd rfl hne
    | cons x xs => simp
  obtain ⟨mN, mA, _⟩ := scenario_argmax tr nSeq aSeq B hS hcod hsz
  have hend : getMatrixIndex B GENERAL B.maxScorePosN B.maxScorePosA
      = diagIndex B aSeq.length := by
    rw [mN, mA]; rfl
  have hnn := diagIndex_nonneg tr nSeq aSeq B hS hcod aSeq.length (le_refl _)
  obtain ⟨t2, ht2, hstart⟩ := trimLoop_diag tr nSeq aSeq B hS hcod hsz aSeq.length (le_refl _)
    (trimInit B) hend
    (by show (-1 : Int) ≠ diagIndex B aSeq.length; omega)
    (by
      show 10 * (aSeq.length : Int) ≤ getMatrixIndex B GENERAL B.maxScorePosN B.maxScorePosA
      rw [hend]
      exact diagIndex_ge tr nSeq aSeq B hS ha aSeq.length)
    fuel hfuel
  obtain ⟨f, rfl⟩ : ∃ f, fuel = f + 1 := ⟨fuel - 1, by omega⟩
  have hinit : (reportInit B).endMtIdx = diagIndex B aSeq.length := hend
  obtain ⟨s1, s2, s3, s4, s5, s6, s7, s8, s9, s10, s11⟩ :=
    reportStep_first B hp ((3 * aSeq.length : Nat) : Int) (aSeq.length : Int)
      (by rw [hinit]; exact diagIndex_typedPos tr nSeq aSeq B hS hcod _ (le_refl _))
  have hd : DiagState B aSeq.length aSeq.length (reportStep B hp (reportInit B)).1 := by
    refine ⟨?_, s6, s7, s8, s9, s2, s3, s4, s5, ?_⟩
    · rw [s10, hinit]
      exact diagIndex_prev tr nSeq aSeq B hS hcod hsz _ (le_refl _)
    · rw [s1, Nat.sub_self]
      rfl
  obtain ⟨st2, hloop, r1, r2, r3, r4, r5, r6, r7⟩ :=
    reportLoop_diag tr nSeq aSeq B hS hcod hsz hp hsil aSeq.length ha (le_refl _) _ hd f
      (by omega)
  have hrep : reportLoop B hp t2.startMtIdx (f + 1) (reportInit B) = some st2 := by
    rw [hstart]
    unfold reportLoop
    simp only
    rw [if_pos (by
      rw [Int.zero_tmod]
      exact Int.tmod_nonneg _ (by rw [hinit]; exact hnn))]
    rw [if_neg (by rw [s11, decide_eq_true_eq]; omega)]
    exact hloop
  have hG : GetReport B hp (f + 1) = some
      { FirstAA := st2.firstAA, FirstNA := st2.firstNA, LastAA := st2.lastAA
        LastNA := st2.lastNA, Mutations := st2.mutList, FrameShifts := st2.fsList
        AminoAcidsLine := st2.aLine, ControlLine := st2.cLine
        NucleicAcidsLine := st2.nLine } := by
    unfold GetReport
    rw [ht2]
    simp only
    rw [hrep]
  refine ⟨_, hG, r5, r6, r1, r3, r2, ?_, r7⟩
  show st2.lastNA = 3 * (aSeq.length : Int)
  rw [r4]
  push_cast
  rfl

/-- C10, as amended: for every non-empty `aSeq` and the `nSeq` that is its exact
in-frame coding sequence under a codon table `tr` (three nucleotides, none of
them the wildcard `N`, for each amino acid), scored as in the scenarios of the
spec (full-codon match 10, mismatch -4, `q = -10`, `r = -2`, codon indel
opening -6 and extension -4) and reported with helpers that return nil on a
codon coding its reference amino acid, the fill ends with `maxScore = 10*|aSeq|`
and `GetReport` (each of its loops given fuel for `|aSeq| + 2` tests) returns
no mutations, no frame shifts, `FirstAA = 1`, `LastAA = |aSeq|`, `FirstNA = 1`,
`LastNA = 3*|aSeq|`, and a ControlLine that consists of `|aSeq|` groups `:::`
(the text the code writes for a codon without mutation), not of `.`
characters. -/
theorem getReport_inFrame (tr : NucleicAcid → NucleicAcid → NucleicAcid → AminoAcid)
    (nSeq : List NucleicAcid) (aSeq : List AminoAcid) (hp : ReportHelpers)
    (hcod : CodesInFrame tr nSeq aSeq) (hne : aSeq ≠ [])
    (hsz : aSeq.length < 2147483648) (hsil : SilentOnMatch tr hp)
    (fuel : Nat) (hfuel : aSeq.length + 2 ≤ fuel) :
    (NewAlignment nSeq aSeq (scenarioHandler tr)).maxScore = 10 * (aSeq.length : Int)
    ∧ ∃ r, GetReport (NewAlignment nSeq aSeq (scenarioHandler tr)) hp fuel = some r
      ∧ r.Mutations = [] ∧ r.FrameShifts = []
      ∧ r.FirstAA = 1 ∧ r.LastAA = (aSeq.length : Int)
      ∧ r.FirstNA = 1 ∧ r.LastNA = 3 * (aSeq.length : Int)
      ∧ r.ControlLine = repeatString ":::" aSeq.length :=
  ⟨(scenario_argmax tr nSeq aSeq _ (newAlignment_scenarioFill tr nSeq aSeq) hcod hsz).2.2,
    getReport_diag tr nSeq aSeq _ (newAlignment_scenarioFill tr nSeq aSeq) hcod hne hsz hp
      hsil fuel hfuel⟩

theorem silentOnMatch_scenarioHelpers
    (tr : NucleicAcid → NucleicAcid → NucleicAcid → AminoAcid) :
    SilentOnMatch tr (scenarioHelpers tr) := by
  intro pos n2 n1 n0 _ _ _
  simp [scenarioHelpers]

/-- Witness of C10 (amended) at `nSeq = ATGGAACGT`, `aSeq = MER` with the codon
table and the helpers of the scenarios. -/
theorem getReport_inFrame_witness :
    (CodesInFrame translate
        [NucleicAcid.A, NucleicAcid.T, NucleicAcid.G, NucleicAcid.G, NucleicAcid.A,
          NucleicAcid.A, NucleicAcid.C, NucleicAcid.G, NucleicAcid.T]
        [AminoAcid.M, AminoAcid.E, AminoAcid.R]
      ∧ [AminoAcid.M, AminoAcid.E, AminoAcid.R] ≠ []
      ∧ [AminoAcid.M, AminoAcid.E, AminoAcid.R].length < 2147483648
      ∧ SilentOnMatch translate (scenarioHelpers translate)
      ∧ [AminoAcid.M, AminoAcid.E, AminoAcid.R].length + 2 ≤ 5)
    ∧ ((NewAlignment
          [NucleicAcid.A, NucleicAcid.T, NucleicAcid.G, NucleicAcid.G, NucleicAcid.A,
            NucleicAcid.A, NucleicAcid.C, NucleicAcid.G, NucleicAcid.T]
          [AminoAcid.M, AminoAcid.E, AminoAcid.R] (scenarioHandler translate)).maxScore
        = 10 * ([AminoAcid.M, AminoAcid.E, AminoAcid.R].length : Int)
      ∧ ∃ r, GetReport (NewAlignment
          [NucleicAcid.A, NucleicAcid.T, NucleicAcid.G, NucleicAcid.G, NucleicAcid.A,
            NucleicAcid.A, NucleicAcid.C, NucleicAcid.G, NucleicAcid.T]
          [AminoAcid.M, AminoAcid.E, AminoAcid.R] (scenarioHandler translate))
          (scenarioHelpers translate) 5 = some r
        ∧ r.Mutations = [] ∧ r.FrameShifts = []
        ∧ r.FirstAA = 1 ∧ r.LastAA = ([AminoAcid.M, AminoAcid.E, AminoAcid.R].length : Int)
        ∧ r.FirstNA = 1
        ∧ r.LastNA = 3 * ([AminoAcid.M, AminoAcid.E, AminoAcid.R].length : Int)
        ∧ r.ControlLine = repeatString ":::" [AminoAcid.M, AminoAcid.E, AminoAcid.R].length) :=
  ⟨⟨by decide, by decide, by decide, silentOnMatch_scenarioHelpers translate, by decide⟩,
    getReport_inFrame translate _ _ (scenarioHelpers translate) (by decide) (by decide)
      (by decide) (silentOnMatch_scenarioHelpers translate) 5 (by decide)⟩

set_option maxRecDepth 100000 in
/-- C10 as stated fails: for `nSeq = ATGGAACGT`, `aSeq = MER` the fill gives
`maxScore = 30` and `GetReport` returns the ControlLine `:::::::::`, three
groups of the text the code writes for a codon without mutation, and not
`.........`. -/
theorem getReport_control_counterexample :
    (NewAlignment
        [NucleicAcid.A, NucleicAcid.T, NucleicAcid.G, NucleicAcid.G, NucleicAcid.A,
          NucleicAcid.A, NucleicAcid.C, NucleicAcid.G, NucleicAcid.T]
        [AminoAcid.M, AminoAcid.E, AminoAcid.R] (scenarioHandler translate)).maxScore = 30
    ∧ Option.map AlignmentReport.ControlLine
        (GetReport (NewAlignment
          [NucleicAcid.A, NucleicAcid.T, NucleicAcid.G, NucleicAcid.G, NucleicAcid.A,
            NucleicAcid.A, NucleicAcid.C, NucleicAcid.G, NucleicAcid.T]
          [AminoAcid.M, AminoAcid.E, AminoAcid.R] (scenarioHandler translate))
          (scenarioHelpers translate) 5) = some ":::::::::"
    ∧ Option.map AlignmentReport.ControlLine
        (GetReport (NewAlignment
          [NucleicAcid.A, NucleicAcid.T, NucleicAcid.G, NucleicAcid.G, NucleicAcid.A,
            NucleicAcid.A, NucleicAcid.C, NucleicAcid.G, NucleicAcid.T]
          [AminoAcid.M, AminoAcid.E, AminoAcid.R] (scenarioHandler translate))
          (scenarioHelpers translate) 5) ≠ some "........." := by
  decide

/-! ## C20: GetCalcInfo -/

theorem evenPrev_init : EvenPrev (negInf, 0) := by
  unfold EvenPrev
  rfl

theorem evenPrev_index (self : Alignment) (score : Int) (p i j : Int) :
    EvenPrev (score, getMatrixIndex self p i j) :=
  getMatrixIndex_even self p i j

theorem takeIfGreater_even (s : Int × Int) (c idx : Int) (hs : EvenPrev s)
    (hi : idx % 2 = 0) : EvenPrev (takeIfGreater s c idx) := by
  unfold takeIfGreater
  split_ifs
  · exact hi
  · exact hs

theorem takeIfGreaterEq_even (s : Int × Int) (c idx : Int) (hs : EvenPrev s)
    (hi : idx % 2 = 0) : EvenPrev (takeIfGreaterEq s c idx) := by
  unfold takeIfGreaterEq
  split_ifs
  · exact hi
  · exact hs

theorem calcExtInsScore_even (self : Alignment) (posN posA g30 i30 g20 g10 : Int) :
    EvenPrev (calcExtInsScore self posN posA g30 i30 g20 g10) := by
  unfold calcExtInsScore
  by_cases h0 : posN = 0 ∧ posA > 0
  · rw [if_pos h0]
    exact evenPrev_index _ _ _ _ _
  · rw [if_neg h0]
    simp only []
    refine takeIfGreater_even _ _ _ ?_ (getMatrixIndex_even _ _ _ _)
    by_cases h2 : posN > 2
    · rw [if_pos h2]
      refine takeIfGreater_even _ _ _ ?_ (getMatrixIndex_even _ _ _ _)
      by_cases h3 : posN > 3
      · rw [if_pos h3]
        refine takeIfGreater_even _ _ _ ?_ (getMatrixIndex_even _ _ _ _)
        refine takeIfGreater_even _ _ _ ?_ (getMatrixIndex_even _ _ _ _)
        exact evenPrev_init
      · rw [if_neg h3]
        exact evenPrev_init
    · rw [if_neg h2]
      by_cases h3 : posN > 3
      · omega
      · rw [if_neg h3]
        exact evenPrev_init

theorem calcDelScore_even (self : Alignment) (posN posA g01 g11 g21 d01 d11 : Int) :
    EvenPrev (calcDelScore self posN posA g01 g11 g21 d01 d11) := by
  unfold calcDelScore
  by_cases h0 : posN > 0 ∧ posA = 0
  · rw [if_pos h0]
    exact evenPrev_index _ _ _ _ _
  · rw [if_neg h0]
    by_cases h1 : posN > 0
    · rw [if_pos h1]
      simp only []
      by_cases h2 : posN > 1
      · rw [if_pos h2]
        refine takeIfGreaterEq_even _ _ _ ?_ (getMatrixIndex_even _ _ _ _)
        refine takeIfGreaterEq_even _ _ _ ?_ (getMatrixIndex_even _ _ _ _)
        refine takeIfGreater_even _ _ _ ?_ (getMatrixIndex_even _ _ _ _)
        refine takeIfGreater_even _ _ _ ?_ (getMatrixIndex_even _ _ _ _)
        refine takeIfGreater_even _ _ _ ?_ (getMatrixIndex_even _ _ _ _)
        refine takeIfGreaterEq_even _ _ _ ?_ (getMatrixIndex_even _ _ _ _)
        exact evenPrev_init
      · rw [if_neg h2]
        refine takeIfGreater_even _ _ _ ?_ (getMatrixIndex_even _ _ _ _)
        refine takeIfGreater_even _ _ _ ?_ (getMatrixIndex_even _ _ _ _)
        refine takeIfGreater_even _ _ _ ?_ (getMatrixIndex_even _ _ _ _)
        refine takeIfGreaterEq_even _ _ _ ?_ (getMatrixIndex_even _ _ _ _)
        exact evenPrev_init
    · rw [if_neg h1]
      exact evenPrev_init

theorem calcScore_even (self : Alignment) (posN posA g11 g21 g31 i00 d00 d11 d21 : Int) :
    EvenPrev (calcScore self posN posA g11 g21 g31 i00 d00 d11 d21) := by
  unfold calcScore
  by_cases h0 : posN = 0 ∨ posA = 0
  · rw [if_pos h0]
    exact evenPrev_index _ _ _ _ _
  · rw [if_neg h0]
    simp only []
    refine takeIfGreaterEq_even _ _ _ ?_ (getMatrixIndex_even _ _ _ _)
    refine takeIfGreaterEq_even _ _ _ ?_ (getMatrixIndex_even _ _ _ _)
    have first : EvenPrev (takeIfGreater (negInf, 0)
        (iadd (iadd (iadd (iadd g11 (self.scoreHandler.GetSubstitutionScore posA NucleicAcid.N
          NucleicAcid.N (getNA self posN) (getAA self posA))) self.q) self.r) self.r)
        (getMatrixIndex self GENERAL (posN - 1) (posA - 1))) :=
      takeIfGreater_even _ _ _ evenPrev_init (getMatrixIndex_even _ _ _ _)
    by_cases h1 : posN > 1
    · by_cases h2 : posN > 2
      · rw [if_pos h2, if_pos h1]
        refine takeIfGreaterEq_even _ _ _ ?_ (getMatrixIndex_even _ _ _ _)
        refine takeIfGreater_even _ _ _ ?_ (getMatrixIndex_even _ _ _ _)
        refine takeIfGreaterEq_even _ _ _ ?_ (getMatrixIndex_even _ _ _ _)
        refine takeIfGreater_even _ _ _ ?_ (getMatrixIndex_even _ _ _ _)
        refine takeIfGreater_even _ _ _ ?_ (getMatrixIndex_even _ _ _ _)
        exact first
      · rw [if_neg h2, if_pos h1]
        refine takeIfGreaterEq_even _ _ _ ?_ (getMatrixIndex_even _ _ _ _)
        refine takeIfGreater_even _ _ _ ?_ (getMatrixIndex_even _ _ _ _)
        refine takeIfGreater_even _ _ _ ?_ (getMatrixIndex_even _ _ _ _)
        exact first
    · have h2 : ¬ posN > 2 := by omega
      rw [if_neg h2, if_neg h1]
      exact first

/-- Every predecessor a filled cell stores is an even number. -/
theorem cellOK_prev_even (B : Alignment) (i j : Nat) (hc : CellOK B i j) (p : tScoreType)
    (hp : p = GENERAL ∨ p = INS ∨ p = DEL) : cellPrev B p i j % 2 = 0 := by
  obtain ⟨h1, h2, h3⟩ := hc
  rcases hp with rfl | rfl | rfl
  · have := congrArg Prod.snd h3
    simp only at this
    rw [this]
    exact calcScore_even _ _ _ _ _ _ _ _ _ _
  · have := congrArg Prod.snd h1
    simp only at this
    rw [this]
    exact calcExtInsScore_even _ _ _ _ _ _ _
  · have := congrArg Prod.snd h2
    simp only at this
    rw [this]
    exact calcDelScore_even _ _ _ _ _ _ _ _

theorem calcInfoLoop_all (N : Nat) :
    ∀ (l : List Int) (idx : Nat) (c : Int), l.length = 2 * N → idx % 2 = 0 →
      (∀ k, k < N → l.getD (2 * k + 1) 0 ≠ -1) → calcInfoLoop idx l c = c + N := by
  induction N with
  | zero =>
    intro l idx c hl _ _
    have : l = [] := List.length_eq_zero.mp (by omega)
    subst this
    simp [calcInfoLoop]
  | succ N ih =>
    intro l idx c hl hidx hall
    match l, hl with
    | x :: y :: rest, hl =>
      have h0 := hall 0 (by omega)
      simp only [Nat.mul_zero, Nat.zero_add, List.getD_cons_succ, List.getD_cons_zero] at h0
      unfold calcInfoLoop
      unfold calcInfoLoop
      rw [if_pos hidx, if_neg (by omega), if_pos h0]
      rw [ih rest (idx + 1 + 1) (c + 1) (by simp at hl; omega) (by omega)]
      · push_cast; ring
      · intro k hk
        have := hall (k + 1) (by omega)
        rw [show 2 * (k + 1) + 1 = (2 * k + 1) + 1 + 1 by ring] at this
        simpa [List.getD_cons_succ] using this

/-- Every even index below the buffer length is the flat index of a cell. -/
theorem index_onto (B : Alignment) (n a : Nat) (hn : B.nSeqLen = n) (ha : B.aSeqLen = a)
    (k : Nat) (hk : k < 3 * (n + 1) * (a + 1)) :
    ∃ (p : tScoreType) (i j : Nat), (p = GENERAL ∨ p = INS ∨ p = DEL) ∧ i ≤ n ∧ j ≤ a
      ∧ getMatrixIndex B p i j = 2 * (k : Int) := by
  have e1 := Nat.div_add_mod k (a + 1)
  have e2 := Nat.div_add_mod (k / (a + 1)) (n + 1)
  have hj := Nat.mod_lt k (show 0 < a + 1 by omega)
  have hi := Nat.mod_lt (k / (a + 1)) (show 0 < n + 1 by omega)
  have ht : k / (a + 1) < 3 * (n + 1) := by
    rw [Nat.div_lt_iff_lt_mul (by omega)]
    exact hk
  have hp : k / (a + 1) / (n + 1) < 3 := by
    rw [Nat.div_lt_iff_lt_mul (by omega)]
    exact ht
  generalize k / (a + 1) / (n + 1) = pp at e2 hp
  generalize k / (a + 1) % (n + 1) = i at e2 hi
  generalize k / (a + 1) = t at e1 e2
  generalize k % (a + 1) = j at e1 hj
  have key : getMatrixIndex B (pp : Int) i j = 2 * (k : Int) := by
    unfold getMatrixIndex
    rw [hn, ha, ← e1, ← e2]
    push_cast
    ring
  refine ⟨(pp : Int), i, j, ?_, by omega, by omega, key⟩
  have : pp = 0 ∨ pp = 1 ∨ pp = 2 := by omega
  rcases this with h | h | h
  · left; rw [h]; rfl
  · right; left; rw [h]; rfl
  · right; right; rw [h]; rfl

/-- C20: for every `nSeq`, `aSeq` and score handler, `GetCalcInfo` on the
alignment `NewAlignment` returns gives `(N, N)` with
`N = 3*(nLen+1)*(aLen+1)`: every stored prevIndex is an even number (an index
the sweep wrote), never `-1`, so the count of calculated cells is the number of
cells. -/
theorem getCalcInfo_counts_all (nSeq : List NucleicAcid) (aSeq : List AminoAcid)
    (sh : ScoreHandler) :
    GetCalcInfo (NewAlignment nSeq aSeq sh)
      = (3 * ((nSeq.length : Int) + 1) * ((aSeq.length : Int) + 1),
          3 * ((nSeq.length : Int) + 1) * ((aSeq.length : Int) + 1))
    ∧ ∀ k : Nat, 2 * k + 1 < (NewAlignment nSeq aSeq sh).scoreMatrix.length →
        (NewAlignment nSeq aSeq sh).scoreMatrix.getD (2 * k + 1) 0 % 2 = 0
        ∧ (NewAlignment nSeq aSeq sh).scoreMatrix.getD (2 * k + 1) 0 ≠ -1 := by
  have hall := fun i j hi hj => NewAlignment_cellOK nSeq aSeq sh i j hi hj
  have hn := NewAlignment_nSeqLen nSeq aSeq sh
  have ha := NewAlignment_aSeqLen nSeq aSeq sh
  have hlen := NewAlignment_len nSeq aSeq sh
  generalize NewAlignment nSeq aSeq sh = B at hall hn ha hlen ⊢
  have hL : B.scoreMatrix.length = 2 * (3 * (nSeq.length + 1) * (aSeq.length + 1)) := by
    unfold typedPosLen scoreTypeCount at hlen
    rw [hn, ha] at hlen
    have : ((B.scoreMatrix.length : Nat) : Int)
        = ((2 * (3 * (nSeq.length + 1) * (aSeq.length + 1)) : Nat) : Int) := by
      rw [hlen]; push_cast; ring
    exact_mod_cast this
  have hodd : ∀ k : Nat, k < 3 * (nSeq.length + 1) * (aSeq.length + 1) →
      B.scoreMatrix.getD (2 * k + 1) 0 % 2 = 0 := by
    intro k hk
    obtain ⟨p, i, j, hp, hi, hj, he⟩ := index_onto B _ _ hn ha k hk
    have hev := cellOK_prev_even B i j (hall i j hi hj) p hp
    unfold cellPrev matGet at hev
    rw [he, show (2 * (k : Int) + 1).toNat = 2 * k + 1 by omega] at hev
    exact hev
  constructor
  · unfold GetCalcInfo
    rw [calcInfoLoop_all (3 * (nSeq.length + 1) * (aSeq.length + 1)) _ 0 0 hL rfl
      (fun k hk => by have := hodd k hk; omega)]
    rw [hL]
    refine Prod.ext ?_ ?_
    · simp only; push_cast; ring
    · simp only
      push_cast
      rw [Int.mul_tdiv_cancel_left _ (by norm_num)]
  · intro k hk
    have := hodd k (by omega)
    exact ⟨this, by omega⟩

/-! ## C13: an empty sequence -/

/-- The facts `calcScoreMain` leaves on the running maximum, for every handler. -/
theorem newAlignment_maxFacts (nSeq : List NucleicAcid) (aSeq : List AminoAcid)
    (sh : ScoreHandler) :
    (∃ i j : Nat, i ≤ nSeq.length ∧ j ≤ aSeq.length
        ∧ (NewAlignment nSeq aSeq sh).maxScorePosN = i
        ∧ (NewAlignment nSeq aSeq sh).maxScorePosA = j
        ∧ cellScore (NewAlignment nSeq aSeq sh) GENERAL i j
            = (NewAlignment nSeq aSeq sh).maxScore)
    ∧ (∀ i j : Nat, i ≤ nSeq.length → j ≤ aSeq.length →
        cellScore (NewAlignment nSeq aSeq sh) GENERAL i j
            = (NewAlignment nSeq aSeq sh).maxScore →
        (j : Int) < (NewAlignment nSeq aSeq sh).maxScorePosA
          ∨ ((j : Int) = (NewAlignment nSeq aSeq sh).maxScorePosA
              ∧ (i : Int) ≤ (NewAlignment nSeq aSeq sh).maxScorePosN)) := by
  have inv := fill_inv nSeq aSeq sh
  rw [NewAlignment_eq]
  constructor
  · obtain ⟨i, j, hi, hb, e1, e2, e3⟩ := inv.maxAt (Or.inl (by omega))
    have hb2 : j < aSeq.length + 1 ∨ (j = aSeq.length + 1 ∧ i < 0) := hb
    exact ⟨i, j, hi, by omega, e1, e2, e3⟩
  · intro i j hi hj he
    exact inv.maxLast i j hi (before_last _ _ _ hj) he

/-- A GENERAL cell of row 0 or column 0 holds the score 0 and its own index. -/
theorem boundary_cell (B : Alignment) (i j : Nat) (hc : CellOK B i j) (h : i = 0 ∨ j = 0) :
    matGet B.scoreMatrix (getMatrixIndex B GENERAL i j) = 0
      ∧ matGet B.scoreMatrix (getMatrixIndex B GENERAL i j + 1)
          = getMatrixIndex B GENERAL i j := by
  have e := hc.2.2
  rw [calcScore_boundary B _ _ (by omega)] at e
  exact ⟨congrArg Prod.fst e, congrArg Prod.snd e⟩

theorem reportStep_first_lines (B : Alignment) (hp : ReportHelpers) :
    (reportStep B hp (reportInit B)).1.nLine = ""
    ∧ (reportStep B hp (reportInit B)).1.aLine = "" := by
  simp [reportStep, reportInit]

/-- When the end cell is a GENERAL cell of row 0 or column 0, `GetReport`
returns after one pass of each loop with nothing on its lists and lines. -/
theorem getReport_boundary (B : Alignment) (hp : ReportHelpers) (n a i j : Nat)
    (hn : B.nSeqLen = n) (ha : B.aSeqLen = a) (hi : i ≤ n) (hj : j ≤ a)
    (hmN : B.maxScorePosN = i) (hmA : B.maxScorePosA = j) (hc : CellOK B i j)
    (hb : i = 0 ∨ j = 0) (fuel : Nat) (hfuel : 2 ≤ fuel) :
    ∃ r, GetReport B hp fuel = some r ∧ r.Mutations = [] ∧ r.FrameShifts = []
      ∧ r.AminoAcidsLine = "" ∧ r.ControlLine = "" ∧ r.NucleicAcidsLine = ""
      ∧ r.LastNA = i ∧ r.LastAA = j ∧ r.FirstNA = i + 1 ∧ r.FirstAA = j + 1 := by
  obtain ⟨f, rfl⟩ : ∃ f, fuel = f + 2 := ⟨fuel - 2, by omega⟩
  have hv : ValidCell B GENERAL (i : Int) (j : Int) := by
    refine ⟨Or.inl rfl, ?_, ?_⟩
    · rw [hn]; omega
    · rw [ha]; omega
  obtain ⟨hscore, hprev⟩ := boundary_cell B i j hc hb
  have hnn := (getMatrixIndex_bounds B _ _ _ hv).1
  have hend : getMatrixIndex B GENERAL B.maxScorePosN B.maxScorePosA
      = getMatrixIndex B GENERAL i j := by rw [hmN, hmA]
  have htrim : ∃ t2, trimLoop B (f + 2) (trimInit B) = some t2
      ∧ t2.startMtIdx = getMatrixIndex B GENERAL i j := by
    refine ⟨trimStep B (trimInit B), ?_, ?_⟩
    · show trimLoop B (f + 1 + 1) (trimInit B) = some (trimStep B (trimInit B))
      unfold trimLoop
      rw [if_pos ⟨by show getMatrixIndex B GENERAL B.maxScorePosN B.maxScorePosA ≥ 0
                     rw [hend]; exact hnn,
                  by show getMatrixIndex B GENERAL B.maxScorePosN B.maxScorePosA ≠ -1
                     rw [hend]; omega⟩]
      unfold trimLoop
      rw [if_neg]
      intro h
      apply h.2
      show matGet B.scoreMatrix (getMatrixIndex B GENERAL B.maxScorePosN B.maxScorePosA + 1)
        = getMatrixIndex B GENERAL B.maxScorePosN B.maxScorePosA
      rw [hend, hprev]
    · show (if decide (matGet B.scoreMatrix
          (getMatrixIndex B GENERAL B.maxScorePosN B.maxScorePosA)
            ≤ getMatrixIndex B GENERAL B.maxScorePosN B.maxScorePosA) = true
          then getMatrixIndex B GENERAL B.maxScorePosN B.maxScorePosA else 0)
        = getMatrixIndex B GENERAL i j
      rw [hend, hscore, if_pos (by simpa using hnn)]
  obtain ⟨t2, ht2, hstart⟩ := htrim
  have hinit : (reportInit B).endMtIdx = getMatrixIndex B GENERAL i j := hend
  obtain ⟨s1, s2, s3, s4, s5, s6, s7, s8, s9, s10, s11⟩ :=
    reportStep_first B hp (i : Int) (j : Int)
      (by rw [hinit]; exact getTypedPos_cellIndex B (GENERAL, (i : Int), (j : Int)) hv)
  obtain ⟨l1, l2⟩ := reportStep_first_lines B hp
  have hfa : (reportStep B hp (reportInit B)).1.firstAA = (j : Int) + 1
      ∧ (reportStep B hp (reportInit B)).1.firstNA = (i : Int) + 1 := by
    have htp : getTypedPos B (reportInit B).endMtIdx = (GENERAL, (i : Int), (j : Int)) := by
      rw [hinit]; exact getTypedPos_cellIndex B (GENERAL, (i : Int), (j : Int)) hv
    simp only [reportStep, htp]
    exact ⟨trivial, trivial⟩
  have hrep : reportLoop B hp t2.startMtIdx (f + 2) (reportInit B)
      = some (reportStep B hp (reportInit B)).1 := by
    show reportLoop B hp t2.startMtIdx (f + 1 + 1) (reportInit B) = _
    unfold reportLoop
    simp only
    rw [if_pos (by rw [hstart, hinit])]
    rw [if_pos (by rw [s11, decide_eq_true_eq]; omega)]
  have hG : GetReport B hp (f + 2) = some
      { FirstAA := (reportStep B hp (reportInit B)).1.firstAA
        FirstNA := (reportStep B hp (reportInit B)).1.firstNA
        LastAA := (reportStep B hp (reportInit B)).1.lastAA
        LastNA := (reportStep B hp (reportInit B)).1.lastNA
        Mutations := (reportStep B hp (reportInit B)).1.mutList
        FrameShifts := (reportStep B hp (reportInit B)).1.fsList
        AminoAcidsLine := (reportStep B hp (reportInit B)).1.aLine
        ControlLine := (reportStep B hp (reportInit B)).1.cLine
        NucleicAcidsLine := (reportStep B hp (reportInit B)).1.nLine } := by
    unfold GetReport
    rw [ht2]
    simp only
    rw [hrep]
  exact ⟨_, hG, s4, s5, l2, s1, l1, s3, s2, hfa.2, hfa.1⟩

/-- C13: if `nSeq` is empty or `aSeq` is empty (either one, or both), then
after `NewAlignment` `maxScore = 0`, and `GetReport` (each loop given fuel for
two tests of its condition) returns an empty Mutations list, an empty
FrameShifts list and three empty display lines. -/
theorem empty_sequence_report (nSeq : List NucleicAcid) (aSeq : List AminoAcid)
    (sh : ScoreHandler) (hp : ReportHelpers) (hempty : nSeq = [] ∨ aSeq = [])
    (fuel : Nat) (hfuel : 2 ≤ fuel) :
    (NewAlignment nSeq aSeq sh).maxScore = 0
    ∧ ∃ r, GetReport (NewAlignment nSeq aSeq sh) hp fuel = some r
      ∧ r.Mutations = [] ∧ r.FrameShifts = []
      ∧ r.AminoAcidsLine = "" ∧ r.ControlLine = "" ∧ r.NucleicAcidsLine = "" := by
  obtain ⟨⟨i, j, hi, hj, e1, e2, e3⟩, _⟩ := newAlignment_maxFacts nSeq aSeq sh
  have hb : i = 0 ∨ j = 0 := by
    rcases hempty with h | h
    · left; rw [h] at hi; simpa using hi
    · right; rw [h] at hj; simpa using hj
  have hc := NewAlignment_cellOK nSeq aSeq sh i j hi hj
  have hn := NewAlignment_nSeqLen nSeq aSeq sh
  have ha := NewAlignment_aSeqLen nSeq aSeq sh
  generalize NewAlignment nSeq aSeq sh = B at e1 e2 e3 hc hn ha ⊢
  constructor
  · rw [← e3]
    exact (boundary_cell B i j hc hb).1
  · obtain ⟨r, h1, h2, h3, h4, h5, h6, _⟩ :=
      getReport_boundary B hp _ _ i j hn ha hi hj e1 e2 hc hb fuel hfuel
    exact ⟨r, h1, h2, h3, h4, h5, h6⟩

theorem empty_sequence_report_witness :
    (([] : List NucleicAcid) = [] ∨ [AminoAcid.M, AminoAcid.E] = []) ∧ 2 ≤ 2
    ∧ ((NewAlignment [] [AminoAcid.M, AminoAcid.E] (scenarioHandler translate)).maxScore = 0
      ∧ ∃ r, GetReport (NewAlignment [] [AminoAcid.M, AminoAcid.E] (scenarioHandler translate))
          (scenarioHelpers translate) 2 = some r
        ∧ r.Mutations = [] ∧ r.FrameShifts = []
        ∧ r.AminoAcidsLine = "" ∧ r.ControlLine = "" ∧ r.NucleicAcidsLine = "") :=
  ⟨Or.inl rfl, by decide,
    empty_sequence_report [] [AminoAcid.M, AminoAcid.E] (scenarioHandler translate)
      (scenarioHelpers translate) (Or.inl rfl) 2 (by decide)⟩

/-! ## C14 and C15: construction and the sentinel -/

theorem sumsFit_of_bounds (k : Nat) :
    ∀ (l : List Int) (v : Int), l.length ≤ k → negInf + k * 1048576 ≤ v →
      v ≤ maxInt - k * 1048576 → (∀ x ∈ l, -1048576 ≤ x ∧ x ≤ 1048576) →
      SumsFit v l ∧ l.foldl iadd v = v + l.sum := by
  induction k with
  | zero =>
    intro l v hl _ _ _
    have : l = [] := List.length_eq_zero.mp (by omega)
    subst this
    exact ⟨trivial, by simp⟩
  | succ k ih =>
    intro l v hl hv1 hv2 hb
    cases l with
    | nil => exact ⟨trivial, by simp⟩
    | cons x xs =>
      have hx := hb x (List.mem_cons_self _ _)
      have hlen : xs.length ≤ k := by simpa using hl
      push_cast at hv1 hv2
      have e : iadd v x = v + x := by
        unfold iadd wrap
        unfold negInf at hv1
        unfold maxInt at hv2
        omega
      obtain ⟨h1, h2⟩ := ih xs (v + x) hlen (by omega) (by omega)
        (fun y hy => hb y (List.mem_cons_of_mem _ hy))
      refine ⟨⟨⟨by unfold negInf at hv1 ⊢; omega, by unfold maxInt at hv2 ⊢; omega⟩, h1⟩, ?_⟩
      rw [List.foldl_cons, e, h2, List.sum_cons]
      ring

/-- C15 as stated fails: `negInf` is `-2^63`, not `-(INT_MAX+1)/2 = -2^62`, and
on the cell value `v = negInf` the candidate sum `v + q + r` with `q = -10`,
`r = -2` wraps to `2^63 - 12`; the fill of `nSeq = ATG`, `aSeq = M` stores that
value in `INS(0, 0)`. -/
theorem negInf_sum_counterexample :
    negInf ≠ -((maxInt + 1) / 2)
    ∧ negInf ≤ negInf
    ∧ ¬ (negInf ≤ negInf + -10)
    ∧ iadd (iadd negInf (-10)) (-2) = 9223372036854775796
    ∧ iadd (iadd negInf (-10)) (-2) ≠ negInf + -10 + -2
    ∧ cellScore (NewAlignment [NucleicAcid.A, NucleicAcid.T, NucleicAcid.G] [AminoAcid.M]
        (scenarioHandler translate)) INS 0 0 = 9223372036854775796 := by
  decide

/-- What `NewAlignment` returns for an empty `nSeq` or an empty `aSeq`. -/
theorem newAlignment_of_empty (nSeq : List NucleicAcid) (aSeq : List AminoAcid)
    (sh : ScoreHandler) (hempty : nSeq = [] ∨ aSeq = []) :
    (NewAlignment nSeq aSeq sh).maxScore = 0
    ∧ (NewAlignment nSeq aSeq sh).maxScorePosN = (nSeq.length : Int)
    ∧ (NewAlignment nSeq aSeq sh).maxScorePosA = (aSeq.length : Int) := by
  obtain ⟨⟨i, j, hi, hj, e1, e2, e3⟩, hlast⟩ := newAlignment_maxFacts nSeq aSeq sh
  have hb : ∀ i2 j2 : Nat, i2 ≤ nSeq.length → j2 ≤ aSeq.length → i2 = 0 ∨ j2 = 0 := by
    intro i2 j2 h1 h2
    rcases hempty with h | h
    · left; rw [h] at h1; simpa using h1
    · right; rw [h] at h2; simpa using h2
  have hz : ∀ i2 j2 : Nat, i2 ≤ nSeq.length → j2 ≤ aSeq.length →
      cellScore (NewAlignment nSeq aSeq sh) GENERAL i2 j2 = 0 := fun i2 j2 h1 h2 =>
    (boundary_cell _ i2 j2 (NewAlignment_cellOK nSeq aSeq sh i2 j2 h1 h2) (hb i2 j2 h1 h2)).1
  have hm : (NewAlignment nSeq aSeq sh).maxScore = 0 := by
    rw [← e3]; exact hz i j hi hj
  have hl := hlast nSeq.length aSeq.length (le_refl _) (le_refl _)
    (by rw [hm]; exact hz _ _ (le_refl _) (le_refl _))
  rw [e1, e2] at hl ⊢
  refine ⟨hm, ?_, ?_⟩
  · have : i = nSeq.length := by omega
    rw [this]
  · have : j = aSeq.length := by omega
    rw [this]

/-- C14, as amended: `NewAlignment` does not reject empty sequences; it has no
error result.  For an empty `nSeq` or an empty `aSeq` it returns an Alignment
value: the sequences and their lengths as given, a buffer of
`3*(nLen+1)*(aLen+1)*2` entries, `maxScore = 0` at `(nLen, aLen)`; the
constructor of the spec, which rejects the input, differs from it there. -/
theorem newAlignment_accepts_empty (nSeq : List NucleicAcid) (aSeq : List AminoAcid)
    (sh : ScoreHandler) (hempty : nSeq = [] ∨ aSeq = []) :
    (NewAlignment nSeq aSeq sh).nSeqLen = (nSeq.length : Int)
    ∧ (NewAlignment nSeq aSeq sh).aSeqLen = (aSeq.length : Int)
    ∧ ((NewAlignment nSeq aSeq sh).scoreMatrix.length : Int)
        = 3 * ((nSeq.length : Int) + 1) * ((aSeq.length : Int) + 1) * 2
    ∧ (NewAlignment nSeq aSeq sh).maxScore = 0
    ∧ (NewAlignment nSeq aSeq sh).maxScorePosN = (nSeq.length : Int)
    ∧ (NewAlignment nSeq aSeq sh).maxScorePosA = (aSeq.length : Int)
    ∧ NewAlignmentSpec nSeq aSeq sh = Except.error ConstructionError.InvalidInput
    ∧ NewAlignmentSpec nSeq aSeq sh ≠ Except.ok (NewAlignment nSeq aSeq sh) := by
  obtain ⟨h1, h2, h3⟩ := newAlignment_of_empty nSeq aSeq sh hempty
  have hlen := NewAlignment_len nSeq aSeq sh
  unfold typedPosLen scoreTypeCount at hlen
  rw [NewAlignment_nSeqLen, NewAlignment_aSeqLen] at hlen
  have hs : NewAlignmentSpec nSeq aSeq sh = Except.error ConstructionError.InvalidInput := by
    unfold NewAlignmentSpec
    rw [if_pos]
    rcases hempty with h | h
    · left; rw [h]; rfl
    · right; rw [h]; rfl
  refine ⟨NewAlignment_nSeqLen _ _ _, NewAlignment_aSeqLen _ _ _, hlen, h1, h2, h3, hs, ?_⟩
  rw [hs]
  intro h
  cases h

theorem newAlignment_accepts_empty_witness :
    (([] : List NucleicAcid) = [] ∨ ([] : List AminoAcid) = [])
    ∧ ((NewAlignment [] [] (scenarioHandler translate)).nSeqLen
          = (([] : List NucleicAcid).length : Int)
      ∧ (NewAlignment [] [] (scenarioHandler translate)).aSeqLen
          = (([] : List AminoAcid).length : Int)
      ∧ ((NewAlignment [] [] (scenarioHandler translate)).scoreMatrix.length : Int)
          = 3 * ((([] : List NucleicAcid).length : Int) + 1)
              * ((([] : List AminoAcid).length : Int) + 1) * 2
      ∧ (NewAlignment [] [] (scenarioHandler translate)).maxScore = 0
      ∧ (NewAlignment [] [] (scenarioHandler translate)).maxScorePosN
          = (([] : List NucleicAcid).length : Int)
      ∧ (NewAlignment [] [] (scenarioHandler translate)).maxScorePosA
          = (([] : List AminoAcid).length : Int)
      ∧ NewAlignmentSpec [] [] (scenarioHandler translate)
          = Except.error ConstructionError.InvalidInput
      ∧ NewAlignmentSpec [] [] (scenarioHandler translate)
          ≠ Except.ok (NewAlignment [] [] (scenarioHandler translate))) :=
  ⟨Or.inl rfl, newAlignment_accepts_empty [] [] (scenarioHandler translate) (Or.inl rfl)⟩

/-- C14 as stated fails: for `nSeq` and `aSeq` both empty `NewAlignment`
returns an Alignment, with a buffer of the three cells at `(0, 0)` and
`maxScore = 0`, where the constructor of the spec yields `InvalidInput`. -/
theorem newAlignment_empty_counterexample :
    (NewAlignment [] [] (scenarioHandler translate)).scoreMatrix
        = [0, 0, 9223372036854775796, -2, -9223372036854775808, 0]
    ∧ (NewAlignment [] [] (scenarioHandler translate)).maxScore = 0
    ∧ Except.isOk (NewAlignmentSpec [] [] (scenarioHandler translate)) = false
    ∧ Except.isOk (Except.ok (NewAlignment [] [] (scenarioHandler translate)) :
        Except ConstructionError Alignment) = true := by
  decide

/-! ## C16: the calls to the score handler -/

theorem sameKernel_index (A A2 : Alignment) (aLen : Nat) (h : SameKernel A A2 aLen)
    (p i j : Int) : getMatrixIndex A p i j = getMatrixIndex A2 p i j := by
  unfold getMatrixIndex
  rw [h.nLen_eq, h.aLen_eq]

theorem sameKernel_getNA (A A2 : Alignment) (aLen : Nat) (h : SameKernel A A2 aLen)
    (k : Int) : getNA A k = getNA A2 k := by
  unfold getNA
  rw [h.nSeq_eq]

theorem sameKernel_getAA (A A2 : Alignment) (aLen : Nat) (h : SameKernel A A2 aLen)
    (k : Int) : getAA A k = getAA A2 k := by
  unfold getAA
  rw [h.aSeq_eq]

theorem sameKernel_indel (A A2 : Alignment) (aLen : Nat) (h : SameKernel A A2 aLen)
    (posA : Int) (b : Bool) (h1 : 1 ≤ posA) (h2 : posA ≤ aLen) :
    indelCodonScore A posA b = indelCodonScore A2 posA b := by
  unfold indelCodonScore
  rw [h.pos_eq, h.open_eq, h.ext_eq, h.indel_eq posA h1 h2]

theorem sameKernel_calcScore (A A2 : Alignment) (aLen : Nat) (h : SameKernel A A2 aLen)
    (posN posA : Int) (h1 : 1 ≤ posA) (h2 : posA ≤ aLen)
    (g11 g21 g31 i00 d00 d11 d21 : Int) :
    calcScore A posN posA g11 g21 g31 i00 d00 d11 d21
      = calcScore A2 posN posA g11 g21 g31 i00 d00 d11 d21 := by
  unfold calcScore
  simp only [sameKernel_index A A2 aLen h, sameKernel_getNA A A2 aLen h,
    sameKernel_getAA A A2 aLen h, h.q_eq, h.r_eq, h.sub_eq posA h1 h2]

theorem sameKernel_calcDelScore (A A2 : Alignment) (aLen : Nat) (h : SameKernel A A2 aLen)
    (posN posA : Int) (h1 : 1 ≤ posA) (h2 : posA ≤ aLen)
    (g01 g11 g21 d01 d11 : Int) :
    calcDelScore A posN posA g01 g11 g21 d01 d11
      = calcDelScore A2 posN posA g01 g11 g21 d01 d11 := by
  unfold calcDelScore
  simp only [sameKernel_index A A2 aLen h, sameKernel_getNA A A2 aLen h,
    sameKernel_getAA A A2 aLen h, h.q_eq, h.r_eq, h.sub_eq posA h1 h2,
    sameKernel_indel A A2 aLen h posA false h1 h2]

theorem sameKernel_calcExtInsScore (A A2 : Alignment) (aLen : Nat)
    (h : SameKernel A A2 aLen) (posN posA : Int) (h1 : 1 ≤ posA) (h2 : posA ≤ aLen)
    (g30 i30 g20 g10 : Int) :
    calcExtInsScore A posN posA g30 i30 g20 g10
      = calcExtInsScore A2 posN posA g30 i30 g20 g10 := by
  unfold calcExtInsScore
  simp only [sameKernel_index A A2 aLen h, h.q_eq, h.r_eq,
    sameKernel_indel A A2 aLen h posA true h1 h2]

theorem sameCell_score (A A2 : Alignment) (p : tScoreType) (i j : Int)
    (h : SameCell A A2 p i j) : cellScore A p i j = cellScore A2 p i j :=
  congrArg Prod.fst h

/-- Handlers that agree on `1..aLen` fill every GENERAL cell, every DEL cell
and every INS cell outside column 0 alike. -/
theorem sameCells (A A2 : Alignment) (n a : Nat) (hk : SameKernel A A2 a)
    (hc : ∀ i j : Nat, i ≤ n → j ≤ a → CellOK A i j)
    (hc2 : ∀ i j : Nat, i ≤ n → j ≤ a → CellOK A2 i j) :
    ∀ (m i j : Nat), i + j = m → i ≤ n → j ≤ a →
      SameCell A A2 GENERAL i j ∧ SameCell A A2 DEL i j
        ∧ (1 ≤ j → SameCell A A2 INS i j) := by
  intro m
  induction m using Nat.strong_induction_on with
  | _ m ihm =>
    intro i j hm hi hj
    have ih : ∀ x y : Nat, x ≤ i → y ≤ j → (x < i ∨ y < j) →
        SameCell A A2 GENERAL x y ∧ SameCell A A2 DEL x y
          ∧ (1 ≤ y → SameCell A A2 INS x y) := by
      intro x y hx hy hlt
      exact ihm (x + y) (by omega) x y rfl (by omega) (by omega)
    have pc : ∀ (p : tScoreType), (p = GENERAL ∨ p = DEL) → ∀ k : Nat, k ≤ i →
        prevColumn A p k j = prevColumn A2 p k j := by
      intro p hp k hki
      unfold prevColumn
      by_cases hj0 : j = 0
      · rw [if_pos hj0, if_pos hj0]
      · rw [if_neg hj0, if_neg hj0]
        have e : ((j : Int) - 1) = ((j - 1 : Nat) : Int) := by omega
        rw [e]
        have := ih k (j - 1) hki (by omega) (Or.inr (by omega))
        rcases hp with rfl | rfl
        · exact sameCell_score _ _ _ _ _ this.1
        · exact sameCell_score _ _ _ _ _ this.2.1
    have pca : ∀ (p : tScoreType), (p = GENERAL ∨ p = DEL) → ∀ d : Nat,
        prevColumnAt A p i d j = prevColumnAt A2 p i d j := by
      intro p hp d
      unfold prevColumnAt
      by_cases hd : d ≤ i
      · rw [if_pos hd, if_pos hd]
        exact pc p hp (i - d) (by omega)
      · rw [if_neg hd, if_neg hd]
    have sc : 1 ≤ j → ∀ (p : tScoreType), (p = GENERAL ∨ p = INS) → ∀ d : Nat, 1 ≤ d →
        sameColumn A p i d j = sameColumn A2 p i d j := by
      intro hj1 p hp d hd1
      unfold sameColumn
      by_cases hd : d ≤ i
      · rw [if_pos hd, if_pos hd]
        have e : ((i : Int) - (d : Int)) = ((i - d : Nat) : Int) := by omega
        rw [e]
        have := ih (i - d) j (by omega) (le_refl _) (Or.inl (by omega))
        rcases hp with rfl | rfl
        · exact sameCell_score _ _ _ _ _ this.1
        · exact sameCell_score _ _ _ _ _ (this.2.2 hj1)
      · rw [if_neg hd, if_neg hd]
    have hI : 1 ≤ j → SameCell A A2 INS i j := by
      intro hj1
      unfold SameCell
      rw [(hc i j hi hj).1, (hc2 i j hi hj).1,
        sc hj1 GENERAL (Or.inl rfl) 3 (by omega), sc hj1 INS (Or.inr rfl) 3 (by omega),
        sc hj1 GENERAL (Or.inl rfl) 2 (by omega), sc hj1 GENERAL (Or.inl rfl) 1 (by omega)]
      exact sameKernel_calcExtInsScore A A2 a hk _ _ (by omega) (by omega) _ _ _ _
    have hD : SameCell A A2 DEL i j := by
      unfold SameCell
      rw [(hc i j hi hj).2.1, (hc2 i j hi hj).2.1,
        pc GENERAL (Or.inl rfl) i (le_refl _), pca GENERAL (Or.inl rfl) 1,
        pca GENERAL (Or.inl rfl) 2, pc DEL (Or.inr rfl) i (le_refl _),
        pca DEL (Or.inr rfl) 1]
      by_cases hj0 : j = 0
      · subst hj0
        by_cases hi0 : i = 0
        · subst hi0
          simp only [Nat.cast_zero]
          rw [calcDelScore_row_zero, calcDelScore_row_zero]
        · rw [calcDelScore_boundary A _ _ (by omega) (by simp),
            calcDelScore_boundary A2 _ _ (by omega) (by simp), hk.q_eq,
            sameKernel_index A A2 a hk]
      · exact sameKernel_calcDelScore A A2 a hk _ _ (by omega) (by omega) _ _ _ _ _
    have hG : SameCell A A2 GENERAL i j := by
      unfold SameCell
      rw [(hc i j hi hj).2.2, (hc2 i j hi hj).2.2]
      by_cases hb : i = 0 ∨ j = 0
      · rw [calcScore_boundary A _ _ (by omega), calcScore_boundary A2 _ _ (by omega),
          sameKernel_index A A2 a hk]
      · rw [pca GENERAL (Or.inl rfl) 1, pca GENERAL (Or.inl rfl) 2,
          pca GENERAL (Or.inl rfl) 3, pca DEL (Or.inr rfl) 1, pca DEL (Or.inr rfl) 2,
          sameCell_score _ _ _ _ _ (hI (by omega)), sameCell_score _ _ _ _ _ hD]
        exact sameKernel_calcScore A A2 a hk _ _ (by omega) (by omega) _ _ _ _ _ _ _
    exact ⟨hG, hD, hI⟩

theorem newAlignment_maxLe (nSeq : List NucleicAcid) (aSeq : List AminoAcid)
    (sh : ScoreHandler) (i j : Nat) (hi : i ≤ nSeq.length) (hj : j ≤ aSeq.length) :
    cellScore (NewAlignment nSeq aSeq sh) GENERAL i j
      ≤ (NewAlignment nSeq aSeq sh).maxScore := by
  have inv := fill_inv nSeq aSeq sh
  rw [NewAlignment_eq]
  exact inv.maxLe i j hi (before_last _ _ _ hj)

theorem newAlignment_sameKernel (nSeq : List NucleicAcid) (aSeq : List AminoAcid)
    (sh sh2 : ScoreHandler) (h : SameOnDomain sh sh2 aSeq.length) :
    SameKernel (NewAlignment nSeq aSeq sh) (NewAlignment nSeq aSeq sh2) aSeq.length := by
  obtain ⟨m, hm⟩ := NewAlignment_static nSeq aSeq sh
  obtain ⟨m2, hm2⟩ := NewAlignment_static nSeq aSeq sh2
  rw [hm, hm2]
  exact ⟨rfl, rfl, rfl, rfl, h.q_eq, h.r_eq, h.pos_eq, congrArg Prod.fst h.const_eq,
    congrArg Prod.snd h.const_eq, h.sub_eq, h.indel_eq⟩

theorem calcExtInsScoreCalls_mem (B : Alignment) (posN posA : Int) (c : Query)
    (h : c ∈ calcExtInsScoreCalls B posN posA) : c = Query.indel posA true := by
  unfold calcExtInsScoreCalls at h
  split_ifs at h
  · exact absurd h (List.not_mem_nil _)
  · exact List.mem_singleton.mp h
  · exact absurd h (List.not_mem_nil _)

theorem calcDelScoreCalls_mem (B : Alignment) (posN posA : Int) (c : Query)
    (h : c ∈ calcDelScoreCalls B posN posA) :
    (c = Query.sub posA ∨ c = Query.indel posA false) ∧ posA ≠ 0 := by
  unfold calcDelScoreCalls at h
  by_cases h0 : posN > 0 ∧ posA = 0
  · rw [if_pos h0] at h
    exact absurd h (List.not_mem_nil _)
  · rw [if_neg h0] at h
    by_cases h1 : posN > 0
    · rw [if_pos h1] at h
      refine ⟨?_, fun e => h0 ⟨h1, e⟩⟩
      simp only [List.mem_append, List.mem_ite_nil_right, List.mem_singleton] at h
      rcases h with ((h | ⟨_, h⟩) | h) | ⟨_, h⟩
      · exact Or.inl h
      · exact Or.inr h
      · exact Or.inl h
      · exact Or.inl h
    · rw [if_neg h1] at h
      exact absurd h (List.not_mem_nil _)

theorem calcScoreCalls_mem (posN posA : Int) (c : Query)
    (h : c ∈ calcScoreCalls posN posA) : c = Query.sub posA ∧ posA ≠ 0 := by
  unfold calcScoreCalls at h
  by_cases h0 : posN = 0 ∨ posA = 0
  · rw [if_pos h0] at h
    exact absurd h (List.not_mem_nil _)
  · rw [if_neg h0] at h
    refine ⟨?_, fun e => h0 (Or.inr e)⟩
    simp only [List.mem_append, List.mem_ite_nil_right, List.mem_singleton, List.mem_cons,
      List.not_mem_nil, or_false] at h
    rcases h with (h | ⟨_, h | h⟩) | ⟨_, h⟩
    · exact h
    · exact h
    · exact h
    · exact h

/-- Every call of the inner loop body at `(i, j)` uses the reference position
`j`, and with `j = 0` only the insertion query of `calcExtInsScore` is made. -/
theorem sweepCellCalls_domain (B : Alignment) (i j : Nat) (a : Nat) (hj : j ≤ a)
    (c : Query) (hc : c ∈ sweepCellCalls B i j) :
    (1 ≤ c.aPos ∧ c.aPos ≤ a) ∨ (c = Query.indel 0 true ∧ j = 0) := by
  unfold sweepCellCalls at hc
  simp only [List.mem_append] at hc
  rcases hc with (h | h) | h
  · have e := calcExtInsScoreCalls_mem B _ _ c h
    by_cases hj0 : j = 0
    · right
      subst hj0
      exact ⟨e, rfl⟩
    · left
      rw [e]
      show (1 : Int) ≤ (j : Int) ∧ (j : Int) ≤ (a : Int)
      omega
  · obtain ⟨e, hne⟩ := calcDelScoreCalls_mem B _ _ c h
    left
    rcases e with e | e
    · rw [e]
      show (1 : Int) ≤ (j : Int) ∧ (j : Int) ≤ (a : Int)
      omega
    · rw [e]
      show (1 : Int) ≤ (j : Int) ∧ (j : Int) ≤ (a : Int)
      omega
  · obtain ⟨e, hne⟩ := calcScoreCalls_mem _ _ c h
    left
    rw [e]
    show (1 : Int) ≤ (j : Int) ∧ (j : Int) ≤ (a : Int)
    omega

/-- C16, as amended: every `GetSubstitutionScore` call and every
`GetPositionalIndelCodonScore(aPos, false)` call of the fill has
`1 <= aPos <= aLen`; with positional indel scoring enabled `calcExtInsScore`
calls `GetPositionalIndelCodonScore(aPos, true)` with `0 <= aPos <= aLen`, and
with `aPos = 0` at every cell of column 0.  Only the INS cells of column 0
depend on the handler outside `1..aLen`: for two handlers that give the same
penalties and the same answers on `1..aLen`, the fills store the same score
and predecessor in every GENERAL cell, every DEL cell and every INS cell with
`j >= 1`, and end with the same `maxScore` at the same position. -/
theorem handler_queries_domain (nSeq : List NucleicAcid) (aSeq : List AminoAcid)
    (sh sh2 : ScoreHandler) (hsame : SameOnDomain sh sh2 aSeq.length) :
    (∀ (i j : Nat), i ≤ nSeq.length → j ≤ aSeq.length →
      ∀ c ∈ sweepCellCalls (NewAlignment nSeq aSeq sh) i j,
        (1 ≤ c.aPos ∧ c.aPos ≤ aSeq.length) ∨ (c = Query.indel 0 true ∧ j = 0))
    ∧ (sh.IsPositionalIndelScoreSupported = true → ∀ i : Nat, i ≤ nSeq.length →
        Query.indel 0 true ∈ sweepCellCalls (NewAlignment nSeq aSeq sh) i 0)
    ∧ (∀ (i j : Nat), i ≤ nSeq.length → j ≤ aSeq.length →
        SameCell (NewAlignment nSeq aSeq sh) (NewAlignment nSeq aSeq sh2) GENERAL i j
        ∧ SameCell (NewAlignment nSeq aSeq sh) (NewAlignment nSeq aSeq sh2) DEL i j
        ∧ (1 ≤ j →
            SameCell (NewAlignment nSeq aSeq sh) (NewAlignment nSeq aSeq sh2) INS i j))
    ∧ (NewAlignment nSeq aSeq sh).maxScore = (NewAlignment nSeq aSeq sh2).maxScore
    ∧ (NewAlignment nSeq aSeq sh).maxScorePosN = (NewAlignment nSeq aSeq sh2).maxScorePosN
    ∧ (NewAlignment nSeq aSeq sh).maxScorePosA
        = (NewAlignment nSeq aSeq sh2).maxScorePosA := by
  have hk := newAlignment_sameKernel nSeq aSeq sh sh2 hsame
  have hcells := fun i j hi hj =>
    sameCells _ _ nSeq.length aSeq.length hk
      (fun i j hi hj => NewAlignment_cellOK nSeq aSeq sh i j hi hj)
      (fun i j hi hj => NewAlignment_cellOK nSeq aSeq sh2 i j hi hj) (i + j) i j rfl hi hj
  have hpos : (NewAlignment nSeq aSeq sh).supportPositionalIndel
      = sh.IsPositionalIndelScoreSupported := by
    obtain ⟨m, hm⟩ := NewAlignment_static nSeq aSeq sh
    rw [hm]; rfl
  obtain ⟨⟨i1, j1, hi1, hj1, a1, b1, c1⟩, l1⟩ := newAlignment_maxFacts nSeq aSeq sh
  obtain ⟨⟨i2, j2, hi2, hj2, a2, b2, c2⟩, l2⟩ := newAlignment_maxFacts nSeq aSeq sh2
  have le1 := newAlignment_maxLe nSeq aSeq sh i2 j2 hi2 hj2
  have le2 := newAlignment_maxLe nSeq aSeq sh2 i1 j1 hi1 hj1
  have g1 := sameCell_score _ _ _ _ _ (hcells i1 j1 hi1 hj1).1
  have g2 := sameCell_score _ _ _ _ _ (hcells i2 j2 hi2 hj2).1
  have hmax : (NewAlignment nSeq aSeq sh).maxScore = (NewAlignment nSeq aSeq sh2).maxScore := by
    omega
  have p1 := l1 i2 j2 hi2 hj2 (by omega)
  have p2 := l2 i1 j1 hi1 hj1 (by omega)
  refine ⟨?_, ?_, hcells, hmax, ?_, ?_⟩
  · intro i j _ hj c hc
    exact sweepCellCalls_domain _ i j aSeq.length hj c hc
  · intro hp i _
    unfold sweepCellCalls calcExtInsScoreCalls
    rw [hpos, hp]
    simp
  · omega
  · omega

theorem positionalHandler_same (e e2 : Int) (a : Nat) :
    SameOnDomain (positionalHandler e) (positionalHandler e2) a := by
  refine ⟨rfl, rfl, rfl, rfl, fun _ _ _ => rfl, fun p h1 _ => ?_⟩
  funext b
  simp only [positionalHandler]
  rw [if_neg (by omega), if_neg (by omega)]

/-- Witness of C16 (amended) at `nSeq = AAAA`, `aSeq = M` and two handlers with
positional indel scoring that differ at the reference position 0 only. -/
theorem handler_queries_domain_witness :
    SameOnDomain (positionalHandler (-4)) (positionalHandler 100) [AminoAcid.M].length
    ∧ (∀ (i j : Nat),
        i ≤ [NucleicAcid.A, NucleicAcid.A, NucleicAcid.A, NucleicAcid.A].length →
        j ≤ [AminoAcid.M].length →
        SameCell
          (NewAlignment [NucleicAcid.A, NucleicAcid.A, NucleicAcid.A, NucleicAcid.A]
            [AminoAcid.M] (positionalHandler (-4)))
          (NewAlignment [NucleicAcid.A, NucleicAcid.A, NucleicAcid.A, NucleicAcid.A]
            [AminoAcid.M] (positionalHandler 100)) GENERAL i j
        ∧ SameCell
          (NewAlignment [NucleicAcid.A, NucleicAcid.A, NucleicAcid.A, NucleicAcid.A]
            [AminoAcid.M] (positionalHandler (-4)))
          (NewAlignment [NucleicAcid.A, NucleicAcid.A, NucleicAcid.A, NucleicAcid.A]
            [AminoAcid.M] (positionalHandler 100)) DEL i j
        ∧ (1 ≤ j → SameCell
          (NewAlignment [NucleicAcid.A, NucleicAcid.A, NucleicAcid.A, NucleicAcid.A]
            [AminoAcid.M] (positionalHandler (-4)))
          (NewAlignment [NucleicAcid.A, NucleicAcid.A, NucleicAcid.A, NucleicAcid.A]
            [AminoAcid.M] (positionalHandler 100)) INS i j)) :=
  ⟨positionalHandler_same (-4) 100 _,
    (handler_queries_domain [NucleicAcid.A, NucleicAcid.A, NucleicAcid.A, NucleicAcid.A]
      [AminoAcid.M] (positionalHandler (-4)) (positionalHandler 100)
      (positionalHandler_same (-4) 100 _)).2.2.1⟩

set_option maxRecDepth 100000 in
/-- C16 as stated fails: with positional indel scoring enabled, the fill of
`nSeq = AAAA`, `aSeq = M` calls `GetPositionalIndelCodonScore(0, true)` at the
cell `(4, 0)`, and the score stored in `INS(4, 0)` depends on the answer: it is
`-12` when the insertion extension score at position 0 is `-4` and `82` when it
is `100`, the handlers being the same on every position from 1 on. -/
theorem positional_query_counterexample :
    Query.indel 0 true ∈ sweepCellCalls
        (NewAlignment [NucleicAcid.A, NucleicAcid.A, NucleicAcid.A, NucleicAcid.A]
          [AminoAcid.M] (positionalHandler 100)) 4 0
    ∧ ¬ (1 ≤ (Query.indel 0 true).aPos)
    ∧ cellScore (NewAlignment [NucleicAcid.A, NucleicAcid.A, NucleicAcid.A, NucleicAcid.A]
        [AminoAcid.M] (positionalHandler (-4))) INS 4 0 = -12
    ∧ cellScore (NewAlignment [NucleicAcid.A, NucleicAcid.A, NucleicAcid.A, NucleicAcid.A]
        [AminoAcid.M] (positionalHandler 100)) INS 4 0 = 82 := by
  decide

/-! ## The traceback chain -/

theorem takeIfGreater_notAt (s : Int × Int) (c idx x y : Int)
    (hs : s.2 ≠ x ∧ s.2 ≠ y) (hi : idx ≠ x ∧ idx ≠ y) :
    (takeIfGreater s c idx).2 ≠ x ∧ (takeIfGreater s c idx).2 ≠ y := by
  unfold takeIfGreater
  split_ifs
  · exact hi
  · exact hs

theorem takeIfGreaterEq_notAt (s : Int × Int) (c idx x y : Int)
    (hs : s.2 ≠ x ∧ s.2 ≠ y) (hi : idx ≠ x ∧ idx ≠ y) :
    (takeIfGreaterEq s c idx).2 ≠ x ∧ (takeIfGreaterEq s c idx).2 ≠ y := by
  unfold takeIfGreaterEq
  split_ifs
  · exact hi
  · exact hs

theorem last_two_statements (s : Int × Int) (i00 d00 x y : Int) (hne : x ≠ y)
    (hs : s.2 ≠ x ∧ s.2 ≠ y) :
    ((takeIfGreaterEq (takeIfGreaterEq s i00 x) d00 y).2 = x →
        (takeIfGreaterEq (takeIfGreaterEq s i00 x) d00 y).1 = i00)
    ∧ ((takeIfGreaterEq (takeIfGreaterEq s i00 x) d00 y).2 = y →
        (takeIfGreaterEq (takeIfGreaterEq s i00 x) d00 y).1 = d00) := by
  obtain ⟨hs1, hs2⟩ := hs
  have hne2 : y ≠ x := fun h => hne h.symm
  unfold takeIfGreaterEq
  split_ifs <;> refine ⟨fun h => ?_, fun h => ?_⟩ <;> simp only at h ⊢ <;>
    first
      | rfl
      | exact absurd h hne
      | exact absurd h hne2
      | exact absurd h hs1
      | exact absurd h hs2

theorem index_ne (B : Alignment) (p i j p2 i2 j2 : Int) (h : ValidCell B p i j)
    (h2 : ValidCell B p2 i2 j2) (hne : p ≠ p2 ∨ i ≠ i2 ∨ j ≠ j2) :
    getMatrixIndex B p i j ≠ getMatrixIndex B p2 i2 j2 := by
  intro he
  obtain ⟨e1, e2, e3⟩ := getMatrixIndex_inj B p i j p2 i2 j2 h h2 he
  rcases hne with h | h | h
  · exact h e1
  · exact h e2
  · exact h e3

/-- When `calcScore` returns the index of the INS or of the DEL cell of its own
position, it returns the score of that cell. -/
theorem calcScore_same_cell (self : Alignment) (posN posA : Int) (hN1 : 1 ≤ posN)
    (hN : posN ≤ self.nSeqLen) (hA1 : 1 ≤ posA) (hA : posA ≤ self.aSeqLen)
    (g11 g21 g31 i00 d00 d11 d21 : Int) :
    ((calcScore self posN posA g11 g21 g31 i00 d00 d11 d21).2
        = getMatrixIndex self INS posN posA →
      (calcScore self posN posA g11 g21 g31 i00 d00 d11 d21).1 = i00)
    ∧ ((calcScore self posN posA g11 g21 g31 i00 d00 d11 d21).2
        = getMatrixIndex self DEL posN posA →
      (calcScore self posN posA g11 g21 g31 i00 d00 d11 d21).1 = d00) := by
  have vI : ValidCell self INS posN posA := ⟨Or.inr (Or.inl rfl), ⟨by omega, hN⟩, by omega, hA⟩
  have vD : ValidCell self DEL posN posA := ⟨Or.inr (Or.inr rfl), ⟨by omega, hN⟩, by omega, hA⟩
  have hne : getMatrixIndex self INS posN posA ≠ getMatrixIndex self DEL posN posA :=
    index_ne self _ _ _ _ _ _ vI vD (Or.inl (by decide))
  have col : ∀ (p : tScoreType) (x : Int), (p = GENERAL ∨ p = INS ∨ p = DEL) → 0 ≤ x →
      x ≤ self.nSeqLen →
      getMatrixIndex self p x (posA - 1) ≠ getMatrixIndex self INS posN posA
      ∧ getMatrixIndex self p x (posA - 1) ≠ getMatrixIndex self DEL posN posA := by
    intro p x hp hx0 hx
    have v : ValidCell self p x (posA - 1) := ⟨hp, ⟨hx0, hx⟩, by omega, by omega⟩
    exact ⟨index_ne self _ _ _ _ _ _ v vI (Or.inr (Or.inr (by omega))),
      index_ne self _ _ _ _ _ _ v vD (Or.inr (Or.inr (by omega)))⟩
  have base : ((negInf, 0) : Int × Int).2 ≠ getMatrixIndex self INS posN posA
      ∧ ((negInf, 0) : Int × Int).2 ≠ getMatrixIndex self DEL posN posA := by
    have v0 : ValidCell self GENERAL 0 0 := ⟨Or.inl rfl, ⟨le_refl _, by omega⟩, le_refl _, by omega⟩
    have e0 := getMatrixIndex_origin self
    constructor
    · show (0 : Int) ≠ _
      rw [← e0]
      exact index_ne self _ _ _ _ _ _ v0 vI (Or.inl (by decide))
    · show (0 : Int) ≠ _
      rw [← e0]
      exact index_ne self _ _ _ _ _ _ v0 vD (Or.inl (by decide))
  have first := takeIfGreater_notAt (negInf, 0)
    (iadd (iadd (iadd (iadd g11 (self.scoreHandler.GetSubstitutionScore posA NucleicAcid.N
      NucleicAcid.N (getNA self posN) (getAA self posA))) self.q) self.r) self.r)
    (getMatrixIndex self GENERAL (posN - 1) (posA - 1)) _ _ base
    (col GENERAL (posN - 1) (Or.inl rfl) (by omega) (by omega))
  unfold calcScore
  rw [if_neg (by omega)]
  simp only []
  by_cases h1 : posN > 1
  · by_cases h2 : posN > 2
    · rw [if_pos h2, if_pos h1]
      refine last_two_statements _ _ _ _ _ hne ?_
      refine takeIfGreaterEq_notAt _ _ _ _ _ ?_
        (col DEL (posN - 2) (Or.inr (Or.inr rfl)) (by omega) (by omega))
      refine takeIfGreater_notAt _ _ _ _ _ ?_
        (col GENERAL (posN - 3) (Or.inl rfl) (by omega) (by omega))
      refine takeIfGreaterEq_notAt _ _ _ _ _ ?_
        (col DEL (posN - 1) (Or.inr (Or.inr rfl)) (by omega) (by omega))
      refine takeIfGreater_notAt _ _ _ _ _ ?_
        (col GENERAL (posN - 2) (Or.inl rfl) (by omega) (by omega))
      refine takeIfGreater_notAt _ _ _ _ _ ?_
        (col GENERAL (posN - 2) (Or.inl rfl) (by omega) (by omega))
      exact first
    · rw [if_neg h2, if_pos h1]
      refine last_two_statements _ _ _ _ _ hne ?_
      refine takeIfGreaterEq_notAt _ _ _ _ _ ?_
        (col DEL (posN - 1) (Or.inr (Or.inr rfl)) (by omega) (by omega))
      refine takeIfGreater_notAt _ _ _ _ _ ?_
        (col GENERAL (posN - 2) (Or.inl rfl) (by omega) (by omega))
      refine takeIfGreater_notAt _ _ _ _ _ ?_
        (col GENERAL (posN - 2) (Or.inl rfl) (by omega) (by omega))
      exact first
  · have h2 : ¬ posN > 2 := by omega
    rw [if_neg h2, if_neg h1]
    exact last_two_statements _ _ _ _ _ hne first

/-- What membership in the predecessor list of a traceback cell that is not a
GENERAL boundary cell says about the positions. -/
theorem predCells_step (p : tScoreType) (i j : Nat)
    (hp : p = GENERAL ∨ p = INS ∨ p = DEL) (hgood : p = GENERAL ∨ 1 ≤ i)
    (hins : p = INS → 1 ≤ j) (hnb : ¬ (p = GENERAL ∧ (i = 0 ∨ j = 0)))
    (c : tScoreType × Int × Int) (hc : c ∈ predCells p i j) :
    (p ≠ INS → (j : Int) ≤ c.2.2 + 1) ∧ (p = INS → c.2.2 = j) ∧ (c.1 = INS → 1 ≤ c.2.2)
      ∧ (c.2.1 = i → c.2.2 = j → p = GENERAL ∧ (c.1 = INS ∨ c.1 = DEL)) := by
  obtain ⟨cp, ci, cj⟩ := c
  simp only
  unfold predCells at hc
  simp only [GENERAL, INS, DEL] at hc hp hgood hins hnb ⊢
  unfold tScoreType at *
  split_ifs at hc <;>
    simp only [List.mem_append, List.mem_cons, List.mem_singleton, List.not_mem_nil,
      or_false, false_or, Prod.mk.injEq] at hc <;> omega

theorem trace_stop (B : Alignment) (n a : Nat) (hn : B.nSeqLen = n) (ha : B.aSeqLen = a)
    (hall : ∀ i j : Nat, i ≤ n → j ≤ a → CellOK B i j) (d : tScoreType × Int × Int)
    (hc : TraceCell B d) (hb : IsBoundary d) : Trace B d 0 := by
  obtain ⟨p, ci, cj⟩ := d
  have hc0 := hc
  obtain ⟨⟨_, ⟨hi0, hi⟩, hj0, hj⟩, _, _⟩ := hc
  obtain ⟨hp, hbd⟩ := hb
  simp only at hi0 hi hj0 hj hp hbd
  subst hp
  rw [hn] at hi
  rw [ha] at hj
  obtain ⟨i, rfl⟩ := Int.eq_ofNat_of_zero_le hi0
  obtain ⟨j, rfl⟩ := Int.eq_ofNat_of_zero_le hj0
  have hcell := hall i j (by omega) (by omega)
  obtain ⟨h1, h2⟩ := boundary_cell B i j hcell (by omega)
  exact Trace.stop _ hc0 ⟨rfl, hbd⟩ h2 h1

/-- A traceback cell that is not a GENERAL boundary cell points to a traceback
cell of smaller potential. -/
theorem trace_step_exists (B : Alignment) (n a : Nat) (hn : B.nSeqLen = n)
    (ha : B.aSeqLen = a) (hall : ∀ i j : Nat, i ≤ n → j ≤ a → CellOK B i j)
    (d : tScoreType × Int × Int) (hc : TraceCell B d) (hnb : ¬ IsBoundary d) :
    ∃ d2, TraceCell B d2 ∧ TraceStep B d d2 ∧ potential d2 < potential d := by
  obtain ⟨p, ci, cj⟩ := d
  have hvd := hc.1
  obtain ⟨⟨hp, ⟨hi0, hi⟩, hj0, hj⟩, hgood0, hins0⟩ := hc
  simp only at hp hi0 hi hj0 hj hgood0 hins0
  rw [hn] at hi
  rw [ha] at hj
  obtain ⟨i, rfl⟩ := Int.eq_ofNat_of_zero_le hi0
  obtain ⟨j, rfl⟩ := Int.eq_ofNat_of_zero_le hj0
  have hcell := hall i j (by omega) (by omega)
  have hgood : p = GENERAL ∨ 1 ≤ i := by
    rcases hgood0 with h | h
    · exact Or.inl h
    · exact Or.inr (by omega)
  have hins : p = INS → 1 ≤ j := fun h => by have := hins0 h; omega
  have hnb2 : ¬ (p = GENERAL ∧ (i = 0 ∨ j = 0)) := by
    rintro ⟨h1, h2⟩
    exact hnb ⟨h1, by simp only; omega⟩
  have hne : ¬ (p = INS ∧ i = 0 ∧ j = 0) := by
    rintro ⟨h1, _, h3⟩
    have := hins h1
    omega
  obtain ⟨c, he, hv, hN, hA, hmem, hch⟩ :=
    cellOK_prev_cell B n a hn ha i j (by omega) (by omega) hcell p hp hne
  obtain ⟨hcc, hlt⟩ := hch hgood
  have hlt2 : potential c < potential (p, (i : Int), (j : Int)) := by
    rcases hlt with h | h
    · exact absurd h hnb2
    · exact h
  have F : (p ≠ INS → (j : Int) ≤ c.2.2 + 1)
      ∧ (p = INS → c.2.2 = j ∨ (c = (GENERAL, 0, 0) ∧ cellScore B INS i j = negInf))
      ∧ (c.1 = INS → 1 ≤ c.2.2)
      ∧ (c.2.1 = i → c.2.2 = j → p = GENERAL ∧ (c.1 = INS ∨ c.1 = DEL)) := by
    rcases hmem with hm | ⟨rfl, hwhy⟩
    · obtain ⟨f1, f2, f3, f4⟩ := predCells_step p i j hp hgood hins hnb2 c hm
      exact ⟨f1, fun h => Or.inl (f2 h), f3, f4⟩
    · rcases hwhy with ⟨h1, h2⟩ | ⟨h1, h2, hsent⟩
      · exfalso
        rcases hgood with h | h
        · rw [h1] at h; exact GENERAL_ne_DEL h.symm
        · omega
      · refine ⟨fun h => absurd h1 h, fun _ => Or.inr ⟨rfl, hsent⟩,
          fun h => absurd h GENERAL_ne_INS, ?_⟩
        intro h
        simp only at h
        omega
  obtain ⟨f1, f2, f3, f4⟩ := F
  have f2b : p = INS → c.2.2 = j
      ∨ (c = (GENERAL, 0, 0)
          ∧ matGet B.scoreMatrix (cellIndex B (p, (i : Int), (j : Int))) = negInf) := by
    intro h
    rcases f2 h with h2 | ⟨h2, h3⟩
    · exact Or.inl h2
    · subst h
      exact Or.inr ⟨h2, h3⟩
  refine ⟨c, ⟨hv, hcc.2, f3⟩, ⟨he, ?_, hN, hA, f1, f2b, ?_⟩, hlt2⟩
  · intro h
    obtain ⟨e1, e2, e3⟩ := getMatrixIndex_inj B c.1 c.2.1 c.2.2 p i j hv hvd h
    have : c = (p, (i : Int), (j : Int)) := Prod.ext e1 (Prod.ext e2 e3)
    rw [this] at hlt2
    exact lt_irrefl _ hlt2
  · intro s1 s2
    obtain ⟨hpG, hcp⟩ := f4 s1 s2
    subst hpG
    have hi1 : 1 ≤ i := by
      by_contra hcon
      exact hnb2 ⟨rfl, Or.inl (by omega)⟩
    have hj1 : 1 ≤ j := by
      by_contra hcon
      exact hnb2 ⟨rfl, Or.inr (by omega)⟩
    have hg := hcell.2.2
    have hsc := calcScore_same_cell B i j (by omega) (by rw [hn]; omega) (by omega)
      (by rw [ha]; omega)
      (prevColumnAt B GENERAL i 1 j) (prevColumnAt B GENERAL i 2 j)
      (prevColumnAt B GENERAL i 3 j) (cellScore B INS i j) (cellScore B DEL i j)
      (prevColumnAt B DEL i 1 j) (prevColumnAt B DEL i 2 j)
    rw [← hg] at hsc
    simp only at hsc
    have hidx : cellIndex B c = getMatrixIndex B c.1 (i : Int) (j : Int) := by
      unfold cellIndex
      rw [s1, s2]
    show matGet B.scoreMatrix (cellIndex B c) = cellScore B GENERAL i j
    rw [hidx]
    rw [hidx] at he
    rcases hcp with h | h
    · rw [h] at he ⊢
      exact (hsc.1 he).symm
    · rw [h] at he ⊢
      exact (hsc.2 he).symm

/-- From every traceback cell the stored predecessors lead to a GENERAL boundary
cell within as many steps as the potential of the cell. -/
theorem trace_of_potential (B : Alignment) (n a : Nat) (hn : B.nSeqLen = n)
    (ha : B.aSeqLen = a) (hall : ∀ i j : Nat, i ≤ n → j ≤ a → CellOK B i j) :
    ∀ (m : Nat) (d : tScoreType × Int × Int), TraceCell B d → potential d ≤ m →
      ∃ k, k ≤ m ∧ Trace B d k := by
  intro m
  induction m with
  | zero =>
    intro d hc hpot
    by_cases hb : IsBoundary d
    · exact ⟨0, le_refl _, trace_stop B n a hn ha hall d hc hb⟩
    · obtain ⟨d2, hc2, _, hlt⟩ := trace_step_exists B n a hn ha hall d hc hb
      have := potential_nonneg B d2 ⟨hc2.1, hc2.2.1⟩
      omega
  | succ m ih =>
    intro d hc hpot
    by_cases hb : IsBoundary d
    · exact ⟨0, Nat.zero_le _, trace_stop B n a hn ha hall d hc hb⟩
    · obtain ⟨d2, hc2, hs, hlt⟩ := trace_step_exists B n a hn ha hall d hc hb
      obtain ⟨k, hk, ht⟩ := ih d2 hc2 (by omega)
      exact ⟨k + 1, by omega, Trace.step d d2 k hc hb hs ht⟩

/-! ## C17: the first loop of GetReport -/

theorem trace_cell (B : Alignment) (d : tScoreType × Int × Int) (k : Nat)
    (h : Trace B d k) : TraceCell B d := by
  cases h with
  | stop _ hc _ _ _ => exact hc
  | step _ _ _ hc _ _ _ => exact hc

theorem trace_indexed (B : Alignment) (d : tScoreType × Int × Int) (k : Nat)
    (h : Trace B d k) : TraceTo B (cellIndex B d) k := by
  induction h with
  | stop d hc hb hself hzero =>
    have e0 : cellAt B (cellIndex B d) 0 = d := getTypedPos_cellIndex B d hc.1
    refine ⟨?_, ?_, ?_, hself, hzero⟩
    · intro t ht
      have : t = 0 := by omega
      subst this
      rw [e0]
      exact ⟨hc, rfl⟩
    · intro t ht
      omega
    · rw [e0]
      exact hb
  | step d d2 k hc hnb hs hrest ih =>
    have e0 : cellAt B (cellIndex B d) 0 = d := getTypedPos_cellIndex B d hc.1
    have e1 : cellAt B (cellIndex B d2) 0 = d2 :=
      getTypedPos_cellIndex B d2 (trace_cell B d2 k hrest).1
    have shift : ∀ t, chainAt B (cellIndex B d) (t + 1) = chainAt B (cellIndex B d2) t := by
      intro t
      rw [chainAt_succ_left, hs.link]
    have shiftC : ∀ t, cellAt B (cellIndex B d) (t + 1) = cellAt B (cellIndex B d2) t := by
      intro t
      unfold cellAt
      rw [shift]
    refine ⟨?_, ?_, ?_, ?_, ?_⟩
    · intro t ht
      cases t with
      | zero =>
        rw [e0]
        exact ⟨hc, rfl⟩
      | succ t =>
        rw [shiftC, shift]
        exact ih.cell t (by omega)
    · intro t ht
      cases t with
      | zero =>
        rw [shiftC, e0, e1]
        exact ⟨hnb, hs⟩
      | succ t =>
        rw [shiftC, shiftC]
        exact ih.step t (by omega)
    · rw [shiftC]; exact ih.last
    · rw [shift]; exact ih.fix
    · rw [shift]; exact ih.zero

theorem trimRun_cur (B : Alignment) (t : Nat) :
    (trimRun B t).curMtIdx = chainAt B (endIndex B) t := by
  induction t with
  | zero => rfl
  | succ t ih =>
    show (trimStep B (trimRun B t)).curMtIdx = prevIndex B (chainAt B (endIndex B) t)
    rw [trimStep_cur, ih]

theorem trimRun_prev (B : Alignment) (t : Nat) :
    (trimRun B (t + 1)).prevMtIdx = chainAt B (endIndex B) t := by
  show (trimRun B t).curMtIdx = _
  exact trimRun_cur B t

theorem traceTo_index_nonneg (B : Alignment) (e : Int) (k : Nat) (h : TraceTo B e k)
    (t : Nat) (ht : t ≤ k) : 0 ≤ chainAt B e t := by
  obtain ⟨hc, he⟩ := h.cell t ht
  rw [he]
  exact (getMatrixIndex_bounds B _ _ _ hc.1).1

theorem traceTo_index_ne (B : Alignment) (e : Int) (k : Nat) (h : TraceTo B e k)
    (t : Nat) (ht : t < k) : chainAt B e (t + 1) ≠ chainAt B e t := by
  obtain ⟨_, hs⟩ := h.step t ht
  rw [(h.cell t (by omega)).2, (h.cell (t + 1) (by omega)).2]
  exact hs.ne

/-- Along a traceback of `k` steps the first loop of `GetReport` makes `k + 1`
passes and stops. -/
theorem trimLoop_run (B : Alignment) (k : Nat) (h : TraceTo B (endIndex B) k) :
    ∀ (j t : Nat), t + j = k + 1 → ∀ fuel, j + 1 ≤ fuel →
      trimLoop B fuel (trimRun B t) = some (trimRun B (k + 1)) := by
  intro j
  induction j with
  | zero =>
    intro t ht fuel hfuel
    obtain ⟨f, rfl⟩ : ∃ f, fuel = f + 1 := ⟨fuel - 1, by omega⟩
    have : t = k + 1 := by omega
    subst this
    unfold trimLoop
    rw [if_neg]
    intro hc
    apply hc.2
    rw [trimRun_cur, trimRun_prev]
    exact h.fix
  | succ j ih =>
    intro t ht fuel hfuel
    obtain ⟨f, rfl⟩ : ∃ f, fuel = f + 1 := ⟨fuel - 1, by omega⟩
    have hnn := traceTo_index_nonneg B _ k h t (by omega)
    unfold trimLoop
    rw [if_pos]
    · exact ih (t + 1) (by omega) f (by omega)
    · rw [trimRun_cur]
      refine ⟨hnn, ?_⟩
      cases t with
      | zero =>
        show chainAt B (endIndex B) 0 ≠ -1
        omega
      | succ t =>
        rw [trimRun_prev]
        exact traceTo_index_ne B _ k h t (by omega)

/-- After `t` passes of the first loop of `GetReport` the running minimum is a
lower bound of the scores met, and `startMtIdx` is still 0, every score met
being above the initial bound, or it is the index of the last cell that holds
the least score met. -/
theorem trimRun_inv (B : Alignment) :
    ∀ t : Nat,
      (∀ u, u < t →
        (trimRun B t).prevScore ≤ matGet B.scoreMatrix (chainAt B (endIndex B) u))
      ∧ (((trimRun B t).startMtIdx = 0 ∧ (trimRun B t).prevScore = endIndex B
            ∧ ∀ u, u < t → endIndex B < matGet B.scoreMatrix (chainAt B (endIndex B) u))
          ∨ ∃ ts, ts < t ∧ (trimRun B t).startMtIdx = chainAt B (endIndex B) ts
              ∧ (trimRun B t).prevScore = matGet B.scoreMatrix (chainAt B (endIndex B) ts)
              ∧ ∀ u, ts < u → u < t →
                  matGet B.scoreMatrix (chainAt B (endIndex B) ts)
                    < matGet B.scoreMatrix (chainAt B (endIndex B) u)) := by
  intro t
  induction t with
  | zero =>
    refine ⟨fun u hu => absurd hu (Nat.not_lt_zero _), Or.inl ⟨rfl, rfl, ?_⟩⟩
    intro u hu
    omega
  | succ t ih =>
    obtain ⟨ih1, ih2⟩ := ih
    have hcur := trimRun_cur B t
    by_cases hlow : matGet B.scoreMatrix (chainAt B (endIndex B) t) ≤ (trimRun B t).prevScore
    · have e1 : (trimRun B (t + 1)).prevScore
          = matGet B.scoreMatrix (chainAt B (endIndex B) t) := by
        show (if decide (matGet B.scoreMatrix (trimRun B t).curMtIdx
            ≤ (trimRun B t).prevScore) = true
          then matGet B.scoreMatrix (trimRun B t).curMtIdx else (trimRun B t).prevScore) = _
        rw [hcur, if_pos (by simpa using hlow)]
      have e2 : (trimRun B (t + 1)).startMtIdx = chainAt B (endIndex B) t := by
        show (if decide (matGet B.scoreMatrix (trimRun B t).curMtIdx
            ≤ (trimRun B t).prevScore) = true
          then (trimRun B t).curMtIdx else (trimRun B t).startMtIdx) = _
        rw [hcur, if_pos (by simpa using hlow)]
      refine ⟨?_, Or.inr ⟨t, by omega, e2, e1, ?_⟩⟩
      · intro u hu
        rw [e1]
        by_cases hut : u = t
        · rw [hut]
        · have := ih1 u (by omega)
          omega
      · intro u h1 h2
        omega
    · have e1 : (trimRun B (t + 1)).prevScore = (trimRun B t).prevScore := by
        show (if decide (matGet B.scoreMatrix (trimRun B t).curMtIdx
            ≤ (trimRun B t).prevScore) = true
          then matGet B.scoreMatrix (trimRun B t).curMtIdx else (trimRun B t).prevScore) = _
        rw [hcur, if_neg (by simpa using hlow)]
      have e2 : (trimRun B (t + 1)).startMtIdx = (trimRun B t).startMtIdx := by
        show (if decide (matGet B.scoreMatrix (trimRun B t).curMtIdx
            ≤ (trimRun B t).prevScore) = true
          then (trimRun B t).curMtIdx else (trimRun B t).startMtIdx) = _
        rw [hcur, if_neg (by simpa using hlow)]
      rw [e1, e2]
      refine ⟨?_, ?_⟩
      · intro u hu
        by_cases hut : u = t
        · rw [hut]; omega
        · exact ih1 u (by omega)
      · rcases ih2 with ⟨a1, a2, a3⟩ | ⟨ts, b1, b2, b3, b4⟩
        · refine Or.inl ⟨a1, a2, ?_⟩
          intro u hu
          by_cases hut : u = t
          · rw [hut]; omega
          · exact a3 u (by omega)
        · refine Or.inr ⟨ts, by omega, b2, b3, ?_⟩
          intro u h1 h2
          by_cases hut : u = t
          · rw [hut]; omega
          · exact b4 u h1 (by omega)

/-- The alignment `NewAlignment` returns has a traceback from its end cell. -/
theorem newAlignment_trace (nSeq : List NucleicAcid) (aSeq : List AminoAcid)
    (sh : ScoreHandler) :
    ∃ k, k ≤ 2 * (nSeq.length + aSeq.length)
      ∧ TraceTo (NewAlignment nSeq aSeq sh) (endIndex (NewAlignment nSeq aSeq sh)) k := by
  have hall := fun i j hi hj => NewAlignment_cellOK nSeq aSeq sh i j hi hj
  have hn := NewAlignment_nSeqLen nSeq aSeq sh
  have ha := NewAlignment_aSeqLen nSeq aSeq sh
  obtain ⟨mi, mj, hmi, hmj, emi, emj⟩ := NewAlignment_maxPos nSeq aSeq sh
  generalize NewAlignment nSeq aSeq sh = B at hall hn ha emi emj ⊢
  have hc : TraceCell B (GENERAL, (mi : Int), (mj : Int)) :=
    ⟨(chainCell_general B _ _ hn ha mi mj hmi hmj).1, Or.inl rfl,
      fun h => absurd h GENERAL_ne_INS⟩
  obtain ⟨k, hk, ht⟩ := trace_of_potential B _ _ hn ha hall (2 * (mi + mj))
    (GENERAL, (mi : Int), (mj : Int)) hc (le_of_eq (potential_general mi mj))
  have he : endIndex B = cellIndex B (GENERAL, (mi : Int), (mj : Int)) := by
    unfold endIndex cellIndex
    rw [emi, emj]
  rw [he]
  exact ⟨k, by omega, trace_indexed B _ k ht⟩

/-- Along a traceback of `k` steps from the end cell the first loop of
`GetReport` leaves in `startMtIdx` the index of the last cell of the chain that
holds the least score on it. -/
theorem trim_start_of_trace (B : Alignment) (k : Nat) (h : TraceTo B (endIndex B) k)
    (fuel : Nat) (hfuel : k + 2 ≤ fuel) :
    trimLoop B fuel (trimInit B) = some (trimRun B (k + 1))
    ∧ ∃ ts, ts ≤ k ∧ (trimRun B (k + 1)).startMtIdx = chainAt B (endIndex B) ts
      ∧ (∀ u, u ≤ k → matGet B.scoreMatrix (chainAt B (endIndex B) ts)
          ≤ matGet B.scoreMatrix (chainAt B (endIndex B) u))
      ∧ (∀ u, ts < u → u ≤ k → matGet B.scoreMatrix (chainAt B (endIndex B) ts)
          < matGet B.scoreMatrix (chainAt B (endIndex B) u)) := by
  refine ⟨trimLoop_run B k h (k + 1) 0 (by omega) fuel (by omega), ?_⟩
  obtain ⟨h1, h2⟩ := trimRun_inv B (k + 1)
  rcases h2 with ⟨_, _, a3⟩ | ⟨ts, b1, b2, b3, b4⟩
  · exfalso
    have := a3 k (by omega)
    rw [h.zero] at this
    have hnn := traceTo_index_nonneg B _ k h 0 (Nat.zero_le _)
    have : chainAt B (endIndex B) 0 = endIndex B := rfl
    omega
  · refine ⟨ts, by omega, b2, ?_, ?_⟩
    · intro u hu
      rw [← b3]
      exact h1 u (by omega)
    · intro u hu1 hu2
      exact b4 u hu1 (by omega)

/-- C17: after the first loop of `GetReport` (given fuel for `3*(nLen+aLen)+2`
tests of its condition), `startMtIdx` is the flat index of the cell with the
minimum stored score among all cells on the predecessor chain from
`GENERAL(maxScorePosN, maxScorePosA)` to its terminating boundary cell (the
chain has `k` steps and ends on a GENERAL cell of row 0 or column 0 that points
to itself), and among the chain cells sharing that minimum it is the one
farthest from the end cell; this holds for every input, the running minimum
being initialised from the end cell's flat index. -/
theorem trim_start_last_min (nSeq : List NucleicAcid) (aSeq : List AminoAcid)
    (sh : ScoreHandler) (fuel : Nat)
    (hfuel : 3 * (nSeq.length + aSeq.length) + 2 ≤ fuel) :
    ∃ (k ts : Nat) (t2 : TrimState), ts ≤ k ∧ k ≤ 3 * (nSeq.length + aSeq.length)
      ∧ prevIndex (NewAlignment nSeq aSeq sh)
            (chainAt (NewAlignment nSeq aSeq sh) (endIndex (NewAlignment nSeq aSeq sh)) k)
          = chainAt (NewAlignment nSeq aSeq sh) (endIndex (NewAlignment nSeq aSeq sh)) k
      ∧ (∀ u, u < k →
          prevIndex (NewAlignment nSeq aSeq sh)
              (chainAt (NewAlignment nSeq aSeq sh) (endIndex (NewAlignment nSeq aSeq sh)) u)
            ≠ chainAt (NewAlignment nSeq aSeq sh) (endIndex (NewAlignment nSeq aSeq sh)) u)
      ∧ IsBoundary (cellAt (NewAlignment nSeq aSeq sh)
          (endIndex (NewAlignment nSeq aSeq sh)) k)
      ∧ trimLoop (NewAlignment nSeq aSeq sh) fuel (trimInit (NewAlignment nSeq aSeq sh))
          = some t2
      ∧ t2.startMtIdx
          = chainAt (NewAlignment nSeq aSeq sh) (endIndex (NewAlignment nSeq aSeq sh)) ts
      ∧ (∀ u, u ≤ k →
          matGet (NewAlignment nSeq aSeq sh).scoreMatrix
              (chainAt (NewAlignment nSeq aSeq sh) (endIndex (NewAlignment nSeq aSeq sh)) ts)
            ≤ matGet (NewAlignment nSeq aSeq sh).scoreMatrix
              (chainAt (NewAlignment nSeq aSeq sh) (endIndex (NewAlignment nSeq aSeq sh)) u))
      ∧ (∀ u, ts < u → u ≤ k →
          matGet (NewAlignment nSeq aSeq sh).scoreMatrix
              (chainAt (NewAlignment nSeq aSeq sh) (endIndex (NewAlignment nSeq aSeq sh)) ts)
            < matGet (NewAlignment nSeq aSeq sh).scoreMatrix
              (chainAt (NewAlignment nSeq aSeq sh) (endIndex (NewAlignment nSeq aSeq sh)) u)) := by
  obtain ⟨k, hk, ht⟩ := newAlignment_trace nSeq aSeq sh
  generalize NewAlignment nSeq aSeq sh = B at ht ⊢
  obtain ⟨hloop, ts, h1, h2, h3, h4⟩ := trim_start_of_trace B k ht fuel (by omega)
  refine ⟨k, ts, _, h1, by omega, ht.fix, ?_, ht.last, hloop, h2, h3, h4⟩
  intro u hu
  exact traceTo_index_ne B _ k ht u hu

set_option maxRecDepth 100000 in
/-- Witness of C17 at `nSeq = TTTATG`, `aSeq = M`. -/
theorem trim_start_last_min_witness :
    3 * ([NucleicAcid.T, NucleicAcid.T, NucleicAcid.T, NucleicAcid.A, NucleicAcid.T,
        NucleicAcid.G].length + [AminoAcid.M].length) + 2 ≤ 23
    ∧ ∃ t2 : TrimState,
        trimLoop (NewAlignment [NucleicAcid.T, NucleicAcid.T, NucleicAcid.T, NucleicAcid.A,
            NucleicAcid.T, NucleicAcid.G] [AminoAcid.M] (scenarioHandler translate)) 23
          (trimInit (NewAlignment [NucleicAcid.T, NucleicAcid.T, NucleicAcid.T, NucleicAcid.A,
            NucleicAcid.T, NucleicAcid.G] [AminoAcid.M] (scenarioHandler translate)))
          = some t2 := by
  refine ⟨by decide, ?_⟩
  obtain ⟨k, ts, t2, _, _, _, _, _, h, _⟩ :=
    trim_start_last_min [NucleicAcid.T, NucleicAcid.T, NucleicAcid.T, NucleicAcid.A,
      NucleicAcid.T, NucleicAcid.G] [AminoAcid.M] (scenarioHandler translate) 23 (by decide)
  exact ⟨t2, h⟩

/-! ## The second loop of GetReport -/

theorem reportStep_simple (B : Alignment) (hp : ReportHelpers) (st : ReportState) :
    (reportStep B hp st).1.lastScoreType = (getTypedPos B st.endMtIdx).1
    ∧ (reportStep B hp st).1.firstAA = (getTypedPos B st.endMtIdx).2.2 + 1
    ∧ (reportStep B hp st).1.firstNA = (getTypedPos B st.endMtIdx).2.1 + 1
    ∧ (reportStep B hp st).1.endMtIdx = prevIndex B st.endMtIdx
    ∧ (reportStep B hp st).2
        = decide ((getTypedPos B st.endMtIdx).2.1 = 0 ∨ (getTypedPos B st.endMtIdx).2.2 = 0) :=
  ⟨rfl, rfl, rfl, rfl, rfl⟩

theorem reportStep_last (B : Alignment) (hp : ReportHelpers) (st : ReportState) :
    (reportStep B hp st).1.lastAA
        = (if st.lastAA = 0 ∧ st.lastNA = 0 then (getTypedPos B st.endMtIdx).2.2 else st.lastAA)
    ∧ (reportStep B hp st).1.lastNA
        = (if st.lastAA = 0 ∧ st.lastNA = 0 then (getTypedPos B st.endMtIdx).2.1
            else st.lastNA) := by
  simp only [reportStep]
  by_cases h : st.lastAA = 0 ∧ st.lastNA = 0
  · simp [h]
  · simp [h]

theorem empty_append_string (s : String) : "" ++ s = s := by
  apply String.ext
  simp

/-- A pass that makes no mutation and no frame shift leaves the lists and the
lines as they are. -/
theorem reportStep_skip (B : Alignment) (hp : ReportHelpers) (st : ReportState)
    (h : ¬ Consumes B st) :
    (reportStep B hp st).1.mutList = st.mutList
    ∧ (reportStep B hp st).1.fsList = st.fsList
    ∧ (reportStep B hp st).1.nLine = st.nLine
    ∧ (reportStep B hp st).1.aLine = st.aLine
    ∧ (reportStep B hp st).1.cLine = st.cLine
    ∧ (reportStep B hp st).1.LastPosN
        = (if st.lastScoreType ≠ INS ∧ st.hasUnprocessedNAs = false
            then (getTypedPos B st.endMtIdx).2.1 else st.LastPosN)
    ∧ (reportStep B hp st).1.LastPosA
        = (if st.lastScoreType ≠ INS ∧ st.hasUnprocessedNAs = false
            then (getTypedPos B st.endMtIdx).2.2 else st.LastPosA) := by
  unfold Consumes at h
  by_cases hE : st.lastScoreType ≠ INS ∧ st.LastPosN > -1 ∧ st.LastPosA > -1
  · have hC : ¬ st.LastPosA > (getTypedPos B st.endMtIdx).2.2 := fun hc => h ⟨hE, hc⟩
    simp only [reportStep, partialLines]
    simp [hE, hC, empty_append_string]
  · simp only [reportStep, partialLines]
    simp [hE]

/-- A pass that makes a mutation and a frame shift. -/
theorem reportStep_take (B : Alignment) (hp : ReportHelpers) (st : ReportState)
    (h : Consumes B st) :
    (reportStep B hp st).1.mutList
        = (match stepMutation B hp st with
            | some m => st.mutList ++ [m]
            | none => st.mutList)
    ∧ (reportStep B hp st).1.fsList
        = (match stepFrameShift B hp st with
            | some f => st.fsList ++ [f]
            | none => st.fsList)
    ∧ (reportStep B hp st).1.nLine = (stepLines B hp st).1 ++ st.nLine
    ∧ (reportStep B hp st).1.aLine = (stepLines B hp st).2.1 ++ st.aLine
    ∧ (reportStep B hp st).1.cLine = (stepLines B hp st).2.2 ++ st.cLine
    ∧ (reportStep B hp st).1.LastPosN = (getTypedPos B st.endMtIdx).2.1
    ∧ (reportStep B hp st).1.LastPosA = (getTypedPos B st.endMtIdx).2.2 := by
  obtain ⟨hE, hC⟩ := h
  have hEC : (st.lastScoreType ≠ INS ∧ st.LastPosN > -1 ∧ st.LastPosA > -1)
      ∧ st.LastPosA > (getTypedPos B st.endMtIdx).2.2 := ⟨hE, hC⟩
  simp only [reportStep, stepLines, stepMutation, stepFrameShift]
  simp only [decide_eq_true_eq, if_pos hEC, if_pos hE]
  simp [hE.1]

theorem reportRun_end (B : Alignment) (hp : ReportHelpers) (t : Nat) :
    (reportRun B hp t).endMtIdx = chainAt B (endIndex B) t := by
  induction t with
  | zero => rfl
  | succ t ih =>
    show prevIndex B (reportRun B hp t).endMtIdx = prevIndex B (chainAt B (endIndex B) t)
    rw [ih]

theorem reportRun_cell (B : Alignment) (hp : ReportHelpers) (t : Nat) :
    getTypedPos B (reportRun B hp t).endMtIdx = cellAt B (endIndex B) t := by
  rw [reportRun_end]
  rfl

theorem noBreak_lt (B : Alignment) (k : Nat) (h : TraceTo B (endIndex B) k) (t : Nat)
    (hnb : NoBreak B (t + 1)) : t < k := by
  by_contra hcon
  exact hnb k (by omega) h.last.2

theorem noBreak_mono (B : Alignment) (t u : Nat) (hnb : NoBreak B t) (hu : u ≤ t) :
    NoBreak B u := fun v hv => hnb v (by omega)

theorem not_consumes_init (B : Alignment) : ¬ Consumes B (reportInit B) := by
  rintro ⟨⟨_, h, _⟩, _⟩
  have : (reportInit B).LastPosN = -1 := rfl
  omega

theorem behind_first (B : Alignment) (hp : ReportHelpers)
    (hc : TraceCell B (getTypedPos B (reportInit B).endMtIdx)) :
    Behind B (reportStep B hp (reportInit B)).1 (getTypedPos B (reportInit B).endMtIdx) := by
  obtain ⟨_, _, _, _, _, eN, eA⟩ := reportStep_skip B hp _ (not_consumes_init B)
  have hk : (reportInit B).lastScoreType ≠ INS ∧ (reportInit B).hasUnprocessedNAs = false :=
    ⟨GENERAL_ne_INS, rfl⟩
  rw [if_pos hk] at eN eA
  obtain ⟨⟨_, ⟨_, hi⟩, _⟩, _, _⟩ := hc
  exact ⟨rfl, eA, by rw [eN], by rw [eN]; exact hi⟩

theorem behind_next (B : Alignment) (hp : ReportHelpers) (st : ReportState)
    (d : tScoreType × Int × Int) (hb : Behind B st d) (hd : TraceCell B d)
    (hc : TraceCell B (getTypedPos B st.endMtIdx))
    (hs : TraceStep B d (getTypedPos B st.endMtIdx))
    (hnb : ¬ ((getTypedPos B st.endMtIdx).2.1 = 0 ∨ (getTypedPos B st.endMtIdx).2.2 = 0)) :
    Behind B (reportStep B hp st).1 (getTypedPos B st.endMtIdx) := by
  obtain ⟨b1, b2, b3, b4⟩ := hb
  obtain ⟨⟨_, ⟨hi0, hi⟩, hj0, hj⟩, _, _⟩ := hc
  obtain ⟨⟨_, ⟨di0, di⟩, dj0, dj⟩, _, _⟩ := hd
  have hleN := hs.leN
  have hleA := hs.leA
  by_cases hcons : Consumes B st
  · obtain ⟨_, _, _, _, _, eN, eA⟩ := reportStep_take B hp st hcons
    exact ⟨rfl, eA, by rw [eN], by rw [eN]; exact hi⟩
  · obtain ⟨_, _, _, _, _, eN, eA⟩ := reportStep_skip B hp st hcons
    by_cases hk : st.lastScoreType ≠ INS ∧ st.hasUnprocessedNAs = false
    · rw [if_pos hk] at eN eA
      exact ⟨rfl, eA, by rw [eN], by rw [eN]; exact hi⟩
    · rw [if_neg hk] at eN eA
      have hA : (getTypedPos B st.endMtIdx).2.2 = d.2.2 := by
        by_cases hI : st.lastScoreType = INS
        · rcases hs.ins (by rw [← b1]; exact hI) with h | ⟨h, _⟩
          · exact h
          · exfalso
            apply hnb
            rw [h]
            exact Or.inl rfl
        · have hnc : ¬ st.LastPosA > (getTypedPos B st.endMtIdx).2.2 := by
            intro hC
            exact hcons ⟨⟨hI, by omega, by omega⟩, hC⟩
          omega
      exact ⟨rfl, by rw [eA, b2, hA], by rw [eN]; omega, by rw [eN]; exact b4⟩

/-- While no pass ends in `break`, the state after pass `t` stands behind the
cell at step `t` of the chain. -/
theorem reportRun_behind (B : Alignment) (hp : ReportHelpers) (k : Nat)
    (h : TraceTo B (endIndex B) k) :
    ∀ t, NoBreak B (t + 1) → Behind B (reportRun B hp (t + 1)) (cellAt B (endIndex B) t) := by
  intro t
  induction t with
  | zero =>
    intro _
    have hc := (h.cell 0 (Nat.zero_le _)).1
    rw [← reportRun_cell B hp 0] at hc ⊢
    exact behind_first B hp hc
  | succ t ih =>
    intro hnb
    have hlt := noBreak_lt B k h (t + 1) hnb
    have hb := ih (noBreak_mono B _ _ hnb (by omega))
    have hd := (h.cell t (by omega)).1
    have hc := (h.cell (t + 1) (by omega)).1
    have hs := (h.step t (by omega)).2
    have hn := hnb (t + 1) (by omega)
    rw [← reportRun_cell B hp (t + 1)] at hc hs hn ⊢
    exact behind_next B hp _ _ hb hd hc hs hn

/-- What holds in a pass over the cell after `d` that finds `LastPosA > posA`. -/
theorem pass_facts (B : Alignment) (st : ReportState)
    (d : tScoreType × Int × Int) (hb : Behind B st d) (hd : TraceCell B d)
    (hc : TraceCell B (getTypedPos B st.endMtIdx))
    (hs : TraceStep B d (getTypedPos B st.endMtIdx))
    (hC : st.LastPosA > (getTypedPos B st.endMtIdx).2.2) :
    (0 ≤ (getTypedPos B st.endMtIdx).2.2 ∧ (getTypedPos B st.endMtIdx).2.2 < B.aSeqLen)
    ∧ (0 ≤ (getTypedPos B st.endMtIdx).2.1 ∧ (getTypedPos B st.endMtIdx).2.1 ≤ st.LastPosN
        ∧ st.LastPosN ≤ B.nSeqLen)
    ∧ (st.lastScoreType ≠ INS →
        Consumes B st ∧ st.LastPosA = (getTypedPos B st.endMtIdx).2.2 + 1)
    ∧ (st.lastScoreType = INS →
        getTypedPos B st.endMtIdx = (GENERAL, 0, 0)
        ∧ d.1 = INS ∧ matGet B.scoreMatrix (cellIndex B d) = negInf) := by
  obtain ⟨b1, b2, b3, b4⟩ := hb
  obtain ⟨⟨_, ⟨hi0, hi⟩, hj0, hj⟩, _, _⟩ := hc
  obtain ⟨⟨_, ⟨di0, di⟩, dj0, dj⟩, _, _⟩ := hd
  have hleN := hs.leN
  have hleA := hs.leA
  refine ⟨⟨hj0, by omega⟩, ⟨hi0, by omega, b4⟩, ?_, ?_⟩
  · intro hI
    have := hs.drop (by rw [← b1]; exact hI)
    exact ⟨⟨⟨hI, by omega, by omega⟩, hC⟩, by omega⟩
  · intro hI
    rcases hs.ins (by rw [← b1]; exact hI) with h | ⟨h, h2⟩
    · omega
    · exact ⟨h, by rw [← b1]; exact hI, h2⟩

theorem reportStep_flag (B : Alignment) (hp : ReportHelpers) (t : Nat) :
    (reportStep B hp (reportRun B hp t)).2
      = decide ((cellAt B (endIndex B) t).2.1 = 0 ∨ (cellAt B (endIndex B) t).2.2 = 0) := by
  rw [← reportRun_cell B hp t]
  rfl

/-- Every state in which the second loop tests its condition is the state
after some number of passes none of which ended in `break`. -/
theorem reached_run (B : Alignment) (hp : ReportHelpers) (start : Int) (st : ReportState)
    (h : Reached B hp start st) : ∃ t, st = reportRun B hp t ∧ NoBreak B t := by
  induction h with
  | init => exact ⟨0, rfl, fun u hu => absurd hu (Nat.not_lt_zero _)⟩
  | next st _ _ hgo ih =>
    obtain ⟨t, rfl, hnb⟩ := ih
    refine ⟨t + 1, rfl, ?_⟩
    intro u hu
    by_cases hut : u = t
    · subst hut
      rw [reportStep_flag] at hgo
      exact of_decide_eq_false hgo
    · exact hnb u (by omega)

/-- The second loop of `GetReport` along a traceback of `k` steps: it returns
after some `T ≤ k + 1` passes, of which only the last can end in `break`. -/
theorem reportLoop_exit (B : Alignment) (hp : ReportHelpers) (k : Nat)
    (h : TraceTo B (endIndex B) k) (start : Int) :
    ∀ (j t : Nat), t + j = k + 1 → NoBreak B t →
      (∀ u, u < t → LoopTest B start (chainAt B (endIndex B) u)) →
      ∀ fuel, j + 1 ≤ fuel →
      ∃ T, T ≤ k + 1
        ∧ reportLoop B hp start fuel (reportRun B hp t) = some (reportRun B hp T)
        ∧ NoBreak B (T - 1)
        ∧ (∀ u, u < T → LoopTest B start (chainAt B (endIndex B) u))
        ∧ ((1 ≤ T ∧ ((cellAt B (endIndex B) (T - 1)).2.1 = 0
                      ∨ (cellAt B (endIndex B) (T - 1)).2.2 = 0))
            ∨ (T ≤ k ∧ ¬ LoopTest B start (chainAt B (endIndex B) T))) := by
  intro j
  induction j with
  | zero =>
    intro t ht hnb _ fuel _
    have : t = k + 1 := by omega
    subst this
    have := noBreak_lt B k h k hnb
    omega
  | succ j ih =>
    intro t ht hnb htests fuel hfuel
    obtain ⟨f, rfl⟩ : ∃ f, fuel = f + 1 := ⟨fuel - 1, by omega⟩
    unfold reportLoop
    simp only []
    by_cases htest : LoopTest B start (chainAt B (endIndex B) t)
    · have htest2 : (reportRun B hp t).endMtIdx.tmod ((B.nSeqLen + 1) * (B.aSeqLen + 1) * 2)
          ≥ start.tmod ((B.nSeqLen + 1) * (B.aSeqLen + 1) * 2) := by
        rw [reportRun_end]
        exact htest
      rw [if_pos htest2]
      have htests2 : ∀ u, u < t + 1 → LoopTest B start (chainAt B (endIndex B) u) := by
        intro u hu
        by_cases hut : u = t
        · rw [hut]; exact htest
        · exact htests u (by omega)
      by_cases hbrk : (cellAt B (endIndex B) t).2.1 = 0 ∨ (cellAt B (endIndex B) t).2.2 = 0
      · have hflag : (reportStep B hp (reportRun B hp t)).2 = true := by
          rw [reportStep_flag]
          exact decide_eq_true hbrk
        rw [if_pos hflag]
        exact ⟨t + 1, by omega, rfl, hnb, htests2, Or.inl ⟨by omega, hbrk⟩⟩
      · have hflag : ¬ (reportStep B hp (reportRun B hp t)).2 = true := by
          rw [reportStep_flag]
          simpa using hbrk
        rw [if_neg hflag]
        have hnb2 : NoBreak B (t + 1) := by
          intro u hu
          by_cases hut : u = t
          · rw [hut]; exact hbrk
          · exact hnb u (by omega)
        exact ih (t + 1) (by omega) hnb2 htests2 f (by omega)
    · have htest2 : ¬ (reportRun B hp t).endMtIdx.tmod ((B.nSeqLen + 1) * (B.aSeqLen + 1) * 2)
          ≥ start.tmod ((B.nSeqLen + 1) * (B.aSeqLen + 1) * 2) := by
        rw [reportRun_end]
        exact htest
      rw [if_neg htest2]
      exact ⟨t, by omega, rfl, noBreak_mono B _ _ hnb (by omega), htests,
        Or.inr ⟨by omega, htest⟩⟩

/-- A property of the state of the second loop that holds at the start, after
the first pass, and is kept by every later pass, holds when the loop returns. -/
theorem reportRun_passes (B : Alignment) (hp : ReportHelpers) (k : Nat)
    (h : TraceTo B (endIndex B) k) (P : ReportState → Prop)
    (h0 : P (reportInit B)) (h1 : P (reportStep B hp (reportInit B)).1)
    (hstep : ∀ (st : ReportState) (d : tScoreType × Int × Int), Behind B st d →
      TraceCell B d → TraceCell B (getTypedPos B st.endMtIdx) →
      TraceStep B d (getTypedPos B st.endMtIdx) → P st → P (reportStep B hp st).1) :
    ∀ T, T ≤ k + 1 → NoBreak B (T - 1) → P (reportRun B hp T) := by
  intro T
  induction T with
  | zero => intro _ _; exact h0
  | succ T ih =>
    intro hT hnb
    cases T with
    | zero => exact h1
    | succ u =>
      have hnb1 : NoBreak B (u + 1) := hnb
      have hP := ih (by omega) (noBreak_mono B _ _ hnb1 (by omega))
      have hb := reportRun_behind B hp k h u hnb1
      have hd := (h.cell u (by omega)).1
      have hc := (h.cell (u + 1) (by omega)).1
      have hs := (h.step u (by omega)).2
      rw [← reportRun_cell B hp (u + 1)] at hc hs
      exact hstep _ _ hb hd hc hs hP

/-! ## C19: the slices of the second loop -/

theorem NewAlignment_seqs (nSeq : List NucleicAcid) (aSeq : List AminoAcid)
    (sh : ScoreHandler) :
    (NewAlignment nSeq aSeq sh).nSeq = nSeq ∧ (NewAlignment nSeq aSeq sh).aSeq = aSeq := by
  obtain ⟨m, hm⟩ := NewAlignment_static nSeq aSeq sh
  rw [hm]
  exact ⟨rfl, rfl⟩

theorem sliceOf_one {α : Type} (xs : List α) (lo : Int) (h0 : 0 ≤ lo)
    (h1 : lo < (xs.length : Int)) : (sliceOf xs lo (lo + 1)).length = 1 := by
  unfold sliceOf
  rw [List.length_take, List.length_drop]
  omega

/-- C19: in the second loop of `GetReport` (for any `startMtIdx`), whenever the
loop stands in a state with `LastPosA > posA` for the cell `(scoreType, posN,
posA)` decoded from `endMtIdx`, it holds that `0 <= posA < aLen` and
`0 <= posN <= LastPosN <= nLen`, and the silent-match test `LastPosN - posN > 2`
gives `posN + 3 <= nLen`.  When moreover `lastScoreType != INS` (the only case
in which the loop body slices and pads) the guards of the emitting block hold,
`LastPosA = posA + 1`, the slice `aSeq[posA:LastPosA]` has one element, and
its text, at one printed character per amino acid, is no longer than 3.  The
case `lastScoreType = INS` arises only at the origin cell, after an INS cell
whose stored score is the sentinel `negInf`. -/
theorem second_loop_in_range (nSeq : List NucleicAcid) (aSeq : List AminoAcid)
    (sh : ScoreHandler) (hp : ReportHelpers) (startMtIdx : Int) (st : ReportState)
    (hw : ∀ l : List AminoAcid, (hp.writeAminoAcids l).length = l.length)
    (hreach : Reached (NewAlignment nSeq aSeq sh) hp startMtIdx st)
    (hC : st.LastPosA > (getTypedPos (NewAlignment nSeq aSeq sh) st.endMtIdx).2.2) :
    (0 ≤ (getTypedPos (NewAlignment nSeq aSeq sh) st.endMtIdx).2.2
      ∧ (getTypedPos (NewAlignment nSeq aSeq sh) st.endMtIdx).2.2 < (aSeq.length : Int))
    ∧ (0 ≤ (getTypedPos (NewAlignment nSeq aSeq sh) st.endMtIdx).2.1
      ∧ (getTypedPos (NewAlignment nSeq aSeq sh) st.endMtIdx).2.1 ≤ st.LastPosN
      ∧ st.LastPosN ≤ (nSeq.length : Int))
    ∧ (st.LastPosN - (getTypedPos (NewAlignment nSeq aSeq sh) st.endMtIdx).2.1 > 2 →
        (getTypedPos (NewAlignment nSeq aSeq sh) st.endMtIdx).2.1 + 3 ≤ (nSeq.length : Int))
    ∧ (st.lastScoreType ≠ INS →
        (st.LastPosN > -1 ∧ st.LastPosA > -1)
        ∧ st.LastPosA = (getTypedPos (NewAlignment nSeq aSeq sh) st.endMtIdx).2.2 + 1
        ∧ (sliceOf (NewAlignment nSeq aSeq sh).aSeq
            (getTypedPos (NewAlignment nSeq aSeq sh) st.endMtIdx).2.2 st.LastPosA).length = 1
        ∧ (hp.writeAminoAcids (sliceOf (NewAlignment nSeq aSeq sh).aSeq
            (getTypedPos (NewAlignment nSeq aSeq sh) st.endMtIdx).2.2 st.LastPosA)).length ≤ 3)
    ∧ (st.lastScoreType = INS →
        getTypedPos (NewAlignment nSeq aSeq sh) st.endMtIdx = (GENERAL, 0, 0)
        ∧ ∃ d : tScoreType × Int × Int, TraceCell (NewAlignment nSeq aSeq sh) d ∧ d.1 = INS
            ∧ matGet (NewAlignment nSeq aSeq sh).scoreMatrix
                (cellIndex (NewAlignment nSeq aSeq sh) d) = negInf) := by
  obtain ⟨k, _, ht⟩ := newAlignment_trace nSeq aSeq sh
  have hn := NewAlignment_nSeqLen nSeq aSeq sh
  have ha := NewAlignment_aSeqLen nSeq aSeq sh
  have hseq := (NewAlignment_seqs nSeq aSeq sh).2
  generalize NewAlignment nSeq aSeq sh = B at ht hn ha hseq hreach hC ⊢
  obtain ⟨t, rfl, hnb⟩ := reached_run B hp startMtIdx st hreach
  cases t with
  | zero =>
    exfalso
    have hc := (ht.cell 0 (Nat.zero_le _)).1.1.2.2.1
    rw [← reportRun_cell B hp 0] at hc
    have : (reportRun B hp 0).LastPosA = -1 := rfl
    omega
  | succ t =>
    have hlt := noBreak_lt B k ht t hnb
    have hb := reportRun_behind B hp k ht t hnb
    have hd := (ht.cell t (by omega)).1
    have hc := (ht.cell (t + 1) (by omega)).1
    have hs := (ht.step t (by omega)).2
    rw [← reportRun_cell B hp (t + 1)] at hc hs
    obtain ⟨f1, f2, f3, f4⟩ := pass_facts B _ _ hb hd hc hs hC
    rw [ha] at f1
    rw [hn] at f2
    refine ⟨f1, f2, fun _ => by omega, ?_, ?_⟩
    · intro hI
      obtain ⟨⟨g1, _⟩, g2⟩ := f3 hI
      have hlen : (sliceOf B.aSeq (getTypedPos B (reportRun B hp (t + 1)).endMtIdx).2.2
          (reportRun B hp (t + 1)).LastPosA).length = 1 := by
        rw [g2]
        exact sliceOf_one _ _ f1.1 (by rw [hseq]; exact f1.2)
      refine ⟨g1.2, g2, hlen, ?_⟩
      rw [hw, hlen]
      omega
    · intro hI
      obtain ⟨g1, g2, g3⟩ := f4 hI
      exact ⟨g1, _, hd, g2, g3⟩

theorem scenarioHelpers_aminoText
    (tr : NucleicAcid → NucleicAcid → NucleicAcid → AminoAcid) (l : List AminoAcid) :
    ((scenarioHelpers tr).writeAminoAcids l).length = l.length := by
  simp [scenarioHelpers, String.length]

set_option maxRecDepth 100000 in
/-- Witness of C19 at `nSeq = ATGGAA`, `aSeq = ME`: the state after the first
pass of the second loop. -/
theorem second_loop_in_range_witness :
    (reportStep
        (NewAlignment [NucleicAcid.A, NucleicAcid.T, NucleicAcid.G, NucleicAcid.G,
          NucleicAcid.A, NucleicAcid.A] [AminoAcid.M, AminoAcid.E] (scenarioHandler translate))
        (scenarioHelpers translate)
        (reportInit (NewAlignment [NucleicAcid.A, NucleicAcid.T, NucleicAcid.G, NucleicAcid.G,
          NucleicAcid.A, NucleicAcid.A] [AminoAcid.M, AminoAcid.E]
          (scenarioHandler translate)))).1.LastPosA
      = (getTypedPos
          (NewAlignment [NucleicAcid.A, NucleicAcid.T, NucleicAcid.G, NucleicAcid.G,
            NucleicAcid.A, NucleicAcid.A] [AminoAcid.M, AminoAcid.E]
            (scenarioHandler translate))
          (reportStep
            (NewAlignment [NucleicAcid.A, NucleicAcid.T, NucleicAcid.G, NucleicAcid.G,
              NucleicAcid.A, NucleicAcid.A] [AminoAcid.M, AminoAcid.E]
              (scenarioHandler translate))
            (scenarioHelpers translate)
            (reportInit (NewAlignment [NucleicAcid.A, NucleicAcid.T, NucleicAcid.G,
              NucleicAcid.G, NucleicAcid.A, NucleicAcid.A] [AminoAcid.M, AminoAcid.E]
              (scenarioHandler translate)))).1.endMtIdx).2.2 + 1 :=
  ((second_loop_in_range
    [NucleicAcid.A, NucleicAcid.T, NucleicAcid.G, NucleicAcid.G, NucleicAcid.A, NucleicAcid.A]
    [AminoAcid.M, AminoAcid.E] (scenarioHandler translate) (scenarioHelpers translate) 0 _
    (scenarioHelpers_aminoText translate)
    (Reached.next _ (Reached.init) (by unfold LoopTest; decide) (by decide))
    (by decide)).2.2.2.1 (by decide)).2.1

/-! ## C18: the first and last positions of the report -/

/-- The flat index of a cell modulo the length of one plane. -/
theorem index_tmod (B : Alignment) (p i j : Int) (hv : ValidCell B p i j) :
    (getMatrixIndex B p i j).tmod ((B.nSeqLen + 1) * (B.aSeqLen + 1) * 2)
      = 2 * (j + (B.aSeqLen + 1) * i) := by
  have h0 := (getMatrixIndex_bounds B p i j hv).1
  obtain ⟨_, ⟨hi0, hi⟩, hj0, hj⟩ := hv
  have hL : 0 ≤ (B.nSeqLen + 1) * (B.aSeqLen + 1) * 2 :=
    Int.mul_nonneg (Int.mul_nonneg (by omega) (by omega)) (by omega)
  rw [Int.tmod_eq_emod h0 hL]
  have e : getMatrixIndex B p i j
      = 2 * (j + (B.aSeqLen + 1) * i) + p * ((B.nSeqLen + 1) * (B.aSeqLen + 1) * 2) := by
    unfold getMatrixIndex; ring
  rw [e, Int.add_mul_emod_self]
  have h1 : (B.aSeqLen + 1) * i ≤ (B.aSeqLen + 1) * B.nSeqLen :=
    Int.mul_le_mul_of_nonneg_left hi (by omega)
  have h2 : 0 ≤ (B.aSeqLen + 1) * i := Int.mul_nonneg (by omega) hi0
  have h3 : (B.nSeqLen + 1) * (B.aSeqLen + 1) * 2
      = 2 * ((B.aSeqLen + 1) * B.nSeqLen) + 2 * B.aSeqLen + 2 := by ring
  apply Int.emod_eq_of_lt
  · omega
  · rw [h3]; omega

theorem traceTo_mono (B : Alignment) (e : Int) (k : Nat) (h : TraceTo B e k) :
    ∀ (m u : Nat), u + m ≤ k →
      (cellAt B e (u + m)).2.1 ≤ (cellAt B e u).2.1
      ∧ (cellAt B e (u + m)).2.2 ≤ (cellAt B e u).2.2 := by
  intro m
  induction m with
  | zero => intro u _; exact ⟨le_refl _, le_refl _⟩
  | succ m ih =>
    intro u hu
    obtain ⟨a1, a2⟩ := ih u (by omega)
    have hs := (h.step (u + m) (by omega)).2
    have b1 := hs.leN
    have b2 := hs.leA
    have e1 : u + (m + 1) = u + m + 1 := rfl
    rw [e1]
    exact ⟨by omega, by omega⟩

/-- The test of the second loop between two cells of the traceback. -/
theorem loopTest_cells (B : Alignment) (e : Int) (k : Nat) (h : TraceTo B e k)
    (u w : Nat) (hu : u ≤ k) (hw : w ≤ k) :
    LoopTest B (chainAt B e w) (chainAt B e u)
      ↔ (cellAt B e w).2.2 + (B.aSeqLen + 1) * (cellAt B e w).2.1
          ≤ (cellAt B e u).2.2 + (B.aSeqLen + 1) * (cellAt B e u).2.1 := by
  obtain ⟨cu, eu⟩ := h.cell u hu
  obtain ⟨cw, ew⟩ := h.cell w hw
  unfold LoopTest
  rw [eu, ew]
  unfold cellIndex
  rw [index_tmod B _ _ _ cu.1, index_tmod B _ _ _ cw.1]
  constructor
  · intro hh; omega
  · intro hh; omega

theorem loopTest_of_le (B : Alignment) (e : Int) (k : Nat) (h : TraceTo B e k)
    (u w : Nat) (hu : u ≤ w) (hw : w ≤ k) : LoopTest B (chainAt B e w) (chainAt B e u) := by
  rw [loopTest_cells B e k h u w (by omega) hw]
  obtain ⟨m, rfl⟩ : ∃ m, w = u + m := ⟨w - u, by omega⟩
  obtain ⟨a1, a2⟩ := traceTo_mono B e k h m u hw
  have ha : 0 ≤ B.aSeqLen := by
    have := (h.cell u (by omega)).1.1.2.2
    omega
  have := Int.mul_le_mul_of_nonneg_left a1 (show 0 ≤ B.aSeqLen + 1 by omega)
  omega

theorem not_loopTest_step (B : Alignment) (e : Int) (k : Nat) (h : TraceTo B e k)
    (t : Nat) (ht : t < k)
    (hsc : matGet B.scoreMatrix (chainAt B e (t + 1)) ≠ matGet B.scoreMatrix (chainAt B e t)) :
    ¬ LoopTest B (chainAt B e t) (chainAt B e (t + 1)) := by
  rw [loopTest_cells B e k h (t + 1) t (by omega) (by omega)]
  obtain ⟨c1, e1⟩ := h.cell t (by omega)
  obtain ⟨c2, e2⟩ := h.cell (t + 1) (by omega)
  have hs := (h.step t ht).2
  have b1 := hs.leN
  have b2 := hs.leA
  obtain ⟨_, ⟨hi0, hi⟩, hj0, hj⟩ := c1.1
  obtain ⟨_, ⟨gi0, gi⟩, gj0, gj⟩ := c2.1
  have hdiff : (cellAt B e (t + 1)).2.1 < (cellAt B e t).2.1
      ∨ ((cellAt B e (t + 1)).2.1 = (cellAt B e t).2.1
          ∧ (cellAt B e (t + 1)).2.2 < (cellAt B e t).2.2) := by
    by_contra hcon
    have s1 : (cellAt B e (t + 1)).2.1 = (cellAt B e t).2.1 := by omega
    have s2 : (cellAt B e (t + 1)).2.2 = (cellAt B e t).2.2 := by omega
    have := hs.same s1 s2
    rw [← e1, ← e2] at this
    exact hsc this
  intro hle
  rcases hdiff with hd | ⟨hd1, hd2⟩
  · have h1 : (cellAt B e (t + 1)).2.1 + 1 ≤ (cellAt B e t).2.1 := by omega
    have h2 := Int.mul_le_mul_of_nonneg_left h1 (show 0 ≤ B.aSeqLen + 1 by omega)
    have h3 : (B.aSeqLen + 1) * ((cellAt B e (t + 1)).2.1 + 1)
        = (B.aSeqLen + 1) * (cellAt B e (t + 1)).2.1 + (B.aSeqLen + 1) := by ring
    omega
  · rw [hd1] at hle
    omega

theorem reportRun_last (B : Alignment) (hp : ReportHelpers) (k : Nat)
    (h : TraceTo B (endIndex B) k) :
    ∀ t, t ≤ k →
      (reportRun B hp (t + 1)).lastAA = (cellAt B (endIndex B) 0).2.2
      ∧ (reportRun B hp (t + 1)).lastNA = (cellAt B (endIndex B) 0).2.1 := by
  intro t
  induction t with
  | zero =>
    intro _
    obtain ⟨e1, e2⟩ := reportStep_last B hp (reportRun B hp 0)
    have hf : (reportRun B hp 0).lastAA = 0 ∧ (reportRun B hp 0).lastNA = 0 := ⟨rfl, rfl⟩
    rw [if_pos hf, reportRun_cell] at e1 e2
    exact ⟨e1, e2⟩
  | succ t ih =>
    intro ht
    obtain ⟨a1, a2⟩ := ih (by omega)
    obtain ⟨e1, e2⟩ := reportStep_last B hp (reportRun B hp (t + 1))
    rw [reportRun_cell] at e1 e2
    have e1b : (reportRun B hp (t + 1 + 1)).lastAA = _ := e1
    have e2b : (reportRun B hp (t + 1 + 1)).lastNA = _ := e2
    rw [e1b, e2b]
    by_cases hf : (reportRun B hp (t + 1)).lastAA = 0 ∧ (reportRun B hp (t + 1)).lastNA = 0
    · rw [if_pos hf, if_pos hf]
      have hm := traceTo_mono B _ k h (t + 1) 0 (by omega)
      rw [Nat.zero_add] at hm
      obtain ⟨_, ⟨gi0, _⟩, gj0, _⟩ := (h.cell (t + 1) ht).1.1
      obtain ⟨f1, f2⟩ := hf
      rw [a1] at f1
      rw [a2] at f2
      exact ⟨by omega, by omega⟩
    · rw [if_neg hf, if_neg hf]
      exact ⟨a1, a2⟩

/-- A cell of the traceback before its last that lies in row 0 or column 0 is
a DEL cell of column 0 from row 1 on. -/
theorem break_cell (B : Alignment) (e : Int) (k : Nat) (h : TraceTo B e k) (u : Nat)
    (hu : u < k) (hb : (cellAt B e u).2.1 = 0 ∨ (cellAt B e u).2.2 = 0) :
    (cellAt B e u).1 = DEL ∧ 1 ≤ (cellAt B e u).2.1 ∧ (cellAt B e u).2.2 = 0 := by
  obtain ⟨⟨hv, hg, hins⟩, _⟩ := h.cell u (by omega)
  have hnb := (h.step u hu).1
  obtain ⟨hp, _, _⟩ := hv
  have hG : (cellAt B e u).1 ≠ GENERAL := fun hh => hnb ⟨hh, hb⟩
  have h1 : 1 ≤ (cellAt B e u).2.1 := by
    rcases hg with hh | hh
    · exact absurd hh hG
    · exact hh
  have h0 : (cellAt B e u).2.2 = 0 := by
    rcases hb with hh | hh
    · omega
    · exact hh
  have hI : (cellAt B e u).1 ≠ INS := by
    intro hh
    have := hins hh
    omega
  rcases hp with hh | hh | hh
  · exact absurd hh hG
  · exact absurd hh hI
  · exact ⟨hh, h1, h0⟩

/-- With a negative stored score in the DEL cells of column 0, which point to
the origin, the second loop of `GetReport` makes its passes over the cells of
the traceback from the end cell down to the last cell that holds the least
score, and returns. -/
theorem reportLoop_to_start (B : Alignment) (hp : ReportHelpers) (n a k : Nat)
    (hn : B.nSeqLen = n) (ha : B.aSeqLen = a)
    (h : TraceTo B (endIndex B) k) (ts : Nat) (hts : ts ≤ k)
    (hmin : ∀ u, u ≤ k → matGet B.scoreMatrix (chainAt B (endIndex B) ts)
      ≤ matGet B.scoreMatrix (chainAt B (endIndex B) u))
    (hstrict : ∀ u, ts < u → u ≤ k → matGet B.scoreMatrix (chainAt B (endIndex B) ts)
      < matGet B.scoreMatrix (chainAt B (endIndex B) u))
    (hdel : ∀ i : Int, 1 ≤ i → i ≤ n →
      matGet B.scoreMatrix (getMatrixIndex B DEL i 0) < 0
      ∧ prevIndex B (getMatrixIndex B DEL i 0) = getMatrixIndex B GENERAL 0 0)
    (fuel : Nat) (hfuel : k + 2 ≤ fuel) :
    reportLoop B hp (chainAt B (endIndex B) ts) fuel (reportInit B)
      = some (reportRun B hp (ts + 1)) := by
  have claimA : ∀ u, u ≤ ts →
      LoopTest B (chainAt B (endIndex B) ts) (chainAt B (endIndex B) u) :=
    fun u hu => loopTest_of_le B _ k h u ts hu hts
  have claimB : ts < k →
      ¬ LoopTest B (chainAt B (endIndex B) ts) (chainAt B (endIndex B) (ts + 1)) := by
    intro hlt
    apply not_loopTest_step B _ k h ts hlt
    have := hstrict (ts + 1) (by omega) (by omega)
    omega
  have claimC : NoBreak B ts := by
    intro u hu hb
    obtain ⟨c1, c2, c3⟩ := break_cell B _ k h u (by omega) hb
    obtain ⟨hc, he⟩ := h.cell u (by omega)
    have hi := hc.1.2.1.2
    rw [hn] at hi
    obtain ⟨d1, d2⟩ := hdel (cellAt B (endIndex B) u).2.1 c2 hi
    have hidx : chainAt B (endIndex B) u
        = getMatrixIndex B DEL (cellAt B (endIndex B) u).2.1 0 := by
      rw [he]
      unfold cellIndex
      rw [c1, c3]
    have hnext : chainAt B (endIndex B) (u + 1) = cellIndex B (GENERAL, 0, 0) := by
      show prevIndex B (chainAt B (endIndex B) u) = _
      rw [hidx, d2]
      rfl
    have hcell : cellAt B (endIndex B) (u + 1) = (GENERAL, 0, 0) := by
      unfold cellAt
      rw [hnext]
      exact getTypedPos_cellIndex B _ (validCell_origin B n a hn ha)
    have hk : u + 1 = k := by
      by_contra hne
      have := (h.step (u + 1) (by omega)).1
      apply this
      rw [hcell]
      exact ⟨rfl, Or.inl rfl⟩
    have hts2 : ts = k := by omega
    have h1 := hmin u (by omega)
    rw [hts2, h.zero, hidx] at h1
    omega
  obtain ⟨T, hT, hloop, hnb, htests, hend⟩ :=
    reportLoop_exit B hp k h (chainAt B (endIndex B) ts) (k + 1) 0 (by omega)
      (fun u hu => absurd hu (Nat.not_lt_zero _)) (fun u hu => absurd hu (Nat.not_lt_zero _))
      fuel hfuel
  have hTeq : T = ts + 1 := by
    rcases hend with ⟨h1, hb⟩ | ⟨h1, hnt⟩
    · have g1 : ts ≤ T - 1 := by
        by_contra hcon
        exact claimC (T - 1) (by omega) hb
      by_contra hne
      have g2 : ts + 1 < T := by omega
      exact claimB (by omega) (htests (ts + 1) g2)
    · have g1 : ts < T := by
        by_contra hcon
        exact hnt (claimA T (by omega))
      by_contra hne
      have g2 : ts + 1 < T := by omega
      exact claimB (by omega) (htests (ts + 1) g2)
  rw [← hTeq]
  exact hloop

theorem NewAlignment_q (nSeq : List NucleicAcid) (aSeq : List AminoAcid)
    (sh : ScoreHandler) : (NewAlignment nSeq aSeq sh).q = sh.GetGapOpeningScore := by
  obtain ⟨m, hm⟩ := NewAlignment_static nSeq aSeq sh
  rw [hm]
  rfl

/-- The DEL cells of column 0 from row 1 on hold the gap-opening score and
point to the origin. -/
theorem del_column_zero (B : Alignment) (i : Nat) (hc : CellOK B i 0) (hi : 1 ≤ i) :
    matGet B.scoreMatrix (getMatrixIndex B DEL i 0) = B.q
    ∧ prevIndex B (getMatrixIndex B DEL i 0) = getMatrixIndex B GENERAL 0 0 := by
  have e := hc.2.1
  rw [calcDelScore_boundary B _ _ (by omega) (show ((0 : Nat) : Int) = 0 from rfl)] at e
  exact ⟨congrArg Prod.fst e, congrArg Prod.snd e⟩

theorem NewAlignment_endCell (nSeq : List NucleicAcid) (aSeq : List AminoAcid)
    (sh : ScoreHandler) :
    getTypedPos (NewAlignment nSeq aSeq sh) (endIndex (NewAlignment nSeq aSeq sh))
      = (GENERAL, (NewAlignment nSeq aSeq sh).maxScorePosN,
          (NewAlignment nSeq aSeq sh).maxScorePosA) := by
  have hn := NewAlignment_nSeqLen nSeq aSeq sh
  have ha := NewAlignment_aSeqLen nSeq aSeq sh
  obtain ⟨mi, mj, hmi, hmj, emi, emj⟩ := NewAlignment_maxPos nSeq aSeq sh
  have hv := (chainCell_general (NewAlignment nSeq aSeq sh) _ _ hn ha mi mj hmi hmj).1
  have := getTypedPos_cellIndex (NewAlignment nSeq aSeq sh) (GENERAL, (mi : Int), (mj : Int)) hv
  unfold endIndex
  rw [emi, emj]
  exact this

/-- C18: for every alignment, the gap-opening score of its handler being
negative as the spec has it, `GetReport` (given fuel for `3*(nLen+aLen)+2` tests
of each loop condition) returns a report with `LastNA = maxScorePosN`,
`LastAA = maxScorePosA`, `FirstNA = i_s + 1` and `FirstAA = j_s + 1`, where
`(i_s, j_s)` is the position decoded from the `startMtIdx` the first loop
leaves: `startMtIdx` is the chain cell at some step `ts`, and the second loop
returns after exactly the `ts + 1` passes over the chain cells from the end
cell down to that cell. -/
theorem report_first_last (nSeq : List NucleicAcid) (aSeq : List AminoAcid)
    (sh : ScoreHandler) (hp : ReportHelpers) (fuel : Nat)
    (hq : sh.GetGapOpeningScore < 0)
    (hfuel : 3 * (nSeq.length + aSeq.length) + 2 ≤ fuel) :
    ∃ (t2 : TrimState) (r : AlignmentReport) (ts : Nat),
      trimLoop (NewAlignment nSeq aSeq sh) fuel (trimInit (NewAlignment nSeq aSeq sh)) = some t2
      ∧ t2.startMtIdx
          = chainAt (NewAlignment nSeq aSeq sh) (endIndex (NewAlignment nSeq aSeq sh)) ts
      ∧ reportLoop (NewAlignment nSeq aSeq sh) hp t2.startMtIdx fuel
            (reportInit (NewAlignment nSeq aSeq sh))
          = some (reportRun (NewAlignment nSeq aSeq sh) hp (ts + 1))
      ∧ GetReport (NewAlignment nSeq aSeq sh) hp fuel = some r
      ∧ r.LastNA = (NewAlignment nSeq aSeq sh).maxScorePosN
      ∧ r.LastAA = (NewAlignment nSeq aSeq sh).maxScorePosA
      ∧ r.FirstNA = (getTypedPos (NewAlignment nSeq aSeq sh) t2.startMtIdx).2.1 + 1
      ∧ r.FirstAA = (getTypedPos (NewAlignment nSeq aSeq sh) t2.startMtIdx).2.2 + 1 := by
  obtain ⟨k, hk, ht⟩ := newAlignment_trace nSeq aSeq sh
  have hn := NewAlignment_nSeqLen nSeq aSeq sh
  have ha := NewAlignment_aSeqLen nSeq aSeq sh
  have hend := NewAlignment_endCell nSeq aSeq sh
  have hdel : ∀ i : Int, 1 ≤ i → i ≤ (nSeq.length : Nat) →
      matGet (NewAlignment nSeq aSeq sh).scoreMatrix
          (getMatrixIndex (NewAlignment nSeq aSeq sh) DEL i 0) < 0
      ∧ prevIndex (NewAlignment nSeq aSeq sh)
          (getMatrixIndex (NewAlignment nSeq aSeq sh) DEL i 0)
        = getMatrixIndex (NewAlignment nSeq aSeq sh) GENERAL 0 0 := by
    intro i h1 h2
    obtain ⟨m, rfl⟩ := Int.eq_ofNat_of_zero_le (show 0 ≤ i by omega)
    obtain ⟨e1, e2⟩ := del_column_zero (NewAlignment nSeq aSeq sh) m
      (NewAlignment_cellOK nSeq aSeq sh m 0 (by omega) (Nat.zero_le _)) (by omega)
    rw [NewAlignment_q] at e1
    exact ⟨by rw [e1]; exact hq, e2⟩
  generalize NewAlignment nSeq aSeq sh = B at ht hn ha hend hdel ⊢
  obtain ⟨hloop, ts, h1, h2, h3, h4⟩ := trim_start_of_trace B k ht fuel (by omega)
  have hloop2 := reportLoop_to_start B hp _ _ k hn ha ht ts h1 h3 h4 hdel fuel (by omega)
  rw [← h2] at hloop2
  have hG : GetReport B hp fuel = some
      { FirstAA := (reportRun B hp (ts + 1)).firstAA
        FirstNA := (reportRun B hp (ts + 1)).firstNA
        LastAA := (reportRun B hp (ts + 1)).lastAA
        LastNA := (reportRun B hp (ts + 1)).lastNA
        Mutations := (reportRun B hp (ts + 1)).mutList
        FrameShifts := (reportRun B hp (ts + 1)).fsList
        AminoAcidsLine := (reportRun B hp (ts + 1)).aLine
        ControlLine := (reportRun B hp (ts + 1)).cLine
        NucleicAcidsLine := (reportRun B hp (ts + 1)).nLine } := by
    unfold GetReport
    rw [hloop]
    simp only
    rw [hloop2]
  obtain ⟨l1, l2⟩ := reportRun_last B hp k ht ts h1
  have hc0 : cellAt B (endIndex B) 0 = getTypedPos B (endIndex B) := rfl
  rw [hc0, hend] at l1 l2
  obtain ⟨_, f1, f2, _, _⟩ := reportStep_simple B hp (reportRun B hp ts)
  rw [reportRun_end, ← h2] at f1 f2
  exact ⟨_, _, ts, hloop, h2, hloop2, hG, l2, l1, f2, f1⟩

set_option maxRecDepth 1000000 in
/-- Witness of C18 at `nSeq = TTTATGGAACGTTT`, `aSeq = MER` with the
handler and the helpers of the scenarios: the report has `FirstNA = 4` and
`LastNA = 12`. -/
theorem report_first_last_witness :
    ((scenarioHandler translate).GetGapOpeningScore < 0
      ∧ 3 * ([NucleicAcid.T, NucleicAcid.T, NucleicAcid.T, NucleicAcid.A, NucleicAcid.T,
          NucleicAcid.G, NucleicAcid.G, NucleicAcid.A, NucleicAcid.A, NucleicAcid.C,
          NucleicAcid.G, NucleicAcid.T, NucleicAcid.T, NucleicAcid.T].length
          + [AminoAcid.M, AminoAcid.E, AminoAcid.R].length) + 2 ≤ 53)
    ∧ (∃ r : AlignmentReport,
        GetReport (NewAlignment [NucleicAcid.T, NucleicAcid.T, NucleicAcid.T, NucleicAcid.A,
          NucleicAcid.T, NucleicAcid.G, NucleicAcid.G, NucleicAcid.A, NucleicAcid.A,
          NucleicAcid.C, NucleicAcid.G, NucleicAcid.T, NucleicAcid.T, NucleicAcid.T]
          [AminoAcid.M, AminoAcid.E, AminoAcid.R] (scenarioHandler translate))
          (scenarioHelpers translate) 53 = some r
        ∧ r.LastNA = (NewAlignment [NucleicAcid.T, NucleicAcid.T, NucleicAcid.T,
            NucleicAcid.A, NucleicAcid.T, NucleicAcid.G, NucleicAcid.G, NucleicAcid.A,
            NucleicAcid.A, NucleicAcid.C, NucleicAcid.G, NucleicAcid.T, NucleicAcid.T,
            NucleicAcid.T] [AminoAcid.M, AminoAcid.E, AminoAcid.R]
            (scenarioHandler translate)).maxScorePosN)
    ∧ Option.map (fun r => (r.FirstNA, r.LastNA))
        (GetReport (NewAlignment [NucleicAcid.T, NucleicAcid.T, NucleicAcid.T, NucleicAcid.A,
          NucleicAcid.T, NucleicAcid.G, NucleicAcid.G, NucleicAcid.A, NucleicAcid.A,
          NucleicAcid.C, NucleicAcid.G, NucleicAcid.T, NucleicAcid.T, NucleicAcid.T]
          [AminoAcid.M, AminoAcid.E, AminoAcid.R] (scenarioHandler translate))
          (scenarioHelpers translate) 53) = some (4, 12) := by
  refine ⟨⟨by decide, by decide⟩, ?_, by decide⟩
  obtain ⟨_, r, _, _, _, _, hG, hL, _⟩ :=
    report_first_last [NucleicAcid.T, NucleicAcid.T, NucleicAcid.T, NucleicAcid.A,
      NucleicAcid.T, NucleicAcid.G, NucleicAcid.G, NucleicAcid.A, NucleicAcid.A,
      NucleicAcid.C, NucleicAcid.G, NucleicAcid.T, NucleicAcid.T, NucleicAcid.T]
      [AminoAcid.M, AminoAcid.E, AminoAcid.R] (scenarioHandler translate)
      (scenarioHelpers translate) 53 (by decide) (by decide)
  exact ⟨r, hG, hL⟩

set_option maxRecDepth 100000 in
/-- The sign of the gap-opening score matters for the first position: for
`nSeq = A`, `aSeq = M` and the handler with all scores 0 the first loop leaves
`startMtIdx = 0`, the index of `GENERAL(0, 0)`, while the second loop ends in
`break` on the cell `DEL(1, 0)` and the report has `FirstNA = 2`. -/
theorem report_first_zero_gap :
    Option.map TrimState.startMtIdx
        (trimLoop (NewAlignment [NucleicAcid.A] [AminoAcid.M] zeroHandler) 8
          (trimInit (NewAlignment [NucleicAcid.A] [AminoAcid.M] zeroHandler))) = some 0
    ∧ getTypedPos (NewAlignment [NucleicAcid.A] [AminoAcid.M] zeroHandler) 0 = (GENERAL, 0, 0)
    ∧ Option.map AlignmentReport.FirstNA
        (GetReport (NewAlignment [NucleicAcid.A] [AminoAcid.M] zeroHandler)
          (scenarioHelpers translate) 8) = some 2
    ∧ Option.map AlignmentReport.FirstNA
        (GetReport (NewAlignment [NucleicAcid.A] [AminoAcid.M] zeroHandler)
          (scenarioHelpers translate) 8) ≠ some (0 + 1) := by
  decide

/-! ## C11: the order of the lists -/

/-- Along a traceback of `k` steps `GetReport` returns the variables of its
second loop after some `T ≤ k + 1` passes, of which only the last can end in
`break`. -/
theorem getReport_run (B : Alignment) (hp : ReportHelpers) (k : Nat)
    (h : TraceTo B (endIndex B) k) (fuel : Nat) (hfuel : k + 2 ≤ fuel) :
    ∃ T, T ≤ k + 1 ∧ NoBreak B (T - 1)
      ∧ GetReport B hp fuel = some
          { FirstAA := (reportRun B hp T).firstAA
            FirstNA := (reportRun B hp T).firstNA
            LastAA := (reportRun B hp T).lastAA
            LastNA := (reportRun B hp T).lastNA
            Mutations := (reportRun B hp T).mutList
            FrameShifts := (reportRun B hp T).fsList
            AminoAcidsLine := (reportRun B hp T).aLine
            ControlLine := (reportRun B hp T).cLine
            NucleicAcidsLine := (reportRun B hp T).nLine } := by
  have hloop := trimLoop_run B k h (k + 1) 0 (by omega) fuel (by omega)
  obtain ⟨T, hT, hloop2, hnb, _, _⟩ :=
    reportLoop_exit B hp k h (trimRun B (k + 1)).startMtIdx (k + 1) 0 (by omega)
      (fun u hu => absurd hu (Nat.not_lt_zero _)) (fun u hu => absurd hu (Nat.not_lt_zero _))
      fuel hfuel
  refine ⟨T, hT, hnb, ?_⟩
  unfold GetReport
  have e0 : trimRun B 0 = trimInit B := rfl
  have e1 : reportRun B hp 0 = reportInit B := rfl
  rw [e0] at hloop
  rw [e1] at hloop2
  rw [hloop]
  simp only
  rw [hloop2]

theorem pairwise_snoc (l : List Int) (x : Int) (h : List.Pairwise (fun x y => x > y) l)
    (hx : ∀ y ∈ l, y > x) : List.Pairwise (fun x y => x > y) (l ++ [x]) := by
  rw [List.pairwise_append]
  refine ⟨h, List.pairwise_singleton _ _, ?_⟩
  intro a ha b hb
  rw [List.mem_singleton] at hb
  rw [hb]
  exact hx a ha

theorem listsFall_step (B : Alignment) (hp : ReportHelpers)
    (hM : ∀ pos w a m, hp.MakeMutation pos w a = some m → m.position = pos)
    (hF : ∀ pos w f, hp.MakeFrameShift pos w = some f → f.position = pos)
    (st : ReportState) (d : tScoreType × Int × Int) (hb : Behind B st d)
    (hd : TraceCell B d) (hc : TraceCell B (getTypedPos B st.endMtIdx))
    (hs : TraceStep B d (getTypedPos B st.endMtIdx)) (hP : ListsFall st) :
    ListsFall (reportStep B hp st).1 := by
  obtain ⟨p1, p2, p3, p4⟩ := hP
  unfold ListsFall
  by_cases hcons : Consumes B st
  · obtain ⟨eM, eF, _, _, _, _, eA⟩ := reportStep_take B hp st hcons
    obtain ⟨_, _, f3, _⟩ := pass_facts B st d hb hd hc hs hcons.2
    have hpos := (f3 hcons.1.1).2
    rw [eM, eF, eA]
    refine ⟨?_, ?_, ?_, ?_⟩
    · cases hm : stepMutation B hp st with
      | none => exact p1
      | some m =>
        simp only
        have := hM _ _ _ m hm
        rw [List.map_append, List.map_singleton]
        apply pairwise_snoc _ _ p1
        intro y hy
        obtain ⟨m2, hm2, rfl⟩ := List.mem_map.1 hy
        have := p2 m2 hm2
        omega
    · cases hm : stepMutation B hp st with
      | none =>
        intro m2 hm2
        have := p2 m2 hm2
        omega
      | some m =>
        simp only
        have := hM _ _ _ m hm
        intro m2 hm2
        rcases List.mem_append.1 hm2 with h1 | h1
        · have := p2 m2 h1
          omega
        · rw [List.mem_singleton] at h1
          rw [h1]
          omega
    · cases hm : stepFrameShift B hp st with
      | none => exact p3
      | some m =>
        simp only
        have := hF _ _ m hm
        rw [List.map_append, List.map_singleton]
        apply pairwise_snoc _ _ p3
        intro y hy
        obtain ⟨m2, hm2, rfl⟩ := List.mem_map.1 hy
        have := p4 m2 hm2
        omega
    · cases hm : stepFrameShift B hp st with
      | none =>
        intro m2 hm2
        have := p4 m2 hm2
        omega
      | some m =>
        simp only
        have := hF _ _ m hm
        intro m2 hm2
        rcases List.mem_append.1 hm2 with h1 | h1
        · have := p4 m2 h1
          omega
        · rw [List.mem_singleton] at h1
          rw [h1]
          omega
  · obtain ⟨eM, eF, _, _, _, _, eA⟩ := reportStep_skip B hp st hcons
    have hle : (reportStep B hp st).1.LastPosA ≤ st.LastPosA := by
      rw [eA]
      have := hs.leA
      have := hb.posA
      split_ifs <;> omega
    rw [eM, eF]
    refine ⟨p1, ?_, p3, ?_⟩
    · intro m hm
      have := p2 m hm
      omega
    · intro m hm
      have := p4 m hm
      omega

theorem listsFall_first (B : Alignment) (hp : ReportHelpers) :
    ListsFall (reportStep B hp (reportInit B)).1 := by
  obtain ⟨eM, eF, _⟩ := reportStep_skip B hp _ (not_consumes_init B)
  unfold ListsFall
  rw [eM, eF]
  have e1 : (reportInit B).mutList = [] := rfl
  have e2 : (reportInit B).fsList = [] := rfl
  rw [e1, e2]
  simp

/-- C11 (amended): for every alignment, the Mutations list and the FrameShifts
list of the report `GetReport` returns (given fuel for `3*(nLen+aLen)+2` tests
of each loop condition, and helpers that record the reference position passed
to them) are in reverse reference order: the reference positions of the list
elements, and so of consecutive elements, are strictly decreasing. -/
theorem report_lists_decreasing (nSeq : List NucleicAcid) (aSeq : List AminoAcid)
    (sh : ScoreHandler) (hp : ReportHelpers) (fuel : Nat)
    (hM : ∀ pos w a m, hp.MakeMutation pos w a = some m → m.position = pos)
    (hF : ∀ pos w f, hp.MakeFrameShift pos w = some f → f.position = pos)
    (hfuel : 3 * (nSeq.length + aSeq.length) + 2 ≤ fuel) :
    ∃ r : AlignmentReport, GetReport (NewAlignment nSeq aSeq sh) hp fuel = some r
      ∧ List.Pairwise (fun x y => x > y) (r.Mutations.map Mutation.position)
      ∧ List.Chain' (fun x y => x > y) (r.Mutations.map Mutation.position)
      ∧ List.Pairwise (fun x y => x > y) (r.FrameShifts.map FrameShift.position)
      ∧ List.Chain' (fun x y => x > y) (r.FrameShifts.map FrameShift.position) := by
  obtain ⟨k, hk, ht⟩ := newAlignment_trace nSeq aSeq sh
  generalize NewAlignment nSeq aSeq sh = B at ht ⊢
  obtain ⟨T, hT, hnb, hG⟩ := getReport_run B hp k ht fuel (by omega)
  have h0 : ListsFall (reportInit B) := by
    unfold ListsFall
    have e1 : (reportInit B).mutList = [] := rfl
    have e2 : (reportInit B).fsList = [] := rfl
    rw [e1, e2]
    simp
  obtain ⟨p1, _, p3, _⟩ := reportRun_passes B hp k ht ListsFall h0 (listsFall_first B hp)
    (fun st d hb hd hc hs hP => listsFall_step B hp hM hF st d hb hd hc hs hP) T hT hnb
  exact ⟨_, hG, p1, List.Pairwise.chain' p1, p3, List.Pairwise.chain' p3⟩

theorem scenarioHelpers_position
    (tr : NucleicAcid → NucleicAcid → NucleicAcid → AminoAcid) :
    (∀ pos w a m, (scenarioHelpers tr).MakeMutation pos w a = some m → m.position = pos)
    ∧ (∀ pos w f, (scenarioHelpers tr).MakeFrameShift pos w = some f → f.position = pos) := by
  constructor
  · intro pos w a m h
    simp only [scenarioHelpers] at h
    split at h
    · split_ifs at h
      simp only [Option.some.injEq] at h
      rw [← h]
    · simp only [Option.some.injEq] at h
      rw [← h]
    · simp only [Option.some.injEq] at h
      rw [← h]
  · intro pos w f h
    simp only [scenarioHelpers] at h
    split_ifs at h
    simp only [Option.some.injEq] at h
    rw [← h]

set_option maxRecDepth 1000000 in
/-- Witness of C11 (amended) at `nSeq = ATGTTTATGTTTATG`, `aSeq = MKMKM` with
the handler and the helpers of the scenarios: the Mutations list holds the
positions 4 and 2, in this order. -/
theorem report_lists_decreasing_witness :
    ((∀ pos w a m, (scenarioHelpers translate).MakeMutation pos w a = some m →
        m.position = pos)
      ∧ (∀ pos w f, (scenarioHelpers translate).MakeFrameShift pos w = some f →
        f.position = pos)
      ∧ 3 * ([NucleicAcid.A, NucleicAcid.T, NucleicAcid.G, NucleicAcid.T, NucleicAcid.T,
          NucleicAcid.T, NucleicAcid.A, NucleicAcid.T, NucleicAcid.G, NucleicAcid.T,
          NucleicAcid.T, NucleicAcid.T, NucleicAcid.A, NucleicAcid.T, NucleicAcid.G].length
          + [AminoAcid.M, AminoAcid.K, AminoAcid.M, AminoAcid.K, AminoAcid.M].length) + 2 ≤ 62)
    ∧ ∃ r : AlignmentReport,
        GetReport (NewAlignment [NucleicAcid.A, NucleicAcid.T, NucleicAcid.G, NucleicAcid.T,
          NucleicAcid.T, NucleicAcid.T, NucleicAcid.A, NucleicAcid.T, NucleicAcid.G,
          NucleicAcid.T, NucleicAcid.T, NucleicAcid.T, NucleicAcid.A, NucleicAcid.T,
          NucleicAcid.G] [AminoAcid.M, AminoAcid.K, AminoAcid.M, AminoAcid.K, AminoAcid.M]
          (scenarioHandler translate)) (scenarioHelpers translate) 62 = some r
        ∧ List.Pairwise (fun x y => x > y) (r.Mutations.map Mutation.position)
        ∧ List.Chain' (fun x y => x > y) (r.Mutations.map Mutation.position)
        ∧ List.Pairwise (fun x y => x > y) (r.FrameShifts.map FrameShift.position)
        ∧ List.Chain' (fun x y => x > y) (r.FrameShifts.map FrameShift.position) :=
  ⟨⟨(scenarioHelpers_position translate).1, (scenarioHelpers_position translate).2,
      by decide⟩,
    report_lists_decreasing _ _ (scenarioHandler translate) (scenarioHelpers translate) 62
      (scenarioHelpers_position translate).1 (scenarioHelpers_position translate).2
      (by decide)⟩

set_option maxRecDepth 1000000 in
/-- C11 as stated fails: for `nSeq = ATGTTTATGTTTATG`, `aSeq = MKMKM` with the
handler and the helpers of the scenarios the Mutations list of the report holds
the mutations made for the reference positions 4 and 2, in this order, so the
positions of consecutive elements are not increasing. -/
theorem report_lists_counterexample :
    Option.map (fun r => r.Mutations.map Mutation.position)
        (GetReport (NewAlignment [NucleicAcid.A, NucleicAcid.T, NucleicAcid.G, NucleicAcid.T,
          NucleicAcid.T, NucleicAcid.T, NucleicAcid.A, NucleicAcid.T, NucleicAcid.G,
          NucleicAcid.T, NucleicAcid.T, NucleicAcid.T, NucleicAcid.A, NucleicAcid.T,
          NucleicAcid.G] [AminoAcid.M, AminoAcid.K, AminoAcid.M, AminoAcid.K, AminoAcid.M]
          (scenarioHandler translate)) (scenarioHelpers translate) 62) = some [4, 2]
    ∧ ¬ ((4 : Int) < 2) := by
  decide

/-! ## C12: the width of the lines -/

theorem length_repeatString (s : String) (k : Nat) :
    (repeatString s k).length = k * s.length := by
  induction k with
  | zero => simp [repeatString]
  | succ k ih =>
    simp only [repeatString, String.length_append, ih]
    ring

theorem length_padRightSpace (s : String) (h : s.length ≤ 3) :
    (padRightSpace s 3).length = 3 := by
  unfold padRightSpace stringsRepeat
  rw [String.length_append, length_repeatString]
  have : (" " : String).length = 1 := by decide
  rw [this]
  omega

theorem length_sliceOf {α : Type} (xs : List α) (lo hi : Int) (h0 : 0 ≤ lo) (h1 : lo ≤ hi)
    (h2 : hi ≤ (xs.length : Int)) : ((sliceOf xs lo hi).length : Int) = hi - lo := by
  unfold sliceOf
  rw [List.length_take, List.length_drop]
  omega

theorem length_foldl_codons (l : List String) (h : ∀ c ∈ l, c.length = 3) :
    ∀ s : String, (l.foldl (fun acc c => acc ++ c) s).length = s.length + 3 * l.length := by
  induction l with
  | nil => intro s; simp
  | cons c l ih =>
    intro s
    rw [List.foldl_cons, ih (fun x hx => h x (List.mem_cons_of_mem _ hx)),
      String.length_append, h c (List.mem_cons_self _ _), List.length_cons]
    ring

theorem length_foldl_blanks (l : List String) :
    ∀ s : String, (l.foldl (fun acc _ => acc ++ "   ") s).length = s.length + 3 * l.length := by
  induction l with
  | nil => intro s; simp
  | cons c l ih =>
    intro s
    rw [List.foldl_cons, ih, String.length_append, List.length_cons]
    have : ("   " : String).length = 3 := by decide
    rw [this]
    ring

/-- The three partial lines of a pass have the same length. -/
theorem length_partialLines (B : Alignment) (hp : ReportHelpers)
    (posN posA LastPosN LastPosA : Int) (m : Option Mutation) (f : Option FrameShift)
    (hN : ∀ l : List NucleicAcid, (hp.writeNucleicAcids l).length = l.length)
    (hA : (hp.writeAminoAcids (sliceOf B.aSeq posA LastPosA)).length ≤ 3)
    (hsil : LastPosN - posN > 2 → (sliceOf B.nSeq posN (posN + 3)).length = 3)
    (hcodon : ∀ x, m = some x → x.isDeletion = false → x.codon.length = 3)
    (hins : ∀ x, m = some x → x.isDeletion = false → x.isInsertion = true →
      ∀ c ∈ x.insertedCodons, c.length = 3)
    (hctl : ∀ x, m = some x → x.control.length
      = (if x.isDeletion then 3
          else if x.isInsertion then 3 + 3 * x.insertedCodons.length else 3))
    (hgap : ∀ y, f = some y → y.isInsertion = true →
      (y.nucleicAcids.length : Int) = y.gapLength) :
    (partialLines B hp posN posA LastPosN LastPosA m f).1.length
        = (partialLines B hp posN posA LastPosN LastPosA m f).2.1.length
    ∧ (partialLines B hp posN posA LastPosN LastPosA m f).2.1.length
        = (partialLines B hp posN posA LastPosN LastPosA m f).2.2.length := by
  have hpad := length_padRightSpace _ hA
  have e3 : ("   " : String).length = 3 := by decide
  have ec : (":::" : String).length = 3 := by decide
  have e0 : ("" : String).length = 0 := by decide
  have hp1 : ∀ p : String × String × String,
      p.1.length = p.2.1.length ∧ p.2.1.length = p.2.2.length →
      (match f with
        | none => p
        | some y =>
          if y.isInsertion then
            (p.1 ++ y.nucleicAcids, p.2.1 ++ stringsRepeat " " y.gapLength,
              p.2.2 ++ stringsRepeat "+" y.gapLength)
          else p).1.length
        = (match f with
          | none => p
          | some y =>
            if y.isInsertion then
              (p.1 ++ y.nucleicAcids, p.2.1 ++ stringsRepeat " " y.gapLength,
                p.2.2 ++ stringsRepeat "+" y.gapLength)
            else p).2.1.length
      ∧ (match f with
          | none => p
          | some y =>
            if y.isInsertion then
              (p.1 ++ y.nucleicAcids, p.2.1 ++ stringsRepeat " " y.gapLength,
                p.2.2 ++ stringsRepeat "+" y.gapLength)
            else p).2.1.length
        = (match f with
          | none => p
          | some y =>
            if y.isInsertion then
              (p.1 ++ y.nucleicAcids, p.2.1 ++ stringsRepeat " " y.gapLength,
                p.2.2 ++ stringsRepeat "+" y.gapLength)
            else p).2.2.length := by
    intro p hpq
    cases f with
    | none => exact hpq
    | some y =>
      simp only
      by_cases hy : y.isInsertion = true
      · rw [if_pos hy]
        have hg := hgap y rfl hy
        have s1 : (" " : String).length = 1 := by decide
        have s2 : ("+" : String).length = 1 := by decide
        simp only [String.length_append, stringsRepeat, length_repeatString, s1, s2]
        omega
      · rw [if_neg hy]
        exact hpq
  unfold partialLines
  simp only []
  apply hp1
  by_cases hs : LastPosA > posA ∧ LastPosN - posN > 2 ∧ m = none
  · rw [if_pos hs]
    refine ⟨?_, ?_⟩ <;> simp only [String.length_append, e0, ec, hpad, hN, hsil hs.2.1]
  · rw [if_neg hs]
    cases m with
    | none => exact ⟨rfl, rfl⟩
    | some x =>
      simp only
      have h3 := hctl x rfl
      by_cases hd : x.isDeletion = true
      · rw [if_pos hd] at h3 ⊢
        refine ⟨?_, ?_⟩ <;> simp only [String.length_append, e0, e3, hpad, h3]
      · rw [if_neg hd] at h3 ⊢
        have hd2 : x.isDeletion = false := by simpa using hd
        have h1 := hcodon x rfl hd2
        by_cases hi : x.isInsertion = true
        · have h2 := hins x rfl hd2 hi
          rw [if_pos hi] at h3 ⊢
          refine ⟨?_, ?_⟩ <;>
            simp only [length_foldl_codons _ h2, length_foldl_blanks, String.length_append,
              e0, hpad, h1, h3]
          omega
        · rw [if_neg hi] at h3 ⊢
          refine ⟨?_, ?_⟩ <;> simp only [String.length_append, e0, hpad, h1, h3]

theorem sameWidth_step (B : Alignment) (hp : ReportHelpers) (hpc : PrintsInColumns hp)
    (hnl : (B.nSeq.length : Int) = B.nSeqLen) (hal : (B.aSeq.length : Int) = B.aSeqLen)
    (st : ReportState) (d : tScoreType × Int × Int) (hb : Behind B st d)
    (hd : TraceCell B d) (hc : TraceCell B (getTypedPos B st.endMtIdx))
    (hs : TraceStep B d (getTypedPos B st.endMtIdx)) (hP : SameWidth st) :
    SameWidth (reportStep B hp st).1 := by
  obtain ⟨p1, p2⟩ := hP
  unfold SameWidth
  by_cases hcons : Consumes B st
  · obtain ⟨_, _, eN, eA, eC, _, _⟩ := reportStep_take B hp st hcons
    obtain ⟨f1, f2, f3, _⟩ := pass_facts B st d hb hd hc hs hcons.2
    have hpos := (f3 hcons.1.1).2
    have hA : (hp.writeAminoAcids (sliceOf B.aSeq (getTypedPos B st.endMtIdx).2.2
        st.LastPosA)).length ≤ 3 := by
      rw [hpc.amino, hpos, sliceOf_one _ _ f1.1 (by rw [hal]; exact f1.2)]
      omega
    have hsil : st.LastPosN - (getTypedPos B st.endMtIdx).2.1 > 2 →
        (sliceOf B.nSeq (getTypedPos B st.endMtIdx).2.1
          ((getTypedPos B st.endMtIdx).2.1 + 3)).length = 3 := by
      intro h
      have := length_sliceOf B.nSeq (getTypedPos B st.endMtIdx).2.1
        ((getTypedPos B st.endMtIdx).2.1 + 3) f2.1 (by omega) (by rw [hnl]; omega)
      omega
    obtain ⟨l1, l2⟩ := length_partialLines B hp (getTypedPos B st.endMtIdx).2.1
      (getTypedPos B st.endMtIdx).2.2 st.LastPosN st.LastPosA (stepMutation B hp st)
      (stepFrameShift B hp st) hpc.nucleic hA hsil
      (fun x hx => hpc.codon _ _ _ x hx) (fun x hx => hpc.inserted _ _ _ x hx)
      (fun x hx => hpc.control _ _ _ x hx) (fun y hy => hpc.gap _ _ y hy)
    have l1b : (stepLines B hp st).1.length = (stepLines B hp st).2.1.length := l1
    have l2b : (stepLines B hp st).2.1.length = (stepLines B hp st).2.2.length := l2
    rw [eN, eA, eC, String.length_append, String.length_append, String.length_append]
    omega
  · obtain ⟨_, _, eN, eA, eC, _, _⟩ := reportStep_skip B hp st hcons
    rw [eN, eA, eC]
    exact ⟨p1, p2⟩

theorem sameWidth_first (B : Alignment) (hp : ReportHelpers) :
    SameWidth (reportStep B hp (reportInit B)).1 := by
  obtain ⟨_, _, eN, eA, eC, _, _⟩ := reportStep_skip B hp _ (not_consumes_init B)
  unfold SameWidth
  rw [eN, eA, eC]
  exact ⟨rfl, rfl⟩

/-- C12: for every alignment, the three strings AminoAcidsLine, ControlLine and
NucleicAcidsLine of the report `GetReport` returns (given fuel for
`3*(nLen+aLen)+2` tests of each loop condition) have the same length, provided
each amino acid and nucleotide prints as one character, a codon prints as
three, a mutation's control text has three characters per printed codon (3 for
a deletion or substitution, `3 + 3*k` for `k` inserted codons) and a frame
shift's nucleotide text has `GetGapLength` characters. -/
theorem report_lines_same_length (nSeq : List NucleicAcid) (aSeq : List AminoAcid)
    (sh : ScoreHandler) (hp : ReportHelpers) (fuel : Nat) (hpc : PrintsInColumns hp)
    (hfuel : 3 * (nSeq.length + aSeq.length) + 2 ≤ fuel) :
    ∃ r : AlignmentReport, GetReport (NewAlignment nSeq aSeq sh) hp fuel = some r
      ∧ r.AminoAcidsLine.length = r.ControlLine.length
      ∧ r.ControlLine.length = r.NucleicAcidsLine.length := by
  obtain ⟨k, hk, ht⟩ := newAlignment_trace nSeq aSeq sh
  have hnl : ((NewAlignment nSeq aSeq sh).nSeq.length : Int)
      = (NewAlignment nSeq aSeq sh).nSeqLen := by
    rw [(NewAlignment_seqs nSeq aSeq sh).1, NewAlignment_nSeqLen]
  have hal : ((NewAlignment nSeq aSeq sh).aSeq.length : Int)
      = (NewAlignment nSeq aSeq sh).aSeqLen := by
    rw [(NewAlignment_seqs nSeq aSeq sh).2, NewAlignment_aSeqLen]
  generalize NewAlignment nSeq aSeq sh = B at ht hnl hal ⊢
  obtain ⟨T, hT, hnb, hG⟩ := getReport_run B hp k ht fuel (by omega)
  obtain ⟨p1, p2⟩ := reportRun_passes B hp k ht SameWidth ⟨rfl, rfl⟩ (sameWidth_first B hp)
    (fun st d hb hd hc hs hP => sameWidth_step B hp hpc hnl hal st d hb hd hc hs hP) T hT hnb
  exact ⟨_, hG, p2, by rw [← p2, ← p1]⟩

theorem columnHelpers_prints (tr : NucleicAcid → NucleicAcid → NucleicAcid → AminoAcid) :
    PrintsInColumns (columnHelpers tr) := by
  have e3 : ("..." : String).length = 3 := by decide
  have ep : ("+++" : String).length = 3 := by decide
  have ed : ("---" : String).length = 3 := by decide
  refine ⟨?_, ?_, ?_, ?_, ?_, ?_⟩
  · intro l
    simp [columnHelpers, String.length]
  · intro l
    simp [columnHelpers, String.length]
  · intro pos w a m h hd
    simp only [columnHelpers] at h
    split at h
    · split_ifs at h
      simp only [Option.some.injEq] at h
      rw [← h]
      simp [String.length]
    · simp only [Option.some.injEq] at h
      rw [← h]
      simp [String.length]
    · simp only [Option.some.injEq] at h
      rw [← h] at hd
      simp at hd
  · intro pos w a m h hd hi c hc
    simp only [columnHelpers] at h
    split at h
    · split_ifs at h
      simp only [Option.some.injEq] at h
      rw [← h] at hc
      simp at hc
    · rename_i n2 n1 n0 rest _
      simp only [Option.some.injEq] at h
      rw [← h] at hc
      simp only [List.mem_map, List.mem_range] at hc
      obtain ⟨k, hk, rfl⟩ := hc
      simp only [String.length, List.length_map, List.length_take, List.length_drop]
      omega
    · simp only [Option.some.injEq] at h
      rw [← h] at hd
      simp at hd
  · intro pos w a m h
    simp only [columnHelpers] at h
    split at h
    · split_ifs at h
      simp only [Option.some.injEq] at h
      rw [← h]
      simp [e3]
    · simp only [Option.some.injEq] at h
      rw [← h]
      simp only [String.length_append, length_repeatString, e3, ep, List.length_map,
        List.length_range, decide_eq_true_eq]
      rw [if_neg Bool.false_ne_true]
      split_ifs <;> omega
    · simp only [Option.some.injEq] at h
      rw [← h]
      simp [ed]
  · intro pos w f h _
    simp only [columnHelpers] at h
    split_ifs at h
    simp only [Option.some.injEq] at h
    rw [← h]
    simp only [String.length, List.length_map, List.length_drop]
    have := Nat.mod_le w.length 3
    omega

/-- Witness of C12 at `nSeq = ATGTTTAATG`, `aSeq = MKM` with the handler of the
scenarios and helpers that print in columns. -/
theorem report_lines_same_length_witness :
    (PrintsInColumns (columnHelpers translate)
      ∧ 3 * ([NucleicAcid.A, NucleicAcid.T, NucleicAcid.G, NucleicAcid.T, NucleicAcid.T,
          NucleicAcid.T, NucleicAcid.A, NucleicAcid.A, NucleicAcid.T, NucleicAcid.G].length
          + [AminoAcid.M, AminoAcid.K, AminoAcid.M].length) + 2 ≤ 41)
    ∧ ∃ r : AlignmentReport,
        GetReport (NewAlignment [NucleicAcid.A, NucleicAcid.T, NucleicAcid.G, NucleicAcid.T,
          NucleicAcid.T, NucleicAcid.T, NucleicAcid.A, NucleicAcid.A, NucleicAcid.T,
          NucleicAcid.G] [AminoAcid.M, AminoAcid.K, AminoAcid.M] (scenarioHandler translate))
          (columnHelpers translate) 41 = some r
        ∧ r.AminoAcidsLine.length = r.ControlLine.length
        ∧ r.ControlLine.length = r.NucleicAcidsLine.length :=
  ⟨⟨columnHelpers_prints translate, by decide⟩,
    report_lines_same_length _ _ (scenarioHandler translate) (columnHelpers translate) 41
      (columnHelpers_prints translate) (by decide)⟩

/-! ## C15: the candidate sums of the kernel -/

theorem sumChecked_of_fit (l : List Int) :
    ∀ v : Int, SumsFit v l → sumChecked v l = some (l.foldl iadd v) := by
  induction l with
  | nil => intro v _; rfl
  | cons x xs ih =>
    intro v h
    obtain ⟨h1, h2⟩ := h
    have e : iadd v x = v + x := by
      unfold iadd wrap
      unfold negInf maxInt at h1
      omega
    show (addChecked v x).bind (fun w => sumChecked w xs) = some (xs.foldl iadd (iadd v x))
    unfold addChecked
    rw [if_pos h1, e]
    exact ih (v + x) h2

/-- A checked sum that succeeds gives the value the kernel computes. -/
theorem sumChecked_agrees (l : List Int) :
    ∀ v c : Int, sumChecked v l = some c → c = l.foldl iadd v := by
  induction l with
  | nil =>
    intro v c h
    exact (Option.some.inj h).symm
  | cons x xs ih =>
    intro v c h
    have h2 : (addChecked v x).bind (fun w => sumChecked w xs) = some c := h
    unfold addChecked at h2
    by_cases hr : negInf ≤ v + x ∧ v + x ≤ maxInt
    · rw [if_pos hr] at h2
      have e : iadd v x = v + x := by
        unfold iadd wrap
        unfold negInf maxInt at hr
        omega
      show c = xs.foldl iadd (iadd v x)
      rw [e]
      exact ih (v + x) c h2
    · rw [if_neg hr] at h2
      exact absurd h2 (by simp)

theorem sumChecked_small (v : Int) (l : List Int) (hv : InWindow v) (hl : l.length ≤ 6)
    (hb : ∀ x ∈ l, Small x) :
    sumChecked v l = some (l.foldl iadd v) ∧ l.foldl iadd v = v + l.sum := by
  obtain ⟨h1, h2⟩ := sumsFit_of_bounds 6 l v hl (by push_cast; exact hv.1)
    (by push_cast; exact hv.2) hb
  exact ⟨sumChecked_of_fit l v h1, h2⟩

theorem small_nil : ∀ x ∈ ([] : List Int), Small x :=
  fun _ h => absurd h (List.not_mem_nil _)

theorem small_cons (a : Int) (l : List Int) (ha : Small a) (hl : ∀ x ∈ l, Small x) :
    ∀ x ∈ a :: l, Small x := by
  intro x hx
  rcases List.mem_cons.1 hx with h | h
  · rw [h]; exact ha
  · exact hl x h

/-- With small penalties and scores inside the window, no addition of
`calcExtInsScore` leaves the range of `int`. -/
theorem calcExtInsScoreChecked_eq (self : Alignment) (posN posA : Int)
    (hs : SmallPenalties self posA) (gScore30 iScore30 gScore20 gScore10 : Int)
    (h3 : posN > 3 → InWindow gScore30 ∧ InWindow iScore30)
    (h2 : posN > 2 → InWindow gScore20)
    (h1 : ¬ (posN = 0 ∧ posA > 0) → InWindow gScore10) :
    calcExtInsScoreChecked self posN posA gScore30 iScore30 gScore20 gScore10
      = some (calcExtInsScore self posN posA gScore30 iScore30 gScore20 gScore10) := by
  have hq := hs.q
  have hr := hs.r
  have hO := hs.opening true
  have hE := hs.extension true
  unfold calcExtInsScoreChecked calcExtInsScore
  simp only []
  by_cases hb : posN = 0 ∧ posA > 0
  · rw [if_pos hb, if_pos hb]
  · rw [if_neg hb, if_neg hb]
    have e4 := (sumChecked_small gScore10 [self.q, self.r] (h1 hb) (by simp)
      (small_cons _ _ hq (small_cons _ _ hr small_nil))).1
    by_cases g3 : posN > 3
    · have g2 : posN > 2 := by omega
      have e1 := (sumChecked_small iScore30
        [self.r, self.r, self.r, (indelCodonScore self posA true).2] (h3 g3).2 (by simp)
        (small_cons _ _ hr (small_cons _ _ hr (small_cons _ _ hr
          (small_cons _ _ hE small_nil))))).1
      have e2 := (sumChecked_small gScore30
        [self.q, self.r, self.r, self.r, (indelCodonScore self posA true).1,
          (indelCodonScore self posA true).2] (h3 g3).1 (by simp)
        (small_cons _ _ hq (small_cons _ _ hr (small_cons _ _ hr (small_cons _ _ hr
          (small_cons _ _ hO (small_cons _ _ hE small_nil))))))).1
      have e3 := (sumChecked_small gScore20 [self.q, self.r, self.r] (h2 g2) (by simp)
        (small_cons _ _ hq (small_cons _ _ hr (small_cons _ _ hr small_nil)))).1
      simp only [if_pos g3, if_pos g2, e1, e2, e3, e4, Option.some_bind, List.foldl_cons,
        List.foldl_nil]
    · by_cases g2 : posN > 2
      · have e3 := (sumChecked_small gScore20 [self.q, self.r, self.r] (h2 g2) (by simp)
          (small_cons _ _ hq (small_cons _ _ hr (small_cons _ _ hr small_nil)))).1
        simp only [if_neg g3, if_pos g2, e3, e4, Option.some_bind, List.foldl_cons,
          List.foldl_nil]
      · simp only [if_neg g3, if_neg g2, e4, Option.some_bind, List.foldl_cons,
          List.foldl_nil]

/-- With small penalties and scores inside the window, no addition of
`calcDelScore` leaves the range of `int`. -/
theorem calcDelScoreChecked_eq (self : Alignment) (posN posA : Int)
    (hs : SmallPenalties self posA) (gScore01 gScore11 gScore21 dScore01 dScore11 : Int)
    (h1 : posN > 0 → posA ≠ 0 → InWindow gScore01 ∧ InWindow gScore11 ∧ InWindow dScore01)
    (h2 : posN > 1 → posA ≠ 0 → InWindow gScore21 ∧ InWindow dScore11) :
    calcDelScoreChecked self posN posA gScore01 gScore11 gScore21 dScore01 dScore11
      = some (calcDelScore self posN posA gScore01 gScore11 gScore21 dScore01 dScore11) := by
  have hq := hs.q
  have hr := hs.r
  have hO := hs.opening false
  have hE := hs.extension false
  have hsub := hs.sub
  unfold calcDelScoreChecked calcDelScore
  simp only []
  by_cases hb : posN > 0 ∧ posA = 0
  · rw [if_pos hb, if_pos hb]
  · rw [if_neg hb, if_neg hb]
    by_cases g0 : posN > 0
    · have hA : posA ≠ 0 := fun h => hb ⟨g0, h⟩
      obtain ⟨w1, w2, w3⟩ := h1 g0 hA
      rw [if_pos g0, if_pos g0]
      have e1 := (sumChecked_small dScore01
        [self.r, self.r, self.r, (indelCodonScore self posA false).2] w3 (by simp)
        (small_cons _ _ hr (small_cons _ _ hr (small_cons _ _ hr
          (small_cons _ _ hE small_nil))))).1
      have e2 := (sumChecked_small gScore01
        [self.q, self.r, self.r, self.r, (indelCodonScore self posA false).1,
          (indelCodonScore self posA false).2] w1 (by simp)
        (small_cons _ _ hq (small_cons _ _ hr (small_cons _ _ hr (small_cons _ _ hr
          (small_cons _ _ hO (small_cons _ _ hE small_nil))))))).1
      have e3 := (sumChecked_small gScore11
        [self.scoreHandler.GetSubstitutionScore posA (getNA self posN) NucleicAcid.N
            NucleicAcid.N (getAA self posA), self.q, self.r, self.r] w2 (by simp)
        (small_cons _ _ (hsub _ _ _ _) (small_cons _ _ hq (small_cons _ _ hr
          (small_cons _ _ hr small_nil))))).1
      have e4 := (sumChecked_small gScore11
        [self.scoreHandler.GetSubstitutionScore posA NucleicAcid.N (getNA self posN)
            NucleicAcid.N (getAA self posA), self.q, self.r, self.q, self.r] w2 (by simp)
        (small_cons _ _ (hsub _ _ _ _) (small_cons _ _ hq (small_cons _ _ hr
          (small_cons _ _ hq (small_cons _ _ hr small_nil)))))).1
      by_cases g1 : posN > 1
      · obtain ⟨w4, w5⟩ := h2 g1 hA
        have e5 := (sumChecked_small dScore11
          [self.scoreHandler.GetSubstitutionScore posA NucleicAcid.N (getNA self posN)
              NucleicAcid.N (getAA self posA), self.q, self.r, self.r] w5 (by simp)
          (small_cons _ _ (hsub _ _ _ _) (small_cons _ _ hq (small_cons _ _ hr
            (small_cons _ _ hr small_nil))))).1
        have e6 := (sumChecked_small gScore21
          [self.scoreHandler.GetSubstitutionScore posA (getNA self (posN - 1))
              (getNA self posN) NucleicAcid.N (getAA self posA), self.q, self.r] w4
          (by simp)
          (small_cons _ _ (hsub _ _ _ _) (small_cons _ _ hq
            (small_cons _ _ hr small_nil)))).1
        simp only [if_pos g1, e1, e2, e3, e4, e5, e6, Option.some_bind, List.foldl_cons,
          List.foldl_nil]
      · simp only [if_neg g1, e1, e2, e3, e4, Option.some_bind, List.foldl_cons,
          List.foldl_nil]
    · rw [if_neg g0, if_neg g0]

/-- With small penalties and scores inside the window, no addition of
`calcScore` leaves the range of `int`. -/
theorem calcScoreChecked_eq (self : Alignment) (posN posA : Int)
    (hs : SmallPenalties self posA)
    (gScore11 gScore21 gScore31 iScore00 dScore00 dScore11 dScore21 : Int)
    (h1 : ¬ (posN = 0 ∨ posA = 0) → InWindow gScore11)
    (h2 : posN > 1 → posA ≠ 0 → InWindow gScore21 ∧ InWindow dScore11)
    (h3 : posN > 2 → posA ≠ 0 → InWindow gScore31 ∧ InWindow dScore21) :
    calcScoreChecked self posN posA gScore11 gScore21 gScore31 iScore00 dScore00 dScore11
        dScore21
      = some (calcScore self posN posA gScore11 gScore21 gScore31 iScore00 dScore00 dScore11
          dScore21) := by
  have hq := hs.q
  have hr := hs.r
  have hsub := hs.sub
  unfold calcScoreChecked calcScore
  simp only []
  by_cases hb : posN = 0 ∨ posA = 0
  · rw [if_pos hb, if_pos hb]
  · rw [if_neg hb, if_neg hb]
    have hA : posA ≠ 0 := fun h => hb (Or.inr h)
    have e1 := (sumChecked_small gScore11
      [self.scoreHandler.GetSubstitutionScore posA NucleicAcid.N NucleicAcid.N
          (getNA self posN) (getAA self posA), self.q, self.r, self.r] (h1 hb) (by simp)
      (small_cons _ _ (hsub _ _ _ _) (small_cons _ _ hq (small_cons _ _ hr
        (small_cons _ _ hr small_nil))))).1
    have k1 : InWindow gScore21 ∧ InWindow dScore11 →
        sumChecked gScore21
            [self.scoreHandler.GetSubstitutionScore posA (getNA self (posN - 1)) NucleicAcid.N
                (getNA self posN) (getAA self posA), self.q, self.r]
          = some (List.foldl iadd gScore21
            [self.scoreHandler.GetSubstitutionScore posA (getNA self (posN - 1)) NucleicAcid.N
                (getNA self posN) (getAA self posA), self.q, self.r])
        ∧ sumChecked gScore21
            [self.scoreHandler.GetSubstitutionScore posA NucleicAcid.N (getNA self (posN - 1))
                (getNA self posN) (getAA self posA), self.q, self.r]
          = some (List.foldl iadd gScore21
            [self.scoreHandler.GetSubstitutionScore posA NucleicAcid.N (getNA self (posN - 1))
                (getNA self posN) (getAA self posA), self.q, self.r])
        ∧ sumChecked dScore11
            [self.scoreHandler.GetSubstitutionScore posA NucleicAcid.N NucleicAcid.N
                (getNA self posN) (getAA self posA), self.r, self.r]
          = some (List.foldl iadd dScore11
            [self.scoreHandler.GetSubstitutionScore posA NucleicAcid.N NucleicAcid.N
                (getNA self posN) (getAA self posA), self.r, self.r]) := by
      intro w
      exact ⟨(sumChecked_small _ _ w.1 (by simp)
          (small_cons _ _ (hsub _ _ _ _) (small_cons _ _ hq (small_cons _ _ hr small_nil)))).1,
        (sumChecked_small _ _ w.1 (by simp)
          (small_cons _ _ (hsub _ _ _ _) (small_cons _ _ hq (small_cons _ _ hr small_nil)))).1,
        (sumChecked_small _ _ w.2 (by simp)
          (small_cons _ _ (hsub _ _ _ _) (small_cons _ _ hr (small_cons _ _ hr small_nil)))).1⟩
    have k2 : InWindow gScore31 ∧ InWindow dScore21 →
        sumChecked gScore31
            [self.scoreHandler.GetSubstitutionScore posA (getNA self (posN - 2))
                (getNA self (posN - 1)) (getNA self posN) (getAA self posA)]
          = some (List.foldl iadd gScore31
            [self.scoreHandler.GetSubstitutionScore posA (getNA self (posN - 2))
                (getNA self (posN - 1)) (getNA self posN) (getAA self posA)])
        ∧ sumChecked dScore21
            [self.scoreHandler.GetSubstitutionScore posA NucleicAcid.N (getNA self (posN - 1))
                (getNA self posN) (getAA self posA), self.r]
          = some (List.foldl iadd dScore21
            [self.scoreHandler.GetSubstitutionScore posA NucleicAcid.N (getNA self (posN - 1))
                (getNA self posN) (getAA self posA), self.r]) := by
      intro w
      exact ⟨(sumChecked_small _ _ w.1 (by simp) (small_cons _ _ (hsub _ _ _ _) small_nil)).1,
        (sumChecked_small _ _ w.2 (by simp)
          (small_cons _ _ (hsub _ _ _ _) (small_cons _ _ hr small_nil))).1⟩
    by_cases g1 : posN > 1
    · obtain ⟨a1, a2, a3⟩ := k1 (h2 g1 hA)
      by_cases g2 : posN > 2
      · obtain ⟨b1, b2⟩ := k2 (h3 g2 hA)
        simp only [if_pos g1, if_pos g2, e1, a1, a2, a3, b1, b2, Option.some_bind,
          List.foldl_cons, List.foldl_nil]
      · simp only [if_pos g1, if_neg g2, e1, a1, a2, a3, Option.some_bind,
          List.foldl_cons, List.foldl_nil]
    · have g2 : ¬ posN > 2 := by omega
      simp only [if_neg g1, if_neg g2, e1, Option.some_bind, List.foldl_cons,
        List.foldl_nil]

/-- C15, as amended: the sentinel `negInf` is `-INT_MAX - 1 = -2^63`, the least
`int`.  With penalties `q`, `r`, `O`, `E` and substitution scores of magnitude
at most `2^20`, in every call of `calcExtInsScore`, `calcDelScore` and
`calcScore` in which each score a candidate is formed on lies between
`negInf + 6*2^20` and `INT_MAX - 6*2^20`, no addition of a candidate sum leaves
the range of `int`: the kernel run with additions that report overflow returns
the pair the kernel returns.  Each such sum on `v`, of at most six addends, is
the exact one, in particular `v + q + 3r + O + E`. -/
theorem kernel_sums_in_range (self : Alignment) (posN posA : Int)
    (hs : SmallPenalties self posA) :
    negInf = -9223372036854775808
    ∧ (∀ (v : Int) (l : List Int), InWindow v → l.length ≤ 6 → (∀ x ∈ l, Small x) →
        sumChecked v l = some (v + l.sum) ∧ l.foldl iadd v = v + l.sum)
    ∧ (∀ v : Int, InWindow v →
        sumChecked v [self.q, self.r, self.r, self.r, (indelCodonScore self posA true).1,
            (indelCodonScore self posA true).2]
          = some (v + self.q + 3 * self.r + (indelCodonScore self posA true).1
              + (indelCodonScore self posA true).2))
    ∧ (∀ gScore30 iScore30 gScore20 gScore10 : Int,
        (posN > 3 → InWindow gScore30 ∧ InWindow iScore30) →
        (posN > 2 → InWindow gScore20) →
        (¬ (posN = 0 ∧ posA > 0) → InWindow gScore10) →
        calcExtInsScoreChecked self posN posA gScore30 iScore30 gScore20 gScore10
          = some (calcExtInsScore self posN posA gScore30 iScore30 gScore20 gScore10))
    ∧ (∀ gScore01 gScore11 gScore21 dScore01 dScore11 : Int,
        (posN > 0 → posA ≠ 0 →
          InWindow gScore01 ∧ InWindow gScore11 ∧ InWindow dScore01) →
        (posN > 1 → posA ≠ 0 → InWindow gScore21 ∧ InWindow dScore11) →
        calcDelScoreChecked self posN posA gScore01 gScore11 gScore21 dScore01 dScore11
          = some (calcDelScore self posN posA gScore01 gScore11 gScore21 dScore01 dScore11))
    ∧ (∀ gScore11 gScore21 gScore31 iScore00 dScore00 dScore11 dScore21 : Int,
        (¬ (posN = 0 ∨ posA = 0) → InWindow gScore11) →
        (posN > 1 → posA ≠ 0 → InWindow gScore21 ∧ InWindow dScore11) →
        (posN > 2 → posA ≠ 0 → InWindow gScore31 ∧ InWindow dScore21) →
        calcScoreChecked self posN posA gScore11 gScore21 gScore31 iScore00 dScore00
            dScore11 dScore21
          = some (calcScore self posN posA gScore11 gScore21 gScore31 iScore00 dScore00
              dScore11 dScore21)) := by
  refine ⟨rfl, ?_, ?_, ?_, ?_, ?_⟩
  · intro v l hv hl hb
    obtain ⟨e1, e2⟩ := sumChecked_small v l hv hl hb
    exact ⟨by rw [e1, e2], e2⟩
  · intro v hv
    obtain ⟨e1, e2⟩ := sumChecked_small v [self.q, self.r, self.r, self.r,
      (indelCodonScore self posA true).1, (indelCodonScore self posA true).2] hv (by simp)
      (small_cons _ _ hs.q (small_cons _ _ hs.r (small_cons _ _ hs.r (small_cons _ _ hs.r
        (small_cons _ _ (hs.opening true) (small_cons _ _ (hs.extension true) small_nil))))))
    rw [e1, e2]
    simp only [List.sum_cons, List.sum_nil]
    congr 1
    ring
  · intro g30 i30 g20 g10 h3 h2 h1
    exact calcExtInsScoreChecked_eq self posN posA hs g30 i30 g20 g10 h3 h2 h1
  · intro g01 g11 g21 d01 d11 h1 h2
    exact calcDelScoreChecked_eq self posN posA hs g01 g11 g21 d01 d11 h1 h2
  · intro g11 g21 g31 i00 d00 d11 d21 h1 h2 h3
    exact calcScoreChecked_eq self posN posA hs g11 g21 g31 i00 d00 d11 d21 h1 h2 h3

theorem smallPenalties_scenario (tr : NucleicAcid → NucleicAcid → NucleicAcid → AminoAcid)
    (nSeq : List NucleicAcid) (aSeq : List AminoAcid) (posA : Int) :
    SmallPenalties (allocAlignment nSeq aSeq (scenarioHandler tr)) posA := by
  refine ⟨?_, ?_, ?_, ?_, ?_⟩
  · show Small (-10)
    unfold Small; decide
  · show Small (-2)
    unfold Small; decide
  · intro b
    show Small (-6)
    unfold Small; decide
  · intro b
    show Small (-4)
    unfold Small; decide
  · intro n2 n1 n0 a
    show Small (if n2 = NucleicAcid.N ∨ n1 = NucleicAcid.N ∨ n0 = NucleicAcid.N then 0
      else if tr n2 n1 n0 = a then 10 else -4)
    unfold Small
    split_ifs <;> decide

/-- Witness of C15 (amended): the call of `calcExtInsScore` at `posN = 4`,
`posA = 1` on the scores 30, 20, 10 and 5, with the penalties of the
scenarios. -/
theorem kernel_sums_in_range_witness :
    SmallPenalties (allocAlignment [NucleicAcid.A, NucleicAcid.T, NucleicAcid.G,
        NucleicAcid.A] [AminoAcid.M] (scenarioHandler translate)) 1
    ∧ calcExtInsScoreChecked (allocAlignment [NucleicAcid.A, NucleicAcid.T, NucleicAcid.G,
          NucleicAcid.A] [AminoAcid.M] (scenarioHandler translate)) 4 1 30 20 10 5
        = some (calcExtInsScore (allocAlignment [NucleicAcid.A, NucleicAcid.T, NucleicAcid.G,
            NucleicAcid.A] [AminoAcid.M] (scenarioHandler translate)) 4 1 30 20 10 5) :=
  ⟨smallPenalties_scenario translate _ _ 1,
    (kernel_sums_in_range _ 4 1 (smallPenalties_scenario translate _ _ 1)).2.2.2.1 30 20 10 5
      (fun _ => ⟨by unfold InWindow; decide, by unfold InWindow; decide⟩)
      (fun _ => by unfold InWindow; decide) (fun _ => by unfold InWindow; decide)⟩

end NucAmino
